import Mathlib

/-!
Verification of the JPL ephemeris core of `ephgo` (`src/ephgo/jpl.go`), of its
calendar functions (`src/ephgo/date.go`) and of the coordinate transforms and the
position dispatch (`Calc`) of `src/ephgo/sweph.go`: a shallow embedding of the Go
code, and the properties proved of it.

* `Float64` is read in two ways.  The main development models it by exact rational
  arithmetic (`ℚ`): rounding, overflow to infinity and NaN are outside that model,
  and Go's `int(f)` conversion, which is implementation-dependent when `f` is not
  finite or does not fit an `int`, is reported there as `Fault.floatToInt`.  The
  namespace `Rounded` repeats the Chebyshev evaluation, the record lookup, `Julday`,
  `Revjul` and `normalizeAngle` with every operation rounded to the nearest binary64
  value; the properties whose truth depends on a rounding (the record index, the
  sub-interval index, index safety, the calendar round trip, month lengths, the
  range of `normalizeAngle`) are stated and proved in that reading.
* Go run-time panics (slice index out of range) are `Fault.indexOutOfRange`.
* Go `error` values are the inductive `GoError`; a Go function returning
  `(T, error)` becomes `Except Fault (T × Option GoError)`.
* The package-level variable `jplData` is passed explicitly (`JplData`).
* Go's `/` and `%` on `int` truncate towards zero (`Int.tdiv`, `Int.tmod`), and
  `math.Mod` keeps the sign of its first argument.
* `math.Pi`, `math.Cos` and `math.Sin` are parameters (`MathLib`); the coordinate
  transforms are written over any field, so that they can be instantiated with the
  real numbers and the real cosine and sine.
-/

namespace Ephgo

/-! ## Basic types -/

/-- Go `float64` (type alias `Float64` of `types.go`), idealised as a rational. -/
abbrev Float64 := ℚ

/-- Go `[6]Float64`. -/
abbrev Vec6 := Fin 6 → Float64

/-- The zero value of `[6]Float64` (`var rrd [6]Float64`). -/
def zero6 : Vec6 := fun _ => 0

/-- Abnormal termination of a Go computation: the function does not return. -/
inductive Fault
  | indexOutOfRange
  | floatToInt
  deriving DecidableEq, Repr

/-- Go `error` values produced by `jpl.go` and by the `os` / `io` calls it makes. -/
inductive GoError
  | osOpenFailed (path : String)
  | errInvalid
  | errClosed
  | errEOF
  | errUnexpectedEOF
  | openFailed (path : String) (cause : GoError)
  | headerFailed (cause : GoError)
  | notOpen
  | outOfRange (et : Float64)
  | recordFailed (cause : GoError)
  | computeFailed (cause : GoError)
  | tooFewCoeffs (ncoeff : Int)
  deriving DecidableEq, Repr

/-! ## Constants (`jpl.go`, `constants.go`) -/

def JplRecordSize : Nat := 8144
def JplNCoeff : Nat := 1018
def JplMaxPlanets : Nat := 15

def JMercury : Int := 0
def JVenus : Int := 1
def JEarth : Int := 2
def JMars : Int := 3
def JJupiter : Int := 4
def JSaturn : Int := 5
def JUranus : Int := 6
def JNeptune : Int := 7
def JPluto : Int := 8
def JMoon : Int := 9
def JSun : Int := 10
def JSbary : Int := 11
def JEmb : Int := 12
def JNut : Int := 13
def JLib : Int := 14

/-! ## Machine integers and slices -/

/-- Two-complement wrap-around of Go's 64-bit `int`. -/
def wrap64 (z : Int) : Int := (z + 2 ^ 63) % 2 ^ 64 - 2 ^ 63

/-- Go `int(f)` for a finite `f`: the fraction is discarded (truncation towards
zero); a value outside the range of `int` has an implementation-dependent result,
reported as `Fault.floatToInt`. -/
def floatToInt (f : Float64) : Except Fault Int :=
  let z : Int := if 0 ≤ f then ⌊f⌋ else ⌈f⌉
  if -(2 ^ 63) ≤ z ∧ z < 2 ^ 63 then .ok z else .error .floatToInt

/-- Go slice indexing `xs[i]` with an `int` index: panics outside `0 ≤ i < len(xs)`. -/
def index {α : Type} (xs : List α) (i : Int) : Except Fault α :=
  if 0 ≤ i then
    match xs.get? i.toNat with
    | some a => .ok a
    | none => .error .indexOutOfRange
  else .error .indexOutOfRange

/-! ## Header and session state -/

/-- Go `JplHeader`. `IPT` is `[3][13]int`, `NumCoeff` is `[13]int`; the
`Constants` map is an association list. -/
structure JplHeader where
  StartJD : Float64
  EndJD : Float64
  StepJD : Float64
  NumConst : Int
  AU : Float64
  EMRat : Float64
  IPT : Fin 3 → Fin 13 → Int
  NumCoeff : Fin 13 → Int
  Constants : List (String × Float64)

/-- The zero value of `JplHeader`. -/
def JplHeader.zero : JplHeader :=
  { StartJD := 0, EndJD := 0, StepJD := 0, NumConst := 0, AU := 0, EMRat := 0,
    IPT := fun _ _ => 0, NumCoeff := fun _ => 0, Constants := [] }

/-! ## Chebyshev evaluation (`interpolateChebyshev`) -/

/-- The array `t` of `interpolateChebyshev`: `make([]Float64, ncoeff)`, then
`t[0] = 1`, `t[1] = x` and the loop `t[i] = 2x·t[i-1] − t[i-2]` for `2 ≤ i < ncoeff`.
Only called with `2 ≤ ncoeff`, so every access of the loop is in range. -/
def chebBasis (x : Float64) (ncoeff : Nat) : List Float64 :=
  (List.range' 2 (ncoeff - 2)).foldl
    (fun t i => t.set i (2 * x * t.getD (i - 1) 0 - t.getD (i - 2) 0))
    (((List.replicate ncoeff (0 : Float64)).set 0 1).set 1 x)

/-- The array `dt` of `interpolateChebyshev`: `dt[0] = 0`, `dt[1] = 1` and the loop
`dt[i] = 2x·dt[i-1] + 2·t[i-1] − dt[i-2]` for `2 ≤ i < ncoeff`. -/
def chebDerivBasis (x : Float64) (t : List Float64) (ncoeff : Nat) : List Float64 :=
  (List.range' 2 (ncoeff - 2)).foldl
    (fun dt i => dt.set i (2 * x * dt.getD (i - 1) 0 + 2 * t.getD (i - 1) 0 - dt.getD (i - 2) 0))
    (((List.replicate ncoeff (0 : Float64)).set 0 0).set 1 1)

/-- One of the two accumulation loop nests of `interpolateChebyshev`:
`for j < 3 { for i < ncoeff { result[slot j] += coeffs[offset+j*ncoeff+i] * basis[i] } }`.
The index `offset+j*ncoeff+i` is computed without wrap-around: for an `ncoeff` that
`make` can allocate, an overflowing sum is negative after wrapping, so wrapped and
unwrapped index fault alike. -/
def accumulate (coeffs : List Float64) (offset ncoeff : Int) (basis : List Float64)
    (slot : Fin 3 → Fin 6) (result : Vec6) : Except Fault Vec6 :=
  (List.finRange 3).foldlM
    (fun (r : Vec6) (j : Fin 3) =>
      (List.range ncoeff.toNat).foldlM
        (fun (r : Vec6) (i : Nat) => do
          let c ← index coeffs (offset + (j.val : Int) * ncoeff + (i : Int))
          pure (Function.update r (slot j) (r (slot j) + c * basis.getD i 0)))
        r)
    result

/-- Go `interpolateChebyshev(coeffs, offset, ncoeff, x, result)`. The slice
`result` is the six-element slice `pv[k][:]` of the only call site; the returned
vector is its content afterwards. -/
def interpolateChebyshev (coeffs : List Float64) (offset ncoeff : Int) (x : Float64)
    (_result : Vec6) : Except Fault (Vec6 × Option GoError) :=
  let result : Vec6 := fun _ => 0
  if ncoeff < 2 then
    .ok (result, some (.tooFewCoeffs ncoeff))
  else do
    let t := chebBasis x ncoeff.toNat
    let result ← accumulate coeffs offset ncoeff t (Fin.castAdd 3) result
    let result ←
      if ncoeff ≥ 2 then
        let dt := chebDerivBasis x t ncoeff.toNat
        accumulate coeffs offset ncoeff dt (Fin.natAdd 3) result
      else pure result
    pure (result, none)

/-! ## Body composition (`computePosition`) -/

/-- Go `[15][6]Float64`, the working array `pv` of `computePosition`. -/
abbrev PV := Fin 15 → Vec6

/-- Go `pv[n]` for an `int` index `n`: panics outside `0 ≤ n < 15`. -/
def indexPV (pv : PV) (n : Int) : Except Fault Vec6 :=
  if h : 0 ≤ n ∧ n < 15 then .ok (pv ⟨n.toNat, by omega⟩) else .error .indexOutOfRange

/-- The velocity scaling of `computePosition`: `pv[k][3] *= vfac`, `pv[k][4] *= vfac`,
`pv[k][5] *= vfac`. -/
def scaleVelocity (res : Vec6) (vfac : Float64) : Vec6 :=
  let res := Function.update res 3 (res 3 * vfac)
  let res := Function.update res 4 (res 4 * vfac)
  Function.update res 5 (res 5 * vfac)

/-- The sub-interval index `l` of `computePosition` for a slot with `ns`
sub-intervals: `temp := Float64(ns) * t[0]`, `l := int(temp)`, and
`if l >= ns { l = ns - 1 }`; `t0` is `t[0] = s / record[1]` and `r1` is `record[1]`.
When `record[1]` is zero, `t[0]` and hence `temp` is infinite or NaN, and the
conversion `int(temp)` is implementation-dependent. -/
def subInterval (ns : Int) (t0 r1 : Float64) : Except Fault Int := do
  let temp : Float64 := (ns : Float64) * t0
  let l ← if r1 = 0 then .error .floatToInt else floatToInt temp
  pure (if l ≥ ns then wrap64 (ns - 1) else l)

/-- The offset `na+l*nc*3` that `computePosition` passes to `interpolateChebyshev`,
in Go `int` arithmetic. -/
def blockOffset (na nc l : Int) : Int := wrap64 (na + wrap64 (wrap64 (l * nc) * 3))

/-- What `computePosition` does with the outcome of `interpolateChebyshev` for slot
`k`: return the error, or scale the velocity by `vfac := 2.0 * Float64(ns) / record[1]`.
The slice `pv[k][:]` aliases `pv[k]`, so the array holds the result either way. -/
def storeBody (pv : PV) (k : Fin 15) (ns : Int) (r1 : Float64) :
    Vec6 × Option GoError → PV × Option GoError
  | (res, some e) => (Function.update pv k res, some e)
  | (res, none) =>
    let vfac : Float64 := 2 * (ns : Float64) / r1
    (Function.update pv k (scaleVelocity res vfac), none)

/-- The loop variable `k < 11` as an index of the header table `IPT[_][k]`. -/
def slot13 (k : Fin 11) : Fin 13 := Fin.castLE (by decide) k

/-- The loop variable `k < 11` as an index of the working array `pv[k]`. -/
def slot15 (k : Fin 11) : Fin 15 := Fin.castLE (by decide) k

/-- One iteration (index `k`) of the loop `for k := 0; k < 11; k++` of
`computePosition`; `t0` is `t[0] = s / record[1]` and `r1` is `record[1]`.
The second component is the error the iteration returns from `computePosition`
with, if any. -/
def evalBody (hdr : JplHeader) (record : List Float64) (t0 r1 : Float64) (pv : PV)
    (k : Fin 11) : Except Fault (PV × Option GoError) :=
  let k13 : Fin 13 := slot13 k
  let k15 : Fin 15 := slot15 k
  let na := hdr.IPT 0 k13
  let nc := hdr.IPT 1 k13
  let ns := hdr.IPT 2 k13
  if na = 0 then .ok (pv, none)
  else do
    let temp : Float64 := (ns : Float64) * t0
    let l ← subInterval ns t0 r1
    let tc : Float64 := 2 * (temp - (l : Float64)) - 1
    let out ← interpolateChebyshev record (blockOffset na nc l) nc tc (pv k15)
    pure (storeBody pv k15 ns r1 out)

/-- The loop `for k := 0; k < 11; k++` of `computePosition`, run over the list of
remaining indices; it stops at the first iteration that returns an error. -/
def evalBodies (hdr : JplHeader) (record : List Float64) (t0 r1 : Float64) :
    List (Fin 11) → PV → Except Fault (PV × Option GoError)
  | [], pv => .ok (pv, none)
  | k :: ks, pv => do
    let (pv, err) ← evalBody hdr record t0 r1 pv k
    match err with
    | some e => .ok (pv, some e)
    | none => evalBodies hdr record t0 r1 ks pv

/-- The Moon special case of `computePosition`:
`pv[JMoon][i] = pv[JEmb][i] + pv[JMoon][i]` for `i < 6`, applied when `ntarg == JMoon`. -/
def moonCorrection (ntarg : Int) (pv : PV) : PV :=
  if ntarg = JMoon then Function.update pv 9 (fun i => pv 12 i + pv 9 i) else pv

/-- The working array of `computePosition` after the loop over the body slots
(before the Moon special case); `none` stands for a Go error return. -/
def workingVectors (hdr : JplHeader) (record : List Float64) (et : Float64) :
    Except Fault (PV × Option GoError) := do
  let r0 ← index record 0
  let r1 ← index record 1
  let s := et - r0
  let t0 := s / r1
  evalBodies hdr record t0 r1 (List.finRange 11) (fun _ => zero6)

/-- The last part of `computePosition` (`// 计算相对位置`): the three-way branch on
`ntarg == ncent` and `ncent == JSbary`, writing `rrd`. -/
def composeRelative (pv : PV) (ntarg ncent : Int) (rrd : Vec6) : Except Fault Vec6 :=
  if ntarg = ncent then .ok (fun _ => 0)
  else if ncent = JSbary then
    if ntarg < 15 then indexPV pv ntarg else .ok rrd
  else
    if ntarg < 15 ∧ ncent < 15 then do
      let a ← indexPV pv ntarg
      let b ← indexPV pv ncent
      pure (fun i => a i - b i)
    else .ok rrd

/-- Go `computePosition(record, et, ntarg, ncent, &rrd)`, reading the header of the
package variable `jplData`.  Returns the content of `rrd` afterwards and the error. -/
def computePosition (hdr : JplHeader) (record : List Float64) (et : Float64)
    (ntarg ncent : Int) (rrd : Vec6) : Except Fault (Vec6 × Option GoError) := do
  let (pv, err) ← workingVectors hdr record et
  match err with
  | some e => .ok (rrd, some e)
  | none =>
    let pv := moonCorrection ntarg pv
    let rrd ← composeRelative pv ntarg ncent rrd
    pure (rrd, none)

/-! ## Files and the byte cursor (`ByteReader`) -/

/-- A byte. -/
abbrev Byte := Fin 256

/-- Library functions and the file system the package calls into.
`Float64frombits` is `math.Float64frombits` (the `uint64` bit pattern is a natural
number below `2^64`), `filepathJoin` is `filepath.Join`, and `osOpen` is `os.Open`:
the content of the file at a path, or `none` when it cannot be opened. -/
structure Env where
  Float64frombits : Nat → Float64
  filepathJoin : String → String → String
  osOpen : String → Option (List Byte)

/-- Go `*os.File` handle (non-nil): the bytes of the file and whether the handle
has been closed.  Every read of the package is preceded by an absolute `Seek`, so
the handle's current offset is not part of the state. -/
structure OsFile where
  content : List Byte
  closed : Bool
  deriving DecidableEq

/-- Go `binary.ByteOrder`. -/
inductive ByteOrder
  | LittleEndian
  | BigEndian
  deriving DecidableEq, Repr

/-- Value of a byte string read least-significant byte first. -/
def leValue : List Byte → Nat
  | [] => 0
  | b :: bs => b.val + 256 * leValue bs

/-- Go `order.Uint64(b)` / `order.Uint32(b)` on a slice of exactly 8 / 4 bytes. -/
def ByteOrder.decode : ByteOrder → List Byte → Nat
  | .LittleEndian, bs => leValue bs
  | .BigEndian, bs => leValue bs.reverse

/-- Go `ByteReader`. -/
structure ByteReader where
  data : List Byte
  pos : Nat
  order : ByteOrder

/-- Go `NewByteReader(data, order)`. -/
def NewByteReader (data : List Byte) (order : ByteOrder) : ByteReader :=
  { data := data, pos := 0, order := order }

/-- Go `(*ByteReader).ReadFloat64`: the decoded value and the reader afterwards. -/
def ByteReader.ReadFloat64 (env : Env) (r : ByteReader) : Float64 × ByteReader :=
  if r.pos + 8 > r.data.length then (0, r)
  else
    let val := r.order.decode ((r.data.drop r.pos).take 8)
    (env.Float64frombits val, { r with pos := r.pos + 8 })

/-- Go `Int32(val)` for a `uint32` value: two-complement reinterpretation. -/
def toInt32 (val : Nat) : Int := if val < 2 ^ 31 then (val : Int) else (val : Int) - 2 ^ 32

/-- Go `(*ByteReader).ReadInt32`: the decoded value and the reader afterwards. -/
def ByteReader.ReadInt32 (r : ByteReader) : Int × ByteReader :=
  if r.pos + 4 > r.data.length then (0, r)
  else
    let val := r.order.decode ((r.data.drop r.pos).take 4)
    (toInt32 val, { r with pos := r.pos + 4 })

/-- Go `file.Seek(offset, io.SeekStart)` on a possibly nil handle: fails on a nil
or closed handle and on a negative offset. -/
def seekStart (file : Option OsFile) (offset : Int) : Except GoError Unit :=
  match file with
  | none => .error .errInvalid
  | some f =>
    if f.closed then .error .errClosed
    else if offset < 0 then .error .errInvalid
    else .ok ()

/-- Go `io.ReadFull(file, buf)` with `len(buf) = n`, reading at offset `off` (the
offset of the preceding `Seek`): `io.EOF` when no byte is available there,
`io.ErrUnexpectedEOF` when fewer than `n` are. -/
def readFull (file : Option OsFile) (off n : Nat) : Except GoError (List Byte) :=
  match file with
  | none => .error .errInvalid
  | some f =>
    if f.closed then .error .errClosed
    else if off + n ≤ f.content.length then .ok ((f.content.drop off).take n)
    else if n = 0 then .ok []
    else if f.content.length ≤ off then .error .errEOF
    else .error .errUnexpectedEOF

/-- A run of `n` successive `ReadInt32` calls on one reader. -/
def readInt32s : Nat → ByteReader → List Int × ByteReader
  | 0, r => ([], r)
  | n + 1, r =>
    let (v, r1) := r.ReadInt32
    let (vs, r2) := readInt32s n r1
    (v :: vs, r2)

/-- A run of `n` successive `ReadFloat64` calls on one reader. -/
def readFloat64s (env : Env) : Nat → ByteReader → List Float64 × ByteReader
  | 0, r => ([], r)
  | n + 1, r =>
    let (v, r1) := r.ReadFloat64 env
    let (vs, r2) := readFloat64s env n r1
    (v :: vs, r2)

/-- The decoding part of Go `readJplHeader` (from `reader := NewByteReader(...)` to
the end): the header fields read in order from the byte cursor, and the cursor
afterwards. -/
def parseHeader (env : Env) (reader : ByteReader) : JplHeader × ByteReader :=
  let (startJD, reader) := reader.ReadFloat64 env
  let (endJD, reader) := reader.ReadFloat64 env
  let (stepJD, reader) := reader.ReadFloat64 env
  let (numConst, reader) := reader.ReadInt32
  let (au, reader) := reader.ReadFloat64 env
  let (emrat, reader) := reader.ReadFloat64 env
  let (ipt, reader) := readInt32s (3 * 13) reader
  let (numCoeff, reader) := readInt32s 13 reader
  ({ StartJD := startJD, EndJD := endJD, StepJD := stepJD, NumConst := numConst,
     AU := au, EMRat := emrat,
     IPT := fun i j => ipt.getD (13 * i.val + j.val) 0,
     NumCoeff := fun i => numCoeff.getD i.val 0,
     Constants := [] }, reader)

/-- Go `readJplHeader(header, file)`: the header afterwards and the error.  All
writes to `*header` happen after the last point of failure, so a failing call
leaves the header as it was. -/
def readJplHeader (env : Env) (header : JplHeader) (file : OsFile) :
    JplHeader × Option GoError :=
  match seekStart (some file) 0 with
  | .error e => (header, some e)
  | .ok _ =>
    match readFull (some file) 0 JplRecordSize with
    | .error e => (header, some e)
    | .ok buf => ((parseHeader env (NewByteReader buf .LittleEndian)).1, none)

/-- Go `readJplRecord(file, recordNum)`; `(nil, err)` is `.error err`. -/
def readJplRecord (env : Env) (file : Option OsFile) (recordNum : Int) :
    Except GoError (List Float64) := do
  let offset := wrap64 (recordNum * JplRecordSize)
  seekStart file offset
  let buf ← readFull file offset.toNat JplRecordSize
  let reader := NewByteReader buf .LittleEndian
  pure (readFloat64s env JplNCoeff reader).1

/-! ## The session (`jplData`) and the exported operations -/

/-- Go `JplData`, the type of the package variable `jplData`. -/
structure JplData where
  Header : JplHeader
  File : Option OsFile
  FileName : String
  IsOpen : Bool

/-- The zero value of `JplData`: the initial value of `jplData`. -/
def JplData.zero : JplData :=
  { Header := JplHeader.zero, File := none, FileName := "", IsOpen := false }

/-- Go `CloseJplFile()`. -/
def CloseJplFile (jd : JplData) : JplData :=
  match jd.IsOpen, jd.File with
  | true, some f => { jd with File := some { f with closed := true }, IsOpen := false }
  | _, _ => jd

/-- Go `OpenJplFile(ss, fname, fpath)`: the state, the content of `ss` and the
error afterwards. -/
def OpenJplFile (env : Env) (jd : JplData) (ss : List Float64) (fname fpath : String) :
    JplData × List Float64 × Option GoError :=
  let jd := if jd.IsOpen then CloseJplFile jd else jd
  let fullPath := if fpath ≠ "" then env.filepathJoin fpath fname else fname
  match env.osOpen fullPath with
  | none => (jd, ss, some (.openFailed fullPath (.osOpenFailed fullPath)))
  | some bytes =>
    let file : OsFile := { content := bytes, closed := false }
    let jd := { jd with File := some file, FileName := fullPath }
    match readJplHeader env jd.Header file with
    | (hdr, some e) =>
      ({ jd with Header := hdr, File := some { file with closed := true } }, ss,
        some (.headerFailed e))
    | (hdr, none) =>
      let jd := { jd with Header := hdr, IsOpen := true }
      let ss :=
        if ss.length ≥ 3 then ((ss.set 0 hdr.StartJD).set 1 hdr.EndJD).set 2 hdr.StepJD
        else ss
      (jd, ss, none)

/-- Go `Close()` of `sweph.go`, restricted to its effect on `jplData` (the rest
of the function resets the unrelated `SweData` state). -/
def Close (jd : JplData) : JplData := CloseJplFile jd

/-- Go `IsJplAvailable()`. -/
def IsJplAvailable (jd : JplData) : Bool := jd.IsOpen

/-- Go `GetJplInfo()`. -/
def GetJplInfo (jd : JplData) : Float64 × Float64 × Float64 × Bool :=
  if jd.IsOpen then (jd.Header.StartJD, jd.Header.EndJD, jd.Header.StepJD, true)
  else (0, 0, 0, false)

/-- The record index of `Pleph`:
`recordNum := int((et - StartJD) / StepJD)`, then `if recordNum < 0 { recordNum = 0 }`.
With `StepJD` zero the quotient converted by `int(...)` is infinite or NaN, an
implementation-dependent conversion. -/
def recordIndex (hdr : JplHeader) (et : Float64) : Except Fault Int := do
  let recordNum ←
    if hdr.StepJD = 0 then .error .floatToInt
    else floatToInt ((et - hdr.StartJD) / hdr.StepJD)
  pure (if recordNum < 0 then 0 else recordNum)

/-- Go `Pleph(et, ntarg, ncent)`. -/
def Pleph (env : Env) (jd : JplData) (et : Float64) (ntarg ncent : Int) :
    Except Fault (Vec6 × Option GoError) :=
  let rrd : Vec6 := zero6
  if !jd.IsOpen then .ok (rrd, some .notOpen)
  else if et < jd.Header.StartJD ∨ et > jd.Header.EndJD then .ok (rrd, some (.outOfRange et))
  else do
    let recordNum ← recordIndex jd.Header et
    match readJplRecord env jd.File recordNum with
    | .error e => .ok (rrd, some (.recordFailed e))
    | .ok record =>
      let (rrd, err) ← computePosition jd.Header record et ntarg ncent rrd
      match err with
      | some e => .ok (rrd, some (.computeFailed e))
      | none => .ok (rrd, none)

/-! ## Calendar and time scales (`date.go`) -/

/-- Calendar flag `SeJulCal` of `constants.go`. -/
def SeJulCal : Int := 0

/-- Calendar flag `SeGregCal` of `constants.go`. -/
def SeGregCal : Int := 1

/-- The epoch `J2000` of `constants.go`. -/
def J2000 : Float64 := 2451545.0

/-- Go `math.Floor`. -/
def mathFloor (x : Float64) : Float64 := ((⌊x⌋ : Int) : Float64)

/-- Go `math.Mod(x, y)` for a finite `x` and a non-zero finite `y`: `x - y * q`
where `q` is `x / y` truncated towards zero, so the result has the sign of `x`.
(`y = 0` gives NaN in Go; the package only calls it with non-zero constants.)
It is written for any ordered field with a floor function, so that it can be read on
the rational model of `Float64` and on the real numbers. -/
def mathMod {F : Type} [LinearOrderedField F] [FloorRing F] (x y : F) : F :=
  let q : Int := if 0 ≤ x / y then ⌊x / y⌋ else ⌈x / y⌉
  x - y * (q : F)

/-- Two-complement wrap-around of Go's `Int32` (`Int32(n)` for an `int` value). -/
def wrap32 (z : Int) : Int := (z + 2 ^ 31) % 2 ^ 32 - 2 ^ 31

/-- Go `Int32(f)` for a finite `f`: truncation towards zero; a value outside the
range of `int32` has an implementation-dependent result, reported as a fault. -/
def floatToInt32 (f : Float64) : Except Fault Int :=
  let z : Int := if 0 ≤ f then ⌊f⌋ else ⌈f⌉
  if -(2 ^ 31) ≤ z ∧ z < 2 ^ 31 then .ok z else .error .floatToInt

/-- Go `Julday(year, month, day, hour, gregflag)`.  Go's `/` on `int` truncates
towards zero (`Int.tdiv`).  The `int` arithmetic is written on unbounded integers:
it agrees with Go as long as `year` is not within 1 of the ends of the `int` range. -/
def Julday (year month day : Int) (hour : Float64) (gregflag : Int) : Float64 :=
  let year1 : Int := if month ≤ 2 then year - 1 else year
  let month1 : Int := if month ≤ 2 then month + 12 else month
  let b : Int :=
    if gregflag = SeGregCal then
      let a := Int.tdiv year1 100
      2 - a + Int.tdiv a 4
    else 0
  let jd : Float64 :=
    if year1 < 0 then
      mathFloor (365.25 * ((year1 - 1 : Int) : Float64)) +
        mathFloor (30.6001 * ((month1 + 1 : Int) : Float64)) + (day : Float64) + (b : Float64) +
        1720994.5
    else
      mathFloor (365.25 * (year1 : Float64)) +
        mathFloor (30.6001 * ((month1 + 1 : Int) : Float64)) + (day : Float64) + (b : Float64) +
        1720994.5
  jd + hour / 24.0

/-- Go `Revjul(jd, gregflag)`: `(year, month, day, jut)`.  Each `int(...)` of a float
is `floatToInt`; the `int` additions are written on unbounded integers, which agrees
with Go as long as the day number `z` is below `2^62` in absolute value. -/
def Revjul (jd : Float64) (gregflag : Int) : Except Fault (Int × Int × Int × Float64) := do
  let jd := jd + 0.5
  let z ← floatToInt jd
  let f := jd - (z : Float64)
  let a ←
    if gregflag = SeGregCal then
      if z ≥ 2299161 then do
        let alpha ← floatToInt (((z : Float64) - 1867216.25) / 36524.25)
        pure (z + 1 + alpha - Int.tdiv alpha 4)
      else pure z
    else pure z
  let b := a + 1524
  let c ← floatToInt (((b : Float64) - 122.1) / 365.25)
  let d ← floatToInt (365.25 * (c : Float64))
  let e ← floatToInt (((b - d : Int) : Float64) / 30.6001)
  let t ← floatToInt (30.6001 * (e : Float64))
  let day := b - d - t
  let month := if e < 14 then e - 1 else e - 13
  let year := if month > 2 then c - 4716 else c - 4715
  pure (year, month, day, f * 24.0)

/-- Go `Deltat(tjd)`: the simplified Delta T in seconds. -/
def Deltat (tjd : Float64) : Float64 :=
  let year := (tjd - J2000) / 365.25 + 2000.0
  if year < 1620 then
    let t := (year - 2000) / 100
    (-20) + 32 * t * t
  else if year < 1972 then
    let t := year - 2000
    63.86 + 0.3345 * t - 0.060374 * t * t + 0.0017275 * t * t * t + 0.000651814 * t * t * t * t +
      0.00002373599 * t * t * t * t * t
  else if year < 2005 then
    let t := year - 2000
    63.86 + 0.3345 * t - 0.060374 * t * t + 0.0017275 * t * t * t + 0.000651814 * t * t * t * t +
      0.00002373599 * t * t * t * t * t
  else
    let t := year - 2005
    64.184 + 0.8 * t

/-- The `error` values of `UtcToJd`, one for each range check. -/
inductive DateError
  | yearOutOfRange (iyear : Int)
  | invalidMonth (imonth : Int)
  | invalidDay (iday : Int)
  | invalidHour (ihour : Int)
  | invalidMinute (imin : Int)
  | invalidSecond (dsec : Float64)
  deriving DecidableEq, Repr

/-- Go `UtcToJd(iyear, imonth, iday, ihour, imin, dsec, gregflag)`: `(et, ut1, err)`. -/
def UtcToJd (iyear imonth iday ihour imin : Int) (dsec : Float64) (gregflag : Int) :
    Float64 × Float64 × Option DateError :=
  if iyear < -4713 ∨ iyear > 5000000 then (0, 0, some (.yearOutOfRange iyear))
  else if imonth < 1 ∨ imonth > 12 then (0, 0, some (.invalidMonth imonth))
  else if iday < 1 ∨ iday > 31 then (0, 0, some (.invalidDay iday))
  else if ihour < 0 ∨ ihour ≥ 24 then (0, 0, some (.invalidHour ihour))
  else if imin < 0 ∨ imin ≥ 60 then (0, 0, some (.invalidMinute imin))
  else if dsec < 0 ∨ dsec ≥ 60 then (0, 0, some (.invalidSecond dsec))
  else
    let dhour := (ihour : Float64) + (imin : Float64) / 60.0 + dsec / 3600.0
    let ut1 := Julday iyear imonth iday dhour gregflag
    let dt := Deltat ut1
    let et := ut1 + dt / 86400.0
    (et, ut1, none)

/-- Go `UtcTimeZone(iyear, imonth, iday, ihour, imin, dsec, dTimezone)`:
`(iyearOut, imonthOut, idayOut, ihourOut, iminOut, dsecOut)`. -/
def UtcTimeZone (iyear imonth iday ihour imin : Int) (dsec dTimezone : Float64) :
    Except Fault (Int × Int × Int × Int × Int × Float64) := do
  let totalSec := (ihour : Float64) * 3600 + (imin : Float64) * 60 + dsec
  let totalSec := totalSec + dTimezone * 3600
  let dayOffset ← floatToInt (mathFloor (totalSec / 86400))
  let totalSec := mathMod totalSec 86400
  let adjusted : Float64 × Int :=
    if totalSec < 0 then (totalSec + 86400, wrap64 (dayOffset - 1)) else (totalSec, dayOffset)
  let totalSec := adjusted.1
  let dayOffset := adjusted.2
  let jd := Julday iyear imonth iday 0 SeGregCal
  let jd := jd + (dayOffset : Float64)
  let (year, month, day, _) ← Revjul jd SeGregCal
  let ihourOut ← floatToInt32 (totalSec / 3600)
  let remainder := mathMod totalSec 3600
  let iminOut ← floatToInt32 (remainder / 60)
  let dsecOut := mathMod remainder 60
  pure (wrap32 year, wrap32 month, wrap32 day, ihourOut, iminOut, dsecOut)

/-- Go `DayOfWeek(jd)`. -/
def DayOfWeek (jd : Float64) : Except Fault Int :=
  floatToInt (mathMod (mathFloor (jd + 1.5)) 7)

/-- Go `IsLeapYear(year)`; Go's `%` on `int` is the remainder of the division
truncated towards zero (`Int.tmod`). -/
def IsLeapYear (year : Int) : Bool :=
  if Int.tmod year 4 ≠ 0 then false
  else if Int.tmod year 100 ≠ 0 then true
  else Int.tmod year 400 == 0

/-- Go `DaysInMonth(year, month)`.  The index `month - 1` is within the 12-entry
slice because of the guard, so the access cannot panic. -/
def DaysInMonth (year month : Int) : Int :=
  if month < 1 ∨ month > 12 then 0
  else
    let days : List Int := [31, 28, 31, 30, 31, 30, 31, 31, 30, 31, 30, 31]
    if month = 2 ∧ IsLeapYear year = true then 29
    else days.getD (month - 1).toNat 0

/-! ## Coordinate transforms (`sweph.go`) -/

/-- The constant and the functions of Go's `math` package that the coordinate
transforms use (`math.Pi`, `math.Cos`, `math.Sin`), on the number type `F` they act
on.  The transforms are written for any field `F`, so that they can be read on the
rational model of `Float64` as well as on the real numbers with the real cosine
and sine. -/
structure MathLib (F : Type) where
  Pi : F
  Cos : F → F
  Sin : F → F

/-- Flag bit `SeflgXyz` of `constants.go` (Cartesian coordinates). -/
def SeflgXyz : Int := 4096

/-- Flag bit `SeflgRadians` of `constants.go` (radians instead of degrees). -/
def SeflgRadians : Int := 8192

/-- The constant `RadToDeg = 180.0 / math.Pi` of `constants.go`. -/
def RadToDeg {F : Type} [Field F] (m : MathLib F) : F := 180 / m.Pi

/-- Go `polarToCartesian(polar)`. -/
def polarToCartesian {F : Type} [Field F] (m : MathLib F) (polar : Fin 6 → F) : Fin 6 → F :=
  let lon := polar 0
  let lat := polar 1
  let rad := polar 2
  let dlon := polar 3
  let dlat := polar 4
  let drad := polar 5
  let cosLat := m.Cos lat
  let sinLat := m.Sin lat
  let cosLon := m.Cos lon
  let sinLon := m.Sin lon
  ![rad * cosLat * cosLon,
    rad * cosLat * sinLon,
    rad * sinLat,
    drad * cosLat * cosLon - rad * dlat * sinLat * cosLon - rad * dlon * cosLat * sinLon,
    drad * cosLat * sinLon - rad * dlat * sinLat * sinLon + rad * dlon * cosLat * cosLon,
    drad * sinLat + rad * dlat * cosLat]

/-- Go `applyCoordinateTransforms(xx, iflag)`; `iflag & bit` on `Int32` is
`Int.land`.  The four in-place multiplications of the degree branch are written as
one function of the component index. -/
def applyCoordinateTransforms {F : Type} [Field F] (m : MathLib F) (xx : Fin 6 → F)
    (iflag : Int) : Fin 6 → F :=
  let result := xx
  let result := if Int.land iflag SeflgXyz ≠ 0 then polarToCartesian m result else result
  if Int.land iflag SeflgRadians = 0 ∧ Int.land iflag SeflgXyz = 0 then
    fun i => if i = 0 ∨ i = 1 ∨ i = 3 ∨ i = 4 then result i * RadToDeg m else result i
  else result

/-- The constant `TwoPi = 2.0 * math.Pi` of `constants.go`. -/
def TwoPi {F : Type} [Field F] (m : MathLib F) : F := 2 * m.Pi

/-- Go `normalizeAngle(angle)`. -/
def normalizeAngle {F : Type} [LinearOrderedField F] [FloorRing F] (m : MathLib F)
    (angle : F) : F :=
  let result := mathMod angle (TwoPi m)
  if result < 0 then result + TwoPi m else result

/-! ## Position calculation (`Calc` of `sweph.go`) -/

def SeSun : Int := 0
def SeMoon : Int := 1
def SeMercury : Int := 2
def SeVenus : Int := 3
def SeMars : Int := 4
def SeJupiter : Int := 5
def SeSaturn : Int := 6
def SeUranus : Int := 7
def SeNeptune : Int := 8
def SePluto : Int := 9
def SeMeanNode : Int := 10
def SeTrueNode : Int := 11
def SeMeanApog : Int := 12
def SeOscuApog : Int := 13
def SeEarth : Int := 14
def SeChiron : Int := 15
def SePholus : Int := 16
def SeCeres : Int := 17
def SePallas : Int := 18
def SeJuno : Int := 19
def SeVesta : Int := 20

/-- Flag bit `SeflgJpleph` of `constants.go` (use the JPL ephemeris). -/
def SeflgJpleph : Int := 1

/-- Flag bit `SeflgSwieph` of `constants.go` (use the Swiss Ephemeris files). -/
def SeflgSwieph : Int := 2

/-- Flag bit `SeflgMoseph` of `constants.go` (use the Moshier ephemeris). -/
def SeflgMoseph : Int := 4

/-- Flag bit `SeflgHelctr` of `constants.go` (heliocentric position). -/
def SeflgHelctr : Int := 8

/-- The constant `DegToRad = math.Pi / 180.0` of `constants.go`. -/
def DegToRad {F : Type} [Field F] (m : MathLib F) : F := m.Pi / 180

/-- The `error` values of `Calc` and of the functions it dispatches to; `jpl` carries
the error of `Pleph`, which `calcWithJPL` returns unchanged. -/
inductive CalcError
  | tjdOutOfRange (tjd : Float64)
  | initFailed (cause : CalcError)
  | unsupportedBody (ipl : Int)
  | jpl (cause : GoError)
  | swissEphNotImplemented
  | moshierNotImplemented
  | noEphemeris
  | asteroidNotImplemented
  | minorPlanetNotImplemented
  deriving DecidableEq, Repr

/-- The package variables `ephePath` and `isInitialized` of `sweph.go`.  (The global
`SweData` record, which `initializeSwissEph` also fills in, is written but never read
by `Calc` and the functions it calls; it is left out.) -/
structure SwissState where
  ephePath : String
  isInitialized : Bool
  deriving DecidableEq, Repr

/-- Go `initializeSwissEph()`: the package variables afterwards and the returned
error, which is `nil` on both paths.  `defaultEphePath` is the result of
`getDefaultEphePath()`, a function of the process environment and the file system. -/
def initializeSwissEph (defaultEphePath : String) (st : SwissState) :
    SwissState × Option CalcError :=
  if st.isInitialized then (st, none)
  else
    let ephePath := if st.ephePath = "" then defaultEphePath else st.ephePath
    ({ ephePath := ephePath, isInitialized := true }, none)

/-- Go `mapToJPLTarget(ipl)`. -/
def mapToJPLTarget (ipl : Int) : Int :=
  if ipl = SeSun then JSun
  else if ipl = SeMoon then JMoon
  else if ipl = SeMercury then JMercury
  else if ipl = SeVenus then JVenus
  else if ipl = SeMars then JMars
  else if ipl = SeJupiter then JJupiter
  else if ipl = SeSaturn then JSaturn
  else if ipl = SeUranus then JUranus
  else if ipl = SeNeptune then JNeptune
  else if ipl = SePluto then JPluto
  else if ipl = SeEarth then JEarth
  else JSun

/-- Go `calcWithJPL(tjd, ipl, iflag)`, reading the package variable `jplData`. -/
def calcWithJPL (env : Env) (m : MathLib Float64) (jd : JplData) (tjd : Float64)
    (ipl iflag : Int) : Except Fault (Vec6 × Option CalcError) :=
  let xx : Vec6 := zero6
  let jplTarget := mapToJPLTarget ipl
  let jplCenter := if Int.land iflag SeflgHelctr ≠ 0 then JSun else JSbary
  match Pleph env jd tjd jplTarget jplCenter with
  | .error f => .error f
  | .ok (_, some e) => .ok (xx, some (.jpl e))
  | .ok (result, none) => .ok (applyCoordinateTransforms m result iflag, none)

/-- Go `calcWithSwissEph(tjd, ipl, iflag)`: not implemented, always an error. -/
def calcWithSwissEph (_tjd : Float64) (_ipl _iflag : Int) : Vec6 × Option CalcError :=
  (zero6, some .swissEphNotImplemented)

/-- Go `calcWithMoshier(tjd, ipl, iflag)`: not implemented, always an error. -/
def calcWithMoshier (_tjd : Float64) (_ipl _iflag : Int) : Vec6 × Option CalcError :=
  (zero6, some .moshierNotImplemented)

/-- Go `calcMainPlanet(tjd, ipl, iflag)`.  `rest` is the code after the first `if`
statement, reached when its condition fails or when no JPL session is open. -/
def calcMainPlanet (env : Env) (m : MathLib Float64) (jd : JplData) (tjd : Float64)
    (ipl iflag : Int) : Except Fault (Vec6 × Option CalcError) :=
  let xx : Vec6 := zero6
  let rest : Except Fault (Vec6 × Option CalcError) :=
    if Int.land iflag SeflgSwieph ≠ 0 then .ok (calcWithSwissEph tjd ipl iflag)
    else if Int.land iflag SeflgMoseph ≠ 0 then .ok (calcWithMoshier tjd ipl iflag)
    else .ok (xx, some .noEphemeris)
  if Int.land iflag SeflgJpleph ≠ 0 ∨ Int.land iflag SeflgSwieph = 0 then
    if IsJplAvailable jd then calcWithJPL env m jd tjd ipl iflag else rest
  else rest

/-- Go `calcNode(tjd, ipl, iflag)`.  The function calls itself with `SeMeanNode` for
any other body number; the recursion is justified by the measure that is 0 at
`SeMeanNode` and 1 elsewhere. -/
def calcNode (m : MathLib Float64) (tjd : Float64) (ipl iflag : Int) :
    Vec6 × Option CalcError :=
  let t : Float64 := (tjd - J2000) / 36525.0
  if h : ipl = SeMeanNode then
    let lon : Float64 := 125.0445479 - 1934.1362891 * t + 0.0020754 * t * t
    let lat : Float64 := 0.0
    let rad : Float64 := 1.0
    let xx : Vec6 :=
      ![mathMod (lon * DegToRad m) (TwoPi m), lat * DegToRad m, rad,
        -1934.1362891 * DegToRad m / 36525.0, 0.0, 0.0]
    (applyCoordinateTransforms m xx iflag, none)
  else calcNode m tjd SeMeanNode iflag
termination_by (if ipl = SeMeanNode then 0 else 1 : Nat)
decreasing_by simp [h]

/-- Go `calcApogee(tjd, ipl, iflag)`, recursive in the same way as `calcNode`. -/
def calcApogee (m : MathLib Float64) (tjd : Float64) (ipl iflag : Int) :
    Vec6 × Option CalcError :=
  let t : Float64 := (tjd - J2000) / 36525.0
  if h : ipl = SeMeanApog then
    let lon : Float64 := 83.3532465 + 4069.0137287 * t - 0.0103200 * t * t
    let lat : Float64 := 0.0
    let rad : Float64 := 1.0
    let xx : Vec6 :=
      ![mathMod (lon * DegToRad m) (TwoPi m), lat * DegToRad m, rad,
        4069.0137287 * DegToRad m / 36525.0, 0.0, 0.0]
    (applyCoordinateTransforms m xx iflag, none)
  else calcApogee m tjd SeMeanApog iflag
termination_by (if ipl = SeMeanApog then 0 else 1 : Nat)
decreasing_by simp [h]

/-- Go `calcAsteroid(tjd, ipl, iflag)`: not implemented, always an error. -/
def calcAsteroid (_tjd : Float64) (_ipl _iflag : Int) : Vec6 × Option CalcError :=
  (zero6, some .asteroidNotImplemented)

/-- Go `calcMinorPlanet(tjd, ipl, iflag)`: not implemented, always an error. -/
def calcMinorPlanet (_tjd : Float64) (_ipl _iflag : Int) : Vec6 × Option CalcError :=
  (zero6, some .minorPlanetNotImplemented)

/-- Go `Calc(tjd, ipl, iflag)`: the package variables of `sweph.go` afterwards, and
the returned vector and error (or the fault of a panicking `Pleph`).  The package
variable `jplData` is read, not written. -/
def Calc (env : Env) (m : MathLib Float64) (defaultEphePath : String) (st : SwissState)
    (jd : JplData) (tjd : Float64) (ipl iflag : Int) :
    SwissState × Except Fault (Vec6 × Option CalcError) :=
  let xx : Vec6 := zero6
  if tjd < -5000000 ∨ tjd > 5000000 then (st, .ok (xx, some (.tjdOutOfRange tjd)))
  else
    match initializeSwissEph defaultEphePath st with
    | (st, some e) => (st, .ok (xx, some (.initFailed e)))
    | (st, none) =>
      if ipl ≥ SeSun ∧ ipl ≤ SePluto then (st, calcMainPlanet env m jd tjd ipl iflag)
      else if ipl = SeMeanNode ∨ ipl = SeTrueNode then (st, .ok (calcNode m tjd ipl iflag))
      else if ipl = SeMeanApog ∨ ipl = SeOscuApog then (st, .ok (calcApogee m tjd ipl iflag))
      else if ipl ≥ SeCeres ∧ ipl ≤ SeVesta then (st, .ok (calcAsteroid tjd ipl iflag))
      else if ipl ≥ SeChiron ∧ ipl ≤ SePholus then (st, .ok (calcMinorPlanet tjd ipl iflag))
      else (st, .ok (xx, some (.unsupportedBody ipl)))

/-! ## Rounded arithmetic: `float64` as the hardware computes it

The definitions above read `float64` as exact rational arithmetic.  That reading
cannot decide a question whose answer depends on a rounding: which integer an
`int(f)` conversion yields, or whether two floats are equal.  The namespace `Rounded`
repeats the functions where this matters with every arithmetic operation rounded to
the nearest binary64 value (ties to even), as IEEE 754 prescribes and Go performs it
when each operation is executed on its own (the `amd64` port; ports that fuse a
multiplication with an addition may differ in the last bit of a Chebyshev sum).

* A value is a finite binary64 number, or `none` for an infinity or a NaN; the two
  zeros are not distinguished.
* An operation whose rounded result reaches `2^1024` overflows to an infinity.
* `int(f)` for an infinity, a NaN, or a value outside the range of `int` is left
  implementation-dependent by the Go specification; the model takes the result of
  the `amd64` conversion instruction, which is `-2^63` in all these cases.
-/

namespace Rounded

/-- The number of halvings that bring `n` below 2; `fuel` bounds the recursion. -/
def log2Fuel : Nat → Nat → Nat
  | 0, _ => 0
  | fuel + 1, n => if 2 ≤ n then log2Fuel fuel (n / 2) + 1 else 0

/-- The position of the leading bit of `n ≥ 1`: `2^(ilog2 n) ≤ n < 2^(ilog2 n + 1)`. -/
def ilog2 (n : Nat) : Nat := log2Fuel n n

/-- The binary exponent of a positive rational `a`: the `e` with `2^e ≤ a < 2^(e+1)`. -/
def binExp (a : ℚ) : Int :=
  let k : Int := (ilog2 a.num.toNat : Int) - (ilog2 a.den : Int)
  if (2 : ℚ) ^ k ≤ a then k else k - 1

/-- Rounding to the nearest integer, a tie going to the even neighbour. -/
def roundHalfEven (q : ℚ) : Int :=
  let f : Int := ⌊q⌋
  let r : ℚ := q - (f : ℚ)
  if r < 1 / 2 then f
  else if 1 / 2 < r then f + 1
  else if f % 2 = 0 then f else f + 1

/-- Rounding of a positive rational to 53 significant bits, with the exponent not
below `-1022` (the spacing of the subnormal numbers is `2^-1074`). -/
def roundPos (a : ℚ) : ℚ :=
  let e : Int := max (binExp a) (-1022)
  (roundHalfEven (a / (2 : ℚ) ^ (e - 52)) : ℚ) * (2 : ℚ) ^ (e - 52)

/-- Rounding to the nearest binary64 value, ties to even, without an upper limit on
the exponent. -/
def round64 (x : ℚ) : ℚ :=
  if x = 0 then 0 else if 0 < x then roundPos x else -roundPos (-x)

/-- A `float64` value: a finite number, or `none` for an infinity or a NaN. -/
abbrev F64 := Option ℚ

/-- The `float64` result of an operation whose exact result is `x`. -/
def fin64 (x : ℚ) : F64 :=
  let r := round64 x
  if -(2 ^ 1024) < r ∧ r < 2 ^ 1024 then some r else none

/-- Go `a + b` on `float64`. -/
def fadd (a b : F64) : F64 :=
  match a, b with
  | some x, some y => fin64 (x + y)
  | _, _ => none

/-- Go `a - b` on `float64`. -/
def fsub (a b : F64) : F64 :=
  match a, b with
  | some x, some y => fin64 (x - y)
  | _, _ => none

/-- Go `a * b` on `float64`. -/
def fmul (a b : F64) : F64 :=
  match a, b with
  | some x, some y => fin64 (x * y)
  | _, _ => none

/-- Go `a / b` on `float64`, for a finite divisor: a zero divisor gives an infinity
or a NaN.  (The embedded code divides by constants and by stored values only; a
division by an infinity is not modelled.) -/
def fdiv (a b : F64) : F64 :=
  match a, b with
  | some x, some y => if y = 0 then none else fin64 (x / y)
  | _, _ => none

/-- Go `Float64(n)` for an `int`. -/
def ofInt (n : Int) : F64 := fin64 (n : ℚ)

/-- Go `int(f)` as the `amd64` port computes it: the fraction is discarded, and
`-2^63` is the result for an infinity, a NaN or a value outside the range of `int`. -/
def toInt (f : F64) : Int :=
  match f with
  | none => -(2 ^ 63)
  | some x =>
    let z : Int := if 0 ≤ x then ⌊x⌋ else ⌈x⌉
    if -(2 ^ 63) ≤ z ∧ z < 2 ^ 63 then z else -(2 ^ 63)

/-- Go `math.Floor`: exact on a finite value. -/
def ffloor (a : F64) : F64 := a.map (fun x => ((⌊x⌋ : Int) : ℚ))

/-- Go `math.Mod(a, b)` for a finite divisor: the remainder is exact and keeps the
sign of `a`; it is a NaN when `a` is not finite or `b` is zero. -/
def fmod (a b : F64) : F64 :=
  match a, b with
  | some x, some y => if y = 0 then none else some (mathMod x y)
  | _, _ => none

/-- Go `[6]Float64`. -/
abbrev Vec6 := Fin 6 → F64

/-- The zero value of `[6]Float64`. -/
def zero6 : Vec6 := fun _ => some 0

/-- Go `[15][6]Float64`. -/
abbrev PV := Fin 15 → Vec6

/-- The array `t` of `interpolateChebyshev`: `t[i] = 2.0*x*t[i-1] - t[i-2]`. -/
def chebBasis (x : F64) (ncoeff : Nat) : List F64 :=
  (List.range' 2 (ncoeff - 2)).foldl
    (fun t i =>
      t.set i (fsub (fmul (fmul (some 2) x) (t.getD (i - 1) (some 0))) (t.getD (i - 2) (some 0))))
    (((List.replicate ncoeff (some 0 : F64)).set 0 (some 1)).set 1 x)

/-- The array `dt` of `interpolateChebyshev`:
`dt[i] = 2.0*x*dt[i-1] + 2.0*t[i-1] - dt[i-2]`. -/
def chebDerivBasis (x : F64) (t : List F64) (ncoeff : Nat) : List F64 :=
  (List.range' 2 (ncoeff - 2)).foldl
    (fun dt i =>
      dt.set i
        (fsub
          (fadd (fmul (fmul (some 2) x) (dt.getD (i - 1) (some 0)))
            (fmul (some 2) (t.getD (i - 1) (some 0))))
          (dt.getD (i - 2) (some 0))))
    (((List.replicate ncoeff (some 0 : F64)).set 0 (some 0)).set 1 (some 1))

/-- One of the two accumulation loop nests of `interpolateChebyshev`:
`result[slot j] += coeffs[offset+j*ncoeff+i] * basis[i]`. -/
def accumulate (coeffs : List Float64) (offset ncoeff : Int) (basis : List F64)
    (slot : Fin 3 → Fin 6) (result : Vec6) : Except Fault Vec6 :=
  (List.finRange 3).foldlM
    (fun (r : Vec6) (j : Fin 3) =>
      (List.range ncoeff.toNat).foldlM
        (fun (r : Vec6) (i : Nat) => do
          let c ← index coeffs (offset + (j.val : Int) * ncoeff + (i : Int))
          pure (Function.update r (slot j)
            (fadd (r (slot j)) (fmul (some c) (basis.getD i (some 0))))))
        r)
    result

/-- Go `interpolateChebyshev(coeffs, offset, ncoeff, x, result)`. -/
def interpolateChebyshev (coeffs : List Float64) (offset ncoeff : Int) (x : F64)
    (_result : Vec6) : Except Fault (Vec6 × Option GoError) :=
  let result : Vec6 := fun _ => some 0
  if ncoeff < 2 then
    .ok (result, some (.tooFewCoeffs ncoeff))
  else do
    let t := chebBasis x ncoeff.toNat
    let result ← accumulate coeffs offset ncoeff t (Fin.castAdd 3) result
    let result ←
      if ncoeff ≥ 2 then
        let dt := chebDerivBasis x t ncoeff.toNat
        accumulate coeffs offset ncoeff dt (Fin.natAdd 3) result
      else pure result
    pure (result, none)

/-- Go `pv[n]` for an `int` index `n`: panics outside `0 ≤ n < 15`. -/
def indexPV (pv : PV) (n : Int) : Except Fault Vec6 :=
  if h : 0 ≤ n ∧ n < 15 then .ok (pv ⟨n.toNat, by omega⟩) else .error .indexOutOfRange

/-- The velocity scaling of `computePosition`: `pv[k][3] *= vfac` and so on. -/
def scaleVelocity (res : Vec6) (vfac : F64) : Vec6 :=
  let res := Function.update res 3 (fmul (res 3) vfac)
  let res := Function.update res 4 (fmul (res 4) vfac)
  Function.update res 5 (fmul (res 5) vfac)

/-- The sub-interval index `l` of `computePosition`: `temp := Float64(ns) * t[0]`,
`l := int(temp)`, and `if l >= ns { l = ns - 1 }`. -/
def subInterval (ns : Int) (t0 : F64) : Int :=
  let temp : F64 := fmul (ofInt ns) t0
  let l := toInt temp
  if l ≥ ns then wrap64 (ns - 1) else l

/-- What `computePosition` does with the outcome of `interpolateChebyshev` for slot
`k`: return the error, or scale the velocity by `vfac := 2.0 * Float64(ns) / record[1]`. -/
def storeBody (pv : PV) (k : Fin 15) (ns : Int) (r1 : Float64) :
    Vec6 × Option GoError → PV × Option GoError
  | (res, some e) => (Function.update pv k res, some e)
  | (res, none) =>
    let vfac : F64 := fdiv (fmul (some 2) (ofInt ns)) (some r1)
    (Function.update pv k (scaleVelocity res vfac), none)

/-- One iteration (index `k`) of the loop `for k := 0; k < 11; k++` of
`computePosition`; `t0` is `t[0]` and `r1` is `record[1]`. -/
def evalBody (hdr : JplHeader) (record : List Float64) (t0 : F64) (r1 : Float64) (pv : PV)
    (k : Fin 11) : Except Fault (PV × Option GoError) :=
  let k13 : Fin 13 := slot13 k
  let k15 : Fin 15 := slot15 k
  let na := hdr.IPT 0 k13
  let nc := hdr.IPT 1 k13
  let ns := hdr.IPT 2 k13
  if na = 0 then .ok (pv, none)
  else do
    let temp : F64 := fmul (ofInt ns) t0
    let l := subInterval ns t0
    let tc : F64 := fsub (fmul (some 2) (fsub temp (ofInt l))) (some 1)
    let out ← interpolateChebyshev record (blockOffset na nc l) nc tc (pv k15)
    pure (storeBody pv k15 ns r1 out)

/-- The loop `for k := 0; k < 11; k++` of `computePosition`, run over the list of
remaining indices; it stops at the first iteration that returns an error. -/
def evalBodies (hdr : JplHeader) (record : List Float64) (t0 : F64) (r1 : Float64) :
    List (Fin 11) → PV → Except Fault (PV × Option GoError)
  | [], pv => .ok (pv, none)
  | k :: ks, pv => do
    let (pv, err) ← evalBody hdr record t0 r1 pv k
    match err with
    | some e => .ok (pv, some e)
    | none => evalBodies hdr record t0 r1 ks pv

/-- The Moon special case of `computePosition`. -/
def moonCorrection (ntarg : Int) (pv : PV) : PV :=
  if ntarg = JMoon then Function.update pv 9 (fun i => fadd (pv 12 i) (pv 9 i)) else pv

/-- The working array of `computePosition` after the loop over the body slots:
`s := et - record[0]`, `t[0] = s / record[1]`, then the loop. -/
def workingVectors (hdr : JplHeader) (record : List Float64) (et : Float64) :
    Except Fault (PV × Option GoError) := do
  let r0 ← index record 0
  let r1 ← index record 1
  let s := fsub (some et) (some r0)
  let t0 := fdiv s (some r1)
  evalBodies hdr record t0 r1 (List.finRange 11) (fun _ => zero6)

/-- The last part of `computePosition`: the three-way branch writing `rrd`. -/
def composeRelative (pv : PV) (ntarg ncent : Int) (rrd : Vec6) : Except Fault Vec6 :=
  if ntarg = ncent then .ok (fun _ => some 0)
  else if ncent = JSbary then
    if ntarg < 15 then indexPV pv ntarg else .ok rrd
  else
    if ntarg < 15 ∧ ncent < 15 then do
      let a ← indexPV pv ntarg
      let b ← indexPV pv ncent
      pure (fun i => fsub (a i) (b i))
    else .ok rrd

/-- Go `computePosition(record, et, ntarg, ncent, &rrd)`. -/
def computePosition (hdr : JplHeader) (record : List Float64) (et : Float64)
    (ntarg ncent : Int) (rrd : Vec6) : Except Fault (Vec6 × Option GoError) := do
  let (pv, err) ← workingVectors hdr record et
  match err with
  | some e => .ok (rrd, some e)
  | none =>
    let pv := moonCorrection ntarg pv
    let rrd ← composeRelative pv ntarg ncent rrd
    pure (rrd, none)

/-- The record index of `Pleph`: `recordNum := int((et - StartJD) / StepJD)`, then
`if recordNum < 0 { recordNum = 0 }`. -/
def recordIndex (hdr : JplHeader) (et : Float64) : Int :=
  let recordNum := toInt (fdiv (fsub (some et) (some hdr.StartJD)) (some hdr.StepJD))
  if recordNum < 0 then 0 else recordNum

/-- Go `Pleph(et, ntarg, ncent)`. -/
def Pleph (env : Env) (jd : JplData) (et : Float64) (ntarg ncent : Int) :
    Except Fault (Vec6 × Option GoError) :=
  let rrd : Vec6 := zero6
  if !jd.IsOpen then .ok (rrd, some .notOpen)
  else if et < jd.Header.StartJD ∨ et > jd.Header.EndJD then .ok (rrd, some (.outOfRange et))
  else
    let recordNum := recordIndex jd.Header et
    match readJplRecord env jd.File recordNum with
    | .error e => .ok (rrd, some (.recordFailed e))
    | .ok record =>
      match computePosition jd.Header record et ntarg ncent rrd with
      | .error f => .error f
      | .ok (_, some e) => .ok (rrd, some (.computeFailed e))
      | .ok (rrd, none) => .ok (rrd, none)

/-- Go `Julday(year, month, day, hour, gregflag)`.  The `int` arithmetic is written
on unbounded integers, as in the exact reading. -/
def Julday (year month day : Int) (hour : F64) (gregflag : Int) : F64 :=
  let year1 : Int := if month ≤ 2 then year - 1 else year
  let month1 : Int := if month ≤ 2 then month + 12 else month
  let b : Int :=
    if gregflag = SeGregCal then
      let a := Int.tdiv year1 100
      2 - a + Int.tdiv a 4
    else 0
  let jd : F64 :=
    if year1 < 0 then
      fadd (fadd (fadd (fadd (ffloor (fmul (fin64 365.25) (ofInt (year1 - 1))))
        (ffloor (fmul (fin64 30.6001) (ofInt (month1 + 1))))) (ofInt day)) (ofInt b))
        (fin64 1720994.5)
    else
      fadd (fadd (fadd (fadd (ffloor (fmul (fin64 365.25) (ofInt year1)))
        (ffloor (fmul (fin64 30.6001) (ofInt (month1 + 1))))) (ofInt day)) (ofInt b))
        (fin64 1720994.5)
  fadd jd (fdiv hour (fin64 24.0))

/-- Go `Revjul(jd, gregflag)`: `(year, month, day, jut)`.  The `int` additions wrap. -/
def Revjul (jd : F64) (gregflag : Int) : Int × Int × Int × F64 :=
  let jd := fadd jd (fin64 0.5)
  let z := toInt jd
  let f := fsub jd (ofInt z)
  let a : Int :=
    if gregflag = SeGregCal then
      if z ≥ 2299161 then
        let alpha := toInt (fdiv (fsub (ofInt z) (fin64 1867216.25)) (fin64 36524.25))
        wrap64 (z + 1 + alpha - Int.tdiv alpha 4)
      else z
    else z
  let b := wrap64 (a + 1524)
  let c := toInt (fdiv (fsub (ofInt b) (fin64 122.1)) (fin64 365.25))
  let d := toInt (fmul (fin64 365.25) (ofInt c))
  let e := toInt (fdiv (ofInt (wrap64 (b - d))) (fin64 30.6001))
  let day := wrap64 (b - d - toInt (fmul (fin64 30.6001) (ofInt e)))
  let month := if e < 14 then wrap64 (e - 1) else wrap64 (e - 13)
  let year := if month > 2 then wrap64 (c - 4716) else wrap64 (c - 4715)
  (year, month, day, fmul f (fin64 24.0))

/-- The constant `math.Pi` of Go's `math` package, as written there. -/
def mathPi : ℚ := 3.14159265358979323846264338327950288419716939937510582097494459

/-- The constant `TwoPi = 2.0 * math.Pi` of `constants.go` as a `float64`: constant
expressions are exact in Go, and the value is rounded once, where it is used. -/
def TwoPi : F64 := fin64 (2.0 * mathPi)

/-- Go `normalizeAngle(angle)`. -/
def normalizeAngle (angle : F64) : F64 :=
  match fmod angle TwoPi with
  | none => none
  | some result => if result < 0 then fadd (some result) TwoPi else some result

end Rounded

/-! ## Reference definitions used to state the properties -/

/-- Chebyshev polynomials of the first kind at `x`, by the three-term recurrence
`T_0 = 1`, `T_1 = x`, `T_n = 2x·T_(n-1) − T_(n-2)`. -/
def chebT (x : ℚ) : ℕ → ℚ
  | 0 => 1
  | 1 => x
  | n + 2 => 2 * x * chebT x (n + 1) - chebT x n

/-- The derivative recurrence `dT_0 = 0`, `dT_1 = 1`,
`dT_n = 2x·dT_(n-1) + 2·T_(n-1) − dT_(n-2)`. -/
def chebDT (x : ℚ) : ℕ → ℚ
  | 0 => 0
  | 1 => 1
  | n + 2 => 2 * x * chebDT x (n + 1) + 2 * chebT x (n + 1) - chebDT x n

/-- The coefficient `c_(j,i)` of component `j` and order `i` in the block that
starts at `offset`: the entry `coeffs[offset + j*ncoeff + i]`. -/
def coeffAt (coeffs : List Float64) (offset ncoeff j i : ℕ) : ℚ :=
  coeffs.getD (offset + j * ncoeff + i) 0

/-- The vector `interpolateChebyshev` is specified to produce (raw velocities, before
the scaling of `computePosition`): components `0..2` are `Σ c_(j,i)·T_i(x)`,
components `3..5` are `Σ c_(j,i)·dT_i(x)`. -/
def chebEval (coeffs : List Float64) (offset ncoeff : ℕ) (x : ℚ) : Vec6 :=
  Fin.append
    (fun j : Fin 3 => ∑ i in Finset.range ncoeff, coeffAt coeffs offset ncoeff j i * chebT x i)
    (fun j : Fin 3 => ∑ i in Finset.range ncoeff, coeffAt coeffs offset ncoeff j i * chebDT x i)

/-- Slot `k` is evaluated in a run of `computePosition` on `record` at time `et`: the
loop reaches iteration `k` (every earlier iteration returned without error or fault),
the slot is populated, and its sub-interval index is computed, so that
`interpolateChebyshev` is called on the slot. -/
def SlotEvaluated (hdr : JplHeader) (record : List Float64) (et : Float64) (k : Fin 11) :
    Prop :=
  ∃ (r0 r1 : Float64) (pv : PV) (l : Int) (xs ys : List (Fin 11)),
    index record 0 = .ok r0 ∧ index record 1 = .ok r1 ∧
    List.finRange 11 = xs ++ k :: ys ∧
    evalBodies hdr record ((et - r0) / r1) r1 xs (fun _ => zero6) = .ok (pv, none) ∧
    hdr.IPT 0 (slot13 k) ≠ 0 ∧
    subInterval (hdr.IPT 2 (slot13 k)) ((et - r0) / r1) r1 = .ok l

/-! ## Call sequences on the session -/

/-- A call of one of the operations that open or close the session. `Close` is the
function of `sweph.go`; the environment of an `OpenJplFile` call is the file system
at the time of the call. -/
inductive Call
  | openJplFile (env : Env) (ss : List Float64) (fname fpath : String)
  | closeJplFile
  | close

/-- The effect of one call on `jplData`. -/
def Call.apply (jd : JplData) : Call → JplData
  | .openJplFile env ss fname fpath => (OpenJplFile env jd ss fname fpath).1
  | .closeJplFile => CloseJplFile jd
  | .close => Close jd

/-- Whether a call leaves the session without a successful open: a close does, and
so does an `OpenJplFile` that returns an error; a successful `OpenJplFile` does not. -/
def Call.leavesClosed (jd : JplData) : Call → Bool
  | .openJplFile env ss fname fpath => (OpenJplFile env jd ss fname fpath).2.2.isSome
  | .closeJplFile => true
  | .close => true

/-- The state of `jplData` after a sequence of calls. -/
def runCalls (jd : JplData) (cs : List Call) : JplData := cs.foldl Call.apply jd

/-- Whether no successful open has happened since the last close in a call sequence
started in state `jd`; `init` answers for the empty sequence. -/
def noOpenSince (init : Bool) (jd : JplData) : List Call → Bool
  | [] => init
  | c :: cs => noOpenSince (c.leavesClosed jd) (c.apply jd) cs

/-! ## Concrete inputs -/

instance instDecidableEqExcept {ε α : Type} [DecidableEq ε] [DecidableEq α] :
    DecidableEq (Except ε α)
  | .ok a, .ok b => decidable_of_iff (a = b) ⟨fun h => congrArg _ h, fun h => Except.ok.inj h⟩
  | .error a, .error b =>
    decidable_of_iff (a = b) ⟨fun h => congrArg _ h, fun h => Except.error.inj h⟩
  | .ok _, .error _ => isFalse (fun h => Except.noConfusion h)
  | .error _, .ok _ => isFalse (fun h => Except.noConfusion h)

/-- IEEE 754 binary64 decoding of a bit pattern (`math.Float64frombits`) for finite
values; infinities and NaN have no rational value and are sent to 0. -/
def ieee754 (bits : Nat) : ℚ :=
  let sign : ℚ := if bits / 2 ^ 63 % 2 = 1 then -1 else 1
  let e : Nat := bits / 2 ^ 52 % 2 ^ 11
  let m : Nat := bits % 2 ^ 52
  if e = 0 then sign * (m : ℚ) / 2 ^ 1074
  else if e = 2047 then 0
  else if 1075 ≤ e then sign * ((2 ^ 52 + m : Nat) : ℚ) * 2 ^ (e - 1075)
  else sign * ((2 ^ 52 + m : Nat) : ℚ) / 2 ^ (1075 - e)

/-- The eight little-endian bytes of the `float64` value 1.0. -/
def bytesOne : List Byte := [0, 0, 0, 0, 0, 0, 0xF0, 0x3F]

/-- The eight little-endian bytes of the `float64` value 2.0. -/
def bytesTwo : List Byte := [0, 0, 0, 0, 0, 0, 0, 0x40]

/-- A file of one block (8144 bytes): the header fields `StartJD = 0`, `EndJD = 2`,
`StepJD = 1`, one populated layout entry, slot 0, with coefficient offset `na` (the
two bytes `lo`, `hi`), 2 coefficients per component and 1 sub-interval, and the
`float64` value 1.0 at byte 256, which is entry 32 of the block decoded as a record.
For `et = StartJD` the record index is 0, so `Pleph` decodes this very block as the
coefficient record: `record[0] = 0`, `record[1] = 2`. -/
def fileWith (lo hi : Byte) : List Byte :=
  List.replicate 8 0 ++ bytesTwo ++ bytesOne
    ++ List.replicate 20 0 ++ [lo, hi, 0, 0] ++ List.replicate 48 0
    ++ [2, 0, 0, 0] ++ List.replicate 48 0 ++ [1, 0, 0, 0] ++ List.replicate 104 0
    ++ bytesOne ++ List.replicate 7880 0

/-- A file whose slot 0 has its coefficients at offset 32: the series with
coefficients `(1,0), (0,0), (0,0)`. -/
def goodFile : List Byte := fileWith 32 0

/-- A file whose header places the coefficients of slot 0 at offset 2000, beyond the
1018 entries of a record. -/
def badFile : List Byte := fileWith 0xD0 0x07

/-- A file of one block whose header has `StartJD = 2` and every other field zero,
so `EndJD = 0`: the validity interval is empty. -/
def revFile : List Byte := bytesTwo ++ List.replicate 8136 0

/-- An environment in which every path opens `file`. -/
def envOf (file : List Byte) : Env :=
  { Float64frombits := ieee754, filepathJoin := fun a b => a ++ "/" ++ b,
    osOpen := fun _ => some file }

/-- An environment in which no file can be opened. -/
def envNoFile : Env :=
  { Float64frombits := ieee754, filepathJoin := fun a b => a ++ "/" ++ b,
    osOpen := fun _ => none }

/-- The session after `OpenJplFile(nil, "de.eph", "")` on `file`, from the initial
state. -/
def sessionOf (file : List Byte) : JplData :=
  (OpenJplFile (envOf file) JplData.zero [] "de.eph" "").1

/-- A header with one populated slot: slot 0 with offset 2, 2 coefficients per
component and 1 sub-interval. -/
def exHeader : JplHeader :=
  { JplHeader.zero with
    StartJD := 0, EndJD := 10, StepJD := 1,
    IPT := fun i j => if j = 0 then ![2, 2, 1] i else 0 }

/-- The header `exHeader` with a single coefficient per component in slot 0, one
fewer than a derivative needs. -/
def shortHeader : JplHeader :=
  { exHeader with IPT := fun i j => if j = 0 then ![2, 1, 1] i else 0 }

/-- A record for `exHeader`: start 0, span 1, and the coefficients `(1,0), (0,0), (0,0)`
of slot 0. -/
def exRecord : List Float64 := [0, 1, 1, 0, 0, 0, 0, 0]

/-- A header whose Moon slot (9) and slot 12 (`JEmb`) are both populated, with 2
coefficients per component and 1 sub-interval, at offsets 2 and 8. -/
def moonHeader : JplHeader :=
  { JplHeader.zero with
    StartJD := 0, EndJD := 10, StepJD := 1,
    IPT := fun i j =>
      if j = 9 then ![2, 2, 1] i else if j = 12 then ![8, 2, 1] i else 0 }

/-- A record for `moonHeader`: the Moon series is the constant position `(5,0,0)`,
the series of slot 12 the constant position `(7,0,0)`. -/
def moonRecord : List Float64 := [0, 1, 5, 0, 0, 0, 0, 0, 7, 0, 0, 0, 0, 0]

/-- The header `exHeader` with slot 1 (Venus) populated as well, with a single
coefficient per component. -/
def venusHeader : JplHeader :=
  { exHeader with
    IPT := fun i j => if j = 0 then ![2, 2, 1] i else if j = 1 then ![2, 1, 1] i else 0 }

/-- The header `moonHeader` with slot 0 populated as well, reading the coefficients
of the Moon series. -/
def moonPlusHeader : JplHeader :=
  { moonHeader with
    IPT := fun i j =>
      if j = 0 ∨ j = 9 then ![2, 2, 1] i else if j = 12 then ![8, 2, 1] i else 0 }

/-- The header `exHeader` with slot 1 (Venus) populated like slot 0. -/
def twinHeader : JplHeader :=
  { exHeader with IPT := fun i j => if j = 0 ∨ j = 1 then ![2, 2, 1] i else 0 }

/-- A record for `exHeader` whose span `record[1]` is 2, twice the `StepJD` of the
header: start 0, and the coefficients `(5,3), (0,0), (0,0)` of slot 0. -/
def spanRecord : List Float64 := [0, 2, 5, 3, 0, 0, 0, 0]

/-- The eight little-endian bytes of the `float64` value `2^-59`. -/
def bytesTinyStep : List Byte := [0, 0, 0, 0, 0, 0, 0x40, 0x3C]

/-- A one-block file whose header has `StartJD = 0`, `EndJD = 2`, `StepJD = 2^-59`
and nothing else. -/
def tinyStepFile : List Byte :=
  List.replicate 8 0 ++ bytesTwo ++ bytesTinyStep ++ List.replicate 8120 0

/-- A header with one populated slot: slot 0 with offset 2, 3 coefficients per
component and 1 sub-interval. -/
def oddHeader : JplHeader :=
  { exHeader with IPT := fun i j => if j = 0 then ![2, 3, 1] i else 0 }

/-- A record of full length (1018 entries): start 0, span 1, and the coefficients
`(1,0,0), (0,0,0), (0,0,0)` of slot 0 of `oddHeader`; every other entry is zero. -/
def fullRecord : List Float64 := [0, 1, 1] ++ List.replicate 1015 0

/-- The header `exHeader` with `StepJD` the `float64` value nearest to `0.1`. -/
def tenthHeader : JplHeader :=
  { exHeader with StepJD := 3602879701896397 / 36028797018963968 }

/-- A header with one populated slot: slot 0 with offset 2, 3 coefficients per
component and 3 sub-intervals. -/
def triHeader : JplHeader :=
  { exHeader with IPT := fun i j => if j = 0 then ![2, 3, 3] i else 0 }

/-- Rational stand-ins for `math.Pi`, `math.Cos` and `math.Sin` (truncated series),
for running the position calculation on a concrete input. -/
def approxMath : MathLib Float64 :=
  { Pi := 355 / 113, Cos := fun x => 1 - x * x / 2, Sin := fun x => x - x * x * x / 6 }

/-! ## Lemmas on the machine model -/

theorem wrap64_eq_self {z : Int} (h1 : -(2 ^ 63) ≤ z) (h2 : z < 2 ^ 63) : wrap64 z = z := by
  unfold wrap64
  omega

theorem index_eq_ok {α : Type} (xs : List α) (d : α) (i : ℕ) (h : i < xs.length) :
    index xs (i : Int) = .ok (xs.getD i d) := by
  unfold index
  simp [List.getD, List.getElem?_eq_getElem h]

theorem index_eq_error {α : Type} (xs : List α) (i : Int) (h : (xs.length : Int) ≤ i) :
    index xs i = .error .indexOutOfRange := by
  unfold index
  split
  · have : xs.length ≤ i.toNat := by omega
    rw [List.get?_eq_none.mpr this]
  · rfl

/-! ## Lemmas on the Chebyshev basis arrays -/

/-- Loop invariant shared by the two basis loops: a loop that fills position `i`
from earlier positions computes the sequence `val` given by the same rule. -/
theorem basis_loop (step : List ℚ → ℕ → ℚ) (val : ℕ → ℚ) (n : ℕ) (init : List ℚ)
    (hlen : init.length = n) (h0 : init.getD 0 0 = val 0) (h1 : init.getD 1 0 = val 1)
    (hstep : ∀ (t : List ℚ) (i : ℕ), 2 ≤ i → i < n → (∀ j, j < i → t.getD j 0 = val j) →
      step t i = val i) :
    ∀ m, m + 2 ≤ n →
      ((List.range' 2 m).foldl (fun t i => t.set i (step t i)) init).length = n ∧
      ∀ j, j < m + 2 →
        ((List.range' 2 m).foldl (fun t i => t.set i (step t i)) init).getD j 0 = val j := by
  intro m
  induction m with
  | zero =>
    intro _
    refine ⟨by simpa using hlen, ?_⟩
    intro j hj
    interval_cases j
    · simpa using h0
    · simpa using h1
  | succ m ih =>
    intro hm
    obtain ⟨hl, hv⟩ := ih (by omega)
    rw [List.range'_concat, List.foldl_append]
    simp only [List.foldl_cons, List.foldl_nil, Nat.one_mul]
    refine ⟨by simpa using hl, ?_⟩
    intro j hj
    by_cases hjm : j = 2 + m
    · subst hjm
      have hlt : 2 + m < ((List.range' 2 m).foldl (fun t i => t.set i (step t i)) init).length := by
        rw [hl]; omega
      simp only [List.getD_eq_getElem?_getD, List.getElem?_set_self hlt, Option.getD_some]
      have h2 : 2 ≤ 2 + m := by omega
      have h3 : 2 + m < n := by omega
      have h4 := hstep _ (2 + m) h2 h3 (fun j hj2 => hv j (by omega))
      exact h4
    · have hne : 2 + m ≠ j := fun h => hjm h.symm
      have hlt : j < m + 2 := by omega
      rw [← hv j hlt]
      simp [List.getD_eq_getElem?_getD, List.getElem?_set_ne hne]

theorem chebBasis_spec (x : ℚ) (n : ℕ) (hn : 2 ≤ n) :
    (chebBasis x n).length = n ∧ ∀ j, j < n → (chebBasis x n).getD j 0 = chebT x j := by
  have h := basis_loop (fun t i => 2 * x * t.getD (i - 1) 0 - t.getD (i - 2) 0) (chebT x) n
    (((List.replicate n (0 : ℚ)).set 0 1).set 1 x) (by simp) ?_ ?_ ?_ (n - 2) (by omega)
  · refine ⟨h.1, fun j hj => h.2 j (by omega)⟩
  · obtain ⟨k, rfl⟩ : ∃ k, n = k + 2 := ⟨n - 2, by omega⟩
    simp [List.replicate_succ, chebT]
  · obtain ⟨k, rfl⟩ : ∃ k, n = k + 2 := ⟨n - 2, by omega⟩
    simp [List.replicate_succ, chebT]
  · intro t i hi hin hprev
    obtain ⟨k, rfl⟩ : ∃ k, i = k + 2 := ⟨i - 2, by omega⟩
    simp only [Nat.add_sub_cancel, show k + 2 - 1 = k + 1 by omega]
    rw [hprev (k + 1) (by omega), hprev k (by omega)]
    rfl

theorem chebDerivBasis_spec (x : ℚ) (t : List ℚ) (n : ℕ) (hn : 2 ≤ n)
    (ht : ∀ j, j < n → t.getD j 0 = chebT x j) :
    (chebDerivBasis x t n).length = n ∧
      ∀ j, j < n → (chebDerivBasis x t n).getD j 0 = chebDT x j := by
  have h := basis_loop
    (fun dt i => 2 * x * dt.getD (i - 1) 0 + 2 * t.getD (i - 1) 0 - dt.getD (i - 2) 0)
    (chebDT x) n
    (((List.replicate n (0 : ℚ)).set 0 0).set 1 1) (by simp) ?_ ?_ ?_ (n - 2) (by omega)
  · refine ⟨h.1, fun j hj => h.2 j (by omega)⟩
  · obtain ⟨k, rfl⟩ : ∃ k, n = k + 2 := ⟨n - 2, by omega⟩
    simp [List.replicate_succ, chebDT]
  · obtain ⟨k, rfl⟩ : ∃ k, n = k + 2 := ⟨n - 2, by omega⟩
    simp [List.replicate_succ, chebDT]
  · intro dt i hi hin hprev
    obtain ⟨k, rfl⟩ : ∃ k, i = k + 2 := ⟨i - 2, by omega⟩
    simp only [Nat.add_sub_cancel, show k + 2 - 1 = k + 1 by omega]
    rw [hprev (k + 1) (by omega), hprev k (by omega), ht (k + 1) (by omega)]
    rfl

/-! ## Lemmas on the accumulation loops -/

theorem inner_loop (coeffs : List ℚ) (g : ℕ → ℤ) (c : ℕ → ℚ) (basis : List ℚ) (s : Fin 6) :
    ∀ (n : ℕ) (r : Vec6), (∀ i, i < n → index coeffs (g i) = .ok (c i)) →
      (List.range n).foldlM
        (fun r i => do
          let v ← index coeffs (g i)
          pure (Function.update r s (r s + v * basis.getD i 0)))
        r
      = (.ok (Function.update r s (r s + ∑ i in Finset.range n, c i * basis.getD i 0)) :
          Except Fault Vec6) := by
  intro n
  induction n with
  | zero => intro r _; simp; rfl
  | succ n ih =>
    intro r h
    rw [List.range_succ, List.foldlM_append, ih r (fun i hi => h i (by omega))]
    simp only [List.foldlM_cons, List.foldlM_nil, h n (by omega), bind, Except.bind, pure,
      Except.pure, Function.update_idem, Function.update_same, Finset.sum_range_succ, add_assoc]

theorem accumulate_ok (coeffs : List ℚ) (o n : ℕ) (bs : List ℚ) (slot : Fin 3 → Fin 6)
    (hinj : Function.Injective slot) (r : Vec6) (hb : o + 3 * n ≤ coeffs.length) :
    accumulate coeffs o n bs slot r =
      .ok (fun q => r q + ∑ j : Fin 3,
        if slot j = q then ∑ i in Finset.range n, coeffAt coeffs o n j i * bs.getD i 0
        else 0) := by
  have hidx : ∀ (j : Fin 3) (i : ℕ), i < n →
      index coeffs ((o : ℤ) + ((j : ℕ) : ℤ) * (n : ℤ) + ((i : ℕ) : ℤ))
        = .ok (coeffAt coeffs o n j i) := by
    intro j i hi
    have hj : (j : ℕ) < 3 := j.isLt
    have hlt : o + (j : ℕ) * n + i < coeffs.length := by nlinarith
    have := index_eq_ok coeffs (0 : ℚ) (o + (j : ℕ) * n + i) hlt
    push_cast at this
    exact this
  have h01 : slot 0 ≠ slot 1 := fun h => absurd (hinj h) (by decide)
  have h02 : slot 0 ≠ slot 2 := fun h => absurd (hinj h) (by decide)
  have h12 : slot 1 ≠ slot 2 := fun h => absurd (hinj h) (by decide)
  unfold accumulate
  have hfin : List.finRange 3 = [0, 1, 2] := by decide
  rw [hfin]
  have hstep : ∀ (j : Fin 3) (r : Vec6),
      (List.range n).foldlM
        (fun (r : Vec6) (i : Nat) => do
          let c ← index coeffs ((o : ℤ) + (j.val : Int) * (n : ℤ) + (i : Int))
          pure (Function.update r (slot j) (r (slot j) + c * bs.getD i 0)))
        r
      = (.ok (Function.update r (slot j)
          (r (slot j) + ∑ i in Finset.range n, coeffAt coeffs o n j i * bs.getD i 0)) :
          Except Fault Vec6) :=
    fun j r => inner_loop coeffs _ (coeffAt coeffs o n j) bs (slot j) n r (hidx j)
  simp only [List.foldlM_cons, List.foldlM_nil, Int.toNat_ofNat, hstep]
  simp only [bind, Except.bind, pure, Except.pure]
  congr 1
  funext q
  simp only [Fin.sum_univ_three, Function.update_apply]
  by_cases q0 : q = slot 0
  · subst q0; simp [h01, h02, h01.symm, h02.symm]
  · by_cases q1 : q = slot 1
    · subst q1; simp [h01, h12, h01.symm, h12.symm]
    · by_cases q2 : q = slot 2
      · subst q2; simp [h02, h12, h02.symm, h12.symm]
      · simp [q0, q1, q2, Ne.symm q0, Ne.symm q1, Ne.symm q2]

/-- Below two coefficients `interpolateChebyshev` zeroes the result and returns
its error, whatever the coefficient array. -/
theorem interpolateChebyshev_lt_two (coeffs : List ℚ) (offset ncoeff : ℤ) (x : ℚ)
    (res0 : Vec6) (h : ncoeff < 2) :
    interpolateChebyshev coeffs offset ncoeff x res0 =
      .ok (zero6, some (.tooFewCoeffs ncoeff)) := by
  unfold interpolateChebyshev
  simp only [h, if_true]
  rfl

/-- From two coefficients on `interpolateChebyshev` never returns an error value:
it returns `nil` or it faults. -/
theorem interpolateChebyshev_ge_two (coeffs : List ℚ) (offset ncoeff : ℤ) (x : ℚ)
    (res0 r : Vec6) (e : Option GoError) (h : 2 ≤ ncoeff)
    (hr : interpolateChebyshev coeffs offset ncoeff x res0 = .ok (r, e)) : e = none := by
  unfold interpolateChebyshev at hr
  have h2 : ¬ ncoeff < 2 := by omega
  simp only [h2, if_false, ge_iff_le, h, if_true] at hr
  cases h1 : accumulate coeffs offset ncoeff (chebBasis x ncoeff.toNat) (Fin.castAdd 3)
      (fun _ => 0) with
  | error f => rw [h1] at hr; cases hr
  | ok r1 =>
    rw [h1] at hr
    simp only [bind, Except.bind] at hr
    cases h3 : accumulate coeffs offset ncoeff
        (chebDerivBasis x (chebBasis x ncoeff.toNat) ncoeff.toNat) (Fin.natAdd 3) r1 with
    | error f => rw [h3] at hr; cases hr
    | ok r2 =>
      rw [h3] at hr
      simp only [pure, Except.pure] at hr
      cases hr
      rfl

/-- On an in-bounds coefficient block with at least two coefficients per component
`interpolateChebyshev` returns without error the vector of basis sums. -/
theorem interpolateChebyshev_eq (coeffs : List ℚ) (o n : ℕ) (x : ℚ) (res0 : Vec6)
    (hn : 2 ≤ n) (hb : o + 3 * n ≤ coeffs.length) :
    interpolateChebyshev coeffs o n x res0 = .ok (chebEval coeffs o n x, none) := by
  obtain ⟨_, ht⟩ := chebBasis_spec x n hn
  obtain ⟨_, hdt⟩ := chebDerivBasis_spec x (chebBasis x n) n hn ht
  have h2 : ¬ ((n : ℤ) < 2) := by omega
  have h3 : (2 : ℤ) ≤ (n : ℤ) := by omega
  unfold interpolateChebyshev
  simp only [h2, if_false, ge_iff_le, h3, if_true, Int.toNat_ofNat]
  rw [accumulate_ok coeffs o n _ (Fin.castAdd 3) (Fin.castAdd_injective 3 3) _ hb]
  simp only [bind, Except.bind]
  have hinj : Function.Injective (Fin.natAdd 3 : Fin 3 → Fin (3 + 3)) := by
    intro a b h
    have := congrArg Fin.val h
    simp only [Fin.coe_natAdd] at this
    exact Fin.ext (by omega)
  rw [accumulate_ok coeffs o n _ (Fin.natAdd 3) hinj _ hb]
  simp only [pure, Except.pure]
  congr 2
  funext q
  have hsumT : ∀ j : ℕ, ∑ i in Finset.range n, coeffAt coeffs o n j i * (chebBasis x n).getD i 0
      = ∑ i in Finset.range n, coeffAt coeffs o n j i * chebT x i := fun j =>
    Finset.sum_congr rfl (fun i hi => by rw [ht i (Finset.mem_range.mp hi)])
  have hsumD : ∀ j : ℕ, ∑ i in Finset.range n,
        coeffAt coeffs o n j i * (chebDerivBasis x (chebBasis x n) n).getD i 0
      = ∑ i in Finset.range n, coeffAt coeffs o n j i * chebDT x i := fun j =>
    Finset.sum_congr rfl (fun i hi => by rw [hdt i (Finset.mem_range.mp hi)])
  simp only [hsumT, hsumD, chebEval]
  have hcn : ∀ a b : Fin 3, (Fin.castAdd 3 a : Fin (3 + 3)) ≠ Fin.natAdd 3 b := by
    intro a b h
    have := congrArg Fin.val h
    simp only [Fin.coe_castAdd, Fin.coe_natAdd] at this
    omega
  have hnc : ∀ a b : Fin 3, (Fin.natAdd 3 b : Fin (3 + 3)) ≠ Fin.castAdd 3 a :=
    fun a b => (hcn a b).symm
  refine Fin.addCases (m := 3) (n := 3) (fun j => ?_) (fun j => ?_) q
  · rw [Fin.append_left]
    simp only [(Fin.castAdd_injective 3 3).eq_iff, Finset.sum_ite_eq', Finset.mem_univ, if_true,
      hcn, hnc, if_false, Finset.sum_const_zero, add_zero, zero_add]
  · rw [Fin.append_right]
    simp only [hinj.eq_iff, Finset.sum_ite_eq', Finset.mem_univ, if_true,
      hcn, hnc, if_false, Finset.sum_const_zero, add_zero, zero_add]

theorem chebT_eq_eval (x : ℚ) : ∀ n : ℕ,
    chebT x n = (Polynomial.Chebyshev.T ℚ (n : ℤ)).eval x
  | 0 => by simp [chebT]
  | 1 => by simp [chebT]
  | n + 2 => by
    have h := Polynomial.Chebyshev.T_add_two ℚ (n : ℤ)
    rw [show ((n + 2 : ℕ) : ℤ) = (n : ℤ) + 2 by push_cast; ring, h]
    simp only [chebT, Polynomial.eval_sub, Polynomial.eval_mul, Polynomial.eval_X,
      Polynomial.eval_ofNat]
    rw [chebT_eq_eval x (n + 1), chebT_eq_eval x n]
    push_cast
    rfl

theorem chebDT_eq_eval_derivative (x : ℚ) : ∀ n : ℕ,
    chebDT x n = (Polynomial.derivative (Polynomial.Chebyshev.T ℚ (n : ℤ))).eval x
  | 0 => by simp [chebDT]
  | 1 => by simp [chebDT]
  | n + 2 => by
    have h := Polynomial.Chebyshev.T_add_two ℚ (n : ℤ)
    rw [show ((n + 2 : ℕ) : ℤ) = (n : ℤ) + 2 by push_cast; ring, h]
    simp only [chebDT, Polynomial.derivative_sub, Polynomial.derivative_mul,
      Polynomial.derivative_ofNat, Polynomial.derivative_X, Polynomial.eval_sub,
      Polynomial.eval_add, Polynomial.eval_mul, Polynomial.eval_X, Polynomial.eval_ofNat,
      Polynomial.eval_zero, Polynomial.eval_one]
    rw [chebDT_eq_eval_derivative x (n + 1), chebDT_eq_eval_derivative x n,
      chebT_eq_eval x (n + 1)]
    push_cast
    ring

/-! ## Lemmas on `computePosition` -/

theorem evalBody_unpopulated (hdr : JplHeader) (record : List ℚ) (t0 r1 : ℚ) (pv : PV)
    (k : Fin 11) (h : hdr.IPT 0 (slot13 k) = 0) :
    evalBody hdr record t0 r1 pv k = .ok (pv, none) := by
  unfold evalBody
  simp only [h, if_true]

theorem evalBody_populated (hdr : JplHeader) (record : List ℚ) (t0 r1 : ℚ) (pv : PV)
    (k : Fin 11) (h : hdr.IPT 0 (slot13 k) ≠ 0) :
    evalBody hdr record t0 r1 pv k =
      (subInterval (hdr.IPT 2 (slot13 k)) t0 r1).bind (fun l =>
        (interpolateChebyshev record
            (blockOffset (hdr.IPT 0 (slot13 k)) (hdr.IPT 1 (slot13 k)) l)
            (hdr.IPT 1 (slot13 k))
            (2 * ((hdr.IPT 2 (slot13 k) : ℚ) * t0 - (l : ℚ)) - 1) (pv (slot15 k))).map
          (storeBody pv (slot15 k) (hdr.IPT 2 (slot13 k)) r1)) := by
  unfold evalBody
  simp only [h, if_false]
  cases subInterval (hdr.IPT 2 (slot13 k)) t0 r1 with
  | error f => rfl
  | ok l =>
    simp only [bind, Except.bind]
    cases interpolateChebyshev record
      (blockOffset (hdr.IPT 0 (slot13 k)) (hdr.IPT 1 (slot13 k)) l) (hdr.IPT 1 (slot13 k))
      (2 * ((hdr.IPT 2 (slot13 k) : ℚ) * t0 - (l : ℚ)) - 1) (pv (slot15 k)) with
    | error f => rfl
    | ok out => rfl

theorem blockOffset_eq (na nc l : ℤ) (hna : 0 ≤ na) (hnc : 0 ≤ nc) (hl : 0 ≤ l)
    (h : na + l * nc * 3 < 2 ^ 63) : blockOffset na nc l = na + l * nc * 3 := by
  have h0 : 0 ≤ l * nc := mul_nonneg hl hnc
  unfold blockOffset
  rw [wrap64_eq_self (z := l * nc) (by omega) (by omega),
    wrap64_eq_self (z := l * nc * 3) (by omega) (by omega),
    wrap64_eq_self (z := na + l * nc * 3) (by omega) (by omega)]

/-- What a returning loop iteration has done: skipped an unpopulated slot, or stored
the outcome of `interpolateChebyshev` for a populated one. -/
theorem evalBody_cases (hdr : JplHeader) (record : List ℚ) (t0 r1 : ℚ) (pv pv2 : PV)
    (k : Fin 11) (e : Option GoError) (h : evalBody hdr record t0 r1 pv k = .ok (pv2, e)) :
    (hdr.IPT 0 (slot13 k) = 0 ∧ pv2 = pv ∧ e = none) ∨
    (hdr.IPT 0 (slot13 k) ≠ 0 ∧ ∃ l out,
      subInterval (hdr.IPT 2 (slot13 k)) t0 r1 = .ok l ∧
      interpolateChebyshev record
        (blockOffset (hdr.IPT 0 (slot13 k)) (hdr.IPT 1 (slot13 k)) l) (hdr.IPT 1 (slot13 k))
        (2 * ((hdr.IPT 2 (slot13 k) : ℚ) * t0 - (l : ℚ)) - 1) (pv (slot15 k)) = .ok out ∧
      (pv2, e) = storeBody pv (slot15 k) (hdr.IPT 2 (slot13 k)) r1 out) := by
  by_cases hna : hdr.IPT 0 (slot13 k) = 0
  · left
    rw [evalBody_unpopulated hdr record t0 r1 pv k hna] at h
    cases h
    exact ⟨hna, rfl, rfl⟩
  · right
    refine ⟨hna, ?_⟩
    rw [evalBody_populated hdr record t0 r1 pv k hna] at h
    cases hs : subInterval (hdr.IPT 2 (slot13 k)) t0 r1 with
    | error f => rw [hs] at h; cases h
    | ok l =>
      rw [hs] at h
      simp only [Except.bind] at h
      cases hi : interpolateChebyshev record
        (blockOffset (hdr.IPT 0 (slot13 k)) (hdr.IPT 1 (slot13 k)) l) (hdr.IPT 1 (slot13 k))
        (2 * ((hdr.IPT 2 (slot13 k) : ℚ) * t0 - (l : ℚ)) - 1) (pv (slot15 k)) with
      | error f => rw [hi] at h; cases h
      | ok out =>
        rw [hi] at h
        exact ⟨l, out, rfl, hi, (Except.ok.inj h).symm⟩

/-- An error returned by a loop iteration is the too-few-coefficients error of a
populated slot. -/
theorem evalBody_error (hdr : JplHeader) (record : List ℚ) (t0 r1 : ℚ) (pv pv2 : PV)
    (k : Fin 11) (e : GoError) (h : evalBody hdr record t0 r1 pv k = .ok (pv2, some e)) :
    hdr.IPT 0 (slot13 k) ≠ 0 ∧ hdr.IPT 1 (slot13 k) < 2 ∧
      e = .tooFewCoeffs (hdr.IPT 1 (slot13 k)) := by
  rcases evalBody_cases hdr record t0 r1 pv pv2 k (some e) h with ⟨_, _, h3⟩ | ⟨hna, l, out, _, hi, hst⟩
  · cases h3
  · refine ⟨hna, ?_⟩
    by_cases hnc : hdr.IPT 1 (slot13 k) < 2
    · rw [interpolateChebyshev_lt_two _ _ _ _ _ hnc] at hi
      cases hi
      simp only [storeBody] at hst
      cases hst
      exact ⟨hnc, rfl⟩
    · obtain ⟨res, eo⟩ := out
      have := interpolateChebyshev_ge_two _ _ _ _ _ res eo (by omega) hi
      subst this
      simp only [storeBody] at hst
      cases hst

/-- A loop iteration that returns without error on a populated slot had at least two
coefficients per component. -/
theorem evalBody_success (hdr : JplHeader) (record : List ℚ) (t0 r1 : ℚ) (pv pv2 : PV)
    (k : Fin 11) (h : evalBody hdr record t0 r1 pv k = .ok (pv2, none))
    (hna : hdr.IPT 0 (slot13 k) ≠ 0) : 2 ≤ hdr.IPT 1 (slot13 k) := by
  rcases evalBody_cases hdr record t0 r1 pv pv2 k none h with ⟨h0, _, _⟩ | ⟨_, l, out, _, hi, hst⟩
  · exact absurd h0 hna
  · by_contra hnc
    rw [interpolateChebyshev_lt_two _ _ _ _ _ (by omega)] at hi
    cases hi
    simp only [storeBody] at hst
    cases hst

/-- A loop iteration writes no entry of `pv` other than its own. -/
theorem evalBody_frame (hdr : JplHeader) (record : List ℚ) (t0 r1 : ℚ) (pv pv2 : PV)
    (k : Fin 11) (e : Option GoError) (h : evalBody hdr record t0 r1 pv k = .ok (pv2, e))
    (q : Fin 15) (hq : slot15 k = q → hdr.IPT 0 (slot13 k) = 0) : pv2 q = pv q := by
  rcases evalBody_cases hdr record t0 r1 pv pv2 k e h with ⟨_, h2, _⟩ | ⟨hna, l, out, _, _, hst⟩
  · rw [h2]
  · have hne : q ≠ slot15 k := fun hqk => hna (hq hqk.symm)
    obtain ⟨res, eo⟩ := out
    cases eo with
    | none =>
      simp only [storeBody] at hst
      cases hst
      exact Function.update_noteq hne _ _
    | some e2 =>
      simp only [storeBody] at hst
      cases hst
      exact Function.update_noteq hne _ _

theorem evalBodies_cons (hdr : JplHeader) (record : List ℚ) (t0 r1 : ℚ) (k : Fin 11)
    (ks : List (Fin 11)) (pv : PV) :
    evalBodies hdr record t0 r1 (k :: ks) pv =
      match evalBody hdr record t0 r1 pv k with
      | .error f => .error f
      | .ok (pv2, some e) => .ok (pv2, some e)
      | .ok (pv2, none) => evalBodies hdr record t0 r1 ks pv2 := by
  rw [evalBodies]
  cases evalBody hdr record t0 r1 pv k with
  | error f => rfl
  | ok out =>
    obtain ⟨pv2, e⟩ := out
    cases e <;> rfl

theorem evalBodies_error (hdr : JplHeader) (record : List ℚ) (t0 r1 : ℚ) :
    ∀ (ks : List (Fin 11)) (pv pv2 : PV) (e : GoError),
      evalBodies hdr record t0 r1 ks pv = .ok (pv2, some e) →
      ∃ k, k ∈ ks ∧ hdr.IPT 0 (slot13 k) ≠ 0 ∧ hdr.IPT 1 (slot13 k) < 2 ∧
        e = .tooFewCoeffs (hdr.IPT 1 (slot13 k)) := by
  intro ks
  induction ks with
  | nil => intro pv pv2 e h; simp [evalBodies] at h
  | cons k ks ih =>
    intro pv pv2 e h
    rw [evalBodies_cons] at h
    cases hb : evalBody hdr record t0 r1 pv k with
    | error f => rw [hb] at h; cases h
    | ok out =>
      obtain ⟨pv3, e3⟩ := out
      rw [hb] at h
      cases e3 with
      | some e4 =>
        simp only at h
        cases h
        obtain ⟨h1, h2, h3⟩ := evalBody_error hdr record t0 r1 pv pv2 k e hb
        exact ⟨k, List.mem_cons_self _ _, h1, h2, h3⟩
      | none =>
        simp only at h
        obtain ⟨k2, hk, hrest⟩ := ih pv3 pv2 e h
        exact ⟨k2, List.mem_cons_of_mem _ hk, hrest⟩

theorem evalBodies_success (hdr : JplHeader) (record : List ℚ) (t0 r1 : ℚ) :
    ∀ (ks : List (Fin 11)) (pv pv2 : PV),
      evalBodies hdr record t0 r1 ks pv = .ok (pv2, none) →
      ∀ k, k ∈ ks → hdr.IPT 0 (slot13 k) ≠ 0 → 2 ≤ hdr.IPT 1 (slot13 k) := by
  intro ks
  induction ks with
  | nil => intro pv pv2 _ k hk; cases hk
  | cons k ks ih =>
    intro pv pv2 h k2 hk2 hna
    rw [evalBodies_cons] at h
    cases hb : evalBody hdr record t0 r1 pv k with
    | error f => rw [hb] at h; cases h
    | ok out =>
      obtain ⟨pv3, e3⟩ := out
      rw [hb] at h
      cases e3 with
      | some e4 => simp only at h; cases h
      | none =>
        simp only at h
        rcases List.mem_cons.mp hk2 with rfl | hmem
        · exact evalBody_success hdr record t0 r1 pv pv3 k2 hb hna
        · exact ih pv3 pv2 h k2 hmem hna

theorem evalBodies_frame (hdr : JplHeader) (record : List ℚ) (t0 r1 : ℚ) :
    ∀ (ks : List (Fin 11)) (pv pv2 : PV) (e : Option GoError),
      evalBodies hdr record t0 r1 ks pv = .ok (pv2, e) →
      ∀ q : Fin 15, (∀ k, k ∈ ks → slot15 k = q → hdr.IPT 0 (slot13 k) = 0) →
        pv2 q = pv q := by
  intro ks
  induction ks with
  | nil =>
    intro pv pv2 e h q _
    simp only [evalBodies] at h
    cases h
    rfl
  | cons k ks ih =>
    intro pv pv2 e h q hq
    rw [evalBodies_cons] at h
    cases hb : evalBody hdr record t0 r1 pv k with
    | error f => rw [hb] at h; cases h
    | ok out =>
      obtain ⟨pv3, e3⟩ := out
      rw [hb] at h
      have hk := evalBody_frame hdr record t0 r1 pv pv3 k e3 hb q
        (hq k (List.mem_cons_self _ _))
      cases e3 with
      | some e4 =>
        simp only at h
        cases h
        exact hk
      | none =>
        simp only at h
        rw [ih pv3 pv2 e h q (fun k2 hk2 => hq k2 (List.mem_cons_of_mem _ hk2)), hk]

/-- The shape of `computePosition` in terms of its three stages. -/
theorem computePosition_eq (hdr : JplHeader) (record : List ℚ) (et : ℚ) (ntarg ncent : ℤ)
    (rrd : Vec6) :
    computePosition hdr record et ntarg ncent rrd =
      match workingVectors hdr record et with
      | .error f => .error f
      | .ok (_, some e) => .ok (rrd, some e)
      | .ok (pv, none) =>
        (composeRelative (moonCorrection ntarg pv) ntarg ncent rrd).map (fun r => (r, none)) := by
  unfold computePosition
  cases workingVectors hdr record et with
  | error f => rfl
  | ok out =>
    obtain ⟨pv, e⟩ := out
    cases e with
    | some e => rfl
    | none =>
      simp only [bind, Except.bind]
      cases composeRelative (moonCorrection ntarg pv) ntarg ncent rrd <;> rfl

/-- An error returned by the evaluation loop is the too-few-coefficients error of a
populated slot below 11. -/
theorem workingVectors_error (hdr : JplHeader) (record : List ℚ) (et : ℚ) (pv : PV)
    (e : GoError) (h : workingVectors hdr record et = .ok (pv, some e)) :
    ∃ k : Fin 11, hdr.IPT 0 (slot13 k) ≠ 0 ∧ hdr.IPT 1 (slot13 k) < 2 ∧
      e = .tooFewCoeffs (hdr.IPT 1 (slot13 k)) := by
  unfold workingVectors at h
  cases h0 : index record 0 with
  | error f => rw [h0] at h; cases h
  | ok r0 =>
    cases h1 : index record 1 with
    | error f => rw [h0, h1] at h; cases h
    | ok r1 =>
      rw [h0, h1] at h
      simp only [bind, Except.bind] at h
      obtain ⟨k, _, hk⟩ := evalBodies_error hdr record _ _ _ _ _ e h
      exact ⟨k, hk⟩

/-- When the evaluation loop succeeds, every populated slot below 11 has at least
two coefficients per component. -/
theorem workingVectors_success (hdr : JplHeader) (record : List ℚ) (et : ℚ) (pv : PV)
    (h : workingVectors hdr record et = .ok (pv, none)) (k : Fin 11)
    (hna : hdr.IPT 0 (slot13 k) ≠ 0) : 2 ≤ hdr.IPT 1 (slot13 k) := by
  unfold workingVectors at h
  cases h0 : index record 0 with
  | error f => rw [h0] at h; cases h
  | ok r0 =>
    cases h1 : index record 1 with
    | error f => rw [h0, h1] at h; cases h
    | ok r1 =>
      rw [h0, h1] at h
      simp only [bind, Except.bind] at h
      exact evalBodies_success hdr record _ _ _ _ _ h k (List.mem_finRange k) hna

/-- The working vector of a body that the loop does not evaluate (slot index 11 or
above, or coefficient offset 0 in the header) is the zero vector. -/
theorem workingVectors_zero (hdr : JplHeader) (record : List ℚ) (et : ℚ) (pv : PV)
    (e : Option GoError) (h : workingVectors hdr record et = .ok (pv, e)) (q : Fin 15)
    (hq : ∀ k : Fin 11, slot15 k = q → hdr.IPT 0 (slot13 k) = 0) : pv q = zero6 := by
  unfold workingVectors at h
  cases h0 : index record 0 with
  | error f => rw [h0] at h; cases h
  | ok r0 =>
    cases h1 : index record 1 with
    | error f => rw [h0, h1] at h; cases h
    | ok r1 =>
      rw [h0, h1] at h
      simp only [bind, Except.bind] at h
      exact evalBodies_frame hdr record _ _ _ _ _ e h q (fun k _ => hq k)

theorem computePosition_ok_none (hdr : JplHeader) (record : List ℚ) (et : ℚ)
    (ntarg ncent : ℤ) (rrd r : Vec6)
    (h : computePosition hdr record et ntarg ncent rrd = .ok (r, none)) :
    ∃ pv, workingVectors hdr record et = .ok (pv, none) ∧
      composeRelative (moonCorrection ntarg pv) ntarg ncent rrd = .ok r := by
  rw [computePosition_eq] at h
  cases hw : workingVectors hdr record et with
  | error f => rw [hw] at h; cases h
  | ok out =>
    obtain ⟨pv, e⟩ := out
    rw [hw] at h
    cases e with
    | some e => simp only at h; cases h
    | none =>
      simp only at h
      cases hc : composeRelative (moonCorrection ntarg pv) ntarg ncent rrd with
      | error f => rw [hc] at h; cases h
      | ok r2 =>
        rw [hc] at h
        simp only [Except.map] at h
        cases h
        exact ⟨pv, rfl, hc⟩

theorem computePosition_ok_some (hdr : JplHeader) (record : List ℚ) (et : ℚ)
    (ntarg ncent : ℤ) (rrd r : Vec6) (e : GoError)
    (h : computePosition hdr record et ntarg ncent rrd = .ok (r, some e)) :
    r = rrd ∧ ∃ pv, workingVectors hdr record et = .ok (pv, some e) := by
  rw [computePosition_eq] at h
  cases hw : workingVectors hdr record et with
  | error f => rw [hw] at h; cases h
  | ok out =>
    obtain ⟨pv, e2⟩ := out
    rw [hw] at h
    cases e2 with
    | some e3 =>
      simp only at h
      cases h
      exact ⟨rfl, pv, rfl⟩
    | none =>
      simp only at h
      cases hc : composeRelative (moonCorrection ntarg pv) ntarg ncent rrd with
      | error f => rw [hc] at h; cases h
      | ok r2 =>
        rw [hc] at h
        simp only [Except.map] at h
        cases h

theorem chebEval_unit (x : ℚ) :
    chebEval [1, 0, 0, 0, 0, 0] 0 2 x = ![1, 0, 0, 0, 0, 0] := by
  have h1 : (fun j : Fin 3 =>
      ∑ i in Finset.range 2, coeffAt [1, 0, 0, 0, 0, 0] 0 2 j i * chebT x i) = ![1, 0, 0] := by
    funext j
    fin_cases j <;> simp [coeffAt, Finset.sum_range_succ, chebT]
  have h2 : (fun j : Fin 3 =>
      ∑ i in Finset.range 2, coeffAt [1, 0, 0, 0, 0, 0] 0 2 j i * chebDT x i) = ![0, 0, 0] := by
    funext j
    fin_cases j <;> simp [coeffAt, Finset.sum_range_succ, chebDT]
  unfold chebEval
  rw [h1, h2]
  funext q
  fin_cases q <;> rfl

theorem slot15_injective : Function.Injective slot15 := by
  intro a b h
  have := congrArg Fin.val h
  simp only [slot15, Fin.coe_castLE] at this
  exact Fin.ext this

/-- The slice argument `result` of `interpolateChebyshev` is overwritten before it is
read: the outcome does not depend on its content on entry. -/
theorem interpolateChebyshev_entry (coeffs : List ℚ) (offset ncoeff : ℤ) (x : ℚ)
    (r1 r2 : Vec6) :
    interpolateChebyshev coeffs offset ncoeff x r1 =
      interpolateChebyshev coeffs offset ncoeff x r2 := rfl

/-- After a successful run of the loop, the entry of a populated slot is the scaled
outcome of `interpolateChebyshev` on that slot's block. -/
theorem evalBodies_value (hdr : JplHeader) (record : List ℚ) (t0 r1 : ℚ) :
    ∀ (ks : List (Fin 11)) (pv pv2 : PV), ks.Nodup →
      evalBodies hdr record t0 r1 ks pv = .ok (pv2, none) →
      ∀ k, k ∈ ks → hdr.IPT 0 (slot13 k) ≠ 0 →
        ∃ l res, subInterval (hdr.IPT 2 (slot13 k)) t0 r1 = .ok l ∧
          interpolateChebyshev record
            (blockOffset (hdr.IPT 0 (slot13 k)) (hdr.IPT 1 (slot13 k)) l)
            (hdr.IPT 1 (slot13 k))
            (2 * ((hdr.IPT 2 (slot13 k) : ℚ) * t0 - (l : ℚ)) - 1) zero6 = .ok (res, none) ∧
          pv2 (slot15 k) = scaleVelocity res (2 * (hdr.IPT 2 (slot13 k) : ℚ) / r1) := by
  intro ks
  induction ks with
  | nil => intro pv pv2 _ _ k hk; cases hk
  | cons k0 ks ih =>
    intro pv pv2 hnd h k hk hna
    rw [evalBodies_cons] at h
    cases hb : evalBody hdr record t0 r1 pv k0 with
    | error f => rw [hb] at h; cases h
    | ok out =>
      obtain ⟨pv3, e3⟩ := out
      rw [hb] at h
      cases e3 with
      | some e4 => simp only at h; cases h
      | none =>
        simp only at h
        rcases List.mem_cons.mp hk with rfl | hmem
        · rcases evalBody_cases hdr record t0 r1 pv pv3 k none hb with
            ⟨h0, _, _⟩ | ⟨_, l, out, hl, hi, hst⟩
          · exact absurd h0 hna
          · obtain ⟨res, eo⟩ := out
            cases eo with
            | some e5 => simp only [storeBody] at hst; cases hst
            | none =>
              simp only [storeBody, Prod.mk.injEq, and_true] at hst
              refine ⟨l, res, hl, ?_, ?_⟩
              · rw [interpolateChebyshev_entry _ _ _ _ zero6 (pv (slot15 k))]
                exact hi
              · have hfr := evalBodies_frame hdr record t0 r1 ks pv3 pv2 none h (slot15 k)
                  (fun k2 hk2 heq => by
                    have : k2 = k := slot15_injective heq
                    subst this
                    exact absurd hk2 (List.nodup_cons.mp hnd).1)
                rw [hfr, hst]
                simp
        · exact ih pv3 pv2 (List.nodup_cons.mp hnd).2 h k hmem hna

/-- The working vector of a populated slot `k < 11` after a successful evaluation
loop: the Chebyshev evaluation of its block at the slot's sub-interval, with the
velocity scaled by `2·ns / record[1]`. -/
theorem workingVectors_value (hdr : JplHeader) (record : List ℚ) (et : ℚ) (pv : PV)
    (h : workingVectors hdr record et = .ok (pv, none)) (k : Fin 11)
    (hna : hdr.IPT 0 (slot13 k) ≠ 0) :
    ∃ r0 r1 l res, index record 0 = .ok r0 ∧ index record 1 = .ok r1 ∧
      subInterval (hdr.IPT 2 (slot13 k)) ((et - r0) / r1) r1 = .ok l ∧
      interpolateChebyshev record
        (blockOffset (hdr.IPT 0 (slot13 k)) (hdr.IPT 1 (slot13 k)) l) (hdr.IPT 1 (slot13 k))
        (2 * ((hdr.IPT 2 (slot13 k) : ℚ) * ((et - r0) / r1) - (l : ℚ)) - 1) zero6
          = .ok (res, none) ∧
      pv (slot15 k) = scaleVelocity res (2 * (hdr.IPT 2 (slot13 k) : ℚ) / r1) := by
  unfold workingVectors at h
  cases h0 : index record 0 with
  | error f => rw [h0] at h; cases h
  | ok r0 =>
    cases h1 : index record 1 with
    | error f => rw [h0, h1] at h; cases h
    | ok r1 =>
      rw [h0, h1] at h
      simp only [bind, Except.bind] at h
      obtain ⟨l, res, hl, hi, hv⟩ := evalBodies_value hdr record _ _ _ _ _
        (List.nodup_finRange 11) h k (List.mem_finRange k) hna
      exact ⟨r0, r1, l, res, rfl, rfl, hl, hi, hv⟩

theorem indexPV_fin (pv : PV) (q : Fin 15) : indexPV pv (q.val : ℤ) = .ok (pv q) := by
  unfold indexPV
  have h : 0 ≤ (q.val : ℤ) ∧ (q.val : ℤ) < 15 := ⟨by omega, by omega⟩
  rw [dif_pos h]
  congr 2

/-- The Moon special case reads `pv[JEmb] = pv[12]`, which the loop over `k < 11`
never writes: after the loop it is the zero vector, so the special case leaves the
working array as it is. -/
theorem moonCorrection_noop (hdr : JplHeader) (record : List ℚ) (et : ℚ) (pv : PV)
    (e : Option GoError) (h : workingVectors hdr record et = .ok (pv, e)) (ntarg : ℤ) :
    moonCorrection ntarg pv = pv := by
  have h12 : pv 12 = zero6 :=
    workingVectors_zero hdr record et pv e h 12 (fun k hk => by
      have := congrArg Fin.val hk
      simp only [slot15, Fin.coe_castLE] at this
      have hk11 := k.isLt
      have h12v : ((12 : Fin 15) : ℕ) = 12 := rfl
      omega)
  unfold moonCorrection
  split
  · funext q
    by_cases hq : q = 9
    · subst hq
      rw [Function.update_same, h12]
      funext i
      simp [zero6]
    · rw [Function.update_noteq hq]
  · rfl

/-- The outcomes of `Pleph`, stage by stage. -/
theorem Pleph_eq (env : Env) (jd : JplData) (et : ℚ) (ntarg ncent : ℤ) :
    Pleph env jd et ntarg ncent =
      if jd.IsOpen = false then .ok (zero6, some .notOpen)
      else if et < jd.Header.StartJD ∨ et > jd.Header.EndJD then
        .ok (zero6, some (.outOfRange et))
      else
        match recordIndex jd.Header et with
        | .error f => .error f
        | .ok n =>
          match readJplRecord env jd.File n with
          | .error e => .ok (zero6, some (.recordFailed e))
          | .ok record =>
            match computePosition jd.Header record et ntarg ncent zero6 with
            | .error f => .error f
            | .ok (r, some e) => .ok (r, some (.computeFailed e))
            | .ok (r, none) => .ok (r, none) := by
  unfold Pleph
  cases hopen : jd.IsOpen with
  | false => simp
  | true =>
    simp only [Bool.not_true, Bool.false_eq_true, if_false]
    split
    · rfl
    · cases recordIndex jd.Header et with
      | error f => rfl
      | ok n =>
        simp only [bind, Except.bind]
        cases readJplRecord env jd.File n with
        | error e => rfl
        | ok record =>
          simp only
          cases computePosition jd.Header record et ntarg ncent zero6 with
          | error f => rfl
          | ok out =>
            obtain ⟨r, e⟩ := out
            cases e <;> rfl

/-- Every error return of `Pleph` carries the zero vector, and the error is the
out-of-range error only when the time is out of range. -/
theorem Pleph_error (env : Env) (jd : JplData) (et : ℚ) (ntarg ncent : ℤ) (r : Vec6)
    (e : GoError) (h : Pleph env jd et ntarg ncent = .ok (r, some e)) :
    r = zero6 ∧ (∀ x, e = .outOfRange x →
      jd.IsOpen = true ∧ (et < jd.Header.StartJD ∨ et > jd.Header.EndJD)) := by
  rw [Pleph_eq] at h
  split at h
  · cases h
    exact ⟨rfl, fun x hx => by cases hx⟩
  · rename_i hopen
    split at h
    · rename_i hr
      cases h
      exact ⟨rfl, fun x _ => ⟨by simpa using hopen, hr⟩⟩
    · cases hi : recordIndex jd.Header et with
      | error f => rw [hi] at h; cases h
      | ok n =>
        rw [hi] at h
        simp only at h
        cases hrec : readJplRecord env jd.File n with
        | error e1 =>
          rw [hrec] at h
          simp only at h
          cases h
          exact ⟨rfl, fun x hx => by cases hx⟩
        | ok record =>
          rw [hrec] at h
          simp only at h
          cases hc : computePosition jd.Header record et ntarg ncent zero6 with
          | error f => rw [hc] at h; cases h
          | ok out =>
            obtain ⟨r2, e2⟩ := out
            rw [hc] at h
            cases e2 with
            | none => simp only at h; cases h
            | some e3 =>
              simp only at h
              cases h
              exact ⟨(computePosition_ok_some _ _ _ _ _ _ _ _ hc).1,
                fun x hx => by cases hx⟩

theorem evalBodies_append (hdr : JplHeader) (record : List ℚ) (t0 r1 : ℚ) :
    ∀ (xs ys : List (Fin 11)) (pv : PV),
      evalBodies hdr record t0 r1 (xs ++ ys) pv =
        match evalBodies hdr record t0 r1 xs pv with
        | .error f => .error f
        | .ok (pv1, some e) => .ok (pv1, some e)
        | .ok (pv1, none) => evalBodies hdr record t0 r1 ys pv1 := by
  intro xs
  induction xs with
  | nil => intro ys pv; simp [evalBodies]
  | cons k xs ih =>
    intro ys pv
    rw [List.cons_append, evalBodies_cons, evalBodies_cons]
    cases evalBody hdr record t0 r1 pv k with
    | error f => rfl
    | ok out =>
      obtain ⟨pv3, e3⟩ := out
      cases e3 with
      | some e4 => rfl
      | none => exact ih ys pv3

/-- An error of the loop comes from an iteration that was reached and whose slot was
evaluated with fewer than two coefficients. -/
theorem evalBodies_error_split (hdr : JplHeader) (record : List ℚ) (t0 r1 : ℚ) :
    ∀ (ks : List (Fin 11)) (pv pv2 : PV) (e : GoError),
      evalBodies hdr record t0 r1 ks pv = .ok (pv2, some e) →
      ∃ xs k ys pv1 l, ks = xs ++ k :: ys ∧
        evalBodies hdr record t0 r1 xs pv = .ok (pv1, none) ∧
        hdr.IPT 0 (slot13 k) ≠ 0 ∧
        subInterval (hdr.IPT 2 (slot13 k)) t0 r1 = .ok l ∧ hdr.IPT 1 (slot13 k) < 2 := by
  intro ks
  induction ks with
  | nil => intro pv pv2 e h; simp [evalBodies] at h
  | cons k ks ih =>
    intro pv pv2 e h
    rw [evalBodies_cons] at h
    cases hb : evalBody hdr record t0 r1 pv k with
    | error f => rw [hb] at h; cases h
    | ok out =>
      obtain ⟨pv3, e3⟩ := out
      rw [hb] at h
      cases e3 with
      | some e4 =>
        simp only at h
        cases h
        obtain ⟨h1, h2, _⟩ := evalBody_error hdr record t0 r1 pv pv2 k e hb
        rcases evalBody_cases hdr record t0 r1 pv pv2 k (some e) hb with
          ⟨h0, _, _⟩ | ⟨_, l, _, hl, _, _⟩
        · exact absurd h0 h1
        · exact ⟨[], k, ks, pv, l, rfl, by simp [evalBodies], h1, hl, h2⟩
      | none =>
        simp only at h
        obtain ⟨xs, k2, ys, pv1, l, hks, hxs, h1, hl, h2⟩ := ih pv3 pv2 e h
        refine ⟨k :: xs, k2, ys, pv1, l, by rw [hks]; rfl, ?_, h1, hl, h2⟩
        rw [evalBodies_cons, hb]
        exact hxs

/-- An iteration that is reached and evaluates a slot with fewer than two
coefficients makes the loop return the too-few-coefficients error. -/
theorem evalBodies_error_of_split (hdr : JplHeader) (record : List ℚ) (t0 r1 : ℚ)
    (xs ys : List (Fin 11)) (k : Fin 11) (pv pv1 : PV) (l : ℤ)
    (hxs : evalBodies hdr record t0 r1 xs pv = .ok (pv1, none))
    (hna : hdr.IPT 0 (slot13 k) ≠ 0)
    (hl : subInterval (hdr.IPT 2 (slot13 k)) t0 r1 = .ok l)
    (hnc : hdr.IPT 1 (slot13 k) < 2) :
    evalBodies hdr record t0 r1 (xs ++ k :: ys) pv =
      .ok (Function.update pv1 (slot15 k) zero6,
        some (.tooFewCoeffs (hdr.IPT 1 (slot13 k)))) := by
  rw [evalBodies_append, hxs]
  simp only
  rw [evalBodies_cons, evalBody_populated hdr record t0 r1 pv1 k hna, hl]
  simp only [Except.bind]
  rw [interpolateChebyshev_lt_two _ _ _ _ _ hnc]
  rfl

/-- The loop of `computePosition` returns an error exactly when some evaluated slot
has fewer than two coefficients per component. -/
theorem workingVectors_error_iff (hdr : JplHeader) (record : List ℚ) (et : ℚ) :
    (∃ pv e, workingVectors hdr record et = .ok (pv, some e)) ↔
      ∃ k : Fin 11, SlotEvaluated hdr record et k ∧ hdr.IPT 1 (slot13 k) < 2 := by
  constructor
  · rintro ⟨pv, e, h⟩
    unfold workingVectors at h
    cases h0 : index record 0 with
    | error f => rw [h0] at h; cases h
    | ok r0 =>
      cases h1 : index record 1 with
      | error f => rw [h0, h1] at h; cases h
      | ok r1 =>
        rw [h0, h1] at h
        simp only [bind, Except.bind] at h
        obtain ⟨xs, k, ys, pv1, l, hks, hxs, hna, hl, hnc⟩ :=
          evalBodies_error_split hdr record _ _ _ _ _ e h
        exact ⟨k, ⟨r0, r1, pv1, l, xs, ys, h0, h1, hks, hxs, hna, hl⟩, hnc⟩
  · rintro ⟨k, ⟨r0, r1, pv1, l, xs, ys, h0, h1, hks, hxs, hna, hl⟩, hnc⟩
    refine ⟨Function.update pv1 (slot15 k) zero6,
      .tooFewCoeffs (hdr.IPT 1 (slot13 k)), ?_⟩
    unfold workingVectors
    rw [h0, h1]
    simp only [bind, Except.bind]
    rw [hks]
    exact evalBodies_error_of_split hdr record _ _ xs ys k _ pv1 l hxs hna hl hnc

/-! ## Lemmas on the session -/

theorem CloseJplFile_closed (jd : JplData) (hinv : jd.IsOpen = true → jd.File ≠ none) :
    (CloseJplFile jd).IsOpen = false := by
  unfold CloseJplFile
  cases hO : jd.IsOpen with
  | false => simp [hO]
  | true =>
    cases hF : jd.File with
    | none => exact absurd hF (hinv hO)
    | some f => simp

theorem preClose_closed (jd : JplData) (hinv : jd.IsOpen = true → jd.File ≠ none) :
    (if jd.IsOpen then CloseJplFile jd else jd).IsOpen = false := by
  cases hO : jd.IsOpen with
  | false => simp [hO]
  | true => simpa using CloseJplFile_closed jd hinv

/-- After `OpenJplFile` the session is open only with a file handle, and it is open
exactly when the call returned no error. -/
theorem OpenJplFile_state (env : Env) (jd : JplData) (ss : List ℚ) (fname fpath : String)
    (hinv : jd.IsOpen = true → jd.File ≠ none) :
    ((OpenJplFile env jd ss fname fpath).1.IsOpen = true →
      (OpenJplFile env jd ss fname fpath).1.File ≠ none) ∧
    ((OpenJplFile env jd ss fname fpath).2.2.isSome = true →
      (OpenJplFile env jd ss fname fpath).1.IsOpen = false) := by
  have hpre := preClose_closed jd hinv
  unfold OpenJplFile
  simp only
  split
  · simp [hpre]
  · split
    · simp [hpre]
    · simp

theorem Call.apply_state (jd : JplData) (c : Call)
    (hinv : jd.IsOpen = true → jd.File ≠ none) :
    ((c.apply jd).IsOpen = true → (c.apply jd).File ≠ none) ∧
    (c.leavesClosed jd = true → (c.apply jd).IsOpen = false) := by
  cases c with
  | openJplFile env ss fname fpath => exact OpenJplFile_state env jd ss fname fpath hinv
  | closeJplFile =>
    have h := CloseJplFile_closed jd hinv
    exact ⟨fun ho => by simp [Call.apply, h] at ho, fun _ => h⟩
  | close =>
    have h := CloseJplFile_closed jd hinv
    exact ⟨fun ho => by simp [Call.apply, Close, h] at ho, fun _ => h⟩

theorem runCalls_closed : ∀ (cs : List Call) (jd : JplData) (init : Bool),
    (jd.IsOpen = true → jd.File ≠ none) → (init = true → jd.IsOpen = false) →
    noOpenSince init jd cs = true → (runCalls jd cs).IsOpen = false := by
  intro cs
  induction cs with
  | nil =>
    intro jd init _ hinit h
    exact hinit h
  | cons c cs ih =>
    intro jd init hinv _ h
    obtain ⟨h1, h2⟩ := Call.apply_state jd c hinv
    exact ih (c.apply jd) (c.leavesClosed jd) h1 h2 h

/-! ## The claims -/

/-- Claim C1, as stated, fails: for the open session on `badFile` (slot 0 has
coefficient offset 2000) and `t = validStart = 0`, `Pleph(t, 0, 0)` does not return a
vector, it faults on `coeffs[2000]` of the 1018-entry record; and `computePosition`
with `ntarg == ncent` on a header whose slot 0 has one coefficient returns the error
without setting the result, which keeps its content `(1,2,3,4,5,6)`. -/
theorem C1_counterexample :
    ((sessionOf badFile).IsOpen = true ∧ (sessionOf badFile).Header.StartJD ≤ 0 ∧
      (0 : ℚ) ≤ (sessionOf badFile).Header.EndJD ∧
      Pleph (envOf badFile) (sessionOf badFile) 0 0 0 = .error .indexOutOfRange) ∧
    computePosition shortHeader exRecord 0 0 0 ![1, 2, 3, 4, 5, 6] =
      .ok (![1, 2, 3, 4, 5, 6], some (.tooFewCoeffs 1)) := by
  decide!

/-- Claim C1 (amended): for every session, time `t` and body index `n`,
`Pleph(t, n, n)` either faults while evaluating the populated slots (an out-of-range
coefficient index or an undefined float-to-int conversion) or returns the exact zero
6-vector, with or without an error; and `computePosition` with `ntarg == ncent` sets
all six components of the result to 0 whenever it returns without error. -/
theorem C1_same_body_zero (env : Env) (jd : JplData) (et : ℚ) (n : ℤ) :
    ((∃ f, Pleph env jd et n n = .error f) ∨ (∃ e, Pleph env jd et n n = .ok (zero6, e))) ∧
    (∀ (hdr : JplHeader) (record : List ℚ) (rrd r : Vec6),
      computePosition hdr record et n n rrd = .ok (r, none) → r = zero6) := by
  have hcp : ∀ (hdr : JplHeader) (record : List ℚ) (rrd r : Vec6),
      computePosition hdr record et n n rrd = .ok (r, none) → r = zero6 := by
    intro hdr record rrd r h
    obtain ⟨pv, _, hc⟩ := computePosition_ok_none hdr record et n n rrd r h
    simp only [composeRelative, if_true] at hc
    cases hc
    rfl
  refine ⟨?_, hcp⟩
  cases hp : Pleph env jd et n n with
  | error f => exact Or.inl ⟨f, rfl⟩
  | ok out =>
    obtain ⟨r, e⟩ := out
    right
    cases e with
    | some e1 =>
      have := (Pleph_error env jd et n n r e1 hp).1
      subst this
      exact ⟨some e1, rfl⟩
    | none =>
      refine ⟨none, ?_⟩
      rw [Pleph_eq] at hp
      split at hp
      · cases hp
      · split at hp
        · cases hp
        · cases hi : recordIndex jd.Header et with
          | error f => rw [hi] at hp; cases hp
          | ok m =>
            rw [hi] at hp
            simp only at hp
            cases hrec : readJplRecord env jd.File m with
            | error e1 => rw [hrec] at hp; simp only at hp; cases hp
            | ok record =>
              rw [hrec] at hp
              simp only at hp
              cases hc : computePosition jd.Header record et n n zero6 with
              | error f => rw [hc] at hp; cases hp
              | ok out =>
                obtain ⟨r2, e2⟩ := out
                rw [hc] at hp
                cases e2 with
                | some e3 => simp only at hp; cases hp
                | none =>
                  simp only at hp
                  cases hp
                  rw [hcp jd.Header record zero6 r hc]

/-- The amended C1 is not vacuous: on the open session on `goodFile`, at
`t = validStart = 0`, `Pleph(t, 0, 0)` returns the zero vector and no error. -/
theorem C1_same_body_zero_witness :
    (sessionOf goodFile).IsOpen = true ∧
    Pleph (envOf goodFile) (sessionOf goodFile) 0 0 0 = .ok (zero6, none) ∧
    ((∃ f, Pleph (envOf goodFile) (sessionOf goodFile) 0 0 0 = .error f) ∨
      (∃ e, Pleph (envOf goodFile) (sessionOf goodFile) 0 0 0 = .ok (zero6, e))) :=
  ⟨by decide!, by decide!, (C1_same_body_zero (envOf goodFile) (sessionOf goodFile) 0 0).1⟩

/-- Claim C2: for target and center indices in `0..14` with `target != center`, when
the evaluation loop has produced the working array `pv` (Moon special case applied),
`computePosition` returns `pv[target]` unmodified when the center is `JSbary`, and
otherwise `pv[target] − pv[center]` component-wise; the working vector of a populated
slot `k < 11` is the scaled Chebyshev evaluation of its block, that of any other
slot is the zero vector. -/
theorem C2_relative_composition (hdr : JplHeader) (record : List ℚ) (et : ℚ)
    (target center : Fin 15) (rrd : Vec6) (pv0 : PV) (hne : target ≠ center)
    (hw : workingVectors hdr record et = .ok (pv0, none)) :
    ((center.val : ℤ) = JSbary →
      computePosition hdr record et (target.val : ℤ) (center.val : ℤ) rrd =
        .ok (moonCorrection (target.val : ℤ) pv0 target, none)) ∧
    ((center.val : ℤ) ≠ JSbary →
      computePosition hdr record et (target.val : ℤ) (center.val : ℤ) rrd =
        .ok (fun i => moonCorrection (target.val : ℤ) pv0 target i -
          moonCorrection (target.val : ℤ) pv0 center i, none)) ∧
    (∀ k : Fin 11, hdr.IPT 0 (slot13 k) ≠ 0 →
      ∃ r0 r1 l res, index record 0 = .ok r0 ∧ index record 1 = .ok r1 ∧
        subInterval (hdr.IPT 2 (slot13 k)) ((et - r0) / r1) r1 = .ok l ∧
        interpolateChebyshev record
          (blockOffset (hdr.IPT 0 (slot13 k)) (hdr.IPT 1 (slot13 k)) l)
          (hdr.IPT 1 (slot13 k))
          (2 * ((hdr.IPT 2 (slot13 k) : ℚ) * ((et - r0) / r1) - (l : ℚ)) - 1) zero6
            = .ok (res, none) ∧
        pv0 (slot15 k) = scaleVelocity res (2 * (hdr.IPT 2 (slot13 k) : ℚ) / r1)) ∧
    (∀ q : Fin 15, (∀ k : Fin 11, slot15 k = q → hdr.IPT 0 (slot13 k) = 0) →
      pv0 q = zero6) := by
  have hne2 : (target.val : ℤ) ≠ (center.val : ℤ) := by
    intro h
    exact hne (Fin.ext (by exact_mod_cast h))
  have ht : (target.val : ℤ) < 15 := by have := target.isLt; omega
  have hc : (center.val : ℤ) < 15 := by have := center.isLt; omega
  refine ⟨fun hb => ?_, fun hb => ?_, workingVectors_value hdr record et pv0 hw,
    workingVectors_zero hdr record et pv0 none hw⟩
  · rw [computePosition_eq, hw]
    simp only [composeRelative]
    rw [if_neg hne2, if_pos hb, if_pos ht, indexPV_fin]
    rfl
  · rw [computePosition_eq, hw]
    simp only [composeRelative]
    rw [if_neg hne2, if_neg hb, if_pos ⟨ht, hc⟩, indexPV_fin, indexPV_fin]
    rfl

/-- Witness for C2: slot 0 of `exHeader` relative to the barycenter (slot 11) on
`exRecord` at `et = 0`. -/
theorem C2_relative_composition_witness :
    ((0 : Fin 15) ≠ 11 ∧
      workingVectors exHeader exRecord 0 =
        .ok (Function.update (fun _ => zero6) 0 ![1, 0, 0, 0, 0, 0], none)) ∧
    computePosition exHeader exRecord 0 ((0 : Fin 15).val : ℤ) ((11 : Fin 15).val : ℤ) zero6 =
      .ok (moonCorrection ((0 : Fin 15).val : ℤ)
        (Function.update (fun _ => zero6) 0 ![1, 0, 0, 0, 0, 0]) 0, none) :=
  ⟨⟨by decide, by decide!⟩,
    (C2_relative_composition exHeader exRecord 0 0 11 zero6
      (Function.update (fun _ => zero6) 0 ![1, 0, 0, 0, 0, 0]) (by decide) (by decide!)).1
      (by decide)⟩

/-- Claim C3 fails on the code (a defect): with the Moon as target, the Moon slot
holding the constant position `(5,0,0)` and slot 12 (`JEmb`) populated with the
constant position `(7,0,0)` in the same record, `computePosition` returns the raw Moon
vector `(5,0,0)`, not `(12,0,0)`: the loop evaluates slots `0..10` only, so the
`pv[JEmb]` it adds is still zero.  With the Moon as center no correction is applied at
all: Sun relative to Moon is `(-5,0,0)`.  On every header, record and time the Moon
special case leaves the working array unchanged. -/
theorem C3_moon_not_corrected :
    ((moonHeader.IPT 0 9 = 2 ∧ moonHeader.IPT 0 12 = 8) ∧
      interpolateChebyshev moonRecord 2 2 (-1) zero6 = .ok (![5, 0, 0, 0, 0, 0], none) ∧
      interpolateChebyshev moonRecord 8 2 (-1) zero6 = .ok (![7, 0, 0, 0, 0, 0], none) ∧
      computePosition moonHeader moonRecord 0 JMoon JSbary zero6 =
        .ok (![5, 0, 0, 0, 0, 0], none) ∧
      computePosition moonHeader moonRecord 0 JSun JMoon zero6 =
        .ok (![-5, 0, 0, 0, 0, 0], none)) ∧
    (∀ (hdr : JplHeader) (record : List ℚ) (et : ℚ) (pv : PV) (e : Option GoError)
      (ntarg : ℤ), workingVectors hdr record et = .ok (pv, e) →
        moonCorrection ntarg pv = pv) :=
  ⟨by decide!, fun hdr record et pv e ntarg h => moonCorrection_noop hdr record et pv e h ntarg⟩

/-- Claim C4, as stated, fails: with the all-zero header (no layout entry populated)
and target 0, center 11 (or target 20, an index outside the table), `computePosition`
returns the zero vector and no error. -/
theorem C4_counterexample :
    JplHeader.zero.IPT 0 0 = 0 ∧
    computePosition JplHeader.zero [0, 1] 0 0 11 zero6 = .ok (zero6, none) ∧
    computePosition JplHeader.zero [0, 1] 0 20 11 zero6 = .ok (zero6, none) := by
  decide!

/-- Claim C4 (amended): `computePosition` has no unknown-body error.  The only error
it returns is the too-few-coefficients error of a populated slot `k < 11`, and then the
result is left as passed in.  When the evaluation loop succeeds, a body whose layout
entry is unpopulated (coefficient offset 0) or whose index is `11..14` has the zero
working vector, every pair of indices in `0..14` yields a vector without error, and for
`target != center` with the target index `≥ 15` (or, for a center other than `JSbary`,
the center index `≥ 15`) the result is left as passed in, without error. -/
theorem C4_no_unknown_body_error (hdr : JplHeader) (record : List ℚ) (et : ℚ) (rrd : Vec6)
    (pv : PV) (e : Option GoError) (hw : workingVectors hdr record et = .ok (pv, e)) :
    (∀ q : Fin 15, (∀ k : Fin 11, slot15 k = q → hdr.IPT 0 (slot13 k) = 0) → pv q = zero6) ∧
    (∀ err, e = some err →
      (∀ ntarg ncent : ℤ, computePosition hdr record et ntarg ncent rrd = .ok (rrd, some err)) ∧
      ∃ k : Fin 11, hdr.IPT 0 (slot13 k) ≠ 0 ∧ hdr.IPT 1 (slot13 k) < 2 ∧
        err = .tooFewCoeffs (hdr.IPT 1 (slot13 k))) ∧
    (e = none →
      (∀ target center : Fin 15,
        ∃ r, computePosition hdr record et (target.val : ℤ) (center.val : ℤ) rrd = .ok (r, none)) ∧
      (∀ ntarg ncent : ℤ, ntarg ≠ ncent → (15 ≤ ntarg ∨ (ncent ≠ JSbary ∧ 15 ≤ ncent)) →
        computePosition hdr record et ntarg ncent rrd = .ok (rrd, none))) := by
  refine ⟨workingVectors_zero hdr record et pv e hw, ?_, ?_⟩
  · intro err he
    subst he
    refine ⟨fun ntarg ncent => ?_, workingVectors_error hdr record et pv err hw⟩
    rw [computePosition_eq, hw]
  · intro he
    subst he
    constructor
    · intro target center
      have ht : (target.val : ℤ) < 15 := by have := target.isLt; omega
      have hc : (center.val : ℤ) < 15 := by have := center.isLt; omega
      rw [computePosition_eq, hw]
      simp only [composeRelative]
      split
      · exact ⟨_, rfl⟩
      · split
        · simp only [ht, if_true, indexPV_fin, Except.map]
          exact ⟨_, rfl⟩
        · simp only [ht, hc, and_self, if_true, indexPV_fin, bind, Except.bind, pure,
            Except.pure, Except.map]
          exact ⟨_, rfl⟩
    · intro ntarg ncent hne hbig
      rw [computePosition_eq, hw]
      simp only [composeRelative, hne, if_false]
      by_cases hb : ncent = JSbary
      · have h15 : ¬ ntarg < 15 := by
          rcases hbig with h | ⟨h, _⟩
          · omega
          · exact absurd hb h
        simp only [hb, if_true, h15, if_false, Except.map]
      · have h15 : ¬ (ntarg < 15 ∧ ncent < 15) := by
          rcases hbig with h | ⟨_, h⟩
          · omega
          · omega
        simp only [hb, if_false, h15, Except.map]

/-- Witness for the amended C4: the all-zero header on the record `[0, 1]`. -/
theorem C4_no_unknown_body_error_witness :
    workingVectors JplHeader.zero [0, 1] 0 = .ok (fun _ => zero6, none) ∧
    ∀ q : Fin 15, (∀ k : Fin 11, slot15 k = q → JplHeader.zero.IPT 0 (slot13 k) = 0) →
      (fun _ => zero6 : PV) q = zero6 :=
  ⟨by decide!,
    (C4_no_unknown_body_error JplHeader.zero [0, 1] 0 zero6 (fun _ => zero6) none
      (by decide!)).1⟩

/-- Claim C5, as stated, fails in its boundary clause: the session opened on `revFile`
has `validStart = 2 > validEnd = 0`, and `t = validStart` fails with the out-of-range
error; and on `goodFile` (`validStart = 0 ≤ validEnd = 2`, one block) `t = validEnd`
passes the range check but the call still fails, reading the record. -/
theorem C5_counterexample :
    ((sessionOf revFile).IsOpen = true ∧ (sessionOf revFile).Header.StartJD = 2 ∧
      (sessionOf revFile).Header.EndJD = 0 ∧
      Pleph (envOf revFile) (sessionOf revFile) 2 0 11 = .ok (zero6, some (.outOfRange 2))) ∧
    ((sessionOf goodFile).IsOpen = true ∧ (sessionOf goodFile).Header.StartJD = 0 ∧
      (sessionOf goodFile).Header.EndJD = 2 ∧
      Pleph (envOf goodFile) (sessionOf goodFile) 2 0 11 =
        .ok (zero6, some (.recordFailed .errEOF))) := by
  decide!

/-- Claim C5 (amended): for every open session and every time `t`, `Pleph` fails with
the out-of-range error exactly when `t < validStart` or `t > validEnd` (and then
returns the zero vector with the error for `t`); `validStart − 1` and `validEnd + 1`
both fail with it, and when `validStart ≤ validEnd` neither `t = validStart` nor
`t = validEnd` does: both pass the range check. -/
theorem C5_out_of_range (env : Env) (jd : JplData) (et : ℚ) (ntarg ncent : ℤ)
    (hopen : jd.IsOpen = true) :
    ((∃ r x, Pleph env jd et ntarg ncent = .ok (r, some (.outOfRange x))) ↔
      (et < jd.Header.StartJD ∨ et > jd.Header.EndJD)) ∧
    ((et < jd.Header.StartJD ∨ et > jd.Header.EndJD) →
      Pleph env jd et ntarg ncent = .ok (zero6, some (.outOfRange et))) ∧
    Pleph env jd (jd.Header.StartJD - 1) ntarg ncent =
      .ok (zero6, some (.outOfRange (jd.Header.StartJD - 1))) ∧
    Pleph env jd (jd.Header.EndJD + 1) ntarg ncent =
      .ok (zero6, some (.outOfRange (jd.Header.EndJD + 1))) ∧
    (jd.Header.StartJD ≤ jd.Header.EndJD →
      (¬ ∃ r x, Pleph env jd jd.Header.StartJD ntarg ncent = .ok (r, some (.outOfRange x))) ∧
      (¬ ∃ r x, Pleph env jd jd.Header.EndJD ntarg ncent = .ok (r, some (.outOfRange x)))) := by
  have hfail : ∀ t : ℚ, (t < jd.Header.StartJD ∨ t > jd.Header.EndJD) →
      Pleph env jd t ntarg ncent = .ok (zero6, some (.outOfRange t)) := by
    intro t ht
    rw [Pleph_eq]
    simp [hopen, ht]
  have honly : ∀ t : ℚ, (∃ r x, Pleph env jd t ntarg ncent = .ok (r, some (.outOfRange x))) →
      (t < jd.Header.StartJD ∨ t > jd.Header.EndJD) := by
    rintro t ⟨r, x, h⟩
    exact ((Pleph_error env jd t ntarg ncent r _ h).2 x rfl).2
  refine ⟨⟨honly et, fun h => ⟨zero6, et, hfail et h⟩⟩, hfail et,
    hfail _ (Or.inl (by linarith)), hfail _ (Or.inr (by linarith)), fun hle => ⟨?_, ?_⟩⟩
  · intro h
    rcases honly _ h with h1 | h1
    · exact lt_irrefl _ h1
    · exact absurd h1 (not_lt.mpr hle)
  · intro h
    rcases honly _ h with h1 | h1
    · exact absurd h1 (not_lt.mpr hle)
    · exact lt_irrefl _ h1

/-- Witness for C5 on the open session on `goodFile` (`validStart = 0`,
`validEnd = 2`): `t = 3` fails with the out-of-range error. -/
theorem C5_out_of_range_witness :
    (sessionOf goodFile).IsOpen = true ∧
    ((3 : ℚ) < (sessionOf goodFile).Header.StartJD ∨ (3 : ℚ) > (sessionOf goodFile).Header.EndJD) ∧
    Pleph (envOf goodFile) (sessionOf goodFile) 3 0 11 = .ok (zero6, some (.outOfRange 3)) :=
  ⟨by decide!, by decide!,
    (C5_out_of_range (envOf goodFile) (sessionOf goodFile) 3 0 11 (by decide!)).2.1
      (by decide!)⟩

/-- Claim C6: in every state reached from the initial state by a sequence of
`OpenJplFile` / `CloseJplFile` / `Close` calls in which no successful open has happened
since the last close (the empty sequence, or the last call was a close or an
`OpenJplFile` that returned an error, whatever came before), `Pleph` returns the
not-open error for every argument, `IsJplAvailable` is false and `GetJplInfo` returns
`(0, 0, 0, false)`. -/
theorem C6_closed_session (cs : List Call) (h : noOpenSince true JplData.zero cs = true) :
    (∀ (env : Env) (et : ℚ) (ntarg ncent : ℤ),
      Pleph env (runCalls JplData.zero cs) et ntarg ncent = .ok (zero6, some .notOpen)) ∧
    IsJplAvailable (runCalls JplData.zero cs) = false ∧
    GetJplInfo (runCalls JplData.zero cs) = (0, 0, 0, false) := by
  have hclosed : (runCalls JplData.zero cs).IsOpen = false :=
    runCalls_closed cs JplData.zero true (fun ho => by cases ho) (fun _ => rfl) h
  refine ⟨fun env et ntarg ncent => ?_, hclosed, ?_⟩
  · rw [Pleph_eq]
    simp [hclosed]
  · simp [GetJplInfo, hclosed]

/-- Witness for C6: a successful `OpenJplFile` on `goodFile` followed by an
`OpenJplFile` that fails because no file can be opened. -/
theorem C6_closed_session_witness :
    noOpenSince true JplData.zero
      [.openJplFile (envOf goodFile) [] "de.eph" "", .openJplFile envNoFile [] "de.eph" ""]
        = true ∧
    (runCalls JplData.zero [.openJplFile (envOf goodFile) [] "de.eph" ""]).IsOpen = true ∧
    IsJplAvailable (runCalls JplData.zero
      [.openJplFile (envOf goodFile) [] "de.eph" "", .openJplFile envNoFile [] "de.eph" ""])
        = false :=
  ⟨by decide!, by decide!,
    (C6_closed_session
      [.openJplFile (envOf goodFile) [] "de.eph" "", .openJplFile envNoFile [] "de.eph" ""]
      (by decide!)).2.1⟩

/-- Claim C7: a lookup yields no partial result.  Whenever `Pleph` returns an error,
the 6-vector it returns alongside is all zeros; and `computePosition` writes its
output only after all series evaluations have succeeded: when it returns an error
the output is left as passed in, and when the evaluation loop faults so does
`computePosition`. -/
theorem C7_no_partial_result (env : Env) (jd : JplData) (et : ℚ) (ntarg ncent : ℤ)
    (r : Vec6) (e : GoError) (h : Pleph env jd et ntarg ncent = .ok (r, some e)) :
    r = zero6 ∧
    (∀ (hdr : JplHeader) (record : List ℚ) (t : ℚ) (nt nc : ℤ) (rrd r2 : Vec6) (e2 : GoError),
      computePosition hdr record t nt nc rrd = .ok (r2, some e2) → r2 = rrd) ∧
    (∀ (hdr : JplHeader) (record : List ℚ) (t : ℚ) (nt nc : ℤ) (rrd : Vec6) (f : Fault),
      workingVectors hdr record t = .error f →
        computePosition hdr record t nt nc rrd = .error f) := by
  refine ⟨(Pleph_error env jd et ntarg ncent r e h).1, ?_, ?_⟩
  · intro hdr record t nt nc rrd r2 e2 hc
    exact (computePosition_ok_some hdr record t nt nc rrd r2 e2 hc).1
  · intro hdr record t nt nc rrd f hw
    rw [computePosition_eq, hw]

/-- Witness for C7: at `t = 1` the record read on `goodFile` fails (the file has one
block), and the vector returned with the error is zero. -/
theorem C7_no_partial_result_witness :
    Pleph (envOf goodFile) (sessionOf goodFile) 1 0 11 =
      .ok (zero6, some (.recordFailed .errEOF)) ∧ zero6 = zero6 :=
  ⟨by decide!,
    (C7_no_partial_result (envOf goodFile) (sessionOf goodFile) 1 0 11 zero6
      (.recordFailed .errEOF) (by decide!)).1⟩

/-- Claim C8: `interpolateChebyshev` returns an error exactly when `ncoeff < 2`
(for an in-bounds coefficient block it returns, and it returns an error if and only
if `ncoeff < 2`), and in that case all six entries of the result are 0;
`computePosition` returns an error exactly when some evaluated body slot (a populated
slot `k < 11` that the loop reaches and calls `interpolateChebyshev` on) has a
coefficient count below 2.  It never succeeds when some populated slot `k < 11` has a
count below 2, and when it returns at all (no index or conversion fault) it returns an
error exactly when there is such a slot. -/
theorem C8_insufficient_coefficients (coeffs : List ℚ) (offset : ℕ) (ncoeff : ℤ) (x : ℚ)
    (res0 : Vec6) (hb : 2 ≤ ncoeff → (offset : ℤ) + 3 * ncoeff ≤ (coeffs.length : ℤ)) :
    (∃ r e, interpolateChebyshev coeffs offset ncoeff x res0 = .ok (r, e) ∧
        (e.isSome = true ↔ ncoeff < 2) ∧ (ncoeff < 2 → r = zero6)) ∧
    (∀ (hdr : JplHeader) (record : List ℚ) (et : ℚ) (ntarg ncent : ℤ) (rrd : Vec6),
      ((∃ r e, computePosition hdr record et ntarg ncent rrd = .ok (r, some e)) ↔
        ∃ k : Fin 11, SlotEvaluated hdr record et k ∧ hdr.IPT 1 (slot13 k) < 2) ∧
      ((∃ k : Fin 11, hdr.IPT 0 (slot13 k) ≠ 0 ∧ hdr.IPT 1 (slot13 k) < 2) →
        ∀ r, computePosition hdr record et ntarg ncent rrd ≠ .ok (r, none)) ∧
      ((∀ f, computePosition hdr record et ntarg ncent rrd ≠ .error f) →
        ((∃ r e, computePosition hdr record et ntarg ncent rrd = .ok (r, some e)) ↔
          ∃ k : Fin 11, hdr.IPT 0 (slot13 k) ≠ 0 ∧ hdr.IPT 1 (slot13 k) < 2))) := by
  constructor
  · by_cases hlt : ncoeff < 2
    · refine ⟨zero6, some (.tooFewCoeffs ncoeff),
        interpolateChebyshev_lt_two coeffs offset ncoeff x res0 hlt, ?_, fun _ => rfl⟩
      simp [hlt]
    · have h2 : 2 ≤ ncoeff := by omega
      obtain ⟨n, rfl⟩ : ∃ n : ℕ, ncoeff = (n : ℤ) := ⟨ncoeff.toNat, by omega⟩
      have hn : 2 ≤ n := by omega
      have hbn : offset + 3 * n ≤ coeffs.length := by
        have := hb h2
        omega
      refine ⟨chebEval coeffs offset n x, none,
        interpolateChebyshev_eq coeffs offset n x res0 hn hbn, ?_, fun h => absurd h hlt⟩
      simp [hlt]
  · intro hdr record et ntarg ncent rrd
    have hA : (∃ r e, computePosition hdr record et ntarg ncent rrd = .ok (r, some e)) →
        ∃ k : Fin 11, hdr.IPT 0 (slot13 k) ≠ 0 ∧ hdr.IPT 1 (slot13 k) < 2 := by
      rintro ⟨r, e, h⟩
      obtain ⟨_, pv, hw⟩ := computePosition_ok_some hdr record et ntarg ncent rrd r e h
      obtain ⟨k, h1, h2, _⟩ := workingVectors_error hdr record et pv e hw
      exact ⟨k, h1, h2⟩
    have hB : (∃ k : Fin 11, hdr.IPT 0 (slot13 k) ≠ 0 ∧ hdr.IPT 1 (slot13 k) < 2) →
        ∀ r, computePosition hdr record et ntarg ncent rrd ≠ .ok (r, none) := by
      rintro ⟨k, h1, h2⟩ r h
      obtain ⟨pv, hw, _⟩ := computePosition_ok_none hdr record et ntarg ncent rrd r h
      have := workingVectors_success hdr record et pv hw k h1
      omega
    have hE : (∃ r e, computePosition hdr record et ntarg ncent rrd = .ok (r, some e)) ↔
        ∃ k : Fin 11, SlotEvaluated hdr record et k ∧ hdr.IPT 1 (slot13 k) < 2 := by
      rw [← workingVectors_error_iff]
      constructor
      · rintro ⟨r, e, h⟩
        obtain ⟨_, pv, hw⟩ := computePosition_ok_some hdr record et ntarg ncent rrd r e h
        exact ⟨pv, e, hw⟩
      · rintro ⟨pv, e, hw⟩
        refine ⟨rrd, e, ?_⟩
        rw [computePosition_eq, hw]
    refine ⟨hE, hB, fun hnf => ⟨hA, fun hk => ?_⟩⟩
    cases hc : computePosition hdr record et ntarg ncent rrd with
    | error f => exact absurd hc (hnf f)
    | ok out =>
      obtain ⟨r, e⟩ := out
      cases e with
      | none => exact absurd hc (hB hk r)
      | some e => exact ⟨r, e, rfl⟩

/-- Witness for C8 on the block `(1,0), (0,0), (0,0)` at offset 2 of `exRecord`, and
on `shortHeader`, whose slot 0 has a single coefficient: the slot is evaluated and
`computePosition` returns the too-few-coefficients error. -/
theorem C8_insufficient_coefficients_witness :
    ((2 : ℤ) ≤ 2 → ((2 : ℕ) : ℤ) + 3 * 2 ≤ (exRecord.length : ℤ)) ∧
    (∃ r e, interpolateChebyshev exRecord (2 : ℕ) 2 0 zero6 = .ok (r, e) ∧
      (e.isSome = true ↔ (2 : ℤ) < 2) ∧ ((2 : ℤ) < 2 → r = zero6)) ∧
    computePosition shortHeader exRecord 0 0 11 zero6 = .ok (zero6, some (.tooFewCoeffs 1)) ∧
    SlotEvaluated shortHeader exRecord 0 0 ∧
    ((∃ r e, computePosition shortHeader exRecord 0 0 11 zero6 = .ok (r, some e)) ↔
      ∃ k : Fin 11, shortHeader.IPT 0 (slot13 k) ≠ 0 ∧ shortHeader.IPT 1 (slot13 k) < 2) :=
  ⟨fun _ => by decide,
    (C8_insufficient_coefficients exRecord 2 2 0 zero6 (fun _ => by decide)).1,
    by decide!,
    ⟨0, 1, fun _ => zero6, 0, [], [1, 2, 3, 4, 5, 6, 7, 8, 9, 10],
      by decide!, by decide!, by decide, by decide!, by decide, by decide!⟩,
    ((C8_insufficient_coefficients exRecord 2 2 0 zero6 (fun _ => by decide)).2
      shortHeader exRecord 0 0 11 zero6).2.2
      (fun f hf => by
        have h : computePosition shortHeader exRecord 0 0 11 zero6 =
            .ok (zero6, some (.tooFewCoeffs 1)) := by decide!
        rw [h] at hf
        cases hf)⟩

/-- Claim C9: for `ncoeff ≥ 2` and an in-bounds block (`offset + 3*ncoeff ≤ len(coeffs)`),
`interpolateChebyshev` returns without error and position component `j` is
`Σ_(i < ncoeff) coeffs[offset + j*ncoeff + i] · T_i(x)`, where `T_i` follows the
recurrence `T_0 = 1`, `T_1 = x`, `T_n = 2x·T_(n-1) − T_(n-2)` and is the Chebyshev
polynomial of the first kind; `computePosition` passes the offset `na + l*nc*3`; and
with `ncoeff = 2` and coefficients `(1,0), (0,0), (0,0)` the position is `(1,0,0)` and
the velocity is 0 for every `x`. -/
theorem C9_chebyshev_position (coeffs : List ℚ) (offset ncoeff : ℕ) (x : ℚ) (res0 : Vec6)
    (hn : 2 ≤ ncoeff) (hb : offset + 3 * ncoeff ≤ coeffs.length) :
    (∃ r, interpolateChebyshev coeffs offset ncoeff x res0 = .ok (r, none) ∧
      ∀ j : Fin 3, r (Fin.castAdd 3 j) =
        ∑ i in Finset.range ncoeff, coeffs.getD (offset + j * ncoeff + i) 0 * chebT x i) ∧
    (∀ i : ℕ, chebT x i = (Polynomial.Chebyshev.T ℚ (i : ℤ)).eval x) ∧
    (∀ (hdr : JplHeader) (record : List ℚ) (t0 r1 : ℚ) (pv : PV) (k : Fin 11) (l : ℤ),
      hdr.IPT 0 (slot13 k) ≠ 0 →
      subInterval (hdr.IPT 2 (slot13 k)) t0 r1 = .ok l →
      0 ≤ hdr.IPT 0 (slot13 k) → 0 ≤ hdr.IPT 1 (slot13 k) → 0 ≤ l →
      hdr.IPT 0 (slot13 k) + l * hdr.IPT 1 (slot13 k) * 3 < 2 ^ 63 →
      evalBody hdr record t0 r1 pv k =
        (interpolateChebyshev record
            (hdr.IPT 0 (slot13 k) + l * hdr.IPT 1 (slot13 k) * 3) (hdr.IPT 1 (slot13 k))
            (2 * ((hdr.IPT 2 (slot13 k) : ℚ) * t0 - (l : ℚ)) - 1) (pv (slot15 k))).map
          (storeBody pv (slot15 k) (hdr.IPT 2 (slot13 k)) r1)) ∧
    interpolateChebyshev [1, 0, 0, 0, 0, 0] 0 2 x res0 = .ok (![1, 0, 0, 0, 0, 0], none) := by
  refine ⟨⟨chebEval coeffs offset ncoeff x,
    interpolateChebyshev_eq coeffs offset ncoeff x res0 hn hb, fun j => ?_⟩,
    chebT_eq_eval x, ?_, ?_⟩
  · unfold chebEval
    rw [Fin.append_left]
    rfl
  · intro hdr record t0 r1 pv k l hna hl h0 h1 h2 h3
    rw [evalBody_populated hdr record t0 r1 pv k hna, hl]
    simp only [Except.bind]
    rw [blockOffset_eq _ _ _ h0 h1 h2 h3]
  · have := interpolateChebyshev_eq [1, 0, 0, 0, 0, 0] 0 2 x res0 (by decide) (by decide)
    rw [chebEval_unit] at this
    exact this

/-- Witness for C9 on the block at offset 2 of `exRecord`, at `x = 1/2`, and on the
loop iteration of slot 0 of `exHeader` at the start of the record (`l = 0`). -/
theorem C9_chebyshev_position_witness :
    (2 ≤ 2 ∧ 2 + 3 * 2 ≤ exRecord.length) ∧
    (∃ r, interpolateChebyshev exRecord (2 : ℕ) (2 : ℕ) (1 / 2) zero6 = .ok (r, none) ∧
      ∀ j : Fin 3, r (Fin.castAdd 3 j) =
        ∑ i in Finset.range 2, exRecord.getD (2 + j * 2 + i) 0 * chebT (1 / 2) i) ∧
    (exHeader.IPT 0 (slot13 0) ≠ 0 ∧ subInterval (exHeader.IPT 2 (slot13 0)) 0 1 = .ok 0) ∧
    evalBody exHeader exRecord 0 1 (fun _ => zero6) 0 =
      (interpolateChebyshev exRecord
          (exHeader.IPT 0 (slot13 0) + 0 * exHeader.IPT 1 (slot13 0) * 3)
          (exHeader.IPT 1 (slot13 0))
          (2 * ((exHeader.IPT 2 (slot13 0) : ℚ) * 0 - ((0 : ℤ) : ℚ)) - 1)
          ((fun _ => zero6 : PV) (slot15 0))).map
        (storeBody (fun _ => zero6) (slot15 0) (exHeader.IPT 2 (slot13 0)) 1) :=
  ⟨⟨by decide, by decide⟩,
    (C9_chebyshev_position exRecord 2 2 (1 / 2) zero6 (by decide) (by decide)).1,
    ⟨by decide, by decide!⟩,
    (C9_chebyshev_position exRecord 2 2 (1 / 2) zero6 (by decide) (by decide)).2.2.1
      exHeader exRecord 0 1 (fun _ => zero6) 0 0 (by decide) (by decide!) (by decide)
      (by decide) (by decide) (by decide)⟩

/-- Claim C10: for `ncoeff ≥ 2` and an in-bounds block, the raw velocity component
`j+3` returned by `interpolateChebyshev` is the derivative at `x` of the position
polynomial `p_j = Σ_i c_(j,i)·T_i` whose value at `x` is component `j`; the recurrence
`dT_0 = 0`, `dT_1 = 1`, `dT_n = 2x·dT_(n-1) + 2·T_(n-1) − dT_(n-2)` computes
`dT_n = d/dx T_n(x)` for every `n`. -/
theorem C10_velocity_is_derivative (coeffs : List ℚ) (offset ncoeff : ℕ) (x : ℚ)
    (res0 : Vec6) (hn : 2 ≤ ncoeff) (hb : offset + 3 * ncoeff ≤ coeffs.length) :
    (∀ n : ℕ, chebDT x n =
      (Polynomial.derivative (Polynomial.Chebyshev.T ℚ (n : ℤ))).eval x) ∧
    ∃ r, interpolateChebyshev coeffs offset ncoeff x res0 = .ok (r, none) ∧
      ∀ j : Fin 3,
        r (Fin.castAdd 3 j) =
          (∑ i in Finset.range ncoeff,
            Polynomial.C (coeffAt coeffs offset ncoeff j i) * Polynomial.Chebyshev.T ℚ (i : ℤ)).eval x ∧
        r (Fin.natAdd 3 j) =
          (Polynomial.derivative
          (∑ i in Finset.range ncoeff,
            Polynomial.C (coeffAt coeffs offset ncoeff j i) * Polynomial.Chebyshev.T ℚ (i : ℤ))).eval x := by
  refine ⟨chebDT_eq_eval_derivative x, chebEval coeffs offset ncoeff x,
    interpolateChebyshev_eq coeffs offset ncoeff x res0 hn hb, fun j => ⟨?_, ?_⟩⟩
  · unfold chebEval
    rw [Fin.append_left, Polynomial.eval_finset_sum]
    refine Finset.sum_congr rfl (fun i _ => ?_)
    rw [Polynomial.eval_mul, Polynomial.eval_C, chebT_eq_eval]
  · unfold chebEval
    rw [Fin.append_right, Polynomial.derivative_sum, Polynomial.eval_finset_sum]
    refine Finset.sum_congr rfl (fun i _ => ?_)
    rw [Polynomial.derivative_C_mul, Polynomial.eval_mul, Polynomial.eval_C,
      chebDT_eq_eval_derivative]

/-- Witness for C10 on the block at offset 2 of `exRecord`, at `x = 1/2`. -/
theorem C10_velocity_is_derivative_witness :
    (2 ≤ 2 ∧ 2 + 3 * 2 ≤ exRecord.length) ∧
    ∃ r, interpolateChebyshev exRecord (2 : ℕ) (2 : ℕ) (1 / 2) zero6 = .ok (r, none) ∧
      ∀ j : Fin 3,
        r (Fin.castAdd 3 j) =
          (∑ i in Finset.range 2,
            Polynomial.C (coeffAt exRecord 2 2 j i) * Polynomial.Chebyshev.T ℚ (i : ℤ)).eval (1 / 2) ∧
        r (Fin.natAdd 3 j) =
          (Polynomial.derivative
          (∑ i in Finset.range 2,
            Polynomial.C (coeffAt exRecord 2 2 j i) * Polynomial.Chebyshev.T ℚ (i : ℤ))).eval (1 / 2) :=
  ⟨⟨by decide, by decide⟩,
    (C10_velocity_is_derivative exRecord 2 2 (1 / 2) zero6 (by decide) (by decide)).2⟩

/-! ## Lemmas on the coordinate transforms -/

theorem applyCoordinateTransforms_xyz {F : Type} [Field F] (m : MathLib F) (xx : Fin 6 → F)
    (iflag : Int) (h : Int.land iflag SeflgXyz ≠ 0) :
    applyCoordinateTransforms m xx iflag = polarToCartesian m xx := by
  unfold applyCoordinateTransforms
  simp only [h, ne_eq, not_false_eq_true, if_true, and_false, if_false]

theorem applyCoordinateTransforms_radians {F : Type} [Field F] (m : MathLib F)
    (xx : Fin 6 → F) (iflag : Int) (h : Int.land iflag SeflgXyz = 0)
    (hr : Int.land iflag SeflgRadians ≠ 0) :
    applyCoordinateTransforms m xx iflag = xx := by
  unfold applyCoordinateTransforms
  simp only [h, hr, ne_eq, not_true_eq_false, if_false, false_and]

theorem applyCoordinateTransforms_degrees {F : Type} [Field F] (m : MathLib F)
    (xx : Fin 6 → F) (iflag : Int) (h : Int.land iflag SeflgXyz = 0)
    (hr : Int.land iflag SeflgRadians = 0) :
    applyCoordinateTransforms m xx iflag =
      ![xx 0 * RadToDeg m, xx 1 * RadToDeg m, xx 2, xx 3 * RadToDeg m, xx 4 * RadToDeg m,
        xx 5] := by
  unfold applyCoordinateTransforms
  simp only [h, hr, ne_eq, not_true_eq_false, if_false, and_self, if_true]
  funext i
  fin_cases i <;> rfl

theorem polarToCartesian_unit :
    polarToCartesian (MathLib.mk Real.pi Real.cos Real.sin) ![0, 0, 1, 0, 0, 0] =
      ![1, 0, 0, 0, 0, 0] := by
  funext i
  fin_cases i <;> simp [polarToCartesian] <;> rfl

/-! ## The claims on the coordinate transforms -/

/-- Claim C11 as stated does not hold: with the Cartesian bit set, the 6-vector
`(0, 0, 1, 0, 0, 0)` is not returned unchanged.  Over the real numbers with the real
cosine and sine, `applyCoordinateTransforms` reads it as longitude 0, latitude 0,
distance 1 and returns `(1, 0, 0, 0, 0, 0)`. -/
theorem C11_counterexample :
    Int.land SeflgXyz SeflgXyz ≠ 0 ∧
    applyCoordinateTransforms (MathLib.mk Real.pi Real.cos Real.sin) ![0, 0, 1, 0, 0, 0]
        SeflgXyz = ![1, 0, 0, 0, 0, 0] ∧
    applyCoordinateTransforms (MathLib.mk Real.pi Real.cos Real.sin) ![0, 0, 1, 0, 0, 0]
        SeflgXyz ≠ ![0, 0, 1, 0, 0, 0] := by
  have hx : Int.land SeflgXyz SeflgXyz ≠ 0 := by decide
  have h := applyCoordinateTransforms_xyz (MathLib.mk Real.pi Real.cos Real.sin)
    ![0, 0, 1, 0, 0, 0] SeflgXyz hx
  refine ⟨hx, h.trans polarToCartesian_unit, ?_⟩
  rw [h, polarToCartesian_unit]
  intro hc
  have := congrFun hc 0
  simp at this

/-- Claim C11, amended: for every 6-vector `xx` and every flag word in which the
Cartesian bit `SeflgXyz` is set, `applyCoordinateTransforms` returns
`polarToCartesian xx`: the input is read as polar `(lon, lat, r, dlon, dlat, dr)` and
converted, so the position part of the result is
`(r cos lat cos lon, r cos lat sin lon, r sin lat)`; no unit scaling is applied. -/
theorem C11_cartesian_flag_converts {F : Type} [Field F] (m : MathLib F) (xx : Fin 6 → F)
    (iflag : Int) (h : Int.land iflag SeflgXyz ≠ 0) :
    applyCoordinateTransforms m xx iflag = polarToCartesian m xx ∧
    applyCoordinateTransforms m xx iflag 0 = xx 2 * m.Cos (xx 1) * m.Cos (xx 0) ∧
    applyCoordinateTransforms m xx iflag 1 = xx 2 * m.Cos (xx 1) * m.Sin (xx 0) ∧
    applyCoordinateTransforms m xx iflag 2 = xx 2 * m.Sin (xx 1) := by
  rw [applyCoordinateTransforms_xyz m xx iflag h]
  exact ⟨rfl, rfl, rfl, rfl⟩

/-- Witness for C11: the flag word `SeflgXyz | SeflgRadians` on the real numbers. -/
theorem C11_cartesian_flag_converts_witness :
    Int.land 12288 SeflgXyz ≠ 0 ∧
    (applyCoordinateTransforms (MathLib.mk Real.pi Real.cos Real.sin) ![0, 0, 1, 0, 0, 0]
        12288 = polarToCartesian (MathLib.mk Real.pi Real.cos Real.sin) ![0, 0, 1, 0, 0, 0] ∧
      applyCoordinateTransforms (MathLib.mk Real.pi Real.cos Real.sin) ![0, 0, 1, 0, 0, 0]
        12288 0 = (![0, 0, 1, 0, 0, 0] : Fin 6 → ℝ) 2 *
          Real.cos ((![0, 0, 1, 0, 0, 0] : Fin 6 → ℝ) 1) *
          Real.cos ((![0, 0, 1, 0, 0, 0] : Fin 6 → ℝ) 0) ∧
      applyCoordinateTransforms (MathLib.mk Real.pi Real.cos Real.sin) ![0, 0, 1, 0, 0, 0]
        12288 1 = (![0, 0, 1, 0, 0, 0] : Fin 6 → ℝ) 2 *
          Real.cos ((![0, 0, 1, 0, 0, 0] : Fin 6 → ℝ) 1) *
          Real.sin ((![0, 0, 1, 0, 0, 0] : Fin 6 → ℝ) 0) ∧
      applyCoordinateTransforms (MathLib.mk Real.pi Real.cos Real.sin) ![0, 0, 1, 0, 0, 0]
        12288 2 = (![0, 0, 1, 0, 0, 0] : Fin 6 → ℝ) 2 *
          Real.sin ((![0, 0, 1, 0, 0, 0] : Fin 6 → ℝ) 1)) :=
  ⟨by decide, C11_cartesian_flag_converts (MathLib.mk Real.pi Real.cos Real.sin)
    ![0, 0, 1, 0, 0, 0] 12288 (by decide)⟩

/-- Claim C12 as stated does not hold: with no flag set, the Cartesian state
`(1, 0, 0, 0, 0, 0)` is not turned into longitude 0, latitude 0, distance 1.  The
result is `(180/π, 0, 0, 0, 0, 0)`: the first component (read as the longitude) is
`180/π ≠ 0` and the third (read as the distance) is `0 ≠ 1`. -/
theorem C12_counterexample :
    Int.land 0 SeflgXyz = 0 ∧
    applyCoordinateTransforms (MathLib.mk Real.pi Real.cos Real.sin) ![1, 0, 0, 0, 0, 0] 0 =
      ![180 / Real.pi, 0, 0, 0, 0, 0] ∧
    (180 / Real.pi ≠ 0 ∧ (0 : ℝ) ≠ 1) := by
  refine ⟨by decide, ?_, ?_, by norm_num⟩
  · rw [applyCoordinateTransforms_degrees _ _ _ (by decide) (by decide)]
    funext i
    fin_cases i <;> first | rfl | simp [RadToDeg]
  · exact div_ne_zero (by norm_num) Real.pi_ne_zero

/-- Claim C12, amended: for every 6-vector `xx` and every flag word in which the
Cartesian bit is unset, `applyCoordinateTransforms` performs no conversion from
Cartesian to polar form: when the radians bit is set the vector is returned as it is,
and when it is unset components 0, 1, 3, 4 are multiplied by `RadToDeg` and
components 2 and 5 are returned as they are.  So `(1, 0, 0, 0, 0, 0)` with no flag
yields `(RadToDeg, 0, 0, 0, 0, 0)`. -/
theorem C12_no_polar_conversion {F : Type} [Field F] (m : MathLib F) (xx : Fin 6 → F)
    (iflag : Int) (h : Int.land iflag SeflgXyz = 0) :
    applyCoordinateTransforms m xx iflag =
      if Int.land iflag SeflgRadians = 0 then
        ![xx 0 * RadToDeg m, xx 1 * RadToDeg m, xx 2, xx 3 * RadToDeg m, xx 4 * RadToDeg m,
          xx 5]
      else xx := by
  by_cases hr : Int.land iflag SeflgRadians = 0
  · rw [applyCoordinateTransforms_degrees m xx iflag h hr, if_pos hr]
  · rw [applyCoordinateTransforms_radians m xx iflag h hr, if_neg hr]

/-- Witness for C12: the state `(1, 0, 0, 0, 0, 0)` with no flag, on the real numbers. -/
theorem C12_no_polar_conversion_witness :
    Int.land 0 SeflgXyz = 0 ∧
    applyCoordinateTransforms (MathLib.mk Real.pi Real.cos Real.sin) ![1, 0, 0, 0, 0, 0] 0 =
      if Int.land 0 SeflgRadians = 0 then
        ![(![1, 0, 0, 0, 0, 0] : Fin 6 → ℝ) 0 * RadToDeg (MathLib.mk Real.pi Real.cos Real.sin),
          (![1, 0, 0, 0, 0, 0] : Fin 6 → ℝ) 1 * RadToDeg (MathLib.mk Real.pi Real.cos Real.sin),
          (![1, 0, 0, 0, 0, 0] : Fin 6 → ℝ) 2,
          (![1, 0, 0, 0, 0, 0] : Fin 6 → ℝ) 3 * RadToDeg (MathLib.mk Real.pi Real.cos Real.sin),
          (![1, 0, 0, 0, 0, 0] : Fin 6 → ℝ) 4 * RadToDeg (MathLib.mk Real.pi Real.cos Real.sin),
          (![1, 0, 0, 0, 0, 0] : Fin 6 → ℝ) 5]
      else ![1, 0, 0, 0, 0, 0] :=
  ⟨by decide, C12_no_polar_conversion (MathLib.mk Real.pi Real.cos Real.sin)
    ![1, 0, 0, 0, 0, 0] 0 (by decide)⟩

/-- Claim C13: the unit rule of `applyCoordinateTransforms`, for every 6-vector and
flag words `iflag`, `jflag`.  When both `SeflgXyz` and `SeflgRadians` are unset in
`iflag`, components 0, 1, 3, 4 are multiplied by `RadToDeg = 180 / Pi` and components
2 and 5 are returned unchanged; when `SeflgXyz` is unset and `SeflgRadians` is set the
vector is returned unchanged; when `SeflgXyz` is set the result is the same for every
other flag word with `SeflgXyz` set, so it does not depend on the `SeflgRadians`
bit. -/
theorem C13_unit_rule {F : Type} [Field F] (m : MathLib F) (xx : Fin 6 → F)
    (iflag jflag : Int) :
    (Int.land iflag SeflgXyz = 0 → Int.land iflag SeflgRadians = 0 →
      applyCoordinateTransforms m xx iflag 0 = xx 0 * (180 / m.Pi) ∧
      applyCoordinateTransforms m xx iflag 1 = xx 1 * (180 / m.Pi) ∧
      applyCoordinateTransforms m xx iflag 3 = xx 3 * (180 / m.Pi) ∧
      applyCoordinateTransforms m xx iflag 4 = xx 4 * (180 / m.Pi) ∧
      applyCoordinateTransforms m xx iflag 2 = xx 2 ∧
      applyCoordinateTransforms m xx iflag 5 = xx 5) ∧
    (Int.land iflag SeflgXyz = 0 → Int.land iflag SeflgRadians ≠ 0 →
      applyCoordinateTransforms m xx iflag = xx) ∧
    (Int.land iflag SeflgXyz ≠ 0 → Int.land jflag SeflgXyz ≠ 0 →
      applyCoordinateTransforms m xx iflag = applyCoordinateTransforms m xx jflag) := by
  refine ⟨fun h hr => ?_, fun h hr => applyCoordinateTransforms_radians m xx iflag h hr,
    fun h hj => ?_⟩
  · rw [applyCoordinateTransforms_degrees m xx iflag h hr]
    exact ⟨rfl, rfl, rfl, rfl, rfl, rfl⟩
  · rw [applyCoordinateTransforms_xyz m xx iflag h, applyCoordinateTransforms_xyz m xx jflag hj]

/-! ## Lemmas on the calendar functions -/

theorem floatToInt_ratio (x : Float64) (n : Int) (k : Nat) (hx : x = (n : ℚ) / (k : ℚ))
    (hn : 0 ≤ n) (hr : n / (k : Int) < 2 ^ 63) : floatToInt x = .ok (n / (k : Int)) := by
  have h0 : (0 : ℚ) ≤ x := by
    rw [hx]
    exact div_nonneg (by exact_mod_cast hn) (by exact_mod_cast Nat.zero_le k)
  have hfl : ⌊x⌋ = n / (k : Int) := by rw [hx, Rat.floor_intCast_div_natCast]
  have hq : 0 ≤ n / (k : Int) := Int.ediv_nonneg hn (by exact_mod_cast Nat.zero_le k)
  unfold floatToInt
  simp only [if_pos h0, hfl]
  rw [if_pos ⟨by omega, hr⟩]

theorem floatToInt_add_frac (z : Int) (fr : Float64) (h0 : 0 ≤ fr) (h1 : fr < 1)
    (hz : 0 ≤ z) (hz' : z < 2 ^ 63) : floatToInt ((z : ℚ) + fr) = .ok z := by
  have hx : (0 : ℚ) ≤ (z : ℚ) + fr := add_nonneg (by exact_mod_cast hz) h0
  have hfl : ⌊(z : ℚ) + fr⌋ = z := by
    rw [Int.floor_eq_iff]
    constructor <;> linarith
  unfold floatToInt
  simp only [if_pos hx, hfl]
  rw [if_pos ⟨by omega, hz'⟩]

theorem mathFloor_ratio (x : Float64) (n : Int) (k : Nat) (hx : x = (n : ℚ) / (k : ℚ)) :
    mathFloor x = ((n / (k : Int) : Int) : ℚ) := by
  unfold mathFloor
  rw [hx, Rat.floor_intCast_div_natCast]

theorem mathFloor_year (y : Int) :
    mathFloor (365.25 * (y : Float64)) = (((1461 * y) / 4 : Int) : ℚ) := by
  rw [mathFloor_ratio _ (1461 * y) 4 (by push_cast; norm_num; ring)]
  rfl

theorem mathFloor_month (m : Int) :
    mathFloor (30.6001 * (m : Float64)) = (((306001 * m) / 10000 : Int) : ℚ) := by
  rw [mathFloor_ratio _ (306001 * m) 10000 (by push_cast; norm_num; ring)]
  rfl

/-- The day number of a Gregorian date in March-based form (`year1`, `month1` of
`Julday`): `Julday` is this number plus `1720994.5` plus the fraction of the day. -/
theorem Julday_gregorian (year month day : Int) (hour : Float64)
    (hy : 0 ≤ (if month ≤ 2 then year - 1 else year)) :
    Julday year month day hour SeGregCal =
      (((1461 * (if month ≤ 2 then year - 1 else year)) / 4 +
        (306001 * ((if month ≤ 2 then month + 12 else month) + 1)) / 10000 + day +
        (2 - (if month ≤ 2 then year - 1 else year) / 100 +
          (if month ≤ 2 then year - 1 else year) / 100 / 4) : Int) : ℚ) + 1720994.5 +
        hour / 24 := by
  unfold Julday
  simp only [if_neg (not_lt.mpr hy), if_true, mathFloor_year, mathFloor_month]
  have h100 : 0 ≤ (if month ≤ 2 then year - 1 else year) / 100 := Int.ediv_nonneg hy (by decide)
  rw [Int.tdiv_eq_ediv hy (by decide), Int.tdiv_eq_ediv h100 (by decide)]
  push_cast
  norm_num

/-- `Revjul` on a Gregorian day number `z` (the integer part of `jd + 0.5`) with day
fraction `fr`, in integer arithmetic. -/
theorem Revjul_gregorian (z alpha b c d e t : Int) (fr : Float64) (h0 : 0 ≤ fr) (h1 : fr < 1)
    (hz : 2299161 ≤ z) (hz' : z < 2 ^ 60)
    (halpha : alpha = (4 * z - 7468865) / 146097)
    (hb : b = z + 1 + alpha - alpha / 4 + 1524)
    (hc : c = (20 * b - 2442) / 7305)
    (hd : d = (1461 * c) / 4)
    (he : e = (10000 * (b - d)) / 306001)
    (ht : t = (306001 * e) / 10000) :
    Revjul ((z : ℚ) - 0.5 + fr) SeGregCal =
      .ok (if (if e < 14 then e - 1 else e - 13) > 2 then c - 4716 else c - 4715,
        if e < 14 then e - 1 else e - 13, b - d - t, fr * 24) := by
  have hjd : (z : ℚ) - 0.5 + fr + 0.5 = (z : ℚ) + fr := by ring
  have hzz : floatToInt ((z : ℚ) + fr) = .ok z :=
    floatToInt_add_frac z fr h0 h1 (by omega) (by omega)
  have halpha0 : 0 ≤ alpha := by omega
  have halpha1 : alpha ≤ z := by omega
  have hfa : floatToInt (((z : Float64) - 1867216.25) / 36524.25) = .ok alpha := by
    rw [halpha]
    exact floatToInt_ratio _ (4 * z - 7468865) 146097 (by push_cast; norm_num; field_simp; ring)
      (by omega) (by omega)
  have hta : Int.tdiv alpha 4 = alpha / 4 := Int.tdiv_eq_ediv halpha0 (by decide)
  have hb0 : z ≤ b := by omega
  have hb1 : b ≤ 2 * z + 1525 := by omega
  have hc0 : 0 ≤ c := by omega
  have hc1 : c ≤ b := by omega
  have hfc : floatToInt (((b : Float64) - 122.1) / 365.25) = .ok c := by
    rw [hc]
    exact floatToInt_ratio _ (20 * b - 2442) 7305 (by push_cast; norm_num; field_simp; ring)
      (by omega) (by omega)
  have hd0 : 0 ≤ d := by omega
  have hd1 : d ≤ b := by omega
  have hfd : floatToInt (365.25 * (c : Float64)) = .ok d := by
    rw [hd]
    exact floatToInt_ratio _ (1461 * c) 4 (by push_cast; norm_num; ring) (by omega) (by omega)
  have he0 : 0 ≤ e := by omega
  have he1 : e ≤ b := by omega
  have hfe : floatToInt (((b - d : Int) : Float64) / 30.6001) = .ok e := by
    rw [he]
    exact floatToInt_ratio _ (10000 * (b - d)) 306001
      (by push_cast; norm_num; field_simp; ring) (by omega) (by omega)
  have hft : floatToInt (30.6001 * (e : Float64)) = .ok t := by
    rw [ht]
    exact floatToInt_ratio _ (306001 * e) 10000 (by push_cast; norm_num; ring) (by omega)
      (by omega)
  have hba : z + 1 + alpha - alpha / 4 + 1524 = b := hb.symm
  unfold Revjul
  simp only [hjd, hzz, bind, Except.bind, pure, Except.pure, if_true, ge_iff_le, if_pos hz,
    hfa, hta, hba, hfc, hfd, hfe, hft, add_sub_cancel_left]
  norm_num

/-- The integer arithmetic of `Revjul` undoes the day number of `Julday` on a valid
Gregorian date, written with the March-based year `Y = 400 f + 100 g + 4 r1 + r0` and
month `M` in `3..14`. -/
theorem gregorian_core (f g r1 r0 M D : Int)
    (hg0 : 0 ≤ g) (hg : g ≤ 3) (hr1 : 0 ≤ r1) (hr1' : r1 ≤ 24)
    (hr0 : 0 ≤ r0) (hr0' : r0 ≤ 3) (hM : 3 ≤ M) (hM' : M ≤ 14) (hD : 1 ≤ D) (hD' : D ≤ 31)
    (h30 : (M = 4 ∨ M = 6 ∨ M = 9 ∨ M = 11) → D ≤ 30)
    (hfeb : M = 14 → D ≤ 28 ∨ (D = 29 ∧ r0 = 3 ∧ (r1 ≠ 24 ∨ g = 3)))
    (Y z alpha b c d e t : Int)
    (hY : Y = 400 * f + 100 * g + 4 * r1 + r0)
    (hz : z = (1461 * Y) / 4 + (306001 * (M + 1)) / 10000 + D + (2 - Y / 100 + (Y / 100) / 4)
            + 1720995)
    (halpha : alpha = (4 * z - 7468865) / 146097)
    (hb : b = z + 1 + alpha - alpha / 4 + 1524)
    (hc : c = (20 * b - 2442) / 7305)
    (hd : d = (1461 * c) / 4)
    (he : e = (10000 * (b - d)) / 306001)
    (ht : t = (306001 * e) / 10000) :
    c = Y + 4716 ∧ e = M + 1 ∧ b - d - t = D := by
  have h100 : Y / 100 = 4 * f + g := by omega
  have h4 : (Y / 100) / 4 = f := by omega
  have hy4 : (1461 * Y) / 4 = 146100 * f + 36525 * g + 1461 * r1 + (1461 * r0) / 4 := by omega
  rw [hy4, h100] at hz
  have h4' : (4 * f + g) / 4 = f := by omega
  rw [h4'] at hz
  clear h4 hy4 h4' h100
  have hal : alpha = 4 * f + g - 4 := by
    have h1 : (4 * f + g - 4) * 146097 ≤ 4 * z - 7468865 := by
      interval_cases r0 <;> interval_cases M <;> omega
    have h2 : 4 * z - 7468865 < (4 * f + g - 4 + 1) * 146097 := by
      interval_cases r0 <;> interval_cases M <;> omega
    omega
  have hal4 : alpha / 4 = f - 1 := by omega
  rw [hal4, hal] at hb
  clear halpha hal4
  have hb' : b = z + 3 * f + g + 1522 := by omega
  clear hb
  have hc' : c = Y + 4716 := by
    have h1 : (Y + 4716) * 7305 ≤ 20 * b - 2442 := by
      interval_cases r0 <;> interval_cases M <;> omega
    have h2 : 20 * b - 2442 < (Y + 4716 + 1) * 7305 := by
      interval_cases r0 <;> interval_cases M <;> omega
    omega
  have hd' : d = 146100 * f + 36525 * g + 1461 * r1 + (1461 * r0) / 4 + 1722519 := by
    omega
  clear hc hd
  have hbd : b - d = (306001 * (M + 1)) / 10000 + D := by omega
  have he' : e = M + 1 := by
    rw [hbd] at he
    interval_cases M <;> omega
  refine ⟨hc', he', ?_⟩
  rw [he'] at ht
  omega

theorem IsLeapYear_iff (year : Int) :
    IsLeapYear year = true ↔ (4 ∣ year ∧ (¬ 100 ∣ year ∨ 400 ∣ year)) := by
  unfold IsLeapYear
  simp only [Int.dvd_iff_tmod_eq_zero (a := 4), Int.dvd_iff_tmod_eq_zero (a := 100),
    Int.dvd_iff_tmod_eq_zero (a := 400)]
  by_cases h4 : Int.tmod year 4 = 0
  · by_cases h100 : Int.tmod year 100 = 0
    · simp [h4, h100]
    · simp [h4, h100]
  · simp [h4]

theorem DaysInMonth_eq (year month : Int) :
    DaysInMonth year month =
      if month < 1 ∨ 12 < month then 0
      else if month = 2 then (if IsLeapYear year = true then 29 else 28)
      else if month = 4 ∨ month = 6 ∨ month = 9 ∨ month = 11 then 30
      else 31 := by
  unfold DaysInMonth
  by_cases hm : month < 1 ∨ month > 12
  · rw [if_pos hm, if_pos hm]
  · rw [if_neg hm, if_neg hm]
    have h1 : 1 ≤ month := by omega
    have h2 : month ≤ 12 := by omega
    interval_cases month <;> simp

/-- `Revjul` undoes `Julday` on a valid Gregorian date on or after 1582-10-15 whose
year is at most `10^15`. -/
theorem Revjul_Julday (year month day : Int) (h : Float64)
    (hm1 : 1 ≤ month) (hm2 : month ≤ 12) (hd1 : 1 ≤ day) (hd2 : day ≤ DaysInMonth year month)
    (hstart : 1582 < year ∨ (year = 1582 ∧ (10 < month ∨ (month = 10 ∧ 15 ≤ day))))
    (hyear : year ≤ 10 ^ 15) (hh0 : 0 ≤ h) (hh1 : h < 24) :
    Revjul (Julday year month day h SeGregCal) SeGregCal = .ok (year, month, day, h) := by
  -- validity of the day in arithmetic form
  rw [DaysInMonth_eq, if_neg (by omega)] at hd2
  have hleap := IsLeapYear_iff year
  have hfebv : month = 2 → day ≤ 28 ∨ (day = 29 ∧ 4 ∣ year ∧ (¬ 100 ∣ year ∨ 400 ∣ year)) := by
    intro h2
    rw [if_pos h2] at hd2
    by_cases hl : IsLeapYear year = true
    · rw [if_pos hl] at hd2
      have := hleap.mp hl
      omega
    · rw [if_neg hl] at hd2
      omega
  have h30v : (month = 4 ∨ month = 6 ∨ month = 9 ∨ month = 11) → day ≤ 30 := by
    intro h4
    rw [if_neg (by omega), if_pos h4] at hd2
    exact hd2
  have h31v : day ≤ 31 := by
    split_ifs at hd2 <;> omega
  clear hd2 hleap
  have hyear' : year ≤ 1000000000000000 := by
    norm_num at hyear
    exact hyear
  clear hyear
  -- March-based year and month
  obtain ⟨Y, hY⟩ : ∃ Y : Int, Y = if month ≤ 2 then year - 1 else year := ⟨_, rfl⟩
  obtain ⟨M, hM⟩ : ∃ M : Int, M = if month ≤ 2 then month + 12 else month := ⟨_, rfl⟩
  have hJ := Julday_gregorian year month day h (by split_ifs <;> omega)
  rw [← hY, ← hM] at hJ
  have hYM : (month ≤ 2 ∧ Y = year - 1 ∧ M = month + 12) ∨ (2 < month ∧ Y = year ∧ M = month) := by
    rw [hY, hM]
    split_ifs <;> omega
  clear hY hM
  have hMr : 3 ≤ M ∧ M ≤ 14 := by omega
  have h30' : (M = 4 ∨ M = 6 ∨ M = 9 ∨ M = 11) → day ≤ 30 := by
    intro h4
    exact h30v (by omega)
  have hfeb' : M = 14 → day ≤ 28 ∨
      (day = 29 ∧ Y % 4 = 3 ∧ (Y % 100 / 4 ≠ 24 ∨ Y % 400 / 100 = 3)) := by
    intro h14
    rcases hfebv (by omega) with h28 | ⟨h29, h4, h100⟩
    · exact Or.inl h28
    · right
      refine ⟨h29, by omega, ?_⟩
      omega
  have hdec : Y = 400 * (Y / 400) + 100 * (Y % 400 / 100) + 4 * (Y % 100 / 4) + Y % 4 := by
    omega
  have hg : 0 ≤ Y % 400 / 100 ∧ Y % 400 / 100 ≤ 3 := by omega
  have hr1 : 0 ≤ Y % 100 / 4 ∧ Y % 100 / 4 ≤ 24 := by omega
  have hr0 : 0 ≤ Y % 4 ∧ Y % 4 ≤ 3 := by omega
  obtain ⟨z, hz⟩ : ∃ z : Int, z = (1461 * Y) / 4 + (306001 * (M + 1)) / 10000 + day +
      (2 - Y / 100 + (Y / 100) / 4) + 1720995 := ⟨_, rfl⟩
  have hJz : Julday year month day h SeGregCal = (z : ℚ) - 0.5 + h / 24 := by
    rw [hJ, hz]
    push_cast
    ring
  have hzlo : 2299161 ≤ z := by
    rw [hz]
    rcases hstart with hs | ⟨hs, hs2⟩
    · interval_cases month <;> omega
    · interval_cases month <;> omega
  have hzhi : z < 2 ^ 60 := by
    rw [hz]
    have : (306001 * (M + 1)) / 10000 ≤ 459 := by omega
    norm_num
    omega
  clear hJ hfebv h30v hstart hyear'
  obtain ⟨alpha, halpha⟩ : ∃ a : Int, a = (4 * z - 7468865) / 146097 := ⟨_, rfl⟩
  obtain ⟨b, hb⟩ : ∃ b : Int, b = z + 1 + alpha - alpha / 4 + 1524 := ⟨_, rfl⟩
  obtain ⟨c, hc⟩ : ∃ c : Int, c = (20 * b - 2442) / 7305 := ⟨_, rfl⟩
  obtain ⟨d, hd⟩ : ∃ d : Int, d = (1461 * c) / 4 := ⟨_, rfl⟩
  obtain ⟨e, he⟩ : ∃ e : Int, e = (10000 * (b - d)) / 306001 := ⟨_, rfl⟩
  obtain ⟨t, ht⟩ : ∃ t : Int, t = (306001 * e) / 10000 := ⟨_, rfl⟩
  obtain ⟨hc', he', hday⟩ := gregorian_core (Y / 400) (Y % 400 / 100) (Y % 100 / 4) (Y % 4) M
    day hg.1 hg.2 hr1.1 hr1.2 hr0.1 hr0.2 hMr.1 hMr.2 hd1 h31v h30' hfeb'
    Y z alpha b c d e t hdec hz halpha hb hc hd he ht
  rw [hJz, Revjul_gregorian z alpha b c d e t (h / 24) (by positivity)
    (by rw [div_lt_one (by norm_num)]; exact hh1) hzlo hzhi halpha hb hc hd he ht]
  clear hz halpha hb hc hd he ht hzlo hzhi hdec hfeb' h30' hJz hg hr1 hr0
  have hmonth : (if e < 14 then e - 1 else e - 13) = month := by
    rw [he']
    split_ifs <;> omega
  have hyr : (if month > 2 then c - 4716 else c - 4715) = year := by
    rw [hc']
    split_ifs <;> omega
  rw [hmonth, hyr, hday]
  have h24 : h / 24 * 24 = h := by field_simp
  rw [h24]

/-- Go's truncated division in terms of the floor division, for a divisor `k ≥ 0`. -/
theorem tdiv_eq_if (a k : Int) (hk : 0 ≤ k) :
    Int.tdiv a k = if 0 ≤ a then a / k else -((-a) / k) := by
  by_cases ha : 0 ≤ a
  · rw [if_pos ha, Int.tdiv_eq_ediv ha hk]
  · rw [if_neg ha]
    have h : Int.tdiv (-(-a)) k = -(Int.tdiv (-a) k) := Int.neg_tdiv (-a) k
    rw [neg_neg] at h
    rw [h, Int.tdiv_eq_ediv (by omega) hk]

/-- The integer part towards zero of a ratio of integers is Go's integer division. -/
theorem trunc_ratio (n : Int) (k : Nat) (hk : 0 < k) :
    (if 0 ≤ (n : ℚ) / (k : ℚ) then ⌊(n : ℚ) / (k : ℚ)⌋ else ⌈(n : ℚ) / (k : ℚ)⌉) =
      Int.tdiv n (k : Int) := by
  have hkq : (0 : ℚ) < (k : ℚ) := by exact_mod_cast hk
  rw [tdiv_eq_if n k (by exact_mod_cast Nat.zero_le k)]
  by_cases hn : 0 ≤ n
  · have h0 : (0 : ℚ) ≤ (n : ℚ) / (k : ℚ) := div_nonneg (by exact_mod_cast hn) hkq.le
    rw [if_pos h0, if_pos hn, Rat.floor_intCast_div_natCast]
  · have hnq : (n : ℚ) < 0 := by exact_mod_cast (not_le.mp hn)
    have h0 : ¬ (0 : ℚ) ≤ (n : ℚ) / (k : ℚ) := not_le.mpr (div_neg_of_neg_of_pos hnq hkq)
    rw [if_neg h0, if_neg hn]
    have hneg : (n : ℚ) / (k : ℚ) = -(((-n : Int) : ℚ) / (k : ℚ)) := by
      push_cast
      ring
    rw [hneg, Int.ceil_neg, Rat.floor_intCast_div_natCast]

/-- On integer-valued arguments `math.Mod` is Go's integer remainder `%`. -/
theorem mathMod_intCast (n : Int) (k : Nat) (hk : 0 < k) :
    mathMod (n : ℚ) (k : ℚ) = ((Int.tmod n (k : Int) : Int) : ℚ) := by
  unfold mathMod
  simp only [trunc_ratio n k hk, Int.tmod_def]
  push_cast
  ring

theorem floatToInt_intCast (z : Int) (h0 : -(2 ^ 63) ≤ z) (h1 : z < 2 ^ 63) :
    floatToInt (z : ℚ) = .ok z := by
  unfold floatToInt
  have hz : (if (0 : ℚ) ≤ (z : ℚ) then ⌊(z : ℚ)⌋ else ⌈(z : ℚ)⌉) = z := by
    split_ifs <;> simp
  simp only [hz]
  rw [if_pos ⟨h0, h1⟩]

theorem tmod_seven_bounds (n : Int) : -6 ≤ Int.tmod n 7 ∧ Int.tmod n 7 ≤ 6 ∧
    (0 ≤ n → Int.tmod n 7 = n % 7) := by
  by_cases hn : 0 ≤ n
  · rw [Int.tmod_eq_emod hn (by decide)]
    omega
  · have h : Int.tmod n 7 = n - 7 * Int.tdiv n 7 := Int.tmod_def n 7
    have h2 := tdiv_eq_if n 7 (by decide)
    rw [if_neg hn] at h2
    rw [h2] at h
    omega

/-- `DayOfWeek` is Go's remainder of the floor of `jd + 1.5` by 7, which has the sign
of the dividend. -/
theorem DayOfWeek_eq (jd : Float64) : DayOfWeek jd = .ok (Int.tmod ⌊jd + 1.5⌋ 7) := by
  unfold DayOfWeek mathFloor
  have h7 : (7 : ℚ) = ((7 : Nat) : ℚ) := by norm_num
  rw [h7, mathMod_intCast _ 7 (by decide)]
  have hb := tmod_seven_bounds ⌊jd + 1.5⌋
  exact floatToInt_intCast _ (le_trans (by norm_num) hb.1)
    (lt_of_le_of_lt hb.2.1 (by norm_num))

/-- `Julday` is an integer day number plus `1720994.5` plus the fraction of the day;
bounds of the day number for the year ranges used below, for either calendar. -/
theorem Julday_int_bounds (year month day gregflag : Int)
    (hy1 : -4713 ≤ year) (hm1 : 1 ≤ month) (hm2 : month ≤ 12)
    (hd1 : 1 ≤ day) (hd2 : day ≤ 31) :
    ∃ N : Int, (∀ hour : Float64,
        Julday year month day hour gregflag = (N : ℚ) + 1720994.5 + hour / 24) ∧
      (1981 ≤ year → 723246 ≤ N) ∧ (year ≤ 1618 → N ≤ 591754) ∧
      (1620 ≤ year → year ≤ 1970 → 591756 ≤ N ∧ N ≤ 720322) := by
  obtain ⟨Y, hY⟩ : ∃ Y : Int, Y = if month ≤ 2 then year - 1 else year := ⟨_, rfl⟩
  obtain ⟨M, hM⟩ : ∃ M : Int, M = if month ≤ 2 then month + 12 else month := ⟨_, rfl⟩
  obtain ⟨b, hb⟩ : ∃ b : Int, b = if gregflag = SeGregCal then
      2 - Int.tdiv Y 100 + Int.tdiv (Int.tdiv Y 100) 4 else 0 := ⟨_, rfl⟩
  refine ⟨(if Y < 0 then (1461 * (Y - 1)) / 4 else (1461 * Y) / 4) +
    (306001 * (M + 1)) / 10000 + day + b, fun hour => ?_, ?_⟩
  · unfold Julday
    simp only [mathFloor_year, mathFloor_month, ← hY, ← hM, ← hb]
    split_ifs <;> push_cast <;> norm_num
  · have hYM : (month ≤ 2 ∧ Y = year - 1 ∧ M = month + 12) ∨
        (2 < month ∧ Y = year ∧ M = month) := by
      rw [hY, hM]
      split_ifs <;> omega
    clear hY hM
    have ha := tdiv_eq_if Y 100 (by decide)
    have ha4 := tdiv_eq_if (Int.tdiv Y 100) 4 (by decide)
    rw [ha] at ha4 hb
    rw [ha4] at hb
    clear ha ha4
    have hM1 : 122 ≤ (306001 * (M + 1)) / 10000 ∧ (306001 * (M + 1)) / 10000 ≤ 459 := by omega
    refine ⟨fun h => ?_, fun h => ?_, fun h h' => ?_⟩
    · have hY0 : ¬ Y < 0 := by omega
      have hY1 : 0 ≤ Y := by omega
      have hY2 : 0 ≤ Y / 100 := by omega
      rw [if_neg hY0]
      rw [if_pos hY1, if_pos hY2] at hb
      split_ifs at hb <;> omega
    · by_cases hY0 : Y < 0
      · rw [if_pos hY0]
        have hY1 : ¬ 0 ≤ Y := by omega
        rw [if_neg hY1] at hb
        split_ifs at hb <;> omega
      · rw [if_neg hY0]
        have hY1 : 0 ≤ Y := by omega
        have hY2 : 0 ≤ Y / 100 := by omega
        rw [if_pos hY1, if_pos hY2] at hb
        split_ifs at hb <;> omega
    · have hY0 : ¬ Y < 0 := by omega
      have hY1 : 0 ≤ Y := by omega
      have hY2 : 0 ≤ Y / 100 := by omega
      rw [if_neg hY0]
      rw [if_pos hY1, if_pos hY2] at hb
      split_ifs at hb <;> omega

/-- `Deltat` is positive before the year value 1620 and from the year value 1980 on. -/
theorem Deltat_pos (tjd : Float64) (h : tjd < 2312750 ∨ 2444240 ≤ tjd) : 0 < Deltat tjd := by
  unfold Deltat J2000
  obtain ⟨y, hy⟩ : ∃ y : ℚ, y = (tjd - 2451545.0) / 365.25 + 2000.0 := ⟨_, rfl⟩
  have hyr : tjd = (y - 2000) * 365.25 + 2451545 := by
    rw [hy]
    norm_num
  simp only [← hy]
  by_cases h1 : y < 1620
  · simp only [if_pos h1]
    have ht : (y - 2000) / 100 < -3.8 := by
      norm_num
      linarith
    nlinarith
  · simp only [if_neg h1]
    have hy2 : 1980 ≤ y := by
      rcases h with h | h
      · rw [hyr] at h
        norm_num at h
        linarith
      · rw [hyr] at h
        norm_num at h
        linarith
    have h72 : ¬ y < 1972 := by linarith
    simp only [if_neg h72]
    by_cases h05 : y < 2005
    · simp only [if_pos h05]
      obtain ⟨t, htd⟩ : ∃ t : ℚ, t = y - 2000 := ⟨_, rfl⟩
      rw [← htd]
      have ht1 : -20 ≤ t := by linarith
      have ht2 : t < 5 := by linarith
      by_cases ht0 : 0 ≤ t
      · have h2 : t * t ≤ 25 := by nlinarith
        have h3 : 0 ≤ t * t * t := mul_nonneg (mul_nonneg ht0 ht0) ht0
        have h4 : 0 ≤ t * t * t * t := mul_nonneg h3 ht0
        have h5 : 0 ≤ t * t * t * t * t := mul_nonneg h4 ht0
        norm_num
        nlinarith
      · have hs : t < 0 := not_le.mp ht0
        have h2 : t * t ≤ 400 := by nlinarith
        have h3 : -8000 ≤ t * t * t := by nlinarith
        have h4 : 0 ≤ t * t * t * t * (0.000651814 + 0.00002373599 * t) := by
          have h41 : 0 ≤ t * t * t * t := by
            have := mul_self_nonneg (t * t)
            linarith [show t * t * t * t = t * t * (t * t) by ring]
          have h42 : (0 : ℚ) ≤ 0.000651814 + 0.00002373599 * t := by
            norm_num
            linarith
          exact mul_nonneg h41 h42
        norm_num at h4 ⊢
        nlinarith
    · simp only [if_neg h05]
      norm_num
      linarith

/-- `Deltat` is negative for year values from 1620 to 1972. -/
theorem Deltat_neg (tjd : Float64) (h1 : 2312750 ≤ tjd) (h2 : tjd ≤ 2441318) :
    Deltat tjd < 0 := by
  unfold Deltat J2000
  obtain ⟨y, hy⟩ : ∃ y : ℚ, y = (tjd - 2451545.0) / 365.25 + 2000.0 := ⟨_, rfl⟩
  have hyr : tjd = (y - 2000) * 365.25 + 2451545 := by
    rw [hy]
    norm_num
  simp only [← hy]
  rw [hyr] at h1 h2
  have hy1 : 1620 ≤ y := by
    norm_num at h1
    linarith
  have hy2 : y ≤ 1972 := by
    norm_num at h2
    linarith
  have h16 : ¬ y < 1620 := by linarith
  simp only [if_neg h16]
  have h05 : y < 2005 := by linarith
  simp only [if_pos h05, ite_self]
  obtain ⟨s, hs⟩ : ∃ s : ℚ, s = 2000 - y := ⟨_, rfl⟩
  have ht : y - 2000 = -s := by rw [hs]; ring
  rw [ht]
  have hs1 : 28 ≤ s := by linarith
  have h2 : 784 ≤ s * s := by nlinarith
  have hs0 : 0 ≤ s := by linarith
  have h3 : 0 ≤ s * s * s := mul_nonneg (mul_nonneg hs0 hs0) hs0
  have h4 : 0 ≤ s * s * s * s * (0.00002373599 * s - 0.000651814) := by
    have h41 : 0 ≤ s * s * s * s := mul_nonneg h3 hs0
    have h42 : (0 : ℚ) ≤ 0.00002373599 * s - 0.000651814 := by
      norm_num
      linarith
    exact mul_nonneg h41 h42
  norm_num at h4 ⊢
  nlinarith

/-! ## The claims on the calendar functions -/

/-- Claim C15: for every integer year and month, `DaysInMonth(year, month) = 0` exactly
when the month is outside `1..12`; otherwise it is 31 for months 1, 3, 5, 7, 8, 10, 12,
30 for months 4, 6, 9, 11, and for month 2 it is 29 when `IsLeapYear(year)` and 28
otherwise; and `IsLeapYear(year)` holds exactly when the year is divisible by 4 and
(not divisible by 100 or divisible by 400), for negative years too. -/
theorem C15_days_in_month (year month : Int) :
    (DaysInMonth year month = 0 ↔ (month < 1 ∨ 12 < month)) ∧
    ((month = 1 ∨ month = 3 ∨ month = 5 ∨ month = 7 ∨ month = 8 ∨ month = 10 ∨ month = 12) →
      DaysInMonth year month = 31) ∧
    ((month = 4 ∨ month = 6 ∨ month = 9 ∨ month = 11) → DaysInMonth year month = 30) ∧
    (month = 2 → DaysInMonth year month = if IsLeapYear year = true then 29 else 28) ∧
    (IsLeapYear year = true ↔ (4 ∣ year ∧ (¬ 100 ∣ year ∨ 400 ∣ year))) := by
  refine ⟨?_, ?_, ?_, ?_, IsLeapYear_iff year⟩
  · rw [DaysInMonth_eq]
    constructor
    · intro h
      by_contra hc
      rw [if_neg hc] at h
      split_ifs at h <;> omega
    · intro h
      rw [if_pos h]
  · intro h
    rw [DaysInMonth_eq, if_neg (by omega), if_neg (by omega), if_neg (by omega)]
  · intro h
    rw [DaysInMonth_eq, if_neg (by omega), if_neg (by omega), if_pos h]
  · intro h
    rw [DaysInMonth_eq, if_neg (by omega), if_pos h]

/-- Claim C16 is not met by the code for negative Julian days.  `DayOfWeek(jd)` is
the remainder of `⌊jd + 1.5⌋` by 7 with the sign of the dividend (`math.Mod`): it is
in `0..6` for `jd ≥ -1.5` and equals 1 (Monday) for 2024-01-01, but for `jd = -3` it
is `-2`, outside `0..6`. -/
theorem C16_weekday_sign :
    DayOfWeek (-3) = .ok (-2) ∧
    DayOfWeek (Julday 2024 1 1 0 SeGregCal) = .ok 1 ∧
    (∀ jd : Float64, DayOfWeek jd = .ok (Int.tmod ⌊jd + 1.5⌋ 7)) ∧
    (∀ jd : Float64, -1.5 ≤ jd →
      ∃ d : Int, DayOfWeek jd = .ok d ∧ 0 ≤ d ∧ d ≤ 6 ∧ d = ⌊jd + 1.5⌋ % 7) := by
  refine ⟨by decide!, by decide!, DayOfWeek_eq, fun jd hjd => ?_⟩
  have h0 : 0 ≤ ⌊jd + 1.5⌋ := Int.floor_nonneg.mpr (by linarith)
  have hb := tmod_seven_bounds ⌊jd + 1.5⌋
  refine ⟨_, DayOfWeek_eq jd, ?_, hb.2.1, hb.2.2 h0⟩
  rw [hb.2.2 h0]
  omega

/-- For every input that `UtcToJd` accepts (year in `-4713..5000000`, month `1..12`,
day `1..31`, hour `0..23`, minute `0..59`, `0 ≤ second < 60`) the call returns without
error `ut1 = Julday(...)` and `et` with `et - ut1 = Deltat(ut1) / 86400`.  This
difference is positive when the year is at most 1618 or at least 1981, and negative
when the year is in `1620..1970`. -/
theorem UtcToJd_et_minus_ut1 (iyear imonth iday ihour imin : Int) (dsec : Float64)
    (gregflag : Int)
    (hy1 : -4713 ≤ iyear) (hy2 : iyear ≤ 5000000) (hm1 : 1 ≤ imonth) (hm2 : imonth ≤ 12)
    (hd1 : 1 ≤ iday) (hd2 : iday ≤ 31) (hh1 : 0 ≤ ihour) (hh2 : ihour ≤ 23)
    (hn1 : 0 ≤ imin) (hn2 : imin ≤ 59) (hs1 : 0 ≤ dsec) (hs2 : dsec < 60) :
    ∃ et ut1 : Float64,
      UtcToJd iyear imonth iday ihour imin dsec gregflag = (et, ut1, none) ∧
      ut1 = Julday iyear imonth iday
        ((ihour : Float64) + (imin : Float64) / 60 + dsec / 3600) gregflag ∧
      et - ut1 = Deltat ut1 / 86400 ∧
      ((iyear ≤ 1618 ∨ 1981 ≤ iyear) → ut1 < et) ∧
      ((1620 ≤ iyear ∧ iyear ≤ 1970) → et < ut1) := by
  obtain ⟨N, hN, hlate, hearly, hmid⟩ :=
    Julday_int_bounds iyear imonth iday gregflag hy1 hm1 hm2 hd1 hd2
  obtain ⟨dhour, hdh⟩ : ∃ x : Float64,
      x = (ihour : Float64) + (imin : Float64) / 60 + dsec / 3600 := ⟨_, rfl⟩
  have hdh0 : 0 ≤ dhour := by
    have : (0 : ℚ) ≤ (ihour : ℚ) := by exact_mod_cast hh1
    have : (0 : ℚ) ≤ (imin : ℚ) := by exact_mod_cast hn1
    rw [hdh]
    positivity
  have hdh1 : dhour < 24 := by
    have : (ihour : ℚ) ≤ 23 := by exact_mod_cast hh2
    have : (imin : ℚ) ≤ 59 := by exact_mod_cast hn2
    rw [hdh]
    linarith
  refine ⟨Julday iyear imonth iday dhour gregflag +
      Deltat (Julday iyear imonth iday dhour gregflag) / 86400,
    Julday iyear imonth iday dhour gregflag, ?_, by rw [hdh], by ring, ?_, ?_⟩
  · unfold UtcToJd
    rw [if_neg (by omega), if_neg (by omega), if_neg (by omega), if_neg (by omega),
      if_neg (by omega), if_neg (by rw [not_or]; exact ⟨not_lt.mpr hs1, not_le.mpr hs2⟩)]
    simp only [hdh]
    norm_num
  · intro hyr
    have hpos : 0 < Deltat (Julday iyear imonth iday dhour gregflag) := by
      apply Deltat_pos
      rw [hN dhour]
      rcases hyr with hyr | hyr
      · left
        have hb : (N : ℚ) ≤ 591754 := by exact_mod_cast hearly hyr
        norm_num
        linarith
      · right
        have hb : (723246 : ℚ) ≤ (N : ℚ) := by exact_mod_cast hlate hyr
        norm_num
        linarith
    have : 0 < Deltat (Julday iyear imonth iday dhour gregflag) / 86400 := by positivity
    linarith
  · intro hyr
    have hneg : Deltat (Julday iyear imonth iday dhour gregflag) < 0 := by
      have hb := hmid hyr.1 hyr.2
      have hb1 : (591756 : ℚ) ≤ (N : ℚ) := by exact_mod_cast hb.1
      have hb2 : (N : ℚ) ≤ 720322 := by exact_mod_cast hb.2
      apply Deltat_neg
      · rw [hN dhour]
        norm_num
        linarith
      · rw [hN dhour]
        norm_num
        linarith
    have : Deltat (Julday iyear imonth iday dhour gregflag) / 86400 < 0 :=
      div_neg_of_neg_of_pos hneg (by norm_num)
    linarith

/-- Claim C17 does not hold of the code, and the code is at odds with its own comments
and test here (Delta T is taken to be positive): in its branch for the years 1620 to
1972 `Deltat` evaluates the polynomial of the branch for 1972 to 2005, which is far
from the historical values there.  For 1700-01-01 00:00:00, which `UtcToJd` accepts,
Delta T comes out below `-5 · 10^7` seconds and the returned ET is smaller than the
returned UT1; and the returned ET is smaller than the returned UT1 for every accepted
input whose year is in `1620..1970`. -/
theorem C17_delta_t_negative :
    (UtcToJd 1700 1 1 0 0 0 SeGregCal).2.2 = none ∧
    (UtcToJd 1700 1 1 0 0 0 SeGregCal).1 < (UtcToJd 1700 1 1 0 0 0 SeGregCal).2.1 ∧
    Deltat (UtcToJd 1700 1 1 0 0 0 SeGregCal).2.1 < -50000000 ∧
    (∀ (iyear imonth iday ihour imin : Int) (dsec : Float64) (gregflag : Int),
      1620 ≤ iyear → iyear ≤ 1970 → 1 ≤ imonth → imonth ≤ 12 → 1 ≤ iday → iday ≤ 31 →
      0 ≤ ihour → ihour ≤ 23 → 0 ≤ imin → imin ≤ 59 → 0 ≤ dsec → dsec < 60 →
      ∃ et ut1 : Float64,
        UtcToJd iyear imonth iday ihour imin dsec gregflag = (et, ut1, none) ∧
        et - ut1 = Deltat ut1 / 86400 ∧ et < ut1) := by
  refine ⟨by decide!, by decide!, by decide!, ?_⟩
  intro iyear imonth iday ihour imin dsec gregflag hy1 hy2 hm1 hm2 hd1 hd2 hh1 hh2 hn1 hn2
    hs1 hs2
  obtain ⟨et, ut1, h, _, hdiff, _, hneg⟩ := UtcToJd_et_minus_ut1 iyear imonth iday ihour imin
    dsec gregflag (by omega) (by omega) hm1 hm2 hd1 hd2 hh1 hh2 hn1 hn2 hs1 hs2
  exact ⟨et, ut1, h, hdiff, hneg ⟨hy1, hy2⟩⟩

/-- Claim C18 is not met by the code: for a negative total of seconds the day offset
is taken from `math.Floor` and then decremented once more.  One hour west of
2024-01-15 00:00:00 the code returns 2024-01-13 23:00:00, one day before the instant
the claim describes (2024-01-14 23:00:00); an offset that stays non-negative is
handled as claimed (23:30 plus one hour is 00:30 of the next day). -/
theorem C18_timezone_day_offset :
    UtcTimeZone 2024 1 15 0 0 0 (-1) = .ok (2024, 1, 13, 23, 0, 0) ∧
    Julday 2024 1 13 0 SeGregCal + (23 + 0 / 60 + 0 / 3600) / 24 =
      Julday 2024 1 15 0 SeGregCal + (0 + 0 / 60 + 0 / 3600 + (-1)) / 24 - 1 ∧
    Julday 2024 1 14 0 SeGregCal + (23 + 0 / 60 + 0 / 3600) / 24 =
      Julday 2024 1 15 0 SeGregCal + (0 + 0 / 60 + 0 / 3600 + (-1)) / 24 ∧
    UtcTimeZone 2024 1 15 23 30 0 1 = .ok (2024, 1, 16, 0, 30, 0) :=
  ⟨by decide!, by decide!, by decide!, by decide!⟩

/-! ## Lemmas on the byte cursor and the block reads -/

theorem ReadFloat64_in_range (env : Env) (r : ByteReader) (h : r.pos + 8 ≤ r.data.length) :
    r.ReadFloat64 env =
      (env.Float64frombits (r.order.decode ((r.data.drop r.pos).take 8)),
        { r with pos := r.pos + 8 }) := by
  unfold ByteReader.ReadFloat64
  rw [if_neg (by omega)]

theorem ReadInt32_in_range (r : ByteReader) (h : r.pos + 4 ≤ r.data.length) :
    r.ReadInt32 =
      (toInt32 (r.order.decode ((r.data.drop r.pos).take 4)), { r with pos := r.pos + 4 }) := by
  unfold ByteReader.ReadInt32
  rw [if_neg (by omega)]

/-- A run of `n` float reads that fits in the data decodes entry `i` from the 8 bytes
at `pos + 8 i` and leaves the cursor at `pos + 8 n`. -/
theorem readFloat64s_in_range (env : Env) (n : Nat) (r : ByteReader)
    (h : r.pos + 8 * n ≤ r.data.length) :
    readFloat64s env n r =
      ((List.range n).map (fun i =>
          env.Float64frombits (r.order.decode ((r.data.drop (r.pos + 8 * i)).take 8))),
        { r with pos := r.pos + 8 * n }) := by
  induction n generalizing r with
  | zero => rfl
  | succ n ih =>
    have h1 : r.pos + 8 ≤ r.data.length := by omega
    simp only [readFloat64s, ReadFloat64_in_range env r h1]
    rw [ih { r with pos := r.pos + 8 } (by simp only; omega)]
    have key : ∀ i, r.pos + 8 + 8 * i = r.pos + 8 * (i + 1) := fun i => by ring
    simp only [List.range_succ_eq_map, List.map_cons, List.map_map, Nat.mul_zero, Nat.add_zero,
      key]
    rfl

/-- A run of `n` int32 reads that fits in the data decodes entry `i` from the 4 bytes
at `pos + 4 i` and leaves the cursor at `pos + 4 n`. -/
theorem readInt32s_in_range (n : Nat) (r : ByteReader) (h : r.pos + 4 * n ≤ r.data.length) :
    readInt32s n r =
      ((List.range n).map (fun i =>
          toInt32 (r.order.decode ((r.data.drop (r.pos + 4 * i)).take 4))),
        { r with pos := r.pos + 4 * n }) := by
  induction n generalizing r with
  | zero => rfl
  | succ n ih =>
    have h1 : r.pos + 4 ≤ r.data.length := by omega
    simp only [readInt32s, ReadInt32_in_range r h1]
    rw [ih { r with pos := r.pos + 4 } (by simp only; omega)]
    have key : ∀ i, r.pos + 4 + 4 * i = r.pos + 4 * (i + 1) := fun i => by ring
    simp only [List.range_succ_eq_map, List.map_cons, List.map_map, Nat.mul_zero, Nat.add_zero,
      key]
    rfl

/-- Bytes `[p, p + k)` of a block of `n` bytes cut out of a file at offset `off` are
bytes `[off + p, off + p + k)` of the file. -/
theorem block_slice (content : List Byte) (off n p k : Nat) (h : p + k ≤ n) :
    (((content.drop off).take n).drop p).take k = (content.drop (off + p)).take k := by
  rw [List.drop_take, List.take_take, List.drop_drop, Nat.min_eq_left (by omega)]

theorem readFull_ok_iff (f : OsFile) (hopen : f.closed = false) (off : Nat) :
    readFull (some f) off JplRecordSize =
      if off + 8144 ≤ f.content.length then .ok ((f.content.drop off).take 8144)
      else if f.content.length ≤ off then .error .errEOF else .error .errUnexpectedEOF := by
  unfold readFull JplRecordSize
  simp only [hopen, Bool.false_eq_true, if_false]
  by_cases h : off + 8144 ≤ f.content.length
  · rw [if_pos h, if_pos h]
  · rw [if_neg h, if_neg h, if_neg (by decide)]

/-- On a block of at least 252 bytes the header decoding reads every field from the
block and leaves the cursor at 252. -/
theorem parseHeader_in_range (env : Env) (data : List Byte) (h : 252 ≤ data.length) :
    parseHeader env (NewByteReader data .LittleEndian) =
      ({ StartJD := env.Float64frombits (leValue ((data.drop 0).take 8)),
         EndJD := env.Float64frombits (leValue ((data.drop 8).take 8)),
         StepJD := env.Float64frombits (leValue ((data.drop 16).take 8)),
         NumConst := toInt32 (leValue ((data.drop 24).take 4)),
         AU := env.Float64frombits (leValue ((data.drop 28).take 8)),
         EMRat := env.Float64frombits (leValue ((data.drop 36).take 8)),
         IPT := fun i j => ((List.range (3 * 13)).map (fun k =>
           toInt32 (leValue ((data.drop (44 + 4 * k)).take 4)))).getD (13 * i.val + j.val) 0,
         NumCoeff := fun i => ((List.range 13).map (fun k =>
           toInt32 (leValue ((data.drop (200 + 4 * k)).take 4)))).getD i.val 0,
         Constants := [] },
       { data := data, pos := 252, order := .LittleEndian }) := by
  unfold parseHeader NewByteReader
  rw [ReadFloat64_in_range env _ (by simp only; omega)]
  simp only []
  rw [ReadFloat64_in_range env _ (by simp only; omega)]
  simp only []
  rw [ReadFloat64_in_range env _ (by simp only; omega)]
  simp only []
  rw [ReadInt32_in_range _ (by simp only; omega)]
  simp only []
  rw [ReadFloat64_in_range env _ (by simp only; omega)]
  simp only []
  rw [ReadFloat64_in_range env _ (by simp only; omega)]
  simp only []
  rw [readInt32s_in_range _ _ (by simp only; omega)]
  simp only []
  rw [readInt32s_in_range _ _ (by simp only; omega)]
  simp only [ByteOrder.decode]

theorem readJplHeader_open (env : Env) (header : JplHeader) (f : OsFile)
    (hopen : f.closed = false) :
    readJplHeader env header f =
      if 8144 ≤ f.content.length then
        ((parseHeader env (NewByteReader ((f.content.drop 0).take 8144) .LittleEndian)).1, none)
      else (header, some (if f.content.length ≤ 0 then .errEOF else .errUnexpectedEOF)) := by
  unfold readJplHeader seekStart
  simp only [hopen, Bool.false_eq_true, if_false, lt_irrefl]
  rw [readFull_ok_iff f hopen 0]
  simp only [Nat.zero_add]
  by_cases h : 8144 ≤ f.content.length
  · simp only [if_pos h]
  · simp only [if_neg h]
    split_ifs <;> rfl

theorem readJplRecord_open (env : Env) (f : OsFile) (hopen : f.closed = false)
    (recordNum : Int) :
    readJplRecord env (some f) recordNum =
      if wrap64 (recordNum * 8144) < 0 then .error .errInvalid
      else if (wrap64 (recordNum * 8144)).toNat + 8144 ≤ f.content.length then
        .ok (readFloat64s env JplNCoeff (NewByteReader
          ((f.content.drop (wrap64 (recordNum * 8144)).toNat).take 8144) .LittleEndian)).1
      else .error (if f.content.length ≤ (wrap64 (recordNum * 8144)).toNat then .errEOF
        else .errUnexpectedEOF) := by
  have hsz : ((JplRecordSize : Nat) : Int) = 8144 := rfl
  unfold readJplRecord seekStart
  simp only [hsz, hopen, Bool.false_eq_true, if_false]
  by_cases hneg : wrap64 (recordNum * 8144) < 0
  · simp only [if_pos hneg]
    rfl
  · simp only [if_neg hneg]
    simp only [bind, Except.bind]
    rw [readFull_ok_iff f hopen]
    by_cases h : (wrap64 (recordNum * 8144)).toNat + 8144 ≤ f.content.length
    · simp only [if_pos h]
      rfl
    · simp only [if_neg h]
      split_ifs <;> rfl

theorem block_length (content : List Byte) (off : Nat) (h : off + 8144 ≤ content.length) :
    ((content.drop off).take 8144).length = 8144 := by
  rw [List.length_take, List.length_drop]
  omega

/-- A run of `m` float reads from the start of a block of at least `8 m` bytes: the
number of entries, the final cursor and the bytes each entry is decoded from. -/
theorem readFloat64s_entries (env : Env) (data : List Byte) (m : Nat)
    (hm : 8 * m ≤ data.length) :
    (readFloat64s env m (NewByteReader data .LittleEndian)).1.length = m ∧
    (readFloat64s env m (NewByteReader data .LittleEndian)).2.pos = 8 * m ∧
    ∀ i, i < m → (readFloat64s env m (NewByteReader data .LittleEndian)).1.get? i =
      some (env.Float64frombits (leValue ((data.drop (8 * i)).take 8))) := by
  rw [readFloat64s_in_range env m (NewByteReader data .LittleEndian)
    (by simp only [NewByteReader]; omega)]
  refine ⟨?_, ?_, fun i hi => ?_⟩
  · rw [List.length_map, List.length_range]
  · simp only [NewByteReader, Nat.zero_add]
  · simp only [NewByteReader, ByteOrder.decode, Nat.zero_add]
    rw [List.get?_eq_getElem?, List.getElem?_map, List.getElem?_range hi, Option.map_some']

/-! ## The claims on the block reads -/

/-- Claim C19: reading one fixed-size block is all-or-nothing.  On an open handle,
`readJplHeader` fails exactly when the file has fewer than 8144 bytes, and
`readJplRecord` fails exactly when fewer than 8144 bytes are available from its
offset, the Go `int64` value of `recordNum * 8144` (a negative offset has no bytes;
for `0 ≤ recordNum` and `recordNum * 8144 < 2^63` the offset is the product itself).
On success no read runs past the block, which is what the cursor position shows (a
read of the zero-on-overrun branch does not advance it): the header decoding ends
with the cursor at 252, and the record decoding returns 1018 entries, ends with the
cursor at 8144, and entry `i` is decoded from bytes `[8 i, 8 i + 8)` of the block,
i.e. bytes `[offset + 8 i, offset + 8 i + 8)` of the file. -/
theorem C19_block_all_or_nothing (env : Env) (header : JplHeader) (f : OsFile)
    (recordNum : Int) (hopen : f.closed = false) :
    ((readJplHeader env header f).2 ≠ none ↔ f.content.length < 8144) ∧
    ((∃ e, readJplRecord env (some f) recordNum = .error e) ↔
      (wrap64 (recordNum * 8144) < 0 ∨
        f.content.length < (wrap64 (recordNum * 8144)).toNat + 8144)) ∧
    (0 ≤ recordNum → recordNum * 8144 < 2 ^ 63 →
      wrap64 (recordNum * 8144) = recordNum * 8144) ∧
    (8144 ≤ f.content.length →
      (parseHeader env (NewByteReader ((f.content.drop 0).take 8144) .LittleEndian)).2.pos
        = 252) ∧
    (∀ record, readJplRecord env (some f) recordNum = .ok record →
      record.length = 1018 ∧
      (readFloat64s env JplNCoeff (NewByteReader
        ((f.content.drop (wrap64 (recordNum * 8144)).toNat).take 8144)
          .LittleEndian)).2.pos = 8144 ∧
      ∀ i, i < 1018 → record.get? i =
        some (env.Float64frombits (leValue
          ((f.content.drop ((wrap64 (recordNum * 8144)).toNat + 8 * i)).take 8)))) := by
  have hrec := readJplRecord_open env f hopen recordNum
  refine ⟨?_, ?_, fun h0 h1 => wrap64_eq_self (by omega) h1, ?_, ?_⟩
  · rw [readJplHeader_open env header f hopen]
    by_cases h : 8144 ≤ f.content.length
    · simp only [if_pos h, ne_eq, not_true_eq_false, false_iff, not_lt]
      exact h
    · simp only [if_neg h, ne_eq, reduceCtorEq, not_false_eq_true, true_iff]
      omega
  · rw [hrec]
    by_cases hneg : wrap64 (recordNum * 8144) < 0
    · simp only [if_pos hneg, Except.error.injEq, exists_eq', true_iff]
      exact Or.inl hneg
    · rw [if_neg hneg]
      by_cases h : (wrap64 (recordNum * 8144)).toNat + 8144 ≤ f.content.length
      · simp only [if_pos h, reduceCtorEq, exists_false, false_iff, not_or, not_lt]
        exact ⟨not_lt.mp hneg, h⟩
      · simp only [if_neg h, Except.error.injEq, exists_eq', true_iff]
        right
        omega
  · intro h
    have hl := block_length f.content 0 (by omega)
    rw [parseHeader_in_range env _ (by omega)]
  · intro record hok
    rw [hrec] at hok
    by_cases hneg : wrap64 (recordNum * 8144) < 0
    · rw [if_pos hneg] at hok
      exact absurd hok (by simp)
    · rw [if_neg hneg] at hok
      by_cases h : (wrap64 (recordNum * 8144)).toNat + 8144 ≤ f.content.length
      · rw [if_pos h] at hok
        have hl := block_length f.content (wrap64 (recordNum * 8144)).toNat h
        obtain ⟨h1, h2, h3⟩ := readFloat64s_entries env
          ((f.content.drop (wrap64 (recordNum * 8144)).toNat).take 8144) JplNCoeff
          (by rw [hl]; decide)
        rw [← Except.ok.inj hok]
        refine ⟨h1, h2, fun i hi => ?_⟩
        rw [h3 i hi, block_slice f.content _ 8144 (8 * i) 8 (by omega)]
      · rw [if_neg h] at hok
        exact absurd hok (by simp)

/-- Witness for C19: the one-block example file, record number 0. -/
theorem C19_block_all_or_nothing_witness :
    (OsFile.mk goodFile false).closed = false ∧
    ((readJplHeader (envOf goodFile) JplHeader.zero (OsFile.mk goodFile false)).2 ≠ none ↔
      (OsFile.mk goodFile false).content.length < 8144) ∧
    ((∃ e, readJplRecord (envOf goodFile) (some (OsFile.mk goodFile false)) 0 = .error e) ↔
      (wrap64 (0 * 8144) < 0 ∨
        (OsFile.mk goodFile false).content.length < (wrap64 (0 * 8144)).toNat + 8144)) :=
  ⟨rfl,
    (C19_block_all_or_nothing (envOf goodFile) JplHeader.zero (OsFile.mk goodFile false) 0
      rfl).1,
    (C19_block_all_or_nothing (envOf goodFile) JplHeader.zero (OsFile.mk goodFile false) 0
      rfl).2.1⟩

/-- Claim C20: for every open file of at least 8144 bytes, `readJplHeader` succeeds
and decodes the little-endian fields at fixed offsets of the first block: `StartJD`
from bytes 0..7, `EndJD` 8..15, `StepJD` 16..23, `NumConst` (int32) 24..27, `AU`
28..35, `EMRat` 36..43, `IPT[i][j]` (int32) from the 4 bytes at `44 + 4 (13 i + j)`,
`NumCoeff[i]` (int32) from the 4 bytes at `200 + 4 i`; the `Constants` map is empty. -/
theorem C20_header_layout (env : Env) (header : JplHeader) (f : OsFile)
    (hopen : f.closed = false) (hlen : 8144 ≤ f.content.length) :
    ∃ hdr, readJplHeader env header f = (hdr, none) ∧
      hdr.StartJD = env.Float64frombits (leValue ((f.content.drop 0).take 8)) ∧
      hdr.EndJD = env.Float64frombits (leValue ((f.content.drop 8).take 8)) ∧
      hdr.StepJD = env.Float64frombits (leValue ((f.content.drop 16).take 8)) ∧
      hdr.NumConst = toInt32 (leValue ((f.content.drop 24).take 4)) ∧
      hdr.AU = env.Float64frombits (leValue ((f.content.drop 28).take 8)) ∧
      hdr.EMRat = env.Float64frombits (leValue ((f.content.drop 36).take 8)) ∧
      (∀ (i : Fin 3) (j : Fin 13), hdr.IPT i j =
        toInt32 (leValue ((f.content.drop (44 + 4 * (13 * i.val + j.val))).take 4))) ∧
      (∀ i : Fin 13, hdr.NumCoeff i =
        toInt32 (leValue ((f.content.drop (200 + 4 * i.val)).take 4))) ∧
      hdr.Constants = [] := by
  have hl := block_length f.content 0 (by omega)
  have hs : ∀ p k, p + k ≤ 8144 →
      (((f.content.drop 0).take 8144).drop p).take k = (f.content.drop p).take k := by
    intro p k hpk
    rw [block_slice f.content 0 8144 p k hpk, Nat.zero_add]
  rw [readJplHeader_open env header f hopen, if_pos hlen,
    parseHeader_in_range env _ (by omega)]
  refine ⟨_, rfl, ?_, ?_, ?_, ?_, ?_, ?_, ?_, ?_, rfl⟩
  · simp only [hs 0 8 (by omega)]
  · simp only [hs 8 8 (by omega)]
  · simp only [hs 16 8 (by omega)]
  · simp only [hs 24 4 (by omega)]
  · simp only [hs 28 8 (by omega)]
  · simp only [hs 36 8 (by omega)]
  · intro i j
    have hi := i.isLt
    have hj := j.isLt
    have hk : 13 * i.val + j.val < 3 * 13 := by omega
    simp only [List.getD_eq_getElem?_getD, List.getElem?_map, List.getElem?_range hk,
      Option.map_some', Option.getD_some]
    rw [hs _ 4 (by omega)]
  · intro i
    have hi := i.isLt
    simp only [List.getD_eq_getElem?_getD, List.getElem?_map, List.getElem?_range hi,
      Option.map_some', Option.getD_some]
    rw [hs _ 4 (by omega)]

/-- Witness for C20: the one-block example file. -/
theorem C20_header_layout_witness :
    (OsFile.mk goodFile false).closed = false ∧
    8144 ≤ (OsFile.mk goodFile false).content.length ∧
    ∃ hdr, readJplHeader (envOf goodFile) JplHeader.zero (OsFile.mk goodFile false) =
        (hdr, none) ∧
      hdr.StartJD =
        (envOf goodFile).Float64frombits (leValue ((goodFile.drop 0).take 8)) :=
  ⟨rfl, by decide!,
    let ⟨hdr, h1, h2, _⟩ := C20_header_layout (envOf goodFile) JplHeader.zero
      (OsFile.mk goodFile false) rfl (by decide!)
    ⟨hdr, h1, h2⟩⟩

/-! ## Lemmas on byte decoding -/

theorem leValue_lt (bs : List Byte) : leValue bs < 256 ^ bs.length := by
  induction bs with
  | nil => simp [leValue]
  | cons b bs ih =>
    have hb := b.isLt
    simp only [leValue, List.length_cons, pow_succ]
    omega

theorem decode_lt (order : ByteOrder) (bs : List Byte) :
    order.decode bs < 256 ^ bs.length := by
  cases order with
  | LittleEndian => exact leValue_lt bs
  | BigEndian =>
    have h := leValue_lt bs.reverse
    rw [List.length_reverse] at h
    exact h

/-- `Int32(val)` of a `uint32` value is the integer in the `int32` range that is
congruent to `val` modulo `2^32`. -/
theorem toInt32_spec (val : Nat) (h : val < 2 ^ 32) :
    -(2 ^ 31) ≤ toInt32 val ∧ toInt32 val < 2 ^ 31 ∧
      (toInt32 val - (val : Int)) % 2 ^ 32 = 0 := by
  unfold toInt32
  split_ifs <;> omega

/-! ## The claim on the byte cursor -/

/-- Claim C22: for every `ByteReader` over `data` at position `pos`.  If
`pos + 8 ≤ len(data)`, `ReadFloat64` returns the float64 whose bit pattern is the 8
bytes `data[pos..pos+8)` in the reader's byte order and advances `pos` by 8; if
`pos + 4 ≤ len(data)`, `ReadInt32` returns the two-complement int32 of the 4 bytes
`data[pos..pos+4)` (the value in the `int32` range congruent to their unsigned value
modulo `2^32`) and advances `pos` by 4; otherwise each returns 0 and leaves the reader
as it was.  The data and the byte order of the reader never change.  In little-endian
order the first byte is the least significant, in big-endian order the last. -/
theorem C22_byte_reader (env : Env) (r : ByteReader) :
    (r.pos + 8 ≤ r.data.length →
      r.ReadFloat64 env =
        (env.Float64frombits (r.order.decode ((r.data.drop r.pos).take 8)),
          { r with pos := r.pos + 8 }) ∧
      ((r.data.drop r.pos).take 8).length = 8) ∧
    (¬ r.pos + 8 ≤ r.data.length → r.ReadFloat64 env = (0, r)) ∧
    (r.pos + 4 ≤ r.data.length →
      r.ReadInt32 =
        (toInt32 (r.order.decode ((r.data.drop r.pos).take 4)), { r with pos := r.pos + 4 }) ∧
      ((r.data.drop r.pos).take 4).length = 4 ∧
      -(2 ^ 31) ≤ r.ReadInt32.1 ∧ r.ReadInt32.1 < 2 ^ 31 ∧
      (r.ReadInt32.1 - (r.order.decode ((r.data.drop r.pos).take 4) : Int)) % 2 ^ 32 = 0) ∧
    (¬ r.pos + 4 ≤ r.data.length → r.ReadInt32 = (0, r)) ∧
    ((r.ReadFloat64 env).2.data = r.data ∧ (r.ReadFloat64 env).2.order = r.order ∧
      r.ReadInt32.2.data = r.data ∧ r.ReadInt32.2.order = r.order) ∧
    (∀ a b c d : Byte,
      ByteOrder.LittleEndian.decode [a, b, c, d] =
        a.val + 256 * b.val + 256 ^ 2 * c.val + 256 ^ 3 * d.val ∧
      ByteOrder.BigEndian.decode [a, b, c, d] =
        d.val + 256 * c.val + 256 ^ 2 * b.val + 256 ^ 3 * a.val) := by
  refine ⟨fun h => ⟨ReadFloat64_in_range env r h, ?_⟩, fun h => ?_, fun h => ?_, fun h => ?_,
    ?_, fun a b c d => ?_⟩
  · rw [List.length_take, List.length_drop]
    omega
  · unfold ByteReader.ReadFloat64
    rw [if_pos (by omega)]
  · have hlen : ((r.data.drop r.pos).take 4).length = 4 := by
      rw [List.length_take, List.length_drop]
      omega
    have hlt := decode_lt r.order ((r.data.drop r.pos).take 4)
    rw [hlen] at hlt
    have hs := toInt32_spec _ (by norm_num at hlt ⊢; exact hlt)
    rw [ReadInt32_in_range r h]
    exact ⟨rfl, hlen, hs.1, hs.2.1, hs.2.2⟩
  · unfold ByteReader.ReadInt32
    rw [if_pos (by omega)]
  · unfold ByteReader.ReadFloat64 ByteReader.ReadInt32
    split_ifs <;> exact ⟨rfl, rfl, rfl, rfl⟩
  · simp only [ByteOrder.decode, List.reverse_cons, List.reverse_nil, List.nil_append,
      List.cons_append, leValue]
    constructor <;> ring
/-! ## Lemmas on the sub-interval index -/

/-- `int(f)` for a value within the range of `int`: the integer part towards zero. -/
theorem floatToInt_in_range (f : Float64) (h0 : -(2 ^ 63) ≤ f) (h1 : f < 2 ^ 63) :
    floatToInt f = .ok (if 0 ≤ f then ⌊f⌋ else ⌈f⌉) := by
  unfold floatToInt
  have hr : -(2 ^ 63) ≤ (if 0 ≤ f then ⌊f⌋ else ⌈f⌉) ∧ (if 0 ≤ f then ⌊f⌋ else ⌈f⌉) < 2 ^ 63 := by
    by_cases hf : 0 ≤ f
    · rw [if_pos hf]
      have hfl : (0 : Int) ≤ ⌊f⌋ := Int.floor_nonneg.mpr hf
      have : ⌊f⌋ < 2 ^ 63 := by
        rw [Int.floor_lt]
        exact_mod_cast h1
      omega
    · rw [if_neg hf]
      have hc : ⌈f⌉ ≤ 0 := by
        rw [Int.ceil_le]
        exact_mod_cast (not_le.mp hf).le
      have : -(2 ^ 63) ≤ ⌈f⌉ := by
        rw [Int.le_ceil_iff]
        push_cast
        linarith
      omega
  simp only [hr, and_self, if_true]

/-- The sub-interval index in closed form, when `record[1]` is not zero and
`ns * t[0]` is within the range of `int`. -/
theorem subInterval_eq (ns : Int) (t0 r1 : Float64) (hr1 : r1 ≠ 0) (hns0 : -(2 ^ 63) < ns)
    (hns1 : ns < 2 ^ 63) (hlo : -(2 ^ 63) ≤ (ns : ℚ) * t0) (hhi : (ns : ℚ) * t0 < 2 ^ 63) :
    subInterval ns t0 r1 =
      .ok (if (if 0 ≤ (ns : ℚ) * t0 then ⌊(ns : ℚ) * t0⌋ else ⌈(ns : ℚ) * t0⌉) ≥ ns
        then ns - 1 else (if 0 ≤ (ns : ℚ) * t0 then ⌊(ns : ℚ) * t0⌋ else ⌈(ns : ℚ) * t0⌉)) := by
  unfold subInterval
  simp only [if_neg hr1, floatToInt_in_range _ hlo hhi, bind, Except.bind, pure, Except.pure]
  rw [wrap64_eq_self (by omega) (by omega)]

/-! ## The claims on the sub-interval index and the Chebyshev argument -/

/-- Claim C27: for a record with span `record[1] = r1 > 0`, a body slot with
`ns ≥ 1` sub-intervals (an `int`, so below `2^63`) and `et` within the record
(`r0 ≤ et ≤ r0 + r1` with `r0 = record[0]`), the sub-interval index `l` is computed,
`0 ≤ l ≤ ns - 1`, and the Chebyshev argument `tc = 2 (ns u - l) - 1` that
`computePosition` passes to `interpolateChebyshev` satisfies `-1 ≤ tc ≤ 1`; at the
record's last instant `l = ns - 1` and `tc = 1`. -/
theorem C27_chebyshev_argument (ns : Int) (r0 r1 et : Float64) (hr1 : 0 < r1)
    (hns : 1 ≤ ns) (hns1 : ns < 2 ^ 63) (h0 : r0 ≤ et) (h1 : et ≤ r0 + r1) :
    ∃ l, subInterval ns ((et - r0) / r1) r1 = .ok l ∧ 0 ≤ l ∧ l ≤ ns - 1 ∧
      -1 ≤ 2 * ((ns : ℚ) * ((et - r0) / r1) - (l : ℚ)) - 1 ∧
      2 * ((ns : ℚ) * ((et - r0) / r1) - (l : ℚ)) - 1 ≤ 1 ∧
      (et = r0 + r1 → l = ns - 1 ∧ 2 * ((ns : ℚ) * ((et - r0) / r1) - (l : ℚ)) - 1 = 1) := by
  obtain ⟨u, hu⟩ : ∃ u : ℚ, u = (et - r0) / r1 := ⟨_, rfl⟩
  rw [← hu]
  have hu0 : 0 ≤ u := by
    rw [hu]
    exact div_nonneg (by linarith) hr1.le
  have hu1 : u ≤ 1 := by
    rw [hu, div_le_one hr1]
    linarith
  have hnsq : (1 : ℚ) ≤ (ns : ℚ) := by exact_mod_cast hns
  have hns63 : (ns : ℚ) < 2 ^ 63 := by exact_mod_cast hns1
  have ht0 : 0 ≤ (ns : ℚ) * u := by positivity
  have ht1 : (ns : ℚ) * u ≤ (ns : ℚ) := by nlinarith
  have hfl0 : (0 : Int) ≤ ⌊(ns : ℚ) * u⌋ := Int.floor_nonneg.mpr ht0
  have hfl1 : ((⌊(ns : ℚ) * u⌋ : Int) : ℚ) ≤ (ns : ℚ) * u := Int.floor_le _
  have hfl2 : (ns : ℚ) * u < ((⌊(ns : ℚ) * u⌋ : Int) : ℚ) + 1 := Int.lt_floor_add_one _
  have hfl3 : ⌊(ns : ℚ) * u⌋ ≤ ns := by
    have : ((⌊(ns : ℚ) * u⌋ : Int) : ℚ) ≤ (ns : ℚ) := le_trans hfl1 ht1
    exact_mod_cast this
  rw [subInterval_eq ns u r1 hr1.ne' (by omega) hns1 (by linarith) (by linarith)]
  simp only [if_pos ht0]
  by_cases hge : ⌊(ns : ℚ) * u⌋ ≥ ns
  · have heq : ⌊(ns : ℚ) * u⌋ = ns := by omega
    have hval : (ns : ℚ) * u = (ns : ℚ) := by
      rw [heq] at hfl1
      linarith
    refine ⟨ns - 1, by rw [if_pos hge], by omega, le_rfl, ?_, ?_, fun _ => ⟨rfl, ?_⟩⟩ <;>
    · rw [hval]
      push_cast
      linarith
  · refine ⟨⌊(ns : ℚ) * u⌋, by rw [if_neg hge], hfl0, by omega, by linarith, by linarith,
      fun hlast => ?_⟩
    exfalso
    have hu1' : u = 1 := by
      rw [hu, hlast]
      field_simp
    rw [hu1', mul_one] at hge
    exact hge (by rw [Int.floor_intCast])

/-- Witness for C27: 4 sub-intervals, record `[10, 12]`, at the record's last instant. -/
theorem C27_chebyshev_argument_witness :
    ((0 : Float64) < 2 ∧ (1 : Int) ≤ 4 ∧ (4 : Int) < 2 ^ 63 ∧ (10 : Float64) ≤ 12 ∧
      (12 : Float64) ≤ 10 + 2) ∧
    subInterval 4 ((12 - 10) / 2) 2 = .ok 3 ∧
    ∃ l, subInterval 4 ((12 - 10) / 2) 2 = .ok l ∧ 0 ≤ l ∧ l ≤ 4 - 1 ∧
      -1 ≤ 2 * (((4 : Int) : ℚ) * ((12 - 10) / 2) - (l : ℚ)) - 1 ∧
      2 * (((4 : Int) : ℚ) * ((12 - 10) / 2) - (l : ℚ)) - 1 ≤ 1 ∧
      ((12 : Float64) = 10 + 2 →
        l = 4 - 1 ∧ 2 * (((4 : Int) : ℚ) * ((12 - 10) / 2) - (l : ℚ)) - 1 = 1) :=
  ⟨by decide!, by decide!,
    C27_chebyshev_argument 4 10 2 12 (by decide!) (by decide) (by decide) (by decide!)
      (by decide!)⟩
/-! ## Lemmas on `normalizeAngle` -/

/-- For a positive period, `normalizeAngle` subtracts the floor multiple of the period. -/
theorem normalizeAngle_eq {F : Type} [LinearOrderedField F] [FloorRing F] (m : MathLib F)
    (hpi : 0 < m.Pi) (a : F) :
    normalizeAngle m a = a - TwoPi m * ((⌊a / TwoPi m⌋ : Int) : F) := by
  have hy : 0 < TwoPi m := by
    unfold TwoPi
    linarith
  obtain ⟨y, hyd⟩ : ∃ y : F, y = TwoPi m := ⟨_, rfl⟩
  rw [← hyd] at hy ⊢
  unfold normalizeAngle mathMod
  simp only [← hyd]
  have hfl : ((⌊a / y⌋ : Int) : F) ≤ a / y := Int.floor_le _
  have hce : a / y ≤ ((⌈a / y⌉ : Int) : F) := Int.le_ceil _
  by_cases h0 : 0 ≤ a / y
  · simp only [if_pos h0]
    have h1 : y * ((⌊a / y⌋ : Int) : F) ≤ a := by
      have := mul_le_mul_of_nonneg_left hfl hy.le
      rwa [mul_div_cancel₀ a hy.ne'] at this
    rw [if_neg (by linarith)]
  · simp only [if_neg h0]
    by_cases hneg : a - y * ((⌈a / y⌉ : Int) : F) < 0
    · rw [if_pos hneg]
      have hlt : a / y < ((⌈a / y⌉ : Int) : F) := by
        rw [div_lt_iff₀ hy]
        linarith
      have h1 : ⌊a / y⌋ < ⌈a / y⌉ := by
        have : ((⌊a / y⌋ : Int) : F) < ((⌈a / y⌉ : Int) : F) := lt_of_le_of_lt hfl hlt
        exact_mod_cast this
      have h2 : ⌈a / y⌉ ≤ ⌊a / y⌋ + 1 := Int.ceil_le_floor_add_one _
      have h3 : ⌈a / y⌉ = ⌊a / y⌋ + 1 := by omega
      rw [h3]
      push_cast
      ring
    · rw [if_neg hneg]
      have h1 : a ≤ y * ((⌈a / y⌉ : Int) : F) := by
        have := mul_le_mul_of_nonneg_left hce hy.le
        rwa [mul_div_cancel₀ a hy.ne'] at this
      have h2 : a = y * ((⌈a / y⌉ : Int) : F) := by linarith
      have h3 : a / y = ((⌈a / y⌉ : Int) : F) := by
        rw [div_eq_iff hy.ne']
        linarith
      have h4 : ⌊a / y⌋ = ⌈a / y⌉ := by
        conv_lhs => rw [h3]
        exact Int.floor_intCast _
      rw [h4]

/-- The value of `normalizeAngle` lies in `[0, TwoPi)`, differs from the angle by an
integer multiple of `TwoPi`, and is the only such value. -/
theorem normalizeAngle_spec {F : Type} [LinearOrderedField F] [FloorRing F] (m : MathLib F)
    (hpi : 0 < m.Pi) (a : F) :
    (0 ≤ normalizeAngle m a ∧ normalizeAngle m a < TwoPi m) ∧
    (∃ k : Int, normalizeAngle m a = a + TwoPi m * (k : F)) ∧
    (∀ v : F, 0 ≤ v → v < TwoPi m → (∃ k : Int, v = a + TwoPi m * (k : F)) →
      v = normalizeAngle m a) := by
  have hy : 0 < TwoPi m := by
    unfold TwoPi
    linarith
  rw [normalizeAngle_eq m hpi a]
  obtain ⟨y, hyd⟩ : ∃ y : F, y = TwoPi m := ⟨_, rfl⟩
  rw [← hyd] at hy ⊢
  have hfl : ((⌊a / y⌋ : Int) : F) ≤ a / y := Int.floor_le _
  have hlt : a / y < ((⌊a / y⌋ : Int) : F) + 1 := Int.lt_floor_add_one _
  have h1 : y * ((⌊a / y⌋ : Int) : F) ≤ a := by
    have := mul_le_mul_of_nonneg_left hfl hy.le
    rwa [mul_div_cancel₀ a hy.ne'] at this
  have h2 : a < y * (((⌊a / y⌋ : Int) : F) + 1) := by
    have := mul_lt_mul_of_pos_left hlt hy
    rwa [mul_div_cancel₀ a hy.ne'] at this
  refine ⟨⟨by linarith, by linarith⟩, ⟨-⌊a / y⌋, by push_cast; ring⟩, ?_⟩
  rintro v hv0 hv1 ⟨k, hk⟩
  have hk1 : ⌊a / y⌋ = -k := by
    rw [Int.floor_eq_iff]
    constructor
    · rw [le_div_iff₀ hy]
      push_cast
      nlinarith
    · rw [div_lt_iff₀ hy]
      push_cast
      nlinarith
  rw [hk1, hk]
  push_cast
  ring

/-! ## The claim on `polarToCartesian`, and `normalizeAngle` on the real numbers -/

/-- Claim C29: on the real numbers with the real cosine and sine, `polarToCartesian`
maps every polar input `(lon, lat, r, dlon, dlat, dr)` to the position
`(r cos lat cos lon, r cos lat sin lon, r sin lat)`, whose squares sum to `r^2`; its
velocity output is the time derivative of that position along every differentiable
path `(lon(s), lat(s), r(s))` whose derivatives at the instant `t` are
`(dlon, dlat, dr)`; and `(0,0,1,0,0,0)` maps to `(1,0,0,0,0,0)`. -/
theorem C29_polar_to_cartesian :
    (∀ p : Fin 6 → ℝ,
      polarToCartesian (MathLib.mk Real.pi Real.cos Real.sin) p 0 =
        p 2 * Real.cos (p 1) * Real.cos (p 0) ∧
      polarToCartesian (MathLib.mk Real.pi Real.cos Real.sin) p 1 =
        p 2 * Real.cos (p 1) * Real.sin (p 0) ∧
      polarToCartesian (MathLib.mk Real.pi Real.cos Real.sin) p 2 = p 2 * Real.sin (p 1) ∧
      polarToCartesian (MathLib.mk Real.pi Real.cos Real.sin) p 0 ^ 2 +
        polarToCartesian (MathLib.mk Real.pi Real.cos Real.sin) p 1 ^ 2 +
        polarToCartesian (MathLib.mk Real.pi Real.cos Real.sin) p 2 ^ 2 = p 2 ^ 2) ∧
    (∀ (lon lat r : ℝ → ℝ) (t dlon dlat dr : ℝ),
      HasDerivAt lon dlon t → HasDerivAt lat dlat t → HasDerivAt r dr t →
      ∀ j : Fin 3,
        HasDerivAt
          (fun s => polarToCartesian (MathLib.mk Real.pi Real.cos Real.sin)
            ![lon s, lat s, r s, 0, 0, 0] (Fin.castAdd 3 j))
          (polarToCartesian (MathLib.mk Real.pi Real.cos Real.sin)
            ![lon t, lat t, r t, dlon, dlat, dr] (Fin.natAdd 3 j)) t) ∧
    polarToCartesian (MathLib.mk Real.pi Real.cos Real.sin) ![0, 0, 1, 0, 0, 0] =
      ![1, 0, 0, 0, 0, 0] := by
  refine ⟨fun p => ⟨rfl, rfl, rfl, ?_⟩, ?_, polarToCartesian_unit⟩
  · show (p 2 * Real.cos (p 1) * Real.cos (p 0)) ^ 2 +
      (p 2 * Real.cos (p 1) * Real.sin (p 0)) ^ 2 + (p 2 * Real.sin (p 1)) ^ 2 = p 2 ^ 2
    have h0 := Real.sin_sq_add_cos_sq (p 0)
    have h1 := Real.sin_sq_add_cos_sq (p 1)
    linear_combination (p 2 ^ 2 * Real.cos (p 1) ^ 2) * h0 + (p 2 ^ 2) * h1
  · intro lon lat r t dlon dlat dr hlon hlat hr j
    have hcl := hlat.cos
    have hsl := hlat.sin
    have hco := hlon.cos
    have hso := hlon.sin
    fin_cases j
    · show HasDerivAt (fun s => r s * Real.cos (lat s) * Real.cos (lon s))
        (dr * Real.cos (lat t) * Real.cos (lon t) - r t * dlat * Real.sin (lat t) *
          Real.cos (lon t) - r t * dlon * Real.cos (lat t) * Real.sin (lon t)) t
      convert (hr.mul hcl).mul hco using 1
      ring
    · show HasDerivAt (fun s => r s * Real.cos (lat s) * Real.sin (lon s))
        (dr * Real.cos (lat t) * Real.sin (lon t) - r t * dlat * Real.sin (lat t) *
          Real.sin (lon t) + r t * dlon * Real.cos (lat t) * Real.cos (lon t)) t
      convert (hr.mul hcl).mul hso using 1
      ring
    · show HasDerivAt (fun s => r s * Real.sin (lat s))
        (dr * Real.sin (lat t) + r t * dlat * Real.cos (lat t)) t
      convert hr.mul hsl using 1
      ring

/-- On the real numbers, with `TwoPi = 2π`, `normalizeAngle(angle)` is the unique
value in `[0, 2π)` that differs from the angle by an integer multiple of `2π`; it is
idempotent and unchanged when an integer multiple of `2π` is added to the angle; `-π`
maps to `π`, and `2π` and `-2π` map to 0. -/
theorem normalizeAngle_real :
    (∀ a : ℝ,
      (0 ≤ normalizeAngle (MathLib.mk Real.pi Real.cos Real.sin) a ∧
        normalizeAngle (MathLib.mk Real.pi Real.cos Real.sin) a < 2 * Real.pi) ∧
      (∃ k : Int, normalizeAngle (MathLib.mk Real.pi Real.cos Real.sin) a =
        a + 2 * Real.pi * (k : ℝ)) ∧
      (∀ v : ℝ, 0 ≤ v → v < 2 * Real.pi → (∃ k : Int, v = a + 2 * Real.pi * (k : ℝ)) →
        v = normalizeAngle (MathLib.mk Real.pi Real.cos Real.sin) a) ∧
      normalizeAngle (MathLib.mk Real.pi Real.cos Real.sin)
        (normalizeAngle (MathLib.mk Real.pi Real.cos Real.sin) a) =
        normalizeAngle (MathLib.mk Real.pi Real.cos Real.sin) a ∧
      (∀ k : Int, normalizeAngle (MathLib.mk Real.pi Real.cos Real.sin)
        (a + 2 * Real.pi * (k : ℝ)) = normalizeAngle (MathLib.mk Real.pi Real.cos Real.sin) a)) ∧
    normalizeAngle (MathLib.mk Real.pi Real.cos Real.sin) (-Real.pi) = Real.pi ∧
    normalizeAngle (MathLib.mk Real.pi Real.cos Real.sin) (2 * Real.pi) = 0 ∧
    normalizeAngle (MathLib.mk Real.pi Real.cos Real.sin) (-(2 * Real.pi)) = 0 := by
  have hpi : 0 < (MathLib.mk Real.pi Real.cos Real.sin).Pi := Real.pi_pos
  have hpos := Real.pi_pos
  have hspec := normalizeAngle_spec (MathLib.mk Real.pi Real.cos Real.sin) hpi
  have htp : TwoPi (MathLib.mk Real.pi Real.cos Real.sin) = 2 * Real.pi := rfl
  rw [htp] at hspec
  have huniq : ∀ a v : ℝ, 0 ≤ v → v < 2 * Real.pi →
      (∃ k : Int, v = a + 2 * Real.pi * (k : ℝ)) →
      normalizeAngle (MathLib.mk Real.pi Real.cos Real.sin) a = v :=
    fun a v h0 h1 hk => ((hspec a).2.2 v h0 h1 hk).symm
  refine ⟨fun a => ?_, ?_, ?_, ?_⟩
  · obtain ⟨hr, ⟨k0, hk0⟩, hu⟩ := hspec a
    refine ⟨hr, ⟨k0, hk0⟩, hu, ?_, fun k => ?_⟩
    · exact huniq _ _ hr.1 hr.2 ⟨0, by simp⟩
    · refine huniq _ _ hr.1 hr.2 ⟨k0 - k, ?_⟩
      rw [hk0]
      push_cast
      ring
  · exact huniq _ _ hpos.le (by linarith) ⟨1, by push_cast; ring⟩
  · exact huniq _ _ le_rfl (by linarith) ⟨-1, by push_cast; ring⟩
  · exact huniq _ _ le_rfl (by linarith) ⟨1, by push_cast; ring⟩

/-! ## Lemmas on the dependence of `computePosition` on header and record -/

theorem foldlM_congr_mem {α β : Type} (f g : β → α → Except Fault β) :
    ∀ (xs : List α) (b : β), (∀ b, ∀ a ∈ xs, f b a = g b a) →
      xs.foldlM f b = xs.foldlM g b := by
  intro xs
  induction xs with
  | nil => intro b _; rfl
  | cons a xs ih =>
    intro b h
    rw [List.foldlM_cons, List.foldlM_cons, h b a (List.mem_cons_self a xs)]
    congr 1
    funext b'
    exact ih b' (fun b a' ha' => h b a' (List.mem_cons_of_mem a ha'))

/-- The accumulation loops read the coefficient slice only at the indices
`offset + j * ncoeff + i`. -/
theorem accumulate_congr (coeffs coeffs' : List ℚ) (offset ncoeff : ℤ) (basis : List ℚ)
    (slot : Fin 3 → Fin 6) (r : Vec6)
    (h : ∀ (j : Fin 3) (i : ℕ), i < ncoeff.toNat →
      index coeffs (offset + (j.val : ℤ) * ncoeff + (i : ℤ)) =
        index coeffs' (offset + (j.val : ℤ) * ncoeff + (i : ℤ))) :
    accumulate coeffs offset ncoeff basis slot r =
      accumulate coeffs' offset ncoeff basis slot r := by
  unfold accumulate
  refine foldlM_congr_mem _ _ _ _ (fun r j _ => ?_)
  refine foldlM_congr_mem _ _ _ _ (fun r i hi => ?_)
  rw [h j i (List.mem_range.mp hi)]

theorem interpolateChebyshev_congr (coeffs coeffs' : List ℚ) (offset ncoeff : ℤ) (x : ℚ)
    (r : Vec6)
    (h : ∀ (j : Fin 3) (i : ℕ), i < ncoeff.toNat →
      index coeffs (offset + (j.val : ℤ) * ncoeff + (i : ℤ)) =
        index coeffs' (offset + (j.val : ℤ) * ncoeff + (i : ℤ))) :
    interpolateChebyshev coeffs offset ncoeff x r =
      interpolateChebyshev coeffs' offset ncoeff x r := by
  unfold interpolateChebyshev
  simp only [accumulate_congr coeffs coeffs' offset ncoeff _ _ _ h]

/-- The relative composition reads the working array only at the target and the
center. -/
theorem composeRelative_congr (pv pv' : PV) (ntarg ncent : ℤ) (rrd : Vec6)
    (h : ∀ q : Fin 15, ((q.val : ℤ) = ntarg ∨ (q.val : ℤ) = ncent) → pv q = pv' q) :
    composeRelative pv ntarg ncent rrd = composeRelative pv' ntarg ncent rrd := by
  have hidx : ∀ n : ℤ, (n = ntarg ∨ n = ncent) → indexPV pv n = indexPV pv' n := by
    intro n hn
    unfold indexPV
    by_cases hr : 0 ≤ n ∧ n < 15
    · rw [dif_pos hr, dif_pos hr, h ⟨n.toNat, by omega⟩ (by
        have : ((n.toNat : ℕ) : ℤ) = n := Int.toNat_of_nonneg hr.1
        simpa [this] using hn)]
    · rw [dif_neg hr, dif_neg hr]
  unfold composeRelative
  rw [hidx ntarg (Or.inl rfl), hidx ncent (Or.inr rfl)]

theorem evalBodies_congr_IPT (hdr hdr' : JplHeader) (h : hdr.IPT = hdr'.IPT)
    (record : List ℚ) (t0 r1 : ℚ) :
    ∀ (ks : List (Fin 11)) (pv : PV),
      evalBodies hdr record t0 r1 ks pv = evalBodies hdr' record t0 r1 ks pv := by
  have hb : ∀ pv k, evalBody hdr record t0 r1 pv k = evalBody hdr' record t0 r1 pv k := by
    intro pv k
    unfold evalBody
    rw [h]
  intro ks
  induction ks with
  | nil => intro pv; rfl
  | cons k ks ih =>
    intro pv
    rw [evalBodies_cons, evalBodies_cons, hb]
    cases evalBody hdr' record t0 r1 pv k with
    | error f => rfl
    | ok out =>
      obtain ⟨pv3, e3⟩ := out
      cases e3 with
      | some e4 => rfl
      | none => exact ih pv3

/-- `computePosition` reads nothing of the header but the layout table `IPT`. -/
theorem computePosition_congr_IPT (hdr hdr' : JplHeader) (h : hdr.IPT = hdr'.IPT)
    (record : List ℚ) (et : ℚ) (ntarg ncent : ℤ) (rrd : Vec6) :
    computePosition hdr record et ntarg ncent rrd =
      computePosition hdr' record et ntarg ncent rrd := by
  unfold computePosition workingVectors
  simp only [evalBodies_congr_IPT hdr hdr' h]

/-! ## The claims on the header invariant and the record lookup -/

/-- `OpenJplFile` on a file that opens and holds at least 8144 bytes. -/
theorem OpenJplFile_of_bytes (env : Env) (jd : JplData) (ss : List ℚ) (fname fpath : String)
    (bytes : List Byte)
    (hb : env.osOpen (if fpath ≠ "" then env.filepathJoin fpath fname else fname) = some bytes)
    (hlen : 8144 ≤ bytes.length) :
    (OpenJplFile env jd ss fname fpath).2.2 = none ∧
    (OpenJplFile env jd ss fname fpath).1.IsOpen = true ∧
    (OpenJplFile env jd ss fname fpath).1.File = some (OsFile.mk bytes false) ∧
    (OpenJplFile env jd ss fname fpath).1.Header =
      (parseHeader env (NewByteReader ((bytes.drop 0).take 8144) .LittleEndian)).1 := by
  have hb' := hb
  simp only [ite_not] at hb'
  have hlen' : 8144 ≤ (OsFile.mk bytes false).content.length := hlen
  unfold OpenJplFile
  simp only [ite_not, hb', readJplHeader_open env _ (OsFile.mk bytes false) rfl, if_pos hlen',
    and_self]

/-- `OpenJplFile` fails on a file that cannot be opened or is shorter than 8144 bytes. -/
theorem OpenJplFile_fails (env : Env) (jd : JplData) (ss : List ℚ) (fname fpath : String)
    (h : ∀ bytes,
      env.osOpen (if fpath ≠ "" then env.filepathJoin fpath fname else fname) = some bytes →
        bytes.length < 8144) :
    (OpenJplFile env jd ss fname fpath).2.2 ≠ none := by
  unfold OpenJplFile
  simp only [ite_not] at h ⊢
  cases hb : env.osOpen (if fpath = "" then fname else env.filepathJoin fpath fname) with
  | none => simp
  | some bytes =>
    have hl := h bytes hb
    have hn : ¬ 8144 ≤ (OsFile.mk bytes false).content.length := by
      show ¬ 8144 ≤ bytes.length
      omega
    simp only [readJplHeader_open env _ (OsFile.mk bytes false) rfl, if_neg hn]
    simp

/-- Claim C21 as stated does not hold: the one-block file whose first eight bytes
encode 2.0 and whose other bytes are zero opens, and the header of the open session
has `StartJD = 2`, `EndJD = 0` and `StepJD = 0`, so neither `EndJD > StartJD` nor
`StepJD > 0` holds. -/
theorem C21_counterexample :
    (sessionOf revFile).IsOpen = true ∧
    (sessionOf revFile).Header.StartJD = 2 ∧
    (sessionOf revFile).Header.EndJD = 0 ∧
    (sessionOf revFile).Header.StepJD = 0 ∧
    ¬ ((sessionOf revFile).Header.EndJD > (sessionOf revFile).Header.StartJD) ∧
    ¬ ((sessionOf revFile).Header.StepJD > 0) :=
  ⟨by decide!, by decide!, by decide!, by decide!, by decide!, by decide!⟩

/-- Claim C21, amended: `OpenJplFile` returns success exactly when the file can be
opened and holds at least 8144 bytes, and the header of the session it opens is the
decoding of the first 8144 bytes, whatever their values: no field is checked.  The
header invariant therefore holds for an open session only when the bytes of the file
satisfy it. -/
theorem C21_no_header_validation (env : Env) (jd : JplData) (ss : List Float64)
    (fname fpath : String) :
    ((OpenJplFile env jd ss fname fpath).2.2 = none ↔
      ∃ bytes,
        env.osOpen (if fpath ≠ "" then env.filepathJoin fpath fname else fname) = some bytes ∧
        8144 ≤ bytes.length) ∧
    (∀ bytes,
      env.osOpen (if fpath ≠ "" then env.filepathJoin fpath fname else fname) = some bytes →
      8144 ≤ bytes.length →
        (OpenJplFile env jd ss fname fpath).1.IsOpen = true ∧
        (OpenJplFile env jd ss fname fpath).1.Header =
          (parseHeader env (NewByteReader ((bytes.drop 0).take 8144) .LittleEndian)).1) := by
  refine ⟨⟨fun h => ?_, fun ⟨bytes, hb, hlen⟩ =>
    (OpenJplFile_of_bytes env jd ss fname fpath bytes hb hlen).1⟩, fun bytes hb hlen => ?_⟩
  · by_contra hne
    refine OpenJplFile_fails env jd ss fname fpath (fun bytes hb => ?_) h
    by_contra hl
    exact hne ⟨bytes, hb, by omega⟩
  · have h := OpenJplFile_of_bytes env jd ss fname fpath bytes hb hlen
    exact ⟨h.2.1, h.2.2.2⟩

/-- The record index of `Pleph` for a positive step and a time not before `StartJD`,
when the index fits an `int`. -/
theorem recordIndex_eq (hdr : JplHeader) (et : ℚ) (hstep : 0 < hdr.StepJD)
    (h1 : hdr.StartJD ≤ et) (hidx : ⌊(et - hdr.StartJD) / hdr.StepJD⌋ < 2 ^ 63) :
    recordIndex hdr et = .ok ⌊(et - hdr.StartJD) / hdr.StepJD⌋ ∧
      0 ≤ ⌊(et - hdr.StartJD) / hdr.StepJD⌋ := by
  have hx : 0 ≤ (et - hdr.StartJD) / hdr.StepJD := div_nonneg (by linarith) hstep.le
  have hfl : 0 ≤ ⌊(et - hdr.StartJD) / hdr.StepJD⌋ := Int.floor_nonneg.mpr hx
  refine ⟨?_, hfl⟩
  unfold recordIndex floatToInt
  simp only [if_neg hstep.ne', if_pos hx]
  rw [if_pos ⟨by omega, hidx⟩]
  simp only [bind, Except.bind, pure, Except.pure]
  rw [if_neg (by omega)]

/-- Claim C23 is not met by the code: the header block is decoded as coefficient data.
At `t = validStart` (with a non-zero step) the record index of `Pleph` is 0, so
`Pleph` passes to `computePosition` the record that `readJplRecord` decodes at byte
offset 0; and on every open file of at least 8144 bytes the first three entries of
that record are the `StartJD`, `EndJD` and `StepJD` that `readJplHeader` decodes from
the same bytes.  The one-block example file shows it on an open session. -/
theorem C23_header_block_as_record :
    (∀ hdr : JplHeader, hdr.StepJD ≠ 0 → recordIndex hdr hdr.StartJD = .ok 0) ∧
    wrap64 (0 * 8144) = 0 ∧
    (∀ (env : Env) (jd : JplData) (ntarg ncent : Int), jd.IsOpen = true →
      jd.Header.StepJD ≠ 0 → jd.Header.StartJD ≤ jd.Header.EndJD →
      Pleph env jd jd.Header.StartJD ntarg ncent =
        match readJplRecord env jd.File 0 with
        | .error e => .ok (zero6, some (.recordFailed e))
        | .ok record =>
          match computePosition jd.Header record jd.Header.StartJD ntarg ncent zero6 with
          | .error f => .error f
          | .ok (r, some e) => .ok (r, some (.computeFailed e))
          | .ok (r, none) => .ok (r, none)) ∧
    (∀ (env : Env) (hdr0 : JplHeader) (f : OsFile), f.closed = false →
      8144 ≤ f.content.length →
      ∃ record, readJplRecord env (some f) 0 = .ok record ∧
        record.get? 0 = some (readJplHeader env hdr0 f).1.StartJD ∧
        record.get? 1 = some (readJplHeader env hdr0 f).1.EndJD ∧
        record.get? 2 = some (readJplHeader env hdr0 f).1.StepJD) ∧
    ((sessionOf goodFile).IsOpen = true ∧
      (sessionOf goodFile).Header.StartJD = 0 ∧
      recordIndex (sessionOf goodFile).Header 0 = .ok 0) := by
  have hri : ∀ hdr : JplHeader, hdr.StepJD ≠ 0 → recordIndex hdr hdr.StartJD = .ok 0 := by
    intro hdr hs
    unfold recordIndex
    simp only [if_neg hs, sub_self, zero_div]
    rfl
  refine ⟨hri, by decide, ?_, ?_, by decide!, by decide!, by decide!⟩
  · intro env jd ntarg ncent hopen hs hle
    rw [Pleph_eq, hri jd.Header hs]
    simp only [hopen, Bool.true_eq_false, if_false]
    rw [if_neg (by
      rw [not_or]
      exact ⟨lt_irrefl _, not_lt.mpr hle⟩)]
  · intro env hdr0 f hopen hlen
    have hrec := readJplRecord_open env f hopen 0
    have hw : wrap64 (0 * 8144) = 0 := by decide
    rw [hw] at hrec
    simp only [lt_irrefl, if_false, Int.toNat_zero, Nat.zero_add] at hrec
    rw [if_pos hlen] at hrec
    have hl := block_length f.content 0 (by omega)
    obtain ⟨_, _, h3⟩ := readFloat64s_entries env ((f.content.drop 0).take 8144) JplNCoeff
      (by rw [hl]; decide)
    refine ⟨_, hrec, ?_, ?_, ?_⟩
    · rw [h3 0 (by decide), readJplHeader_open env hdr0 f hopen, if_pos hlen,
        parseHeader_in_range env _ (by omega)]
    · rw [h3 1 (by decide), readJplHeader_open env hdr0 f hopen, if_pos hlen,
        parseHeader_in_range env _ (by omega)]
    · rw [h3 2 (by decide), readJplHeader_open env hdr0 f hopen, if_pos hlen,
        parseHeader_in_range env _ (by omega)]

/-! ## The claims on time normalisation and on the slots a lookup depends on -/

theorem scaleVelocity_apply (res : Vec6) (vfac : ℚ) (j : Fin 3) :
    scaleVelocity res vfac (Fin.castAdd 3 j) = res (Fin.castAdd 3 j) ∧
    scaleVelocity res vfac (Fin.natAdd 3 j) = res (Fin.natAdd 3 j) * vfac := by
  unfold scaleVelocity
  fin_cases j <;> exact ⟨rfl, rfl⟩

/-- Claim C25 as stated does not hold: the step size `computePosition` divides by is
the second entry of the record, not the `StepJD` of the header.  With `StepJD = 1` in
the header and `record[1] = 2`, at `et = 1` the code evaluates the series with
coefficients `(5, 3)` at `u = 1/2` (argument 0) and scales the velocity by
`2·1/2`: the result is `(5,0,0,3,0,0)`.  With the header's step the claim prescribes
`u = 1` (argument 1) and the factor `2·1/1`, i.e. `(8,0,0,6,0,0)`. -/
theorem C25_counterexample :
    (exHeader.StepJD = 1 ∧ index spanRecord 0 = .ok 0 ∧ index spanRecord 1 = .ok 2) ∧
    computePosition exHeader spanRecord 1 JMercury JSbary zero6 =
      .ok (![5, 0, 0, 3, 0, 0], none) ∧
    (subInterval 1 ((1 - 0) / 1) 1 = .ok 0 ∧
      interpolateChebyshev spanRecord 2 2 (2 * (1 * ((1 - 0) / 1) - 0) - 1) zero6 =
        .ok (![8, 0, 0, 3, 0, 0], none) ∧
      scaleVelocity ![8, 0, 0, 3, 0, 0] (2 * 1 / 1) = ![8, 0, 0, 6, 0, 0]) :=
  ⟨by decide!, by decide!, by decide!⟩

/-- Claim C25, amended: `computePosition` normalises time and scales velocity with
the second entry of the record: with `r0 = record[0]` and `r1 = record[1]`, the record
fraction is `u = (et - r0) / r1`, and for each evaluated body slot the three position
components are the Chebyshev sums and the three velocity components are the raw
Chebyshev derivative sums multiplied by `2 * ns / r1`.  The `StepJD` of the header is
not used: the outcome is the same for every value of it. -/
theorem C25_record_span_scaling (hdr : JplHeader) (record : List Float64) (et : Float64)
    (pv : PV) (h : workingVectors hdr record et = .ok (pv, none)) :
    (∀ k : Fin 11, hdr.IPT 0 (slot13 k) ≠ 0 →
      ∃ r0 r1 l res, index record 0 = .ok r0 ∧ index record 1 = .ok r1 ∧
        subInterval (hdr.IPT 2 (slot13 k)) ((et - r0) / r1) r1 = .ok l ∧
        interpolateChebyshev record
          (blockOffset (hdr.IPT 0 (slot13 k)) (hdr.IPT 1 (slot13 k)) l)
          (hdr.IPT 1 (slot13 k))
          (2 * ((hdr.IPT 2 (slot13 k) : ℚ) * ((et - r0) / r1) - (l : ℚ)) - 1) zero6
            = .ok (res, none) ∧
        ∀ j : Fin 3,
          pv (slot15 k) (Fin.castAdd 3 j) = res (Fin.castAdd 3 j) ∧
          pv (slot15 k) (Fin.natAdd 3 j) =
            res (Fin.natAdd 3 j) * (2 * (hdr.IPT 2 (slot13 k) : ℚ) / r1)) ∧
    (∀ (step : Float64) (ntarg ncent : Int) (rrd : Vec6),
      computePosition { hdr with StepJD := step } record et ntarg ncent rrd =
        computePosition hdr record et ntarg ncent rrd) := by
  refine ⟨fun k hna => ?_, fun step ntarg ncent rrd =>
    computePosition_congr_IPT _ _ rfl record et ntarg ncent rrd⟩
  obtain ⟨r0, r1, l, res, h0, h1, hl, hi, hpv⟩ := workingVectors_value hdr record et pv h k hna
  refine ⟨r0, r1, l, res, h0, h1, hl, hi, fun j => ?_⟩
  rw [hpv]
  exact scaleVelocity_apply res _ j

/-- Witness for C25: slot 0 of `exHeader` on the record of span 2 at `et = 1`. -/
theorem C25_record_span_scaling_witness :
    workingVectors exHeader spanRecord 1 =
      .ok (Function.update (fun _ => zero6) 0 ![5, 0, 0, 3, 0, 0], none) ∧
    (∀ (step : Float64) (ntarg ncent : Int) (rrd : Vec6),
      computePosition { exHeader with StepJD := step } spanRecord 1 ntarg ncent rrd =
        computePosition exHeader spanRecord 1 ntarg ncent rrd) :=
  ⟨by decide!,
    (C25_record_span_scaling exHeader spanRecord 1
      (Function.update (fun _ => zero6) 0 ![5, 0, 0, 3, 0, 0]) (by decide!)).2⟩

/-- Claim C28 as stated does not hold: the loop of `computePosition` evaluates every
populated slot `0..10`, referenced or not.  Populating slot 1 (Venus) with coefficient
count 1 leaves the entries of slot 0 as they are, but turns the lookup of Mercury
(slot 0) relative to the barycenter from a result into the too-few-coefficients
error. -/
theorem C28_counterexample :
    (∀ i : Fin 3, venusHeader.IPT i (slot13 0) = exHeader.IPT i (slot13 0)) ∧
    (JMercury = 0 ∧ JSbary = 11 ∧ venusHeader.IPT 0 (slot13 1) = 2 ∧
      venusHeader.IPT 1 (slot13 1) = 1) ∧
    computePosition exHeader exRecord 0 JMercury JSbary zero6 =
      .ok (![1, 0, 0, 0, 0, 0], none) ∧
    computePosition venusHeader exRecord 0 JMercury JSbary zero6 =
      .ok (zero6, some (.tooFewCoeffs 1)) :=
  ⟨by decide, by decide, by decide!, by decide!⟩

/-- Claim C28, amended: the loop evaluates every populated slot `0..10`, so a change
of another slot can make the call fail.  When the evaluation of all populated slots
succeeds before and after the change, the outcome of `computePosition` is the same
provided `record[0]`, `record[1]`, and the layout entries and the coefficients (for
every sub-interval) of the slots of target and center and, if the Moon participates,
of the Earth-Moon barycenter (slot 12, `JEmb`) are the same.  (The loop as it stands
does not evaluate slot 12, so the proof has no use for the last hypothesis.) -/
theorem C28_referenced_slots (hdr hdr' : JplHeader) (record record' : List Float64)
    (et : Float64) (ntarg ncent : Int) (rrd : Vec6) (pv pv' : PV)
    (h : workingVectors hdr record et = .ok (pv, none))
    (h' : workingVectors hdr' record' et = .ok (pv', none))
    (h0 : index record 0 = index record' 0) (h1 : index record 1 = index record' 1)
    (hcol : ∀ k : Fin 11, ((k.val : Int) = ntarg ∨ (k.val : Int) = ncent) →
      (∀ i : Fin 3, hdr.IPT i (slot13 k) = hdr'.IPT i (slot13 k)) ∧
      (∀ (l : Int) (j : Fin 3) (i : Nat), i < (hdr.IPT 1 (slot13 k)).toNat →
        index record (blockOffset (hdr.IPT 0 (slot13 k)) (hdr.IPT 1 (slot13 k)) l +
            (j.val : Int) * hdr.IPT 1 (slot13 k) + (i : Int)) =
          index record' (blockOffset (hdr.IPT 0 (slot13 k)) (hdr.IPT 1 (slot13 k)) l +
            (j.val : Int) * hdr.IPT 1 (slot13 k) + (i : Int))))
    (_hemb : (ntarg = JMoon ∨ ncent = JMoon) →
      (∀ i : Fin 3, hdr.IPT i 12 = hdr'.IPT i 12) ∧
      (∀ (l : Int) (j : Fin 3) (i : Nat), i < (hdr.IPT 1 12).toNat →
        index record (blockOffset (hdr.IPT 0 12) (hdr.IPT 1 12) l +
            (j.val : Int) * hdr.IPT 1 12 + (i : Int)) =
          index record' (blockOffset (hdr.IPT 0 12) (hdr.IPT 1 12) l +
            (j.val : Int) * hdr.IPT 1 12 + (i : Int)))) :
    computePosition hdr record et ntarg ncent rrd =
      computePosition hdr' record' et ntarg ncent rrd := by
  rw [computePosition_eq, computePosition_eq, h, h']
  simp only
  have hpv : ∀ q : Fin 15,
      ((q.val : Int) = ntarg ∨ (q.val : Int) = ncent ∨ 11 ≤ q.val) → pv q = pv' q := by
    intro q hq
    by_cases hq11 : q.val < 11
    · have hq' : (q.val : Int) = ntarg ∨ (q.val : Int) = ncent := by omega
      have hsl : slot15 ⟨q.val, hq11⟩ = q := Fin.ext (by simp [slot15])
      have hk : ∀ k2 : Fin 11, slot15 k2 = q → k2 = ⟨q.val, hq11⟩ := by
        intro k2 hk2
        have := congrArg Fin.val hk2
        simp only [slot15, Fin.coe_castLE] at this
        exact Fin.ext this
      obtain ⟨hipt, hblk⟩ := hcol ⟨q.val, hq11⟩ hq'
      by_cases hna : hdr.IPT 0 (slot13 ⟨q.val, hq11⟩) = 0
      · rw [workingVectors_zero hdr record et pv none h q (fun k2 hk2 => by
            rw [hk k2 hk2]; exact hna),
          workingVectors_zero hdr' record' et pv' none h' q (fun k2 hk2 => by
            rw [hk k2 hk2, ← hipt 0]; exact hna)]
      · have hna' : hdr'.IPT 0 (slot13 ⟨q.val, hq11⟩) ≠ 0 := by rw [← hipt 0]; exact hna
        obtain ⟨r0, r1, l, res, hr0, hr1, hl, hi, hpv⟩ :=
          workingVectors_value hdr record et pv h ⟨q.val, hq11⟩ hna
        obtain ⟨r0', r1', l', res', hr0', hr1', hl', hi', hpv'⟩ :=
          workingVectors_value hdr' record' et pv' h' ⟨q.val, hq11⟩ hna'
        simp only [← hipt 0, ← hipt 1, ← hipt 2] at hl' hi' hpv'
        have e0 : r0' = r0 := by
          rw [h0, hr0'] at hr0
          exact Except.ok.inj hr0
        have e1 : r1' = r1 := by
          rw [h1, hr1'] at hr1
          exact Except.ok.inj hr1
        subst e0
        subst e1
        have el : l' = l := by
          rw [hl] at hl'
          exact (Except.ok.inj hl').symm
        rw [el] at hi'
        rw [interpolateChebyshev_congr record record' _ _ _ _ (hblk l), hi'] at hi
        have er : res' = res := congrArg Prod.fst (Except.ok.inj hi)
        rw [← hsl, hpv, hpv', er]
    · have hz : ∀ (hd : JplHeader) (k2 : Fin 11), slot15 k2 = q →
          hd.IPT 0 (slot13 k2) = 0 := by
        intro hd k2 hk2
        have := congrArg Fin.val hk2
        simp only [slot15, Fin.coe_castLE] at this
        have := k2.isLt
        omega
      rw [workingVectors_zero hdr record et pv none h q (hz hdr),
        workingVectors_zero hdr' record' et pv' none h' q (hz hdr')]
  refine congrArg _ (composeRelative_congr _ _ ntarg ncent rrd (fun q hq => ?_))
  have hqq : pv q = pv' q := hpv q (hq.elim Or.inl (fun hc => Or.inr (Or.inl hc)))
  have h12 : pv 12 = pv' 12 := hpv 12 (Or.inr (Or.inr (by decide)))
  unfold moonCorrection
  by_cases hm : ntarg = JMoon
  · rw [if_pos hm, if_pos hm]
    by_cases hq9 : q = 9
    · rw [hq9] at hqq ⊢
      rw [Function.update_same, Function.update_same, h12, hqq]
    · rw [Function.update_noteq hq9, Function.update_noteq hq9, hqq]
  · rw [if_neg hm, if_neg hm, hqq]

/-- Witness for C28: the Moon relative to the barycenter, with the Moon slot and the
slot of the Earth-Moon barycenter populated; populating slot 0 as well leaves the
lookup as it is. -/
theorem C28_referenced_slots_witness :
    (workingVectors moonHeader moonRecord 0 =
        .ok (Function.update (fun _ => zero6) 9 ![5, 0, 0, 0, 0, 0], none) ∧
      workingVectors moonPlusHeader moonRecord 0 =
        .ok (Function.update (Function.update (fun _ => zero6) 0 ![5, 0, 0, 0, 0, 0]) 9
          ![5, 0, 0, 0, 0, 0], none) ∧
      (∀ i : Fin 3, moonHeader.IPT i (slot13 9) = moonPlusHeader.IPT i (slot13 9)) ∧
      (∀ i : Fin 3, moonHeader.IPT i 12 = moonPlusHeader.IPT i 12) ∧
      moonPlusHeader.IPT 0 (slot13 0) ≠ moonHeader.IPT 0 (slot13 0)) ∧
    computePosition moonHeader moonRecord 0 JMoon JSbary zero6 =
      computePosition moonPlusHeader moonRecord 0 JMoon JSbary zero6 :=
  ⟨⟨by decide!, by decide!, by decide, by decide, by decide⟩,
    C28_referenced_slots moonHeader moonPlusHeader moonRecord moonRecord 0 JMoon JSbary zero6
      (Function.update (fun _ => zero6) 9 ![5, 0, 0, 0, 0, 0])
      (Function.update (Function.update (fun _ => zero6) 0 ![5, 0, 0, 0, 0, 0]) 9
        ![5, 0, 0, 0, 0, 0])
      (by decide!) (by decide!) rfl rfl
      (fun k hk => by
        have hk9 : k = 9 := by
          have := k.isLt
          refine Fin.ext ?_
          simp only [JMoon, JSbary] at hk
          show k.val = 9
          omega
        subst hk9
        exact ⟨by decide, fun _ _ _ _ => rfl⟩)
      (fun _ => ⟨by decide, fun _ _ _ _ => rfl⟩)⟩

/-! ## Lemmas on `Calc` and the functions it dispatches to -/

/-- The body of `calcNode` at `SeMeanNode`: no further call is made. -/
theorem calcNode_mean (m : MathLib Float64) (tjd : Float64) (iflag : Int) :
    calcNode m tjd SeMeanNode iflag =
      (applyCoordinateTransforms m
        ![mathMod
            ((125.0445479 - 1934.1362891 * ((tjd - J2000) / 36525.0) +
              0.0020754 * ((tjd - J2000) / 36525.0) * ((tjd - J2000) / 36525.0)) * DegToRad m)
            (TwoPi m),
          0.0 * DegToRad m, 1.0, -1934.1362891 * DegToRad m / 36525.0, 0.0, 0.0] iflag, none) := by
  rw [calcNode]
  simp only [dif_pos]

/-- For any other body number `calcNode` is its own value at `SeMeanNode`. -/
theorem calcNode_other (m : MathLib Float64) (tjd : Float64) (ipl iflag : Int)
    (h : ipl ≠ SeMeanNode) : calcNode m tjd ipl iflag = calcNode m tjd SeMeanNode iflag := by
  rw [calcNode]
  simp only [dif_neg h]

/-- The body of `calcApogee` at `SeMeanApog`: no further call is made. -/
theorem calcApogee_mean (m : MathLib Float64) (tjd : Float64) (iflag : Int) :
    calcApogee m tjd SeMeanApog iflag =
      (applyCoordinateTransforms m
        ![mathMod
            ((83.3532465 + 4069.0137287 * ((tjd - J2000) / 36525.0) -
              0.0103200 * ((tjd - J2000) / 36525.0) * ((tjd - J2000) / 36525.0)) * DegToRad m)
            (TwoPi m),
          0.0 * DegToRad m, 1.0, 4069.0137287 * DegToRad m / 36525.0, 0.0, 0.0] iflag, none) := by
  rw [calcApogee]
  simp only [dif_pos]

/-- For any other body number `calcApogee` is its own value at `SeMeanApog`. -/
theorem calcApogee_other (m : MathLib Float64) (tjd : Float64) (ipl iflag : Int)
    (h : ipl ≠ SeMeanApog) : calcApogee m tjd ipl iflag = calcApogee m tjd SeMeanApog iflag := by
  rw [calcApogee]
  simp only [dif_neg h]

/-- `initializeSwissEph` never returns an error. -/
theorem initializeSwissEph_ok (dp : String) (st : SwissState) :
    (initializeSwissEph dp st).2 = none := by
  unfold initializeSwissEph
  split_ifs <;> rfl

/-- `Calc` after its two checks: for a time within range it is the dispatch on the
body number, run in the state `initializeSwissEph` leaves. -/
theorem Calc_in_range (env : Env) (m : MathLib Float64) (dp : String) (st : SwissState)
    (jd : JplData) (tjd : Float64) (ipl iflag : Int)
    (h1 : -5000000 ≤ tjd) (h2 : tjd ≤ 5000000) :
    Calc env m dp st jd tjd ipl iflag =
      ((initializeSwissEph dp st).1,
        if ipl ≥ SeSun ∧ ipl ≤ SePluto then calcMainPlanet env m jd tjd ipl iflag
        else if ipl = SeMeanNode ∨ ipl = SeTrueNode then .ok (calcNode m tjd ipl iflag)
        else if ipl = SeMeanApog ∨ ipl = SeOscuApog then .ok (calcApogee m tjd ipl iflag)
        else if ipl ≥ SeCeres ∧ ipl ≤ SeVesta then .ok (calcAsteroid tjd ipl iflag)
        else if ipl ≥ SeChiron ∧ ipl ≤ SePholus then .ok (calcMinorPlanet tjd ipl iflag)
        else .ok (zero6, some (.unsupportedBody ipl))) := by
  unfold Calc
  have hr : ¬ (tjd < -5000000 ∨ tjd > 5000000) := by
    rintro (h | h) <;> linarith
  simp only [if_neg hr]
  have hinit := initializeSwissEph_ok dp st
  rcases hI : initializeSwissEph dp st with ⟨st2, e⟩
  rw [hI] at hinit
  simp only at hinit
  subst hinit
  simp only
  split_ifs <;> rfl

/-- For a time out of range `Calc` returns the range error, whatever the body. -/
theorem Calc_out_of_range (env : Env) (m : MathLib Float64) (dp : String) (st : SwissState)
    (jd : JplData) (tjd : Float64) (ipl iflag : Int)
    (h : tjd < -5000000 ∨ tjd > 5000000) :
    Calc env m dp st jd tjd ipl iflag = (st, .ok (zero6, some (.tjdOutOfRange tjd))) := by
  unfold Calc
  simp only [if_pos h]

/-- `calcWithJPL` returns no error other than one of `Pleph`. -/
theorem calcWithJPL_error (env : Env) (m : MathLib Float64) (jd : JplData) (tjd : Float64)
    (ipl iflag : Int) (v : Vec6) (e : CalcError)
    (h : calcWithJPL env m jd tjd ipl iflag = .ok (v, some e)) :
    v = zero6 ∧ ∃ g, e = .jpl g ∧
      Pleph env jd tjd (mapToJPLTarget ipl)
        (if Int.land iflag SeflgHelctr ≠ 0 then JSun else JSbary) = .ok (zero6, some g) := by
  unfold calcWithJPL at h
  simp only at h
  cases hP : Pleph env jd tjd (mapToJPLTarget ipl)
      (if Int.land iflag SeflgHelctr ≠ 0 then JSun else JSbary) with
  | error f =>
    rw [hP] at h
    cases h
  | ok out =>
    obtain ⟨r, g⟩ := out
    rw [hP] at h
    cases g with
    | none =>
      simp only [Except.ok.injEq, Prod.mk.injEq] at h
      exact absurd h.2 (by simp)
    | some g =>
      simp only [Except.ok.injEq, Prod.mk.injEq, Option.some.injEq] at h
      have hz := (Pleph_error env jd tjd _ _ r g hP).1
      subst hz
      exact ⟨h.1.symm, g, h.2.symm, rfl⟩

/-! ## The claims on `Calc` -/

/-- Claim C33: the true node and the osculating apogee are computed as their mean
counterparts.  `calcNode` at `SeTrueNode` is `calcNode` at `SeMeanNode`, and
`calcApogee` at `SeOscuApog` is `calcApogee` at `SeMeanApog`; the call at the mean body
is the closed expression of the mean element (no further call), so the recursion ends
after one step; and `Calc` returns the same state and the same result for `SeTrueNode`
as for `SeMeanNode`, and for `SeOscuApog` as for `SeMeanApog`: for a time within
`[-5000000, 5000000]` the result of the mean body's function, with no error. -/
theorem C33_true_node_as_mean_node (m : MathLib Float64) (tjd : Float64) (iflag : Int) :
    (calcNode m tjd SeTrueNode iflag = calcNode m tjd SeMeanNode iflag ∧
      calcApogee m tjd SeOscuApog iflag = calcApogee m tjd SeMeanApog iflag) ∧
    (calcNode m tjd SeMeanNode iflag =
        (applyCoordinateTransforms m
          ![mathMod
              ((125.0445479 - 1934.1362891 * ((tjd - J2000) / 36525.0) +
                0.0020754 * ((tjd - J2000) / 36525.0) * ((tjd - J2000) / 36525.0)) * DegToRad m)
              (TwoPi m),
            0.0 * DegToRad m, 1.0, -1934.1362891 * DegToRad m / 36525.0, 0.0, 0.0] iflag, none) ∧
      calcApogee m tjd SeMeanApog iflag =
        (applyCoordinateTransforms m
          ![mathMod
              ((83.3532465 + 4069.0137287 * ((tjd - J2000) / 36525.0) -
                0.0103200 * ((tjd - J2000) / 36525.0) * ((tjd - J2000) / 36525.0)) * DegToRad m)
              (TwoPi m),
            0.0 * DegToRad m, 1.0, 4069.0137287 * DegToRad m / 36525.0, 0.0, 0.0] iflag, none)) ∧
    ∀ (env : Env) (dp : String) (st : SwissState) (jd : JplData),
      Calc env m dp st jd tjd SeTrueNode iflag = Calc env m dp st jd tjd SeMeanNode iflag ∧
      Calc env m dp st jd tjd SeOscuApog iflag = Calc env m dp st jd tjd SeMeanApog iflag ∧
      (-5000000 ≤ tjd → tjd ≤ 5000000 →
        (Calc env m dp st jd tjd SeTrueNode iflag).2 = .ok (calcNode m tjd SeMeanNode iflag) ∧
        (Calc env m dp st jd tjd SeOscuApog iflag).2 =
          .ok (calcApogee m tjd SeMeanApog iflag)) := by
  have hn : calcNode m tjd SeTrueNode iflag = calcNode m tjd SeMeanNode iflag :=
    calcNode_other m tjd SeTrueNode iflag (by decide)
  have ha : calcApogee m tjd SeOscuApog iflag = calcApogee m tjd SeMeanApog iflag :=
    calcApogee_other m tjd SeOscuApog iflag (by decide)
  refine ⟨⟨hn, ha⟩, ⟨calcNode_mean m tjd iflag, calcApogee_mean m tjd iflag⟩, ?_⟩
  intro env dp st jd
  by_cases hr : tjd < -5000000 ∨ tjd > 5000000
  · refine ⟨?_, ?_, ?_⟩
    · rw [Calc_out_of_range _ _ _ _ _ _ _ _ hr, Calc_out_of_range _ _ _ _ _ _ _ _ hr]
    · rw [Calc_out_of_range _ _ _ _ _ _ _ _ hr, Calc_out_of_range _ _ _ _ _ _ _ _ hr]
    · intro h1 h2
      rcases hr with h | h <;> linarith
  · have h1 : -5000000 ≤ tjd := by
      by_contra hc
      exact hr (Or.inl (not_le.mp hc))
    have h2 : tjd ≤ 5000000 := by
      by_contra hc
      exact hr (Or.inr (not_le.mp hc))
    have e1 : Calc env m dp st jd tjd SeTrueNode iflag =
        ((initializeSwissEph dp st).1, .ok (calcNode m tjd SeMeanNode iflag)) := by
      rw [Calc_in_range _ _ _ _ _ _ _ _ h1 h2, if_neg (by decide), if_pos (by decide), hn]
    have e2 : Calc env m dp st jd tjd SeMeanNode iflag =
        ((initializeSwissEph dp st).1, .ok (calcNode m tjd SeMeanNode iflag)) := by
      rw [Calc_in_range _ _ _ _ _ _ _ _ h1 h2, if_neg (by decide), if_pos (by decide)]
    have e3 : Calc env m dp st jd tjd SeOscuApog iflag =
        ((initializeSwissEph dp st).1, .ok (calcApogee m tjd SeMeanApog iflag)) := by
      rw [Calc_in_range _ _ _ _ _ _ _ _ h1 h2, if_neg (by decide), if_neg (by decide),
        if_pos (by decide), ha]
    have e4 : Calc env m dp st jd tjd SeMeanApog iflag =
        ((initializeSwissEph dp st).1, .ok (calcApogee m tjd SeMeanApog iflag)) := by
      rw [Calc_in_range _ _ _ _ _ _ _ _ h1 h2, if_neg (by decide), if_neg (by decide),
        if_pos (by decide)]
    refine ⟨by rw [e1, e2], by rw [e3, e4], fun _ _ => ⟨by rw [e1], by rw [e3]⟩⟩

/-- Claim C34: without an open JPL session no main-planet position is computed.  For
a time within `[-5000000, 5000000]` and a body number from `SeSun` to `SePluto`: if
`IsJplAvailable()` is false, `Calc` returns the zero vector with an error (that of the
unimplemented Swiss Ephemeris when `SeflgSwieph` is set, else that of the unimplemented
Moshier ephemeris when `SeflgMoseph` is set, else "no ephemeris available"); if a
session is open, `Calc` returns what `calcWithJPL` returns when `SeflgJpleph` is set or
`SeflgSwieph` is unset, and otherwise the zero vector with the Swiss Ephemeris error,
which `calcWithJPL` never returns. -/
theorem C34_no_session_no_planet (env : Env) (m : MathLib Float64) (dp : String)
    (st : SwissState) (jd : JplData) (tjd : Float64) (ipl iflag : Int)
    (h1 : -5000000 ≤ tjd) (h2 : tjd ≤ 5000000) (hp1 : SeSun ≤ ipl) (hp2 : ipl ≤ SePluto) :
    (IsJplAvailable jd = false →
      (∃ e, (Calc env m dp st jd tjd ipl iflag).2 = .ok (zero6, some e)) ∧
      (Calc env m dp st jd tjd ipl iflag).2 =
        .ok (zero6, some
          (if Int.land iflag SeflgSwieph ≠ 0 then .swissEphNotImplemented
            else if Int.land iflag SeflgMoseph ≠ 0 then .moshierNotImplemented
            else .noEphemeris))) ∧
    (IsJplAvailable jd = true →
      ((Int.land iflag SeflgJpleph ≠ 0 ∨ Int.land iflag SeflgSwieph = 0) →
        (Calc env m dp st jd tjd ipl iflag).2 = calcWithJPL env m jd tjd ipl iflag) ∧
      (¬ (Int.land iflag SeflgJpleph ≠ 0 ∨ Int.land iflag SeflgSwieph = 0) →
        (Calc env m dp st jd tjd ipl iflag).2 = .ok (zero6, some .swissEphNotImplemented) ∧
        calcWithJPL env m jd tjd ipl iflag ≠ .ok (zero6, some .swissEphNotImplemented))) := by
  have hC : (Calc env m dp st jd tjd ipl iflag).2 = calcMainPlanet env m jd tjd ipl iflag := by
    rw [Calc_in_range _ _ _ _ _ _ _ _ h1 h2, if_pos ⟨hp1, hp2⟩]
  rw [hC]
  unfold calcMainPlanet calcWithSwissEph calcWithMoshier
  refine ⟨fun hna => ?_, fun hav => ⟨fun hc => ?_, fun hc => ⟨?_, ?_⟩⟩⟩
  · have hrest : (if Int.land iflag SeflgJpleph ≠ 0 ∨ Int.land iflag SeflgSwieph = 0 then
          if IsJplAvailable jd = true then calcWithJPL env m jd tjd ipl iflag
          else
            if Int.land iflag SeflgSwieph ≠ 0 then .ok (zero6, some .swissEphNotImplemented)
            else if Int.land iflag SeflgMoseph ≠ 0 then .ok (zero6, some .moshierNotImplemented)
            else .ok (zero6, some .noEphemeris)
        else
          if Int.land iflag SeflgSwieph ≠ 0 then .ok (zero6, some .swissEphNotImplemented)
          else if Int.land iflag SeflgMoseph ≠ 0 then .ok (zero6, some .moshierNotImplemented)
          else .ok (zero6, some .noEphemeris)) =
        (.ok (zero6, some
          (if Int.land iflag SeflgSwieph ≠ 0 then .swissEphNotImplemented
            else if Int.land iflag SeflgMoseph ≠ 0 then .moshierNotImplemented
            else .noEphemeris)) : Except Fault (Vec6 × Option CalcError)) := by
      rw [hna]
      split_ifs <;> first | rfl | (exfalso; simp_all)
    simp only at hrest ⊢
    rw [hrest]
    exact ⟨⟨_, rfl⟩, rfl⟩
  · simp only [if_pos hc, hav, if_true]
  · have hs : Int.land iflag SeflgSwieph ≠ 0 := fun h0 => hc (Or.inr h0)
    simp only [if_neg hc, if_pos hs]
  · intro hj
    obtain ⟨_, g, hg, _⟩ := calcWithJPL_error env m jd tjd ipl iflag _ _ hj
    cases hg

/-- Witness for C34: with no session (the initial state of `jplData`) a request for
Mars with the Moshier flag returns the zero vector and the Moshier error; with the
session on the one-block example file, the JPL flag gives the JPL result and the
Swiss Ephemeris flag alone gives the Swiss Ephemeris error. -/
theorem C34_no_session_no_planet_witness :
    ((-5000000 : Float64) ≤ 0 ∧ (0 : Float64) ≤ 5000000 ∧ SeSun ≤ SeMars ∧ SeMars ≤ SePluto) ∧
    IsJplAvailable JplData.zero = false ∧
    (Calc envNoFile approxMath "./" ⟨"", false⟩ JplData.zero 0 SeMars SeflgMoseph).2 =
      .ok (zero6, some .moshierNotImplemented) ∧
    (IsJplAvailable (sessionOf goodFile) = true ∧
      (Calc (envOf goodFile) approxMath "./" ⟨"", false⟩ (sessionOf goodFile) 0 SeMercury
        8193).2 = .ok (![1, 0, 0, 0, 0, 0], none) ∧
      (Calc (envOf goodFile) approxMath "./" ⟨"", false⟩ (sessionOf goodFile) 0 SeMercury
        SeflgSwieph).2 = .ok (zero6, some .swissEphNotImplemented)) ∧
    ∃ e, (Calc envNoFile approxMath "./" ⟨"", false⟩ JplData.zero 0 SeMars SeflgMoseph).2 =
      .ok (zero6, some e) :=
  ⟨by decide!, by decide, by decide!, ⟨by decide!, by decide!, by decide!⟩,
    ((C34_no_session_no_planet envNoFile approxMath "./" ⟨"", false⟩ JplData.zero 0 SeMars
      SeflgMoseph (by decide!) (by decide!) (by decide) (by decide)).1 (by decide)).1⟩

/-! ## Lemmas on month lengths -/

/-- From one year to the next the day count of `Julday` (the year term with its
Gregorian correction) grows by 366 in a Gregorian leap year and by 365 otherwise. -/
theorem gregorian_year_step (y : Int) :
    (1461 * y / 4 - y / 100 + y / 100 / 4) -
        (1461 * (y - 1) / 4 - (y - 1) / 100 + (y - 1) / 100 / 4) =
      if 4 ∣ y ∧ (¬ 100 ∣ y ∨ 400 ∣ y) then 366 else 365 := by
  obtain ⟨f, g, h, r, hy, hg0, hg3, hh0, hh24, hr0, hr3⟩ :
      ∃ f g h r : Int, y = 400 * f + 100 * g + 4 * h + r ∧ 0 ≤ g ∧ g ≤ 3 ∧ 0 ≤ h ∧ h ≤ 24 ∧
        0 ≤ r ∧ r ≤ 3 :=
    ⟨y / 400, y % 400 / 100, y % 100 / 4, y % 4, by omega, by omega, by omega, by omega,
      by omega, by omega, by omega⟩
  subst hy
  by_cases hh : h = 0
  · subst hh
    interval_cases g <;> interval_cases r <;> split_ifs <;> omega
  · interval_cases g <;> interval_cases r <;> split_ifs <;> omega

/-- In exact arithmetic `Julday` and `DaysInMonth` agree on month lengths: for every
Gregorian year `≥ 1` and month `m` in `1..12`, the Julian day of the first day of the
following month minus the Julian day of the first day of month `m` is
`DaysInMonth(year, m)`. -/
theorem Julday_month_lengths (year month : Int) (hy : 1 ≤ year) (hm1 : 1 ≤ month) (hm2 : month ≤ 12) :
    Julday (if month < 12 then year else year + 1) (if month < 12 then month + 1 else 1) 1 0
        SeGregCal - Julday year month 1 0 SeGregCal = ((DaysInMonth year month : Int) : Float64) := by
  rw [Julday_gregorian _ _ _ _ (by split_ifs <;> omega),
    Julday_gregorian _ _ _ _ (by split_ifs <;> omega), DaysInMonth_eq]
  have key : ∀ a b : Int, ((a : ℚ) + 1720994.5 + 0 / 24) - ((b : ℚ) + 1720994.5 + 0 / 24) =
      ((a - b : Int) : ℚ) := by
    intro a b
    push_cast
    ring
  rw [key]
  congr 1
  have hfeb : (if IsLeapYear year = true then (29 : Int) else 28) =
      (1461 * year / 4 - year / 100 + year / 100 / 4) -
        (1461 * (year - 1) / 4 - (year - 1) / 100 + (year - 1) / 100 / 4) - 337 := by
    rw [gregorian_year_step year]
    simp only [IsLeapYear_iff year]
    split_ifs <;> rfl
  rw [hfeb]
  clear hfeb key
  have hnext : year + 1 - 1 = year := by omega
  split_ifs <;> interval_cases month <;> (try simp only [hnext]) <;> omega

/-! ## Lemmas on index safety -/

/-- The slot bounds keep every index of a coefficient block inside the record: with
`0 ≤ na`, `1 ≤ nc`, `0 ≤ l ≤ ns - 1` and `na + 3·nc·ns ≤ n`, the block that starts at
`na + l·nc·3` and holds `3·nc` entries ends at or before `n`. -/
theorem block_fits (na nc ns l n : Int) (hna : 0 ≤ na) (hnc : 1 ≤ nc) (hl0 : 0 ≤ l)
    (hl1 : l ≤ ns - 1) (hfit : na + 3 * nc * ns ≤ n) :
    0 ≤ na + l * nc * 3 ∧ na + l * nc * 3 + 3 * nc ≤ n := by
  have h1 : 0 ≤ l * nc := mul_nonneg hl0 (by omega)
  have h2 : l * nc ≤ (ns - 1) * nc := mul_le_mul_of_nonneg_right hl1 (by omega)
  have h3 : (ns - 1) * nc = nc * ns - nc := by ring
  have h4 : 3 * nc * ns = 3 * (nc * ns) := by ring
  constructor <;> omega

/-- An index `j·nc + i` with `j < 3` and `i < nc` stays below `3·nc`. -/
theorem entry_lt (nc : Int) (j : Fin 3) (i : Nat) (hi : (i : Int) < nc) :
    0 ≤ (j.val : Int) * nc + (i : Int) ∧ (j.val : Int) * nc + (i : Int) < 3 * nc := by
  have hj : (j.val : Int) ≤ 2 := by omega
  have hj0 : (0 : Int) ≤ (j.val : Int) := by omega
  have hnc : 0 ≤ nc := by omega
  have h1 : (j.val : Int) * nc ≤ 2 * nc := mul_le_mul_of_nonneg_right hj hnc
  have h2 : 0 ≤ (j.val : Int) * nc := mul_nonneg hj0 hnc
  constructor <;> omega

/-! ## Lemmas on rounding to binary64 -/

namespace Rounded

theorem log2Fuel_spec : ∀ (fuel n : Nat), 1 ≤ n → n < 2 ^ fuel →
    2 ^ log2Fuel fuel n ≤ n ∧ n < 2 ^ (log2Fuel fuel n + 1)
  | 0, n, h1, h2 => by
    simp only [pow_zero] at h2
    omega
  | fuel + 1, n, h1, h2 => by
    unfold log2Fuel
    by_cases h : 2 ≤ n
    · rw [if_pos h]
      have hlt : n / 2 < 2 ^ fuel := by
        rw [pow_succ] at h2
        omega
      obtain ⟨ih1, ih2⟩ := log2Fuel_spec fuel (n / 2) (by omega) hlt
      rw [pow_succ] at ih2 ⊢
      rw [pow_succ]
      constructor <;> omega
    · rw [if_neg h]
      have : n = 1 := by omega
      subst this
      simp

theorem ilog2_spec (n : Nat) (h : 1 ≤ n) : 2 ^ ilog2 n ≤ n ∧ n < 2 ^ (ilog2 n + 1) :=
  log2Fuel_spec n n h (Nat.lt_two_pow n)

theorem ratio_bounds (N D kn kd : Nat) (n1 : 2 ^ kn ≤ N) (n2 : N < 2 ^ (kn + 1))
    (d1 : 2 ^ kd ≤ D) (d2 : D < 2 ^ (kd + 1)) :
    (2 : ℚ) ^ ((kn : Int) - (kd : Int) - 1) < (N : ℚ) / (D : ℚ) ∧
      (N : ℚ) / (D : ℚ) < (2 : ℚ) ^ ((kn : Int) - (kd : Int) + 1) := by
  have n1q : (2 : ℚ) ^ kn ≤ (N : ℚ) := by exact_mod_cast n1
  have n2q : (N : ℚ) < (2 : ℚ) ^ (kn + 1) := by exact_mod_cast n2
  have d1q : (2 : ℚ) ^ kd ≤ (D : ℚ) := by exact_mod_cast d1
  have d2q : (D : ℚ) < (2 : ℚ) ^ (kd + 1) := by exact_mod_cast d2
  have hp1 : (0 : ℚ) < (2 : ℚ) ^ kd := by positivity
  have hp2 : (0 : ℚ) < (2 : ℚ) ^ kn := by positivity
  have hdpos : (0 : ℚ) < (D : ℚ) := lt_of_lt_of_le hp1 d1q
  have hk : (2 : ℚ) ^ ((kn : Int) - (kd : Int)) = (2 : ℚ) ^ kn / (2 : ℚ) ^ kd := by
    rw [zpow_sub₀ (by norm_num : (2 : ℚ) ≠ 0), zpow_natCast, zpow_natCast]
  constructor
  · rw [zpow_sub_one₀ (by norm_num : (2 : ℚ) ≠ 0), hk, lt_div_iff₀ hdpos, div_mul_eq_mul_div,
      div_mul_eq_mul_div, div_lt_iff₀ hp1]
    rw [pow_succ] at d2q
    nlinarith
  · rw [zpow_add_one₀ (by norm_num : (2 : ℚ) ≠ 0), hk, div_lt_iff₀ hdpos, div_mul_eq_mul_div,
      div_mul_eq_mul_div, lt_div_iff₀ hp1]
    rw [pow_succ] at n2q
    nlinarith

/-- The binary exponent brackets a positive rational between two powers of two. -/
theorem binExp_spec (a : ℚ) (ha : 0 < a) :
    (2 : ℚ) ^ binExp a ≤ a ∧ a < (2 : ℚ) ^ (binExp a + 1) := by
  have hnum : 0 < a.num := Rat.num_pos.mpr ha
  have hn1 : 1 ≤ a.num.toNat := by omega
  have hd1 : 1 ≤ a.den := a.den_pos
  obtain ⟨n1, n2⟩ := ilog2_spec a.num.toNat hn1
  obtain ⟨d1, d2⟩ := ilog2_spec a.den hd1
  have hq : (a.num.toNat : ℚ) / (a.den : ℚ) = a := by
    have h1 : ((a.num.toNat : Int) : ℚ) = (a.num : ℚ) := by
      rw [Int.toNat_of_nonneg hnum.le]
    have h2 : (a.num.toNat : ℚ) = (a.num : ℚ) := by exact_mod_cast h1
    rw [h2]
    exact Rat.num_div_den a
  obtain ⟨hlo, hup⟩ := ratio_bounds a.num.toNat a.den _ _ n1 n2 d1 d2
  rw [hq] at hlo hup
  unfold binExp
  simp only
  split_ifs with hc
  · exact ⟨hc, hup⟩
  · refine ⟨hlo.le, ?_⟩
    rw [sub_add_cancel]
    exact not_le.mp hc

/-- The binary exponent is monotone on the positive rationals. -/
theorem binExp_mono (y a : ℚ) (hy : 0 < y) (h : y ≤ a) : binExp y ≤ binExp a := by
  obtain ⟨y1, _⟩ := binExp_spec y hy
  obtain ⟨_, a2⟩ := binExp_spec a (lt_of_lt_of_le hy h)
  have hlt : (2 : ℚ) ^ binExp y < (2 : ℚ) ^ (binExp a + 1) := lt_of_le_of_lt (le_trans y1 h) a2
  have := (zpow_lt_zpow_iff_right₀ (by norm_num : (1 : ℚ) < 2)).mp hlt
  omega

theorem roundHalfEven_le (q : ℚ) (m : Int) (h : q ≤ (m : ℚ)) : roundHalfEven q ≤ m := by
  have hfl : ⌊q⌋ ≤ m := Int.floor_le_iff.mpr (by linarith)
  have hfl' : (⌊q⌋ : ℚ) ≤ q := Int.floor_le q
  unfold roundHalfEven
  simp only
  by_cases h1 : q - (⌊q⌋ : ℚ) < 1 / 2
  · rw [if_pos h1]
    exact hfl
  · have hne : ⌊q⌋ ≠ m := by
      intro he
      rw [he] at h1
      apply h1
      linarith
    have : ⌊q⌋ + 1 ≤ m := by omega
    rw [if_neg h1]
    split_ifs <;> omega

theorem le_roundHalfEven (q : ℚ) (m : Int) (h : (m : ℚ) ≤ q) : m ≤ roundHalfEven q := by
  have hfl : m ≤ ⌊q⌋ := Int.le_floor.mpr h
  unfold roundHalfEven
  simp only
  split_ifs <;> omega

theorem cast_two_pow (m : Nat) : (((2 : Int) ^ m : Int) : ℚ) = (2 : ℚ) ^ (m : Int) := by
  rw [zpow_natCast]
  push_cast
  rfl

/-- The spacing used for a representable number `n * 2^k` (`0 < n < 2^53`,
`k ≥ -1074`) is at most `2^k`: the number lies on its own grid. -/
theorem rep_grid (n k : Int) (hn0 : 0 < n) (hn : n < 2 ^ 53) (hk : -1074 ≤ k) :
    max (binExp ((n : ℚ) * (2 : ℚ) ^ k)) (-1022) - 52 ≤ k := by
  have hnq0 : (0 : ℚ) < (n : ℚ) := by exact_mod_cast hn0
  have hnq : (n : ℚ) < (2 : ℚ) ^ ((53 : Nat) : Int) := by
    have : (n : ℚ) < ((2 ^ 53 : Int) : ℚ) := by exact_mod_cast hn
    rwa [cast_two_pow 53] at this
  have hp : (0 : ℚ) < (2 : ℚ) ^ k := by positivity
  obtain ⟨h1, _⟩ := binExp_spec ((n : ℚ) * (2 : ℚ) ^ k) (mul_pos hnq0 hp)
  have hlt : (2 : ℚ) ^ binExp ((n : ℚ) * (2 : ℚ) ^ k) < (2 : ℚ) ^ (((53 : Nat) : Int) + k) := by
    rw [zpow_add₀ (by norm_num : (2 : ℚ) ≠ 0)]
    exact lt_of_le_of_lt h1 (mul_lt_mul_of_pos_right hnq hp)
  have := (zpow_lt_zpow_iff_right₀ (by norm_num : (1 : ℚ) < 2)).mp hlt
  have hm : max (binExp ((n : ℚ) * (2 : ℚ) ^ k)) (-1022) ≤ k + 52 := max_le (by omega) (by omega)
  omega

/-- A representable number on the grid of spacing `2^g` with `g ≤ k`, as an integer
multiple of the spacing. -/
theorem rep_multiple (n k g : Int) (hg : g ≤ k) :
    ∃ M : Int, (M : ℚ) * (2 : ℚ) ^ g = (n : ℚ) * (2 : ℚ) ^ k := by
  refine ⟨n * 2 ^ (k - g).toNat, ?_⟩
  have ht : ((k - g).toNat : Int) = k - g := Int.toNat_of_nonneg (by omega)
  push_cast
  rw [← zpow_natCast, ht, mul_assoc, ← zpow_add₀ (by norm_num : (2 : ℚ) ≠ 0)]
  congr 2
  omega

/-- Rounding a positive number does not go below a representable number that is not
above it. -/
theorem le_roundPos (n k : Int) (hn0 : 0 < n) (hn : n < 2 ^ 53) (hk : -1074 ≤ k) (a : ℚ)
    (h : (n : ℚ) * (2 : ℚ) ^ k ≤ a) : (n : ℚ) * (2 : ℚ) ^ k ≤ roundPos a := by
  have hnq0 : (0 : ℚ) < (n : ℚ) := by exact_mod_cast hn0
  have hy : (0 : ℚ) < (n : ℚ) * (2 : ℚ) ^ k := mul_pos hnq0 (by positivity)
  have ha : 0 < a := lt_of_lt_of_le hy h
  have hmono : max (binExp ((n : ℚ) * (2 : ℚ) ^ k)) (-1022) ≤ max (binExp a) (-1022) :=
    max_le_max (binExp_mono _ _ hy h) le_rfl
  have hgrid := rep_grid n k hn0 hn hk
  have hu : (0 : ℚ) < (2 : ℚ) ^ (max (binExp a) (-1022) - 52) := by positivity
  suffices hM : ∃ M : Int, (n : ℚ) * (2 : ℚ) ^ k ≤ (M : ℚ) * (2 : ℚ) ^ (max (binExp a) (-1022) - 52) ∧
      (M : ℚ) ≤ a / (2 : ℚ) ^ (max (binExp a) (-1022) - 52) by
    obtain ⟨M, h1, h2⟩ := hM
    unfold roundPos
    simp only
    have h3 : (M : ℚ) ≤ (roundHalfEven (a / (2 : ℚ) ^ (max (binExp a) (-1022) - 52)) : ℚ) := by
      exact_mod_cast le_roundHalfEven _ M h2
    exact le_trans h1 (mul_le_mul_of_nonneg_right h3 hu.le)
  rcases eq_or_lt_of_le hmono with heq | hlt
  · obtain ⟨M, hM⟩ := rep_multiple n k (max (binExp a) (-1022) - 52) (by omega)
    refine ⟨M, by rw [hM], ?_⟩
    rw [le_div_iff₀ hu, hM]
    exact h
  · have hea : max (binExp a) (-1022) = binExp a := by
      rcases max_cases (binExp a) (-1022) with ⟨h1, _⟩ | ⟨h1, _⟩
      · exact h1
      · have := le_max_right (binExp ((n : ℚ) * (2 : ℚ) ^ k)) (-1022)
        omega
    have hey : binExp ((n : ℚ) * (2 : ℚ) ^ k) + 1 ≤ binExp a := by
      have := le_max_left (binExp ((n : ℚ) * (2 : ℚ) ^ k)) (-1022)
      omega
    obtain ⟨_, y2⟩ := binExp_spec _ hy
    obtain ⟨a1, _⟩ := binExp_spec a ha
    have hpw : (2 : ℚ) ^ (binExp ((n : ℚ) * (2 : ℚ) ^ k) + 1) ≤ (2 : ℚ) ^ binExp a :=
      zpow_le_zpow_right₀ (by norm_num) hey
    have e52 : ((2 ^ 52 : Int) : ℚ) * (2 : ℚ) ^ (binExp a - 52) = (2 : ℚ) ^ binExp a := by
      rw [cast_two_pow 52, ← zpow_add₀ (by norm_num : (2 : ℚ) ≠ 0)]
      congr 1
      omega
    refine ⟨2 ^ 52, ?_, ?_⟩
    · rw [hea, e52]
      linarith
    · rw [le_div_iff₀ hu, hea, e52]
      exact a1

/-- Rounding a positive number does not go above a representable number that is not
below it. -/
theorem roundPos_le (n k : Int) (hn0 : 0 < n) (hn : n < 2 ^ 53) (hk : -1074 ≤ k) (a : ℚ)
    (ha : 0 < a) (h : a ≤ (n : ℚ) * (2 : ℚ) ^ k) : roundPos a ≤ (n : ℚ) * (2 : ℚ) ^ k := by
  have hnq0 : (0 : ℚ) < (n : ℚ) := by exact_mod_cast hn0
  have hy : (0 : ℚ) < (n : ℚ) * (2 : ℚ) ^ k := mul_pos hnq0 (by positivity)
  have hmono : max (binExp a) (-1022) ≤ max (binExp ((n : ℚ) * (2 : ℚ) ^ k)) (-1022) :=
    max_le_max (binExp_mono _ _ ha h) le_rfl
  have hgrid := rep_grid n k hn0 hn hk
  have hu : (0 : ℚ) < (2 : ℚ) ^ (max (binExp a) (-1022) - 52) := by positivity
  suffices hM : ∃ M : Int, (M : ℚ) * (2 : ℚ) ^ (max (binExp a) (-1022) - 52) ≤ (n : ℚ) * (2 : ℚ) ^ k ∧
      a / (2 : ℚ) ^ (max (binExp a) (-1022) - 52) ≤ (M : ℚ) by
    obtain ⟨M, h1, h2⟩ := hM
    unfold roundPos
    simp only
    have h3 : (roundHalfEven (a / (2 : ℚ) ^ (max (binExp a) (-1022) - 52)) : ℚ) ≤ (M : ℚ) := by
      exact_mod_cast roundHalfEven_le _ M h2
    exact le_trans (mul_le_mul_of_nonneg_right h3 hu.le) h1
  rcases eq_or_lt_of_le hmono with heq | hlt
  · obtain ⟨M, hM⟩ := rep_multiple n k (max (binExp a) (-1022) - 52) (by omega)
    refine ⟨M, by rw [hM], ?_⟩
    rw [div_le_iff₀ hu, hM]
    exact h
  · have hey : max (binExp ((n : ℚ) * (2 : ℚ) ^ k)) (-1022) = binExp ((n : ℚ) * (2 : ℚ) ^ k) := by
      rcases max_cases (binExp ((n : ℚ) * (2 : ℚ) ^ k)) (-1022) with ⟨h1, _⟩ | ⟨h1, _⟩
      · exact h1
      · have := le_max_right (binExp a) (-1022)
        omega
    obtain ⟨y1, _⟩ := binExp_spec _ hy
    obtain ⟨_, a2⟩ := binExp_spec a ha
    have hle1 : binExp a + 1 ≤ max (binExp a) (-1022) + 1 := by
      have := le_max_left (binExp a) (-1022)
      omega
    have hpw1 : (2 : ℚ) ^ (binExp a + 1) ≤ (2 : ℚ) ^ (max (binExp a) (-1022) + 1) :=
      zpow_le_zpow_right₀ (by norm_num) hle1
    have hpw2 : (2 : ℚ) ^ (max (binExp a) (-1022) + 1) ≤
        (2 : ℚ) ^ binExp ((n : ℚ) * (2 : ℚ) ^ k) :=
      zpow_le_zpow_right₀ (by norm_num) (by omega)
    have e53 : ((2 ^ 53 : Int) : ℚ) * (2 : ℚ) ^ (max (binExp a) (-1022) - 52) =
        (2 : ℚ) ^ (max (binExp a) (-1022) + 1) := by
      rw [cast_two_pow 53, ← zpow_add₀ (by norm_num : (2 : ℚ) ≠ 0)]
      congr 1
      omega
    refine ⟨2 ^ 53, ?_, ?_⟩
    · rw [e53]
      linarith
    · rw [div_le_iff₀ hu, e53]
      linarith

theorem roundPos_nonneg (a : ℚ) (ha : 0 < a) : 0 ≤ roundPos a := by
  unfold roundPos
  simp only
  have hu : (0 : ℚ) < (2 : ℚ) ^ (max (binExp a) (-1022) - 52) := by positivity
  have h0 : (0 : ℚ) ≤ (roundHalfEven (a / (2 : ℚ) ^ (max (binExp a) (-1022) - 52)) : ℚ) := by
    have := le_roundHalfEven (a / (2 : ℚ) ^ (max (binExp a) (-1022) - 52)) 0
      (by simpa using (div_pos ha hu).le)
    exact_mod_cast this
  exact mul_nonneg h0 hu.le

/-- Rounding keeps the sign: a non-negative number rounds to a non-negative one. -/
theorem round64_nonneg (x : ℚ) (h : 0 ≤ x) : 0 ≤ round64 x := by
  unfold round64
  by_cases h0 : x = 0
  · rw [if_pos h0]
  · rw [if_neg h0, if_pos (lt_of_le_of_ne h (Ne.symm h0))]
    exact roundPos_nonneg x (lt_of_le_of_ne h (Ne.symm h0))

/-- Rounding commutes with negation. -/
theorem round64_neg (x : ℚ) : round64 (-x) = -round64 x := by
  unfold round64
  by_cases h0 : x = 0
  · simp [h0]
  · have h0' : -x ≠ 0 := neg_ne_zero.mpr h0
    rw [if_neg h0, if_neg h0']
    by_cases hp : 0 < x
    · have hn : ¬ 0 < -x := by linarith
      rw [if_pos hp, if_neg hn, neg_neg]
    · have hn : 0 < -x := by
        rcases lt_or_gt_of_ne h0 with h | h
        · linarith
        · exact absurd h hp
      rw [if_neg hp, if_pos hn, neg_neg]

/-- A non-positive number rounds to a non-positive one. -/
theorem round64_nonpos (x : ℚ) (h : x ≤ 0) : round64 x ≤ 0 := by
  have := round64_nonneg (-x) (by linarith)
  rw [round64_neg] at this
  linarith

theorem div_pow_eq (n : Int) (j : Nat) :
    (n : ℚ) / (2 : ℚ) ^ j = (n : ℚ) * (2 : ℚ) ^ (-(j : Int)) := by
  rw [zpow_neg, zpow_natCast, div_eq_mul_inv]

/-- A representable positive number `n / 2^j` (`0 < n < 2^53`, `j ≤ 1074`) that is
not above `x` is not above the rounding of `x`. -/
theorem le_round64 (n : Int) (j : Nat) (hn0 : 0 < n) (hn : n < 2 ^ 53) (hj : j ≤ 1074) (x : ℚ)
    (h : (n : ℚ) / (2 : ℚ) ^ j ≤ x) : (n : ℚ) / (2 : ℚ) ^ j ≤ round64 x := by
  have hy : (0 : ℚ) < (n : ℚ) / (2 : ℚ) ^ j :=
    div_pos (by exact_mod_cast hn0) (by positivity)
  have hx : 0 < x := lt_of_lt_of_le hy h
  unfold round64
  rw [if_neg hx.ne', if_pos hx]
  rw [div_pow_eq] at h ⊢
  exact le_roundPos n (-(j : Int)) hn0 hn (by omega) x h

/-- A representable positive number `n / 2^j` that is not below `x` is not below the
rounding of `x`. -/
theorem round64_le (n : Int) (j : Nat) (hn0 : 0 < n) (hn : n < 2 ^ 53) (hj : j ≤ 1074) (x : ℚ)
    (h : x ≤ (n : ℚ) / (2 : ℚ) ^ j) : round64 x ≤ (n : ℚ) / (2 : ℚ) ^ j := by
  have hy : (0 : ℚ) < (n : ℚ) / (2 : ℚ) ^ j :=
    div_pos (by exact_mod_cast hn0) (by positivity)
  by_cases hx : 0 < x
  · unfold round64
    rw [if_neg hx.ne', if_pos hx]
    rw [div_pow_eq] at h ⊢
    exact roundPos_le n (-(j : Int)) hn0 hn (by omega) x hx h
  · exact le_trans (round64_nonpos x (not_lt.mp hx)) hy.le

/-- A number with at most 53 significant bits and at most 1074 binary places is a
binary64 value: rounding leaves it as it is. -/
theorem round64_exact (n : Int) (j : Nat) (hn1 : -(2 ^ 53) < n) (hn2 : n < 2 ^ 53)
    (hj : j ≤ 1074) : round64 ((n : ℚ) / (2 : ℚ) ^ j) = (n : ℚ) / (2 : ℚ) ^ j := by
  rcases lt_trichotomy n 0 with h | h | h
  · have e : (n : ℚ) / (2 : ℚ) ^ j = -(((-n : Int) : ℚ) / (2 : ℚ) ^ j) := by
      push_cast
      ring
    rw [e, round64_neg]
    congr 1
    exact le_antisymm (round64_le (-n) j (by omega) (by omega) hj _ le_rfl)
      (le_round64 (-n) j (by omega) (by omega) hj _ le_rfl)
  · subst h
    simp [round64]
  · exact le_antisymm (round64_le n j h hn2 hj _ le_rfl) (le_round64 n j h hn2 hj _ le_rfl)

/-- An operation whose exact result is a binary64 value below `2^53` in magnitude
returns that value. -/
theorem fin64_exact (n : Int) (j : Nat) (hn1 : -(2 ^ 53) < n) (hn2 : n < 2 ^ 53)
    (hj : j ≤ 1074) : fin64 ((n : ℚ) / (2 : ℚ) ^ j) = some ((n : ℚ) / (2 : ℚ) ^ j) := by
  unfold fin64
  simp only [round64_exact n j hn1 hn2 hj]
  have hp : (1 : ℚ) ≤ (2 : ℚ) ^ j := one_le_pow₀ (by norm_num)
  have hp0 : (0 : ℚ) < (2 : ℚ) ^ j := by positivity
  have h1 : (-(2 ^ 53) : ℚ) < (n : ℚ) := by exact_mod_cast hn1
  have h2 : (n : ℚ) < (2 ^ 53 : ℚ) := by exact_mod_cast hn2
  have hbig : (2 ^ 53 : ℚ) ≤ 2 ^ 1024 := by norm_num
  have hlo : -(2 ^ 1024 : ℚ) < (n : ℚ) / (2 : ℚ) ^ j := by
    rw [lt_div_iff₀ hp0]
    nlinarith
  have hhi : (n : ℚ) / (2 : ℚ) ^ j < 2 ^ 1024 := by
    rw [div_lt_iff₀ hp0]
    nlinarith
  rw [if_pos ⟨hlo, hhi⟩]

/-- An integer below `2^53` in magnitude converts to `float64` without change. -/
theorem ofInt_exact (n : Int) (hn1 : -(2 ^ 53) < n) (hn2 : n < 2 ^ 53) :
    ofInt n = some (n : ℚ) := by
  have := fin64_exact n 0 hn1 hn2 (by omega)
  simpa [ofInt] using this

/-- An operation whose exact result lies between zero or a representable number and
a representable number returns a finite value between the same two numbers. -/
theorem fin64_between (nl : Int) (jl : Nat) (nh : Int) (jh : Nat) (hl0 : 0 ≤ nl)
    (hl : nl < 2 ^ 53) (hjl : jl ≤ 1074) (hh0 : 0 < nh) (hh : nh < 2 ^ 53) (hjh : jh ≤ 1074)
    (x : ℚ) (h1 : (nl : ℚ) / (2 : ℚ) ^ jl ≤ x) (h2 : x ≤ (nh : ℚ) / (2 : ℚ) ^ jh) :
    ∃ r, fin64 x = some r ∧ (nl : ℚ) / (2 : ℚ) ^ jl ≤ r ∧ r ≤ (nh : ℚ) / (2 : ℚ) ^ jh := by
  have hlo : (nl : ℚ) / (2 : ℚ) ^ jl ≤ round64 x := by
    rcases eq_or_lt_of_le hl0 with h | h
    · rw [← h] at h1 ⊢
      simp only [Int.cast_zero, zero_div] at h1 ⊢
      exact round64_nonneg x h1
    · exact le_round64 nl jl h hl hjl x h1
  have hhi : round64 x ≤ (nh : ℚ) / (2 : ℚ) ^ jh := round64_le nh jh hh0 hh hjh x h2
  have hl0q : (0 : ℚ) ≤ (nl : ℚ) / (2 : ℚ) ^ jl :=
    div_nonneg (by exact_mod_cast hl0) (by positivity)
  have hp : (1 : ℚ) ≤ (2 : ℚ) ^ jh := one_le_pow₀ (by norm_num)
  have hp0 : (0 : ℚ) < (2 : ℚ) ^ jh := by positivity
  have hq : (nh : ℚ) < (2 ^ 53 : ℚ) := by exact_mod_cast hh
  have hbig : (nh : ℚ) / (2 : ℚ) ^ jh < 2 ^ 1024 := by
    rw [div_lt_iff₀ hp0]
    have : (2 ^ 53 : ℚ) ≤ 2 ^ 1024 := by norm_num
    nlinarith
  refine ⟨round64 x, ?_, hlo, hhi⟩
  unfold fin64
  simp only
  rw [if_pos ⟨by linarith, by linarith⟩]

/-- A finite result of an operation with a non-negative exact result is non-negative. -/
theorem fin64_nonneg (x r : ℚ) (h : fin64 x = some r) (hx : 0 ≤ x) : 0 ≤ r := by
  unfold fin64 at h
  simp only at h
  split_ifs at h
  cases h
  exact round64_nonneg x hx

end Rounded

/-! ## Lemmas on the rounded operations -/

theorem fadd_eq_some (a b : Rounded.F64) (p : ℚ) (h : Rounded.fadd a b = some p) :
    ∃ x y, a = some x ∧ b = some y ∧ Rounded.fin64 (x + y) = some p := by
  cases a with
  | none => simp [Rounded.fadd] at h
  | some x =>
    cases b with
    | none => simp [Rounded.fadd] at h
    | some y => exact ⟨x, y, rfl, rfl, h⟩

theorem fsub_eq_some (a b : Rounded.F64) (p : ℚ) (h : Rounded.fsub a b = some p) :
    ∃ x y, a = some x ∧ b = some y ∧ Rounded.fin64 (x - y) = some p := by
  cases a with
  | none => simp [Rounded.fsub] at h
  | some x =>
    cases b with
    | none => simp [Rounded.fsub] at h
    | some y => exact ⟨x, y, rfl, rfl, h⟩

theorem fmul_eq_some (a b : Rounded.F64) (p : ℚ) (h : Rounded.fmul a b = some p) :
    ∃ x y, a = some x ∧ b = some y ∧ Rounded.fin64 (x * y) = some p := by
  cases a with
  | none => simp [Rounded.fmul] at h
  | some x =>
    cases b with
    | none => simp [Rounded.fmul] at h
    | some y => exact ⟨x, y, rfl, rfl, h⟩

theorem fdiv_eq_some (a b : Rounded.F64) (p : ℚ) (h : Rounded.fdiv a b = some p) :
    ∃ x y, a = some x ∧ b = some y ∧ y ≠ 0 ∧ Rounded.fin64 (x / y) = some p := by
  cases a with
  | none => simp [Rounded.fdiv] at h
  | some x =>
    cases b with
    | none => simp [Rounded.fdiv] at h
    | some y =>
      by_cases hy : y = 0
      · simp [Rounded.fdiv, hy] at h
      · refine ⟨x, y, rfl, rfl, hy, ?_⟩
        simpa [Rounded.fdiv, hy] using h

/-- The conversion `int(f)` of a finite value within the range of `int`. -/
theorem toInt_in_range (p : ℚ) (h0 : -(2 ^ 63) ≤ p) (h1 : p < 2 ^ 63) :
    Rounded.toInt (some p) = if 0 ≤ p then ⌊p⌋ else ⌈p⌉ := by
  have h := floatToInt_in_range p h0 h1
  unfold floatToInt at h
  unfold Rounded.toInt
  simp only at h ⊢
  by_cases hc : -(2 ^ 63) ≤ (if 0 ≤ p then ⌊p⌋ else ⌈p⌉) ∧ (if 0 ≤ p then ⌊p⌋ else ⌈p⌉) < 2 ^ 63
  · rw [if_pos hc]
  · rw [if_neg hc] at h
    cases h

theorem fadd_some (x y : ℚ) : Rounded.fadd (some x) (some y) = Rounded.fin64 (x + y) := rfl

theorem fsub_some (x y : ℚ) : Rounded.fsub (some x) (some y) = Rounded.fin64 (x - y) := rfl

theorem fmul_some (x y : ℚ) : Rounded.fmul (some x) (some y) = Rounded.fin64 (x * y) := rfl

theorem fdiv_some (x y : ℚ) (hy : y ≠ 0) :
    Rounded.fdiv (some x) (some y) = Rounded.fin64 (x / y) := by
  simp [Rounded.fdiv, hy]

/-! ## Lemmas on the rounded evaluation -/

/-- The quotient `(et - start) / step` computed in `float64` is not negative when
`start ≤ et` and `step > 0`. -/
theorem rounded_quotient_nonneg (et start step q : ℚ) (h1 : start ≤ et) (h2 : 0 < step)
    (hq : Rounded.fdiv (Rounded.fsub (some et) (some start)) (some step) = some q) : 0 ≤ q := by
  obtain ⟨s, y, hs, hy, _, hfin⟩ := fdiv_eq_some _ _ _ hq
  cases hy
  obtain ⟨x1, x2, hx1, hx2, hfin2⟩ := fsub_eq_some _ _ _ hs
  cases hx1
  cases hx2
  have hs0 : 0 ≤ s := Rounded.fin64_nonneg _ _ hfin2 (by linarith)
  exact Rounded.fin64_nonneg _ _ hfin (div_nonneg hs0 h2.le)

/-- The product `Float64(ns) * t[0]` computed in `float64` is not negative when
`ns ≥ 0` and `t[0] ≥ 0`. -/
theorem rounded_temp_nonneg (ns : Int) (u p : ℚ) (hns : 0 ≤ ns) (hu : 0 ≤ u)
    (hp : Rounded.fmul (Rounded.ofInt ns) (some u) = some p) : 0 ≤ p := by
  obtain ⟨x, y, hx, hy, hfin⟩ := fmul_eq_some _ _ _ hp
  cases hy
  have hx0 : 0 ≤ x := Rounded.fin64_nonneg _ _ hx (by exact_mod_cast hns)
  exact Rounded.fin64_nonneg _ _ hfin (mul_nonneg hx0 hu)

/-- The sub-interval index in closed form, when the computed product is finite and
within the range of `int`. -/
theorem rounded_subInterval_eq (ns : Int) (t0 : Rounded.F64) (p : ℚ)
    (hns0 : -(2 ^ 63) < ns) (hns1 : ns < 2 ^ 63)
    (hp : Rounded.fmul (Rounded.ofInt ns) t0 = some p) (hlo : -(2 ^ 63) ≤ p)
    (hhi : p < 2 ^ 63) :
    Rounded.subInterval ns t0 =
      if (if 0 ≤ p then ⌊p⌋ else ⌈p⌉) ≥ ns then ns - 1 else (if 0 ≤ p then ⌊p⌋ else ⌈p⌉) := by
  unfold Rounded.subInterval
  simp only [hp, toInt_in_range p hlo hhi]
  rw [wrap64_eq_self (by omega) (by omega)]

theorem foldlM_ok {α β : Type} (f : β → α → Except Fault β) (l : List α)
    (h : ∀ b a, a ∈ l → ∃ b2, f b a = .ok b2) : ∀ b, ∃ b2, l.foldlM f b = .ok b2 := by
  induction l with
  | nil =>
    intro b
    exact ⟨b, rfl⟩
  | cons a l ih =>
    intro b
    obtain ⟨b2, hb2⟩ := h b a (List.mem_cons_self a l)
    obtain ⟨b3, hb3⟩ := ih (fun b a ha => h b a (List.mem_cons_of_mem _ ha)) b2
    refine ⟨b3, ?_⟩
    rw [List.foldlM_cons, hb2]
    exact hb3

/-- An accumulation loop nest whose block lies inside the coefficient slice runs
without an index panic. -/
theorem rounded_accumulate_ok (coeffs : List ℚ) (offset ncoeff : Int) (basis : List Rounded.F64)
    (slot : Fin 3 → Fin 6) (r : Rounded.Vec6) (h0 : 0 ≤ offset) (hn : 0 ≤ ncoeff)
    (hb : offset + 3 * ncoeff ≤ (coeffs.length : Int)) :
    ∃ r2, Rounded.accumulate coeffs offset ncoeff basis slot r = .ok r2 := by
  unfold Rounded.accumulate
  apply foldlM_ok
  intro b j _
  apply foldlM_ok
  intro b2 i hi
  have hi' : i < ncoeff.toNat := List.mem_range.mp hi
  have hj : (j.val : Int) ≤ 2 := by omega
  have h1 : (j.val : Int) * ncoeff ≤ 2 * ncoeff := mul_le_mul_of_nonneg_right hj hn
  have h2 : 0 ≤ (j.val : Int) * ncoeff := mul_nonneg (by omega) hn
  obtain ⟨n, hn'⟩ : ∃ n : Nat, (n : Int) = offset + (j.val : Int) * ncoeff + (i : Int) :=
    ⟨_, Int.toNat_of_nonneg (by omega)⟩
  rw [← hn', index_eq_ok coeffs 0 n (by omega)]
  exact ⟨_, rfl⟩

/-- `interpolateChebyshev` on a block inside the slice, with at least two
coefficients: it returns without error. -/
theorem rounded_interpolate_ok (coeffs : List ℚ) (offset ncoeff : Int) (x : Rounded.F64)
    (res0 : Rounded.Vec6) (h0 : 0 ≤ offset) (hn : 2 ≤ ncoeff)
    (hb : offset + 3 * ncoeff ≤ (coeffs.length : Int)) :
    ∃ res, Rounded.interpolateChebyshev coeffs offset ncoeff x res0 = .ok (res, none) := by
  unfold Rounded.interpolateChebyshev
  simp only [if_neg (not_lt.mpr hn), if_pos (ge_iff_le.mpr hn)]
  obtain ⟨r1, hr1⟩ := rounded_accumulate_ok coeffs offset ncoeff
    (Rounded.chebBasis x ncoeff.toNat) (Fin.castAdd 3) (fun _ => some 0) h0 (by omega) hb
  obtain ⟨r2, hr2⟩ := rounded_accumulate_ok coeffs offset ncoeff
    (Rounded.chebDerivBasis x (Rounded.chebBasis x ncoeff.toNat) ncoeff.toNat) (Fin.natAdd 3)
    r1 h0 (by omega) hb
  simp only [hr1, hr2, bind, Except.bind, pure, Except.pure]
  exact ⟨r2, rfl⟩

/-- One iteration of the loop of `computePosition` on a populated slot whose layout
fits a record of 1018 entries, when the computed product `Float64(ns) * t[0]` is
finite, not negative and below `2^63`. -/
theorem rounded_evalBody_in_range (hdr : JplHeader) (record : List ℚ) (t0 : Rounded.F64)
    (r1 : ℚ) (pv : Rounded.PV) (k : Fin 11) (p : ℚ) (hlen : record.length = JplNCoeff)
    (hna : 0 ≤ hdr.IPT 0 (slot13 k)) (hpop : hdr.IPT 0 (slot13 k) ≠ 0)
    (hnc : 2 ≤ hdr.IPT 1 (slot13 k)) (hns : 1 ≤ hdr.IPT 2 (slot13 k))
    (hfit : hdr.IPT 0 (slot13 k) + 3 * hdr.IPT 1 (slot13 k) * hdr.IPT 2 (slot13 k) ≤ 1018)
    (hp : Rounded.fmul (Rounded.ofInt (hdr.IPT 2 (slot13 k))) t0 = some p)
    (hp0 : 0 ≤ p) (hp1 : p < 2 ^ 63) :
    (0 ≤ Rounded.subInterval (hdr.IPT 2 (slot13 k)) t0 ∧
      Rounded.subInterval (hdr.IPT 2 (slot13 k)) t0 ≤ hdr.IPT 2 (slot13 k) - 1 ∧
      blockOffset (hdr.IPT 0 (slot13 k)) (hdr.IPT 1 (slot13 k))
          (Rounded.subInterval (hdr.IPT 2 (slot13 k)) t0) =
        hdr.IPT 0 (slot13 k) +
          Rounded.subInterval (hdr.IPT 2 (slot13 k)) t0 * hdr.IPT 1 (slot13 k) * 3) ∧
    ∃ pv2, Rounded.evalBody hdr record t0 r1 pv k = .ok (pv2, none) := by
  obtain ⟨na, hna'⟩ : ∃ na, na = hdr.IPT 0 (slot13 k) := ⟨_, rfl⟩
  obtain ⟨nc, hnc'⟩ : ∃ nc, nc = hdr.IPT 1 (slot13 k) := ⟨_, rfl⟩
  obtain ⟨ns, hns'⟩ : ∃ ns, ns = hdr.IPT 2 (slot13 k) := ⟨_, rfl⟩
  unfold Rounded.evalBody
  simp only [← hna', ← hnc', ← hns'] at hna hpop hnc hns hfit hp ⊢
  have hnsle : ns ≤ 1018 := by
    have h1 : ns * 1 ≤ ns * nc := mul_le_mul_of_nonneg_left (by omega) (by omega)
    have h2 : 3 * nc * ns = 3 * (ns * nc) := by ring
    omega
  have hfl : (0 : Int) ≤ ⌊p⌋ := Int.floor_nonneg.mpr hp0
  have hl := rounded_subInterval_eq ns t0 p (by omega) (by omega) hp (by linarith) hp1
  simp only [if_pos hp0] at hl
  obtain ⟨l, hl'⟩ : ∃ l, l = Rounded.subInterval ns t0 := ⟨_, rfl⟩
  rw [← hl'] at hl ⊢
  have hl0 : 0 ≤ l := by
    rw [hl]
    split_ifs <;> omega
  have hl1 : l ≤ ns - 1 := by
    rw [hl]
    split_ifs <;> omega
  obtain ⟨hb0, hb1⟩ := block_fits na nc ns l 1018 hna (by omega) hl0 hl1 hfit
  have hoff : blockOffset na nc l = na + l * nc * 3 :=
    blockOffset_eq na nc l hna (by omega) hl0 (by omega)
  refine ⟨⟨hl0, hl1, hoff⟩, ?_⟩
  rw [if_neg hpop]
  obtain ⟨res, hres⟩ := rounded_interpolate_ok record (blockOffset na nc l) nc
    (Rounded.fsub (Rounded.fmul (some 2)
      (Rounded.fsub (Rounded.fmul (Rounded.ofInt ns) t0) (Rounded.ofInt l))) (some 1))
    (pv (slot15 k)) (by omega) hnc (by rw [hoff, hlen]; unfold JplNCoeff; omega)
  simp only [hres, bind, Except.bind, pure, Except.pure, Rounded.storeBody]
  exact ⟨_, rfl⟩

theorem rounded_evalBodies_cons (hdr : JplHeader) (record : List ℚ) (t0 : Rounded.F64)
    (r1 : ℚ) (k : Fin 11) (ks : List (Fin 11)) (pv : Rounded.PV) :
    Rounded.evalBodies hdr record t0 r1 (k :: ks) pv =
      match Rounded.evalBody hdr record t0 r1 pv k with
      | .error f => .error f
      | .ok (pv2, some e) => .ok (pv2, some e)
      | .ok (pv2, none) => Rounded.evalBodies hdr record t0 r1 ks pv2 := by
  rw [Rounded.evalBodies]
  cases Rounded.evalBody hdr record t0 r1 pv k with
  | error f => rfl
  | ok out =>
    obtain ⟨pv2, e⟩ := out
    cases e <;> rfl

/-- The loop of `computePosition` over any list of slots, each populated slot fitting
the record: it runs to the end without fault and without error. -/
theorem rounded_evalBodies_in_range (hdr : JplHeader) (record : List ℚ) (t0 : Rounded.F64)
    (r1 : ℚ) (hlen : record.length = JplNCoeff)
    (hslots : ∀ k : Fin 11, hdr.IPT 0 (slot13 k) ≠ 0 →
      0 ≤ hdr.IPT 0 (slot13 k) ∧ 2 ≤ hdr.IPT 1 (slot13 k) ∧ 1 ≤ hdr.IPT 2 (slot13 k) ∧
      hdr.IPT 0 (slot13 k) + 3 * hdr.IPT 1 (slot13 k) * hdr.IPT 2 (slot13 k) ≤ 1018)
    (hrange : ∀ k : Fin 11, hdr.IPT 0 (slot13 k) ≠ 0 →
      ∃ p, Rounded.fmul (Rounded.ofInt (hdr.IPT 2 (slot13 k))) t0 = some p ∧ 0 ≤ p ∧
        p < 2 ^ 63) :
    ∀ (ks : List (Fin 11)) (pv : Rounded.PV),
      ∃ pv2, Rounded.evalBodies hdr record t0 r1 ks pv = .ok (pv2, none) := by
  intro ks
  induction ks with
  | nil =>
    intro pv
    exact ⟨pv, by rw [Rounded.evalBodies]⟩
  | cons k ks ih =>
    intro pv
    rw [rounded_evalBodies_cons]
    by_cases hpop : hdr.IPT 0 (slot13 k) = 0
    · have : Rounded.evalBody hdr record t0 r1 pv k = .ok (pv, none) := by
        unfold Rounded.evalBody
        simp only [hpop, if_true]
      rw [this]
      exact ih pv
    · obtain ⟨h1, h2, h3, h4⟩ := hslots k hpop
      obtain ⟨p, hp, hp0, hp1⟩ := hrange k hpop
      obtain ⟨_, pv2, hpv2⟩ :=
        rounded_evalBody_in_range hdr record t0 r1 pv k p hlen h1 hpop h2 h3 h4 hp hp0 hp1
      rw [hpv2]
      exact ih pv2

/-- With both body indices inside `0..14` the last stage of `computePosition` does
not panic. -/
theorem rounded_composeRelative_in_range (pv : Rounded.PV) (ntarg ncent : Int)
    (rrd : Rounded.Vec6) (h1 : 0 ≤ ntarg) (h2 : ntarg < 15) (h3 : 0 ≤ ncent)
    (h4 : ncent < 15) : ∃ r, Rounded.composeRelative pv ntarg ncent rrd = .ok r := by
  unfold Rounded.composeRelative Rounded.indexPV
  have ht : 0 ≤ ntarg ∧ ntarg < 15 := ⟨h1, h2⟩
  have hc : 0 ≤ ncent ∧ ncent < 15 := ⟨h3, h4⟩
  simp only [dif_pos ht, dif_pos hc, if_pos h2, if_pos (And.intro h2 h4), bind, Except.bind,
    pure, Except.pure]
  split_ifs <;> exact ⟨_, rfl⟩

/-! ## The claims on the sub-interval index and on index safety, in rounded arithmetic -/

/-- Claim C26 as stated does not hold: the index is not clamped from below.  With one
sub-interval and `et` three record spans before the record's start (`u = -3`) the
index is `-3`; `computePosition` then addresses the record at offset
`2 + (-3)·2·3 = -16` and panics.  Nor is the index the floor of the exact product:
with 10 sub-intervals and `u` the `float64` nearest to `0.3`, the exact product has
floor 2, but the `float64` product is `3.0` and the index is 3. -/
theorem C26_counterexample :
    (Rounded.fdiv (Rounded.fsub (some (-3)) (some 0)) (some 1) = some (-3) ∧
      Rounded.subInterval 1 (some (-3)) = -3) ∧
    (exHeader.IPT 0 (slot13 0) = 2 ∧ exHeader.IPT 1 (slot13 0) = 2 ∧
      exHeader.IPT 2 (slot13 0) = 1) ∧
    (index exRecord 0 = .ok 0 ∧ index exRecord 1 = .ok 1) ∧
    blockOffset 2 2 (-3) = -16 ∧
    Rounded.computePosition exHeader exRecord (-3) JMercury JSbary Rounded.zero6 =
      .error .indexOutOfRange ∧
    (Rounded.fin64 0.3 = some (5404319552844595 / 2 ^ 54) ∧
      ⌊(10 : ℚ) * (5404319552844595 / 2 ^ 54)⌋ = 2 ∧
      Rounded.fmul (Rounded.ofInt 10) (some (5404319552844595 / 2 ^ 54)) = some 3 ∧
      Rounded.subInterval 10 (some (5404319552844595 / 2 ^ 54)) = 3) :=
  ⟨by decide!, by decide!, by decide!, by decide!, by decide!, by decide!⟩

/-- Claim C26, amended, in rounded arithmetic: let `temp` be the `float64` product
`Float64(ns) * t[0]` as `computePosition` computes it.  When `temp` is finite and
within the range of `int`, the sub-interval index is `l = int(temp)` (truncation
towards zero), replaced by `ns - 1` when it is `≥ ns`; there is no lower clamp.  So
`l ≤ ns - 1`; when `ns ≥ 1` and `temp ≥ 0` the index is `floor(temp)` clamped into
`[0, ns - 1]`; when `temp ≤ -1` the index is negative; and `temp ≥ 0` holds whenever
`t[0]` is the computed fraction `(et - record[0]) / record[1]` of a time not before
the record's start in a record of positive span. -/
theorem C26_sub_interval (ns : Int) (t0 : Rounded.F64) (p : ℚ) (hns0 : -(2 ^ 63) < ns)
    (hns1 : ns < 2 ^ 63) (hp : Rounded.fmul (Rounded.ofInt ns) t0 = some p)
    (hlo : -(2 ^ 63) ≤ p) (hhi : p < 2 ^ 63) :
    Rounded.subInterval ns t0 =
      (if (if 0 ≤ p then ⌊p⌋ else ⌈p⌉) ≥ ns then ns - 1
        else (if 0 ≤ p then ⌊p⌋ else ⌈p⌉)) ∧
    Rounded.subInterval ns t0 ≤ ns - 1 ∧
    (1 ≤ ns → 0 ≤ p → 0 ≤ Rounded.subInterval ns t0 ∧
      Rounded.subInterval ns t0 = max 0 (min ⌊p⌋ (ns - 1))) ∧
    (p ≤ -1 → Rounded.subInterval ns t0 < 0) ∧
    (∀ et r0 r1 : ℚ, 0 ≤ ns → 0 < r1 → r0 ≤ et →
      t0 = Rounded.fdiv (Rounded.fsub (some et) (some r0)) (some r1) → 0 ≤ p) := by
  have heq := rounded_subInterval_eq ns t0 p hns0 hns1 hp hlo hhi
  refine ⟨heq, ?_, ?_, ?_, ?_⟩
  · rw [heq]
    split_ifs <;> omega
  · intro h1 h0
    have hfl : (0 : Int) ≤ ⌊p⌋ := Int.floor_nonneg.mpr h0
    rw [heq]
    simp only [if_pos h0]
    split_ifs <;> omega
  · intro hneg
    have h0 : ¬ 0 ≤ p := by linarith
    have hc : ⌈p⌉ ≤ -1 := by
      rw [Int.ceil_le]
      exact_mod_cast hneg
    rw [heq]
    simp only [if_neg h0]
    split_ifs <;> omega
  · intro et r0 r1 hns hr1 het ht0
    obtain ⟨x, u, _, hu, _⟩ := fmul_eq_some _ _ _ hp
    have hu0 : 0 ≤ u := rounded_quotient_nonneg et r0 r1 u het hr1 (by rw [← ht0, hu])
    rw [hu] at hp
    exact rounded_temp_nonneg ns u p hns hu0 hp

/-- Witness for C26: three sub-intervals, a quarter of a span before the record's
start. -/
theorem C26_sub_interval_witness :
    (-(2 ^ 63) < (3 : Int) ∧ (3 : Int) < 2 ^ 63 ∧
      Rounded.fmul (Rounded.ofInt 3) (some (-1 / 4)) = some (-3 / 4) ∧
      -(2 ^ 63) ≤ (-3 / 4 : ℚ) ∧ (-3 / 4 : ℚ) < 2 ^ 63) ∧
    Rounded.subInterval 3 (some (-1 / 4)) = 0 ∧
    Rounded.subInterval 3 (some (-1 / 4)) ≤ 3 - 1 :=
  ⟨by decide!, by decide!,
    (C26_sub_interval 3 (some (-1 / 4)) (-3 / 4) (by decide) (by decide) (by decide!)
      (by decide!) (by decide!)).2.1⟩

/-- Claim C31 as stated does not hold for every `et ≥ record[0]`: the sub-interval
index is `int(Float64(ns) * u)`, and when that product reaches `2^63` the conversion
is outside the range of `int`.  For the full-length record `fullRecord` (start 0,
span 1) and one slot with offset 2, 3 coefficients and 1 sub-interval, every
hypothesis of the claim holds at `et = 2^63`; the conversion yields `-2^63`, the
offset `2 + (-2^63)·3·3` wraps to `2 - 2^63`, and the first coefficient access
panics.  The same happens with 3 sub-intervals at `et = 3074457345618258432`, where
the exact product `3·et` is below `2^63` but its `float64` rounding is `2^63`. -/
theorem C31_counterexample :
    (fullRecord.length = JplNCoeff ∧ 0 < fullRecord.getD 1 0 ∧ fullRecord.getD 0 0 ≤ 2 ^ 63) ∧
    (∀ k : Fin 11, oddHeader.IPT 0 (slot13 k) ≠ 0 →
      0 ≤ oddHeader.IPT 0 (slot13 k) ∧ 2 ≤ oddHeader.IPT 1 (slot13 k) ∧
      1 ≤ oddHeader.IPT 2 (slot13 k) ∧
      oddHeader.IPT 0 (slot13 k) + 3 * oddHeader.IPT 1 (slot13 k) * oddHeader.IPT 2 (slot13 k)
        ≤ 1018) ∧
    (0 ≤ JMercury ∧ JMercury < 15 ∧ 0 ≤ JSbary ∧ JSbary < 15) ∧
    (Rounded.subInterval 1 (some (2 ^ 63)) = -(2 ^ 63) ∧
      blockOffset 2 3 (-(2 ^ 63)) = 2 - 2 ^ 63) ∧
    Rounded.computePosition oddHeader fullRecord (2 ^ 63) JMercury JSbary Rounded.zero6 =
      .error .indexOutOfRange ∧
    ((∀ k : Fin 11, triHeader.IPT 0 (slot13 k) ≠ 0 →
        0 ≤ triHeader.IPT 0 (slot13 k) ∧ 2 ≤ triHeader.IPT 1 (slot13 k) ∧
        1 ≤ triHeader.IPT 2 (slot13 k) ∧
        triHeader.IPT 0 (slot13 k) +
          3 * triHeader.IPT 1 (slot13 k) * triHeader.IPT 2 (slot13 k) ≤ 1018) ∧
      (3 : ℚ) * ((3074457345618258432 - 0) / 1) < 2 ^ 63 ∧
      Rounded.fmul (Rounded.ofInt 3) (some 3074457345618258432) = some (2 ^ 63) ∧
      Rounded.computePosition triHeader fullRecord 3074457345618258432 JMercury JSbary
        Rounded.zero6 = .error .indexOutOfRange) :=
  ⟨by decide!, by decide, by decide, by decide!, by decide!,
    ⟨by decide, by decide!, by decide!, by decide!⟩⟩

/-- Claim C31, amended, in rounded arithmetic: for a record of 1018 entries with
`record[1] > 0`, a time `et ≥ record[0]`, and a header whose populated slots `k < 11`
have offset `na ≥ 0`, coefficient count `nc ≥ 2`, sub-interval count `ns ≥ 1` and
`na + 3·nc·ns ≤ 1018`, and for which the `float64` product `Float64(ns) * t[0]` that
`computePosition` computes is finite and below `2^63`: for every populated slot the
sub-interval index `l` satisfies `0 ≤ l ≤ ns - 1`, every index `offset + j*nc + i`
(`j < 3`, `i < nc`) that `interpolateChebyshev` uses lies inside the record, so the
access returns an entry; the loop over the slots ends without fault and without
error; and for body indices `0 ≤ ntarg, ncent < 15` the call of `computePosition`
completes, returning no error. -/
theorem C31_index_safety (hdr : JplHeader) (record : List Float64) (et : Float64)
    (hlen : record.length = JplNCoeff) (hr1 : 0 < record.getD 1 0)
    (het : record.getD 0 0 ≤ et)
    (hslots : ∀ k : Fin 11, hdr.IPT 0 (slot13 k) ≠ 0 →
      0 ≤ hdr.IPT 0 (slot13 k) ∧ 2 ≤ hdr.IPT 1 (slot13 k) ∧ 1 ≤ hdr.IPT 2 (slot13 k) ∧
      hdr.IPT 0 (slot13 k) + 3 * hdr.IPT 1 (slot13 k) * hdr.IPT 2 (slot13 k) ≤ 1018)
    (hrange : ∀ k : Fin 11, hdr.IPT 0 (slot13 k) ≠ 0 →
      ∃ p, Rounded.fmul (Rounded.ofInt (hdr.IPT 2 (slot13 k)))
          (Rounded.fdiv (Rounded.fsub (some et) (some (record.getD 0 0)))
            (some (record.getD 1 0))) = some p ∧ p < 2 ^ 63) :
    (∀ k : Fin 11, hdr.IPT 0 (slot13 k) ≠ 0 →
      ∃ l, l = Rounded.subInterval (hdr.IPT 2 (slot13 k))
          (Rounded.fdiv (Rounded.fsub (some et) (some (record.getD 0 0)))
            (some (record.getD 1 0))) ∧
        0 ≤ l ∧ l ≤ hdr.IPT 2 (slot13 k) - 1 ∧
        ∀ (j : Fin 3) (i : Nat), (i : Int) < hdr.IPT 1 (slot13 k) →
          0 ≤ blockOffset (hdr.IPT 0 (slot13 k)) (hdr.IPT 1 (slot13 k)) l +
              (j.val : Int) * hdr.IPT 1 (slot13 k) + (i : Int) ∧
          blockOffset (hdr.IPT 0 (slot13 k)) (hdr.IPT 1 (slot13 k)) l +
              (j.val : Int) * hdr.IPT 1 (slot13 k) + (i : Int) < (record.length : Int) ∧
          ∃ c, index record
            (blockOffset (hdr.IPT 0 (slot13 k)) (hdr.IPT 1 (slot13 k)) l +
              (j.val : Int) * hdr.IPT 1 (slot13 k) + (i : Int)) = .ok c) ∧
    (∃ pv, Rounded.workingVectors hdr record et = .ok (pv, none)) ∧
    ∀ (ntarg ncent : Int) (rrd : Rounded.Vec6), 0 ≤ ntarg → ntarg < 15 → 0 ≤ ncent →
      ncent < 15 → ∃ r, Rounded.computePosition hdr record et ntarg ncent rrd = .ok (r, none) := by
  have hi0 : index record 0 = .ok (record.getD 0 0) := by
    exact_mod_cast index_eq_ok record 0 0 (by rw [hlen]; decide)
  have hi1 : index record 1 = .ok (record.getD 1 0) := by
    exact_mod_cast index_eq_ok record 0 1 (by rw [hlen]; decide)
  -- the computed products are not negative
  have hrange' : ∀ k : Fin 11, hdr.IPT 0 (slot13 k) ≠ 0 →
      ∃ p, Rounded.fmul (Rounded.ofInt (hdr.IPT 2 (slot13 k)))
          (Rounded.fdiv (Rounded.fsub (some et) (some (record.getD 0 0)))
            (some (record.getD 1 0))) = some p ∧ 0 ≤ p ∧ p < 2 ^ 63 := by
    intro k hpop
    obtain ⟨p, hp, hp1⟩ := hrange k hpop
    refine ⟨p, hp, ?_, hp1⟩
    obtain ⟨x, u, _, hu, _⟩ := fmul_eq_some _ _ _ hp
    have hu0 : 0 ≤ u := rounded_quotient_nonneg et _ _ u het hr1 hu
    rw [hu] at hp
    exact rounded_temp_nonneg _ u p (by have := (hslots k hpop).2.2.1; omega) hu0 hp
  obtain ⟨pv, hpv⟩ := rounded_evalBodies_in_range hdr record _ (record.getD 1 0) hlen hslots
    hrange' (List.finRange 11) (fun _ => Rounded.zero6)
  have hw : Rounded.workingVectors hdr record et = .ok (pv, none) := by
    unfold Rounded.workingVectors
    simp only [hi0, hi1, bind, Except.bind]
    exact hpv
  refine ⟨fun k hpop => ?_, ⟨pv, hw⟩, fun ntarg ncent rrd h1 h2 h3 h4 => ?_⟩
  · obtain ⟨h1, h2, h3, h4⟩ := hslots k hpop
    obtain ⟨p, hp, hp0, hp1⟩ := hrange' k hpop
    obtain ⟨⟨hl0, hl1, hoff⟩, _⟩ :=
      rounded_evalBody_in_range hdr record _ (record.getD 1 0) (fun _ => Rounded.zero6) k p hlen
        h1 hpop h2 h3 h4 hp hp0 hp1
    refine ⟨_, rfl, hl0, hl1, fun j i hi => ?_⟩
    obtain ⟨hb0, hb1⟩ := block_fits _ _ _ _ 1018 h1 (by omega) hl0 hl1 h4
    obtain ⟨he0, he1⟩ := entry_lt _ j i hi
    rw [hoff, hlen]
    obtain ⟨l, hl⟩ : ∃ l, l = Rounded.subInterval (hdr.IPT 2 (slot13 k))
        (Rounded.fdiv (Rounded.fsub (some et) (some (record.getD 0 0)))
          (some (record.getD 1 0))) := ⟨_, rfl⟩
    rw [← hl] at hb0 hb1 ⊢
    have hlt : hdr.IPT 0 (slot13 k) + l * hdr.IPT 1 (slot13 k) * 3 +
        (j.val : Int) * hdr.IPT 1 (slot13 k) + (i : Int) < 1018 := by omega
    refine ⟨by omega, by unfold JplNCoeff; exact_mod_cast hlt, ?_⟩
    obtain ⟨n, hn⟩ : ∃ n : Nat, (n : Int) = hdr.IPT 0 (slot13 k) +
        l * hdr.IPT 1 (slot13 k) * 3 + (j.val : Int) * hdr.IPT 1 (slot13 k) + (i : Int) :=
      ⟨_, Int.toNat_of_nonneg (by omega)⟩
    rw [← hn]
    exact ⟨_, index_eq_ok record 0 n (by rw [hlen]; unfold JplNCoeff; omega)⟩
  · unfold Rounded.computePosition
    obtain ⟨r, hr⟩ := rounded_composeRelative_in_range (Rounded.moonCorrection ntarg pv) ntarg
      ncent rrd h1 h2 h3 h4
    simp only [hw, hr, bind, Except.bind, pure, Except.pure]
    exact ⟨r, rfl⟩

/-- Witness for C31: the full-length record `fullRecord` and the header `oddHeader`
at `et = 1/2`, Mercury relative to the barycenter. -/
theorem C31_index_safety_witness :
    (fullRecord.length = JplNCoeff ∧ 0 < fullRecord.getD 1 0 ∧ fullRecord.getD 0 0 ≤ 1 / 2) ∧
    Rounded.computePosition oddHeader fullRecord (1 / 2) JMercury JSbary Rounded.zero6 =
      .ok (![some 1, some 0, some 0, some 0, some 0, some 0], none) ∧
    ∃ r, Rounded.computePosition oddHeader fullRecord (1 / 2) JMercury JSbary Rounded.zero6 =
      .ok (r, none) :=
  ⟨by decide!, by decide!,
    (C31_index_safety oddHeader fullRecord (1 / 2) (by decide!) (by decide!) (by decide!)
      (by decide)
      (fun k hk => by
        fin_cases k
        · exact ⟨1 / 2, by decide!, by norm_num⟩
        all_goals exact absurd (by decide) hk)).2.2 JMercury JSbary Rounded.zero6 (by decide) (by decide)
      (by decide) (by decide)⟩

/-! ## The claim on the record index, in rounded arithmetic -/

/-- Claim C24 as stated does not hold for every open session: the one-block file with
`StartJD = 0`, `EndJD = 2` and `StepJD = 2^-59` opens, and at `t = 2` the record index
is `2^60`, whose byte offset `2^60 · 8144` is `509 · 2^64`, which is 0 as an `int64`.
`Pleph` then reads the 8144 bytes at offset 0 of a file that has no byte at offset
`2^60 · 8144`, and returns a result instead of a read error.  Nor is the index the
floor of the exact quotient: with `StepJD` the `float64` nearest to `0.1` and
`t = 0.5` the exact quotient has floor 4, but the `float64` quotient is `5.0` and
the index is 5. -/
theorem C24_counterexample :
    ((sessionOf tinyStepFile).IsOpen = true ∧
      (sessionOf tinyStepFile).Header.StartJD = 0 ∧
      (sessionOf tinyStepFile).Header.EndJD = 2 ∧
      (sessionOf tinyStepFile).Header.StepJD = 1 / 2 ^ 59) ∧
    tinyStepFile.length = 8144 ∧
    Rounded.recordIndex (sessionOf tinyStepFile).Header 2 = 2 ^ 60 ∧
    ((2 : Int) ^ 60 * 8144 = 509 * 2 ^ 64 ∧ wrap64 (2 ^ 60 * 8144) = 0) ∧
    (∀ (env : Env) (file : Option OsFile),
      readJplRecord env file (2 ^ 60) = readJplRecord env file 0) ∧
    Rounded.Pleph (envOf tinyStepFile) (sessionOf tinyStepFile) 2 JMercury JSbary =
      .ok (Rounded.zero6, none) ∧
    (tenthHeader.StartJD = 0 ∧ Rounded.fin64 0.1 = some tenthHeader.StepJD ∧
      ⌊((1 / 2 : ℚ) - tenthHeader.StartJD) / tenthHeader.StepJD⌋ = 4 ∧
      Rounded.fdiv (Rounded.fsub (some (1 / 2)) (some tenthHeader.StartJD))
        (some tenthHeader.StepJD) = some 5 ∧
      Rounded.recordIndex tenthHeader (1 / 2) = 5) := by
  refine ⟨by decide!, by decide!, by decide!, by decide, fun env file => ?_, by decide!,
    by decide!⟩
  unfold readJplRecord
  have h : wrap64 ((2 : Int) ^ 60 * (JplRecordSize : Int)) =
      wrap64 (0 * (JplRecordSize : Int)) := by decide
  rw [h]

/-- Claim C24, amended, in rounded arithmetic: let `q` be the `float64` quotient
`(t - StartJD) / StepJD` as `Pleph` computes it (the difference and the quotient each
rounded to the nearest `float64`).  For every open session with `StepJD > 0` and every
`t` with `StartJD ≤ t ≤ EndJD` for which `q` is finite and `floor(q)` times 8144 is
below `2^63`, the record index used by `Pleph` is `floor(q)`, it is `≥ 0`, the byte
offset is index times 8144 without wrap-around, and on the open handle of the session
the read returns the decoding of exactly the 8144 bytes starting at that offset, or
fails when fewer are available there. -/
theorem C24_record_index (env : Env) (jd : JplData) (et : Float64) (ntarg ncent : Int)
    (q : ℚ) (hopen : jd.IsOpen = true) (hstep : 0 < jd.Header.StepJD)
    (h1 : jd.Header.StartJD ≤ et) (h2 : et ≤ jd.Header.EndJD)
    (hq : Rounded.fdiv (Rounded.fsub (some et) (some jd.Header.StartJD))
      (some jd.Header.StepJD) = some q)
    (hidx : ⌊q⌋ * 8144 < 2 ^ 63) :
    Rounded.recordIndex jd.Header et = ⌊q⌋ ∧
    0 ≤ ⌊q⌋ ∧
    wrap64 (⌊q⌋ * 8144) = ⌊q⌋ * 8144 ∧
    Rounded.Pleph env jd et ntarg ncent =
      (match readJplRecord env jd.File ⌊q⌋ with
        | .error e => .ok (Rounded.zero6, some (.recordFailed e))
        | .ok record =>
          match Rounded.computePosition jd.Header record et ntarg ncent Rounded.zero6 with
          | .error f => .error f
          | .ok (_, some e) => .ok (Rounded.zero6, some (.computeFailed e))
          | .ok (r, none) => .ok (r, none)) ∧
    (∀ f : OsFile, jd.File = some f → f.closed = false →
      readJplRecord env jd.File ⌊q⌋ =
        if ⌊q⌋.toNat * 8144 + 8144 ≤ f.content.length then
          .ok (readFloat64s env JplNCoeff (NewByteReader
            ((f.content.drop (⌊q⌋.toNat * 8144)).take 8144) .LittleEndian)).1
        else .error (if f.content.length ≤ ⌊q⌋.toNat * 8144
          then .errEOF else .errUnexpectedEOF)) := by
  have hq0 : 0 ≤ q := rounded_quotient_nonneg et _ _ q h1 hstep hq
  have hfl : 0 ≤ ⌊q⌋ := Int.floor_nonneg.mpr hq0
  obtain ⟨n, hn⟩ : ∃ n : Int, n = ⌊q⌋ := ⟨_, rfl⟩
  rw [← hn] at hidx hfl ⊢
  have hq63 : q < 2 ^ 63 := by
    have hb : ((⌊q⌋ + 1 : Int) : ℚ) ≤ ((2 ^ 63 : Int) : ℚ) := by
      have : ⌊q⌋ + 1 ≤ 2 ^ 63 := by omega
      exact_mod_cast this
    have := Int.lt_floor_add_one q
    push_cast at hb
    linarith
  have ht : Rounded.toInt (some q) = n := by
    rw [toInt_in_range q (by linarith) hq63, if_pos hq0, hn]
  have hri : Rounded.recordIndex jd.Header et = n := by
    unfold Rounded.recordIndex
    simp only [hq, ht]
    rw [if_neg (by omega)]
  have hw : wrap64 (n * 8144) = n * 8144 := wrap64_eq_self (by omega) hidx
  refine ⟨hri, hfl, hw, ?_, fun f hf hc => ?_⟩
  · unfold Rounded.Pleph
    simp only [hopen, Bool.not_true, Bool.false_eq_true, if_false, hri]
    rw [if_neg (by
      rw [not_or]
      exact ⟨not_lt.mpr h1, not_lt.mpr h2⟩)]
  · rw [hf, readJplRecord_open env f hc n, hw, if_neg (by omega)]
    have ht : (n * 8144).toNat = n.toNat * 8144 := by omega
    rw [ht]

/-- Witness for C24: the one-block example file at `t = 0`. -/
theorem C24_record_index_witness :
    ((sessionOf goodFile).IsOpen = true ∧ 0 < (sessionOf goodFile).Header.StepJD ∧
      (sessionOf goodFile).Header.StartJD ≤ 0 ∧ 0 ≤ (sessionOf goodFile).Header.EndJD ∧
      Rounded.fdiv (Rounded.fsub (some 0) (some (sessionOf goodFile).Header.StartJD))
        (some (sessionOf goodFile).Header.StepJD) = some 0 ∧
      ⌊(0 : ℚ)⌋ * 8144 < 2 ^ 63) ∧
    Rounded.recordIndex (sessionOf goodFile).Header 0 = ⌊(0 : ℚ)⌋ :=
  ⟨by decide!,
    (C24_record_index (envOf goodFile) (sessionOf goodFile) 0 JMercury JSbary 0 (by decide!)
      (by decide!) (by decide!) (by decide!) (by decide!) (by decide!)).1⟩

/-! ## Lemmas on the rounded calendar functions -/

theorem fin64_intCast (n : Int) (hn1 : -(2 ^ 53) < n) (hn2 : n < 2 ^ 53) :
    Rounded.fin64 (n : ℚ) = some (n : ℚ) := Rounded.ofInt_exact n hn1 hn2

/-- The sum of two integer-valued floats is exact when it is below `2^53`. -/
theorem fadd_intCast (a b : Int) (h1 : -(2 ^ 53) < a + b) (h2 : a + b < 2 ^ 53) :
    Rounded.fadd (some (a : ℚ)) (some (b : ℚ)) = some ((a + b : Int) : ℚ) := by
  have := fin64_intCast (a + b) h1 h2
  push_cast at this ⊢
  exact this

/-- A finite value between an integer `A ≥ 0` and `A + 1 - 2^-j` converts to `A`. -/
theorem toInt_between (r : ℚ) (A : Int) (j : Nat) (hA0 : 0 ≤ A) (hA : A < 2 ^ 62)
    (h1 : (A : ℚ) ≤ r) (h2 : r ≤ (A : ℚ) + 1 - 1 / 2 ^ j) : Rounded.toInt (some r) = A := by
  have hA0q : (0 : ℚ) ≤ (A : ℚ) := by exact_mod_cast hA0
  have hr0 : 0 ≤ r := le_trans hA0q h1
  have hpos : (0 : ℚ) < 1 / 2 ^ j := by positivity
  have hAq : (A : ℚ) < 2 ^ 62 := by exact_mod_cast hA
  rw [toInt_in_range r (by linarith) (by norm_num at hAq ⊢; linarith), if_pos hr0]
  rw [Int.floor_eq_iff]
  constructor <;> linarith

/-- An operation whose exact result lies between an integer `A ≥ 0` and
`A + 1 - 2^-j` returns a finite value that converts to `A`. -/
theorem toInt_fin64_between (x : ℚ) (A : Int) (j : Nat) (hj1 : 1 ≤ j) (hj : j ≤ 20)
    (hA0 : 0 ≤ A)
    (hA : A < 2 ^ 32) (h1 : (A : ℚ) ≤ x) (h2 : x ≤ (A : ℚ) + 1 - 1 / 2 ^ j) :
    ∃ r, Rounded.fin64 x = some r ∧ (A : ℚ) ≤ r ∧ r ≤ (A : ℚ) + 1 - 1 / 2 ^ j ∧
      Rounded.toInt (some r) = A := by
  have hpj : (0 : ℚ) < (2 : ℚ) ^ j := by positivity
  have hpow : (2 : Int) ^ j ≤ 2 ^ 20 := pow_le_pow_right₀ (by norm_num) hj
  have hpow1 : (1 : Int) ≤ 2 ^ j := one_le_pow₀ (by norm_num)
  have ehi : (((A + 1) * 2 ^ j - 1 : Int) : ℚ) / (2 : ℚ) ^ j = (A : ℚ) + 1 - 1 / 2 ^ j := by
    push_cast
    field_simp
  have elo : ((A : Int) : ℚ) / (2 : ℚ) ^ 0 = (A : ℚ) := by simp
  have hpow2 : (2 : Int) ≤ 2 ^ j := by
    calc (2 : Int) = 2 ^ 1 := by norm_num
      _ ≤ 2 ^ j := pow_le_pow_right₀ (by norm_num) hj1
  have hn1 : 0 < (A + 1) * 2 ^ j - 1 := by nlinarith
  have hn2 : (A + 1) * 2 ^ j - 1 < 2 ^ 53 := by
    have : (A + 1) * 2 ^ j ≤ 2 ^ 32 * 2 ^ 20 :=
      mul_le_mul (by omega) hpow (by positivity) (by norm_num)
    norm_num at this ⊢
    omega
  obtain ⟨r, hr, hr1, hr2⟩ := Rounded.fin64_between A 0 ((A + 1) * 2 ^ j - 1) j hA0
    (by omega) (by omega) hn1 hn2 (by omega) x (by rw [elo]; exact h1) (by rw [ehi]; exact h2)
  rw [elo] at hr1
  rw [ehi] at hr2
  exact ⟨r, hr, hr1, hr2, toInt_between r A j hA0 (by omega) hr1 hr2⟩

/-- The month term of `Julday`: the rounded product `30.6001 * Float64(m)` has the
floor of the exact product, for `m` in `4..15`. -/
theorem rounded_month_term (m : Int) (h1 : 4 ≤ m) (h2 : m ≤ 15) :
    Rounded.fmul (Rounded.fin64 30.6001) (Rounded.ofInt m) ≠ none ∧
    Rounded.ffloor (Rounded.fmul (Rounded.fin64 30.6001) (Rounded.ofInt m)) =
      some (((306001 * m / 10000 : Int) : ℚ)) ∧
    Rounded.toInt (Rounded.fmul (Rounded.fin64 30.6001) (Rounded.ofInt m)) =
      306001 * m / 10000 := by
  interval_cases m <;> decide!

/-- The constants of `Julday` and `Revjul` that are binary64 values. -/
theorem rounded_constants :
    Rounded.fin64 365.25 = some (1461 / 4) ∧ Rounded.fin64 1720994.5 = some (3441989 / 2) ∧
    Rounded.fin64 24.0 = some 24 ∧ Rounded.fin64 0.5 = some (1 / 2) ∧
    Rounded.fin64 1867216.25 = some (7468865 / 4) ∧
    Rounded.fin64 36524.25 = some (146097 / 4) ∧
    Rounded.fin64 122.1 = some (4296011832046387 / 2 ^ 45) ∧
    Rounded.fin64 30.6001 = some (8613162434843745 / 2 ^ 48) := by decide!

/-- `Julday` in rounded arithmetic, for a Gregorian date whose March-based year is
within `0..10^12`: every operation before the hour is added is exact, so the result
is the exact Julian day at hour 0 plus the rounded day fraction. -/
theorem rounded_Julday_base (year month day : Int) (hour : Rounded.F64)
    (hy0 : 0 ≤ (if month ≤ 2 then year - 1 else year))
    (hy1 : (if month ≤ 2 then year - 1 else year) ≤ 10 ^ 12)
    (hm1 : 1 ≤ month) (hm2 : month ≤ 12) (hd1 : 1 ≤ day) (hd2 : day ≤ 31) :
    Rounded.Julday year month day hour SeGregCal =
      Rounded.fadd
        (some ((((1461 * (if month ≤ 2 then year - 1 else year)) / 4 +
          (306001 * ((if month ≤ 2 then month + 12 else month) + 1)) / 10000 + day +
          (2 - (if month ≤ 2 then year - 1 else year) / 100 +
            (if month ≤ 2 then year - 1 else year) / 100 / 4) : Int) : ℚ) + 1720994.5))
        (Rounded.fdiv hour (some 24)) := by
  obtain ⟨Y, hY⟩ : ∃ Y : Int, Y = if month ≤ 2 then year - 1 else year := ⟨_, rfl⟩
  obtain ⟨M, hM⟩ : ∃ M : Int, M = (if month ≤ 2 then month + 12 else month) + 1 := ⟨_, rfl⟩
  have hMr : 4 ≤ M ∧ M ≤ 15 := by
    rw [hM]
    split_ifs <;> omega
  obtain ⟨c1, c2, c3, _⟩ := rounded_constants
  have hY1 : Y ≤ 1000000000000 := by
    rw [hY]
    norm_num at hy1
    exact hy1
  rw [← hY] at hy0
  unfold Rounded.Julday
  simp only [← hY, ← hM, if_neg (not_lt.mpr hy0), if_true, c1, c2, c3]
  have h100 : 0 ≤ Y / 100 := Int.ediv_nonneg hy0 (by decide)
  rw [Int.tdiv_eq_ediv hy0 (by decide), Int.tdiv_eq_ediv h100 (by decide)]
  -- the year term
  have e1 : Rounded.fmul (some (1461 / 4)) (Rounded.ofInt Y) = some ((1461 / 4 : ℚ) * (Y : ℚ)) := by
    rw [Rounded.ofInt_exact Y (by omega) (by omega)]
    have := Rounded.fin64_exact (1461 * Y) 2 (by omega) (by omega) (by omega)
    have e : ((1461 * Y : Int) : ℚ) / (2 : ℚ) ^ 2 = (1461 / 4 : ℚ) * (Y : ℚ) := by
      push_cast
      ring
    rw [e] at this
    exact this
  have e2 : Rounded.ffloor (some ((1461 / 4 : ℚ) * (Y : ℚ))) =
      some (((1461 * Y / 4 : Int) : ℚ)) := by
    have := mathFloor_year Y
    unfold mathFloor at this
    have e : (365.25 : ℚ) * (Y : ℚ) = (1461 / 4 : ℚ) * (Y : ℚ) := by norm_num
    rw [e] at this
    simp only [Rounded.ffloor, Option.map_some', this]
  rw [e1, e2, (rounded_month_term M hMr.1 hMr.2).2.1]
  have hB : 0 ≤ 306001 * M / 10000 ∧ 306001 * M / 10000 ≤ 459 := by omega
  rw [fadd_intCast _ _ (by omega) (by omega), Rounded.ofInt_exact day (by omega) (by omega),
    fadd_intCast _ _ (by omega) (by omega),
    Rounded.ofInt_exact (2 - Y / 100 + Y / 100 / 4) (by omega) (by omega),
    fadd_intCast _ _ (by omega) (by omega)]
  have key : ∀ S : Int, -(2 ^ 51) < S → S < 2 ^ 51 →
      Rounded.fadd (some (S : ℚ)) (some (3441989 / 2)) = some ((S : ℚ) + 1720994.5) := by
    intro S hS1 hS2
    have := Rounded.fin64_exact (2 * S + 3441989) 1 (by omega) (by omega) (by omega)
    have e : ((2 * S + 3441989 : Int) : ℚ) / (2 : ℚ) ^ 1 = (S : ℚ) + 1720994.5 := by
      push_cast
      norm_num
      ring
    rw [e] at this
    have e3 : (S : ℚ) + 3441989 / 2 = (S : ℚ) + 1720994.5 := by norm_num
    simp only [Rounded.fadd, e3, this]
  rw [key _ (by omega) (by omega)]

/-- The quotient of two positive integers computed in `float64` converts to their
integer quotient, when the divisor is at most `2^18` and the quotient below `2^32`. -/
theorem toInt_fin64_ratio (N D : Int) (hD : 0 < D) (hD2 : D ≤ 2 ^ 18) (hN : 0 ≤ N)
    (hq : N / D < 2 ^ 32) :
    ∃ r, Rounded.fin64 ((N : ℚ) / (D : ℚ)) = some r ∧ Rounded.toInt (some r) = N / D := by
  have hDq : (0 : ℚ) < (D : ℚ) := by exact_mod_cast hD
  have h1 : N / D * D ≤ N := Int.ediv_mul_le N hD.ne'
  have h2 : N < (N / D + 1) * D := Int.lt_ediv_add_one_mul_self N hD
  have h1q : ((N / D : Int) : ℚ) * (D : ℚ) ≤ (N : ℚ) := by exact_mod_cast h1
  have h2q : (N : ℚ) + 1 ≤ (((N / D : Int) : ℚ) + 1) * (D : ℚ) := by
    have : N + 1 ≤ (N / D + 1) * D := by omega
    exact_mod_cast this
  have hD2q : (D : ℚ) ≤ 2 ^ 18 := by exact_mod_cast hD2
  obtain ⟨r, hr, _, _, ht⟩ := toInt_fin64_between ((N : ℚ) / (D : ℚ)) (N / D) 18 (by omega)
    (by omega) (Int.ediv_nonneg hN hD.le) hq
    (by rw [le_div_iff₀ hDq]; exact h1q)
    (by
      rw [div_le_iff₀ hDq]
      have hx : (1 : ℚ) / 2 ^ 18 * (D : ℚ) ≤ 1 := by
        rw [div_mul_eq_mul_div, one_mul, div_le_one (by positivity)]
        exact hD2q
      nlinarith)
  exact ⟨r, hr, ht⟩

/-- The conversion `alpha := int((Float64(z) - 1867216.25) / 36524.25)` of `Revjul`. -/
theorem rounded_alpha (z : Int) (hz : 2299161 ≤ z) (hz2 : z < 2 ^ 31) :
    Rounded.toInt (Rounded.fdiv (Rounded.fsub (Rounded.ofInt z) (Rounded.fin64 1867216.25))
      (Rounded.fin64 36524.25)) = (4 * z - 7468865) / 146097 := by
  obtain ⟨_, _, _, _, c5, c6, _, _⟩ := rounded_constants
  rw [c5, c6, Rounded.ofInt_exact z (by omega) (by omega)]
  have e1 : Rounded.fsub (some (z : ℚ)) (some (7468865 / 4)) =
      some (((4 * z - 7468865 : Int) : ℚ) / 4) := by
    have := Rounded.fin64_exact (4 * z - 7468865) 2 (by omega) (by omega) (by omega)
    have e : ((4 * z - 7468865 : Int) : ℚ) / (2 : ℚ) ^ 2 = (z : ℚ) - 7468865 / 4 := by
      push_cast
      ring
    have e4 : ((4 * z - 7468865 : Int) : ℚ) / 4 = ((4 * z - 7468865 : Int) : ℚ) / (2 : ℚ) ^ 2 := by
      norm_num
    simp only [Rounded.fsub]
    rw [e4, ← e, this]
  rw [e1]
  obtain ⟨r, hr, ht⟩ := toInt_fin64_ratio (4 * z - 7468865) 146097 (by decide) (by decide)
    (by omega) (by omega)
  have e2 : ((4 * z - 7468865 : Int) : ℚ) / 4 / (146097 / 4) =
      ((4 * z - 7468865 : Int) : ℚ) / ((146097 : Int) : ℚ) := by
    push_cast
    field_simp
  have hne : (146097 / 4 : ℚ) ≠ 0 := by norm_num
  simp only [Rounded.fdiv, hne, if_false, e2, hr, ht]

/-- The conversion `c := int((Float64(b) - 122.1) / 365.25)` of `Revjul`. -/
theorem rounded_c (b : Int) (hb : 1000 ≤ b) (hb2 : b < 2 ^ 33) :
    Rounded.toInt (Rounded.fdiv (Rounded.fsub (Rounded.ofInt b) (Rounded.fin64 122.1))
      (Rounded.fin64 365.25)) = (20 * b - 2442) / 7305 := by
  obtain ⟨c1, _, _, _, _, _, c7, _⟩ := rounded_constants
  rw [c1, c7, Rounded.ofInt_exact b (by omega) (by omega)]
  have elo : ((8 * b - 977 : Int) : ℚ) / (2 : ℚ) ^ 3 = (b : ℚ) - 977 / 8 := by
    push_cast
    ring
  have ehi : ((16 * b - 1953 : Int) : ℚ) / (2 : ℚ) ^ 4 = (b : ℚ) - 1953 / 16 := by
    push_cast
    ring
  have v1 : (4296011832046387 : ℚ) / 2 ^ 45 ≤ 977 / 8 := by norm_num
  have v2 : (1953 : ℚ) / 16 ≤ 4296011832046387 / 2 ^ 45 := by norm_num
  obtain ⟨s, hs, hs1, hs2⟩ := Rounded.fin64_between (8 * b - 977) 3 (16 * b - 1953) 4
    (by omega) (by omega) (by omega) (by omega) (by omega) (by omega)
    ((b : ℚ) - 4296011832046387 / 2 ^ 45)
    (by rw [elo]; linarith) (by rw [ehi]; linarith)
  rw [elo] at hs1
  rw [ehi] at hs2
  have hc0 : 0 ≤ (20 * b - 2442) / 7305 := by omega
  have hc1 : (20 * b - 2442) / 7305 < 2 ^ 32 := by omega
  have i1 : 2922 * ((20 * b - 2442) / 7305) ≤ 8 * b - 977 := by omega
  have i2 : 4 * b ≤ 1461 * ((20 * b - 2442) / 7305 + 1) + 488 := by omega
  generalize (20 * b - 2442) / 7305 = c at hc0 hc1 i1 i2 ⊢
  have i1q : (2922 : ℚ) * (c : ℚ) ≤ 8 * (b : ℚ) - 977 := by exact_mod_cast i1
  have i2q : (4 : ℚ) * (b : ℚ) ≤ 1461 * ((c : ℚ) + 1) + 488 := by exact_mod_cast i2
  have g1 : (c : ℚ) ≤ s / (1461 / 4) := by
    rw [le_div_iff₀ (by norm_num)]
    linarith
  have g2 : s / (1461 / 4) ≤ (c : ℚ) + 1 - 1 / 2 ^ 13 := by
    rw [div_le_iff₀ (by norm_num)]
    norm_num
    linarith
  obtain ⟨r, hr, _, _, ht⟩ := toInt_fin64_between (s / (1461 / 4)) c 13 (by omega) (by omega)
    hc0 hc1 g1 g2
  rw [fsub_some, hs, fdiv_some _ _ (by norm_num), hr, ht]

/-- The conversion `d := int(365.25 * Float64(c))` of `Revjul`. -/
theorem rounded_d (c : Int) (hc : 0 ≤ c) (hc2 : c < 2 ^ 32) :
    Rounded.toInt (Rounded.fmul (Rounded.fin64 365.25) (Rounded.ofInt c)) = 1461 * c / 4 := by
  obtain ⟨c1, _⟩ := rounded_constants
  rw [c1, Rounded.ofInt_exact c (by omega) (by omega)]
  have := Rounded.fin64_exact (1461 * c) 2 (by omega) (by omega) (by omega)
  have e : ((1461 * c : Int) : ℚ) / (2 : ℚ) ^ 2 = (1461 / 4 : ℚ) * (c : ℚ) := by
    push_cast
    ring
  rw [e] at this
  simp only [Rounded.fmul, this]
  have hfl : ⌊(1461 / 4 : ℚ) * (c : ℚ)⌋ = 1461 * c / 4 := by
    have e2 : (1461 / 4 : ℚ) * (c : ℚ) = ((1461 * c : Int) : ℚ) / ((4 : Nat) : ℚ) := by
      push_cast
      ring
    rw [e2, Rat.floor_intCast_div_natCast]
    rfl
  have h0 : (0 : ℚ) ≤ (1461 / 4 : ℚ) * (c : ℚ) := by
    have : (0 : ℚ) ≤ (c : ℚ) := by exact_mod_cast hc
    positivity
  have hcq : (c : ℚ) < 2 ^ 32 := by exact_mod_cast hc2
  rw [toInt_in_range _ (by linarith) (by norm_num at hcq ⊢; linarith), if_pos h0, hfl]

/-- The conversion `e := int(Float64(b-d) / 30.6001)` of `Revjul`, for a result in
`4..15`. -/
theorem rounded_e (w e : Int) (he : e = 10000 * w / 306001) (he4 : 4 ≤ e) (he15 : e ≤ 15) :
    Rounded.toInt (Rounded.fdiv (Rounded.ofInt w) (Rounded.fin64 30.6001)) = e := by
  obtain ⟨_, _, _, _, _, _, _, c8⟩ := rounded_constants
  have hw : 122 ≤ w ∧ w ≤ 489 := by omega
  rw [c8, Rounded.ofInt_exact w (by omega) (by omega)]
  have hne : (8613162434843745 / 2 ^ 48 : ℚ) ≠ 0 := by norm_num
  have hpos : (0 : ℚ) < 8613162434843745 / 2 ^ 48 := by norm_num
  have hwl : 306001 * e + 1 ≤ 10000 * w := by omega
  have hwu : 10000 * w ≤ 306001 * e + 306000 := by omega
  have hwlq : (306001 : ℚ) * (e : ℚ) + 1 ≤ 10000 * (w : ℚ) := by exact_mod_cast hwl
  have hwuq : (10000 : ℚ) * (w : ℚ) ≤ 306001 * (e : ℚ) + 306000 := by exact_mod_cast hwu
  have hlo : (30.6001 : ℚ) - 1 / 10 ^ 9 ≤ 8613162434843745 / 2 ^ 48 := by norm_num
  have hhi : (8613162434843745 : ℚ) / 2 ^ 48 ≤ 30.6001 + 1 / 10 ^ 9 := by norm_num
  obtain ⟨r, hr, _, _, ht⟩ := toInt_fin64_between
    ((w : ℚ) / (8613162434843745 / 2 ^ 48)) e 19 (by omega) (by omega) (by omega) (by omega)
    (by
      rw [le_div_iff₀ hpos]
      clear he hwl hwu hw
      interval_cases e
      all_goals
        push_cast at hwlq ⊢
        linarith)
    (by
      rw [div_le_iff₀ hpos]
      clear he hwl hwu hw
      interval_cases e
      all_goals
        push_cast at hwuq ⊢
        norm_num at hwuq hlo ⊢
        linarith)
  simp only [Rounded.fdiv, hne, if_false, hr, ht]

/-- A non-negative number below `2^(53-j)` is rounded to a finite value at distance
at most `2^-j`. -/
theorem fin64_near (x : ℚ) (j : Nat) (hj : j ≤ 1074) (h0 : 0 ≤ x)
    (hx : x * 2 ^ j + 1 < 2 ^ 53) : ∃ r, Rounded.fin64 x = some r ∧ |r - x| ≤ 1 / 2 ^ j := by
  have hp : (0 : ℚ) < (2 : ℚ) ^ j := by positivity
  obtain ⟨n, hn⟩ : ∃ n : Int, n = ⌊x * 2 ^ j⌋ := ⟨_, rfl⟩
  have hn0 : 0 ≤ n := by
    rw [hn]
    exact Int.floor_nonneg.mpr (by positivity)
  have hn1 : (n : ℚ) ≤ x * 2 ^ j := by
    rw [hn]
    exact Int.floor_le _
  have hn2 : x * 2 ^ j < (n : ℚ) + 1 := by
    rw [hn]
    exact Int.lt_floor_add_one _
  have hn3 : n + 1 < 2 ^ 53 := by
    have : ((n + 1 : Int) : ℚ) < ((2 ^ 53 : Int) : ℚ) := by
      push_cast
      linarith
    exact_mod_cast this
  obtain ⟨r, hr, hr1, hr2⟩ := Rounded.fin64_between n j (n + 1) j hn0 (by omega) hj (by omega)
    hn3 hj x (by rw [div_le_iff₀ hp]; exact hn1)
    (by rw [le_div_iff₀ hp]; push_cast; exact hn2.le)
  refine ⟨r, hr, ?_⟩
  have e1 : (n : ℚ) / 2 ^ j ≤ x := by
    rw [div_le_iff₀ hp]
    exact hn1
  have e2 : x ≤ ((n + 1 : Int) : ℚ) / 2 ^ j := by
    rw [le_div_iff₀ hp]
    push_cast
    exact hn2.le
  have e3 : ((n + 1 : Int) : ℚ) / 2 ^ j = (n : ℚ) / 2 ^ j + 1 / 2 ^ j := by
    push_cast
    ring
  rw [e3] at hr2 e2
  rw [abs_le]
  constructor <;> linarith

/-- `Revjul` in rounded arithmetic on a Julian day `jd` of the Gregorian day number
`z` (`z - 1/2 ≤ jd ≤ z + 1/2 - 2^-18`): the date is the one of integer arithmetic, and
the hour is `24 * (jd + 1/2 - z)` up to `1.2 * 10^-5`, and exactly 0 at the start of the
day. -/
theorem rounded_Revjul_gregorian (z alpha b c d e t : Int) (jd : ℚ)
    (hj1 : (z : ℚ) - 1 / 2 ≤ jd) (hj2 : jd ≤ (z : ℚ) + 1 / 2 - 1 / 2 ^ 18)
    (hz : 2299161 ≤ z) (hz' : z ≤ 2000000000)
    (halpha : alpha = (4 * z - 7468865) / 146097)
    (hb : b = z + 1 + alpha - alpha / 4 + 1524)
    (hc : c = (20 * b - 2442) / 7305)
    (hd : d = (1461 * c) / 4)
    (he : e = (10000 * (b - d)) / 306001)
    (ht : t = (306001 * e) / 10000) (he4 : 4 ≤ e) (he15 : e ≤ 15) :
    ∃ v : ℚ, Rounded.Revjul (some jd) SeGregCal =
        (if (if e < 14 then e - 1 else e - 13) > 2 then c - 4716 else c - 4715,
          if e < 14 then e - 1 else e - 13, b - d - t, some v) ∧
      0 ≤ v ∧ v < 24 ∧ |v - 24 * (jd + 1 / 2 - (z : ℚ))| ≤ 12 / 10 ^ 6 ∧
      (jd = (z : ℚ) - 1 / 2 → v = 0) := by
  obtain ⟨_, _, c3, c4, _, _, _, _⟩ := rounded_constants
  have hzq0 : (2299161 : ℚ) ≤ (z : ℚ) := by exact_mod_cast hz
  have hzq1 : (z : ℚ) ≤ 2000000000 := by exact_mod_cast hz'
  -- jd + 0.5 and its integer part
  obtain ⟨r, hr, hr1, hr2, hrt⟩ := toInt_fin64_between (jd + 1 / 2) z 18 (by omega) (by omega)
    (by omega) (by omega) (by linarith) (by linarith)
  obtain ⟨r', hr', hrn⟩ := fin64_near (jd + 1 / 2) 21 (by omega) (by linarith)
    (by norm_num at hj2 ⊢; linarith)
  rw [hr] at hr'
  cases hr'
  -- the fraction of the day
  obtain ⟨fv, hf, hf1, hf2⟩ := Rounded.fin64_between 0 0 (2 ^ 18 - 1) 18 (by omega) (by omega)
    (by omega) (by omega) (by omega) (by omega) (r - (z : ℚ)) (by norm_num; linarith)
    (by norm_num at hr2 ⊢; linarith)
  obtain ⟨fv', hf', hfn⟩ := fin64_near (r - (z : ℚ)) 52 (by omega) (by linarith)
    (by norm_num at hr2 ⊢; linarith)
  rw [hf] at hf'
  cases hf'
  norm_num at hf1 hf2
  -- the hour
  obtain ⟨v, hv, hv1, hv2⟩ := Rounded.fin64_between 0 0 (24 * 2 ^ 18 - 24) 18 (by omega)
    (by omega) (by omega) (by omega) (by omega) (by omega) (fv * 24) (by norm_num; linarith)
    (by norm_num; linarith)
  obtain ⟨v', hv', hvn⟩ := fin64_near (fv * 24) 48 (by omega) (by linarith)
    (by norm_num; linarith)
  rw [hv] at hv'
  cases hv'
  norm_num at hv1 hv2
  -- the integer part of the algorithm
  have halpha0 : 0 ≤ alpha := by omega
  have halpha1 : alpha ≤ z := by omega
  have hta : Int.tdiv alpha 4 = alpha / 4 := Int.tdiv_eq_ediv halpha0 (by decide)
  have hb0 : z ≤ b := by omega
  have hb1 : b ≤ 2 * z + 1525 := by omega
  have hc0 : 0 ≤ c := by omega
  have hc1 : c ≤ b := by omega
  have hd0 : 0 ≤ d := by omega
  have hd1 : d ≤ b := by omega
  have ht0 : 0 ≤ t ∧ t ≤ 459 := by omega
  have hfz : Rounded.fsub (some r) (Rounded.ofInt z) = some fv := by
    rw [Rounded.ofInt_exact z (by omega) (by omega), fsub_some, hf]
  have hfa := rounded_alpha z hz (by omega)
  rw [← halpha] at hfa
  have wa : wrap64 (z + 1 + alpha - alpha / 4) = b - 1524 :=
    (wrap64_eq_self (by omega) (by omega)).trans (by omega)
  have wb : wrap64 (b - 1524 + 1524) = b :=
    (wrap64_eq_self (by omega) (by omega)).trans (by omega)
  have hfc := rounded_c b (by omega) (by omega)
  rw [← hc] at hfc
  have hfd := rounded_d c hc0 (by omega)
  rw [← hd] at hfd
  have wbd : wrap64 (b - d) = b - d := wrap64_eq_self (by omega) (by omega)
  have hfe := rounded_e (b - d) e he he4 he15
  have hft := (rounded_month_term e he4 he15).2.2
  rw [← ht] at hft
  have wday : wrap64 (b - d - t) = b - d - t := wrap64_eq_self (by omega) (by omega)
  have we1 : wrap64 (e - 1) = e - 1 := wrap64_eq_self (by omega) (by omega)
  have we13 : wrap64 (e - 13) = e - 13 := wrap64_eq_self (by omega) (by omega)
  have wc6 : wrap64 (c - 4716) = c - 4716 := wrap64_eq_self (by omega) (by omega)
  have wc5 : wrap64 (c - 4715) = c - 4715 := wrap64_eq_self (by omega) (by omega)
  have hzge : z ≥ 2299161 := hz
  refine ⟨v, ?_, hv1, by linarith, ?_, ?_⟩
  · unfold Rounded.Revjul
    simp only [c3, c4, fadd_some, hr, hrt, hfz, if_true, if_pos hzge, hfa, hta, wa, wb, hfc, hfd,
      wbd, hfe, hft, wday, we1, we13, wc6, wc5, fmul_some, hv]
  · rw [abs_le] at hrn hfn hvn ⊢
    norm_num at hrn hfn hvn ⊢
    constructor <;> linarith
  · intro hjd
    have e1 : jd + 1 / 2 = (z : ℚ) := by
      rw [hjd]
      ring
    rw [e1, fin64_intCast z (by omega) (by omega)] at hr
    cases hr
    have e2 : (z : ℚ) - (z : ℚ) = ((0 : Int) : ℚ) := by simp
    rw [e2, fin64_intCast 0 (by omega) (by omega)] at hf
    cases hf
    have e3 : (((0 : Int) : ℚ)) * 24 = ((0 : Int) : ℚ) := by simp
    rw [e3, fin64_intCast 0 (by omega) (by omega)] at hv
    cases hv
    simp

/-- The integer arithmetic of `Revjul` recovers a valid Gregorian date on or after
1582-10-15 (year at most 5000000) from its day number. -/
theorem gregorian_day_number (year month day : Int)
    (hm1 : 1 ≤ month) (hm2 : month ≤ 12) (hd1 : 1 ≤ day) (hd2 : day ≤ DaysInMonth year month)
    (hstart : 1582 < year ∨ (year = 1582 ∧ (10 < month ∨ (month = 10 ∧ 15 ≤ day))))
    (hyear : year ≤ 5000000) (z alpha b c d e t : Int)
    (hz : z = (1461 * (if month ≤ 2 then year - 1 else year)) / 4 +
        (306001 * ((if month ≤ 2 then month + 12 else month) + 1)) / 10000 + day +
        (2 - (if month ≤ 2 then year - 1 else year) / 100 +
          (if month ≤ 2 then year - 1 else year) / 100 / 4) + 1720995)
    (halpha : alpha = (4 * z - 7468865) / 146097)
    (hb : b = z + 1 + alpha - alpha / 4 + 1524)
    (hc : c = (20 * b - 2442) / 7305)
    (hd : d = (1461 * c) / 4)
    (he : e = (10000 * (b - d)) / 306001)
    (ht : t = (306001 * e) / 10000) :
    2299161 ≤ z ∧ z ≤ 2000000000 ∧ 4 ≤ e ∧ e ≤ 15 ∧
      (if (if e < 14 then e - 1 else e - 13) > 2 then c - 4716 else c - 4715) = year ∧
      (if e < 14 then e - 1 else e - 13) = month ∧ b - d - t = day := by
  revert hz halpha hb hc hd he ht
  rw [DaysInMonth_eq, if_neg (by omega)] at hd2
  have hleap := IsLeapYear_iff year
  have hfebv : month = 2 → day ≤ 28 ∨ (day = 29 ∧ 4 ∣ year ∧ (¬ 100 ∣ year ∨ 400 ∣ year)) := by
    intro h2
    rw [if_pos h2] at hd2
    by_cases hl : IsLeapYear year = true
    · rw [if_pos hl] at hd2
      have := hleap.mp hl
      omega
    · rw [if_neg hl] at hd2
      omega
  have h30v : (month = 4 ∨ month = 6 ∨ month = 9 ∨ month = 11) → day ≤ 30 := by
    intro h4
    rw [if_neg (by omega), if_pos h4] at hd2
    exact hd2
  have h31v : day ≤ 31 := by
    split_ifs at hd2 <;> omega
  clear hd2 hleap
  obtain ⟨Y, hY⟩ : ∃ Y : Int, Y = if month ≤ 2 then year - 1 else year := ⟨_, rfl⟩
  obtain ⟨M, hM⟩ : ∃ M : Int, M = if month ≤ 2 then month + 12 else month := ⟨_, rfl⟩
  rw [← hY, ← hM]
  have hYM : (month ≤ 2 ∧ Y = year - 1 ∧ M = month + 12) ∨ (2 < month ∧ Y = year ∧ M = month) := by
    rw [hY, hM]
    split_ifs <;> omega
  clear hY hM
  have hMr : 3 ≤ M ∧ M ≤ 14 := by omega
  have h30' : (M = 4 ∨ M = 6 ∨ M = 9 ∨ M = 11) → day ≤ 30 := by
    intro h4
    exact h30v (by omega)
  have hfeb' : M = 14 → day ≤ 28 ∨
      (day = 29 ∧ Y % 4 = 3 ∧ (Y % 100 / 4 ≠ 24 ∨ Y % 400 / 100 = 3)) := by
    intro h14
    rcases hfebv (by omega) with h28 | ⟨h29, h4, h100⟩
    · exact Or.inl h28
    · right
      refine ⟨h29, by omega, ?_⟩
      omega
  have hdec : Y = 400 * (Y / 400) + 100 * (Y % 400 / 100) + 4 * (Y % 100 / 4) + Y % 4 := by
    omega
  have hg : 0 ≤ Y % 400 / 100 ∧ Y % 400 / 100 ≤ 3 := by omega
  have hr1 : 0 ≤ Y % 100 / 4 ∧ Y % 100 / 4 ≤ 24 := by omega
  have hr0 : 0 ≤ Y % 4 ∧ Y % 4 ≤ 3 := by omega
  intro hz halpha hb hc hd he ht
  have hzlo : 2299161 ≤ z := by
    clear halpha hb hc hd he ht
    rw [hz]
    rcases hstart with hs | ⟨hs, hs2⟩
    · interval_cases month <;> omega
    · interval_cases month <;> omega
  have hzhi : z ≤ 2000000000 := by
    clear halpha hb hc hd he ht
    rw [hz]
    have : (306001 * (M + 1)) / 10000 ≤ 459 := by omega
    omega
  clear hfebv h30v hstart hyear
  obtain ⟨hc', he', hday⟩ := gregorian_core (Y / 400) (Y % 400 / 100) (Y % 100 / 4) (Y % 4) M
    day hg.1 hg.2 hr1.1 hr1.2 hr0.1 hr0.2 hMr.1 hMr.2 hd1 h31v h30' hfeb'
    Y z alpha b c d e t hdec hz halpha hb hc hd he ht
  clear hz halpha hb hc hd he ht hdec hfeb' h30' hg hr1 hr0
  have hmonth : (if e < 14 then e - 1 else e - 13) = month := by
    rw [he']
    split_ifs <;> omega
  have hyr : (if month > 2 then c - 4716 else c - 4715) = year := by
    rw [hc']
    split_ifs <;> omega
  rw [hmonth]
  exact ⟨hzlo, hzhi, by omega, by omega, hyr, rfl, hday⟩

/-- At hour 0 the rounded `Julday` of a Gregorian date whose March-based year is within
`0..10^12` is the exact Julian day. -/
theorem rounded_Julday_midnight (year month day : Int)
    (hy0 : 0 ≤ (if month ≤ 2 then year - 1 else year))
    (hy1 : (if month ≤ 2 then year - 1 else year) ≤ 10 ^ 12)
    (hm1 : 1 ≤ month) (hm2 : month ≤ 12) (hd1 : 1 ≤ day) (hd2 : day ≤ 31) :
    Rounded.Julday year month day (some 0) SeGregCal =
      some (Julday year month day 0 SeGregCal) := by
  rw [rounded_Julday_base year month day (some 0) hy0 hy1 hm1 hm2 hd1 hd2,
    Julday_gregorian year month day 0 hy0]
  obtain ⟨Y, hY⟩ : ∃ Y : Int, Y = if month ≤ 2 then year - 1 else year := ⟨_, rfl⟩
  obtain ⟨M, hM⟩ : ∃ M : Int, M = (if month ≤ 2 then month + 12 else month) + 1 := ⟨_, rfl⟩
  have hMr : 4 ≤ M ∧ M ≤ 15 := by
    rw [hM]
    split_ifs <;> omega
  have hY1 : Y ≤ 1000000000000 := by
    rw [hY]
    norm_num at hy1
    exact hy1
  rw [← hY] at hy0 ⊢
  rw [← hM]
  obtain ⟨S, hS⟩ : ∃ S : Int, S = 1461 * Y / 4 + 306001 * M / 10000 + day +
      (2 - Y / 100 + Y / 100 / 4) := ⟨_, rfl⟩
  rw [← hS]
  have hS1 : 0 ≤ S ∧ S < 2 ^ 50 := by
    have : 0 ≤ 306001 * M / 10000 ∧ 306001 * M / 10000 ≤ 459 := by omega
    constructor <;> omega
  have e0 : (0 : ℚ) / 24 = ((0 : Int) : ℚ) := by simp
  rw [fdiv_some _ _ (by norm_num), e0, fin64_intCast 0 (by omega) (by omega), fadd_some]
  have := Rounded.fin64_exact (2 * S + 3441989) 1 (by omega) (by omega) (by omega)
  have e : ((2 * S + 3441989 : Int) : ℚ) / (2 : ℚ) ^ 1 = (S : ℚ) + 1720994.5 + ((0 : Int) : ℚ) := by
    push_cast
    norm_num
    ring
  rw [e] at this
  rw [this]

/-! ## The claim on month lengths -/

/-- Counterexample to C32 as stated (every Gregorian year `≥ 1`): in year `10^15` the
Julian days of 1 January and 1 February, computed in `float64`, are equal, while
`DaysInMonth` gives 31; and in year `10^13` February comes out 28 days long while
`DaysInMonth` gives 29. -/
theorem C32_counterexample :
    Rounded.fsub (Rounded.Julday (10 ^ 15) 2 1 (some 0) SeGregCal)
        (Rounded.Julday (10 ^ 15) 1 1 (some 0) SeGregCal) = some 0 ∧
      DaysInMonth (10 ^ 15) 1 = 31 ∧
    Rounded.fsub (Rounded.Julday (10 ^ 13) 3 1 (some 0) SeGregCal)
        (Rounded.Julday (10 ^ 13) 2 1 (some 0) SeGregCal) = some 28 ∧
      DaysInMonth (10 ^ 13) 2 = 29 := by
  refine ⟨by decide!, by decide!, by decide!, by decide!⟩

/-- Claim C32 (amended with a bound on the year): `Julday` and `DaysInMonth` agree on
month lengths.  For every Gregorian year in `1 .. 10^12 - 1` and month `m` in `1..12`,
the Julian day of the first day of the following month (`(year, m+1)` for `m < 12`,
`(year+1, 1)` for `m = 12`) minus the Julian day of the first day of month `m`, both
computed in `float64` and subtracted in `float64`, is exactly `DaysInMonth(year, m)`;
and both Julian days are the exact ones. -/
theorem C32_month_lengths (year month : Int) (hy : 1 ≤ year) (hy2 : year < 10 ^ 12)
    (hm1 : 1 ≤ month) (hm2 : month ≤ 12) :
    Rounded.fsub
        (Rounded.Julday (if month < 12 then year else year + 1)
          (if month < 12 then month + 1 else 1) 1 (some 0) SeGregCal)
        (Rounded.Julday year month 1 (some 0) SeGregCal) =
      some ((DaysInMonth year month : Int) : ℚ) ∧
    Rounded.Julday year month 1 (some 0) SeGregCal = some (Julday year month 1 0 SeGregCal) ∧
    Rounded.Julday (if month < 12 then year else year + 1)
        (if month < 12 then month + 1 else 1) 1 (some 0) SeGregCal =
      some (Julday (if month < 12 then year else year + 1)
        (if month < 12 then month + 1 else 1) 1 0 SeGregCal) := by
  have hy2' : year < 1000000000000 := by
    norm_num at hy2
    exact hy2
  have h1 := rounded_Julday_midnight year month 1 (by split_ifs <;> omega)
    (by norm_num; split_ifs <;> omega) hm1 hm2 (by omega) (by omega)
  have h2 := rounded_Julday_midnight (if month < 12 then year else year + 1)
    (if month < 12 then month + 1 else 1) 1 (by split_ifs <;> omega)
    (by norm_num; split_ifs <;> omega) (by split_ifs <;> omega) (by split_ifs <;> omega)
    (by omega) (by omega)
  refine ⟨?_, h1, h2⟩
  rw [h1, h2, fsub_some, Julday_month_lengths year month hy hm1 hm2]
  have hD : 0 ≤ DaysInMonth year month ∧ DaysInMonth year month ≤ 31 := by
    rw [DaysInMonth_eq]
    split_ifs <;> omega
  exact fin64_intCast _ (by omega) (by omega)

/-- Witness for C32: February of the leap year 2024 has 29 days. -/
theorem C32_month_lengths_witness :
    ((1 : Int) ≤ 2024 ∧ (2024 : Int) < 10 ^ 12 ∧ (1 : Int) ≤ 2 ∧ (2 : Int) ≤ 12) ∧
    DaysInMonth 2024 2 = 29 ∧
    Rounded.fsub
        (Rounded.Julday (if (2 : Int) < 12 then 2024 else 2024 + 1)
          (if (2 : Int) < 12 then 2 + 1 else 1) 1 (some 0) SeGregCal)
        (Rounded.Julday 2024 2 1 (some 0) SeGregCal) =
      some ((DaysInMonth 2024 2 : Int) : ℚ) :=
  ⟨by decide, by decide,
    (C32_month_lengths 2024 2 (by decide) (by decide) (by decide) (by decide)).1⟩

/-! ## The claim on the calendar round trip -/

/-- Counterexample to C14 as stated: for 2024-01-01 at hour 1 the round trip, computed
in `float64`, returns the hour `1 - 2^-28` and not 1; and for 15 June of the year
`10^15` (a valid Gregorian date) it returns day 28 and not 15. -/
theorem C14_counterexample :
    Rounded.Revjul (Rounded.Julday 2024 1 1 (some 1) SeGregCal) SeGregCal =
        (2024, 1, 1, some (268435455 / 268435456)) ∧
      ((2024, 1, 1, some (268435455 / 268435456)) : Int × Int × Int × Rounded.F64) ≠
        (2024, 1, 1, some 1) ∧
    (Rounded.Revjul (Rounded.Julday (10 ^ 15) 6 15 (some 0) SeGregCal) SeGregCal).2.2.1 = 28 ∧
      15 ≤ DaysInMonth (10 ^ 15) 6 := by
  refine ⟨by decide!, by decide!, by decide!, by decide!⟩

/-- Claim C14 (amended): `Revjul` undoes `Julday` on the date, and on the hour up to
rounding.  For every valid Gregorian date on or after 1582-10-15 whose year is at most
5000000 and every hour `0 ≤ h ≤ 23.9999`, `Revjul(Julday(year, month, day, h))`, computed
in `float64`, returns `(year, month, day, v)` with `0 ≤ v < 24`, `|v - h| ≤ 3 * 10^-5`,
and `v = 0` when `h = 0`. -/
theorem C14_revjul_undoes_julday (year month day : Int) (h : ℚ)
    (hm1 : 1 ≤ month) (hm2 : month ≤ 12) (hd1 : 1 ≤ day) (hd2 : day ≤ DaysInMonth year month)
    (hstart : 1582 < year ∨ (year = 1582 ∧ (10 < month ∨ (month = 10 ∧ 15 ≤ day))))
    (hyear : year ≤ 5000000) (hh0 : 0 ≤ h) (hh1 : h ≤ 23.9999) :
    ∃ v : ℚ, Rounded.Revjul (Rounded.Julday year month day (some h) SeGregCal) SeGregCal =
        (year, month, day, some v) ∧
      0 ≤ v ∧ v < 24 ∧ |v - h| ≤ 3 / 10 ^ 5 ∧ (h = 0 → v = 0) := by
  have hd31 : day ≤ 31 := by
    rw [DaysInMonth_eq] at hd2
    split_ifs at hd2 <;> omega
  rw [rounded_Julday_base year month day (some h) (by split_ifs <;> omega)
    (by norm_num; split_ifs <;> omega) hm1 hm2 hd1 hd31]
  obtain ⟨z, hz⟩ : ∃ z : Int, z = (1461 * (if month ≤ 2 then year - 1 else year)) / 4 +
      (306001 * ((if month ≤ 2 then month + 12 else month) + 1)) / 10000 + day +
      (2 - (if month ≤ 2 then year - 1 else year) / 100 +
        (if month ≤ 2 then year - 1 else year) / 100 / 4) + 1720995 := ⟨_, rfl⟩
  obtain ⟨alpha, halpha⟩ : ∃ a : Int, a = (4 * z - 7468865) / 146097 := ⟨_, rfl⟩
  obtain ⟨b, hb⟩ : ∃ b : Int, b = z + 1 + alpha - alpha / 4 + 1524 := ⟨_, rfl⟩
  obtain ⟨c, hc⟩ : ∃ c : Int, c = (20 * b - 2442) / 7305 := ⟨_, rfl⟩
  obtain ⟨d, hd⟩ : ∃ d : Int, d = (1461 * c) / 4 := ⟨_, rfl⟩
  obtain ⟨e, he⟩ : ∃ e : Int, e = (10000 * (b - d)) / 306001 := ⟨_, rfl⟩
  obtain ⟨t, ht⟩ : ∃ t : Int, t = (306001 * e) / 10000 := ⟨_, rfl⟩
  obtain ⟨hzlo, hzhi, he4, he15, hyr, hmonth, hday⟩ := gregorian_day_number year month day
    hm1 hm2 hd1 hd2 hstart hyear z alpha b c d e t hz halpha hb hc hd he ht
  have hS : ((((1461 * (if month ≤ 2 then year - 1 else year)) / 4 +
      (306001 * ((if month ≤ 2 then month + 12 else month) + 1)) / 10000 + day +
      (2 - (if month ≤ 2 then year - 1 else year) / 100 +
        (if month ≤ 2 then year - 1 else year) / 100 / 4) : Int) : ℚ) + 1720994.5) =
      (z : ℚ) - 1 / 2 := by
    rw [hz]
    push_cast
    norm_num
    ring
  rw [hS]
  clear hS hz
  have hzq0 : (2299161 : ℚ) ≤ (z : ℚ) := by exact_mod_cast hzlo
  have hzq1 : (z : ℚ) ≤ 2000000000 := by exact_mod_cast hzhi
  -- the fraction of the day
  have hh1' : h ≤ 239999 / 10000 := by
    norm_num at hh1
    exact hh1
  obtain ⟨g, hg, hg1, hg2⟩ := Rounded.fin64_between 0 0 (2 ^ 18 - 1) 18 (by omega) (by omega)
    (by omega) (by omega) (by omega) (by omega) (h / 24)
    (by norm_num; positivity) (by norm_num; linarith)
  obtain ⟨g', hg', hgn⟩ := fin64_near (h / 24) 52 (by omega) (by positivity)
    (by norm_num; linarith)
  rw [hg] at hg'
  cases hg'
  norm_num at hg1 hg2
  -- the Julian day
  have elo : ((2 * z - 1 : Int) : ℚ) / (2 : ℚ) ^ 1 = (z : ℚ) - 1 / 2 := by
    push_cast
    ring
  have ehi : (((2 * z + 1) * 2 ^ 17 - 1 : Int) : ℚ) / (2 : ℚ) ^ 18 =
      (z : ℚ) + 1 / 2 - 1 / 2 ^ 18 := by
    push_cast
    ring
  obtain ⟨jd, hjd, hjd1, hjd2⟩ := Rounded.fin64_between (2 * z - 1) 1 ((2 * z + 1) * 2 ^ 17 - 1)
    18 (by omega) (by omega) (by omega) (by omega) (by omega) (by omega)
    ((z : ℚ) - 1 / 2 + g) (by rw [elo]; linarith) (by rw [ehi]; norm_num; linarith)
  obtain ⟨jd', hjd', hjdn⟩ := fin64_near ((z : ℚ) - 1 / 2 + g) 21 (by omega) (by linarith)
    (by norm_num; linarith)
  rw [hjd] at hjd'
  cases hjd'
  rw [elo] at hjd1
  rw [ehi] at hjd2
  rw [fdiv_some _ _ (by norm_num), hg, fadd_some, hjd]
  obtain ⟨v, hv, hv0, hv24, hvn, hvz⟩ := rounded_Revjul_gregorian z alpha b c d e t jd hjd1 hjd2
    hzlo hzhi halpha hb hc hd he ht he4 he15
  rw [hyr, hmonth, hday] at hv
  refine ⟨v, hv, hv0, hv24, ?_, ?_⟩
  · rw [abs_le] at hgn hjdn hvn ⊢
    norm_num at hgn hjdn hvn ⊢
    constructor <;> linarith
  · intro h0
    apply hvz
    have e1 : h / 24 = ((0 : Int) : ℚ) := by
      rw [h0]
      simp
    rw [e1, fin64_intCast 0 (by omega) (by omega)] at hg
    cases hg
    have e2 : (z : ℚ) - 1 / 2 + ((0 : Int) : ℚ) = ((2 * z - 1 : Int) : ℚ) / (2 : ℚ) ^ 1 := by
      push_cast
      ring
    rw [e2, Rounded.fin64_exact (2 * z - 1) 1 (by omega) (by omega) (by omega)] at hjd
    cases hjd
    push_cast
    ring

/-- Witness for C14: 2024-01-01 at hour 1. -/
theorem C14_revjul_undoes_julday_witness :
    ((1 : Int) ≤ 1 ∧ (1 : Int) ≤ 12 ∧ (1 : Int) ≤ DaysInMonth 2024 1 ∧ (2024 : Int) ≤ 5000000 ∧
      (0 : ℚ) ≤ 1 ∧ (1 : ℚ) ≤ 23.9999) ∧
    ∃ v : ℚ, Rounded.Revjul (Rounded.Julday 2024 1 1 (some 1) SeGregCal) SeGregCal =
        (2024, 1, 1, some v) ∧
      0 ≤ v ∧ v < 24 ∧ |v - 1| ≤ 3 / 10 ^ 5 ∧ ((1 : ℚ) = 0 → v = 0) :=
  ⟨⟨by decide, by decide, by decide, by decide, by norm_num, by norm_num⟩,
    C14_revjul_undoes_julday 2024 1 1 1 (by decide) (by decide) (by decide) (by decide)
      (Or.inl (by decide)) (by decide) (by norm_num) (by norm_num)⟩

/-! ## The claim on `normalizeAngle`, in rounded arithmetic -/

/-- Claim C30 does not hold of the code in `float64`, and the code is at odds with its
own comment (`normalizeAngle` normalises "to `[0, 2π)`"): for the angle `-2^-67` the
remainder `math.Mod(angle, TwoPi)` is the angle itself, which is negative, and
`result += TwoPi` rounds to `TwoPi`.  The value returned is `TwoPi`, which is not
below `TwoPi`; a second application returns 0, so `normalizeAngle` is not idempotent
either.  The examples of the claim (`-π`, `2π`, `-2π`) come out as stated. -/
theorem C30_normalize_angle_rounding :
    Rounded.TwoPi = some (884279719003555 / 2 ^ 47) ∧
    Rounded.normalizeAngle (some (-(1 / 2 ^ 67))) = Rounded.TwoPi ∧
    Rounded.normalizeAngle (Rounded.normalizeAngle (some (-(1 / 2 ^ 67)))) = some 0 ∧
    Rounded.normalizeAngle (Rounded.normalizeAngle (some (-(1 / 2 ^ 67)))) ≠
      Rounded.normalizeAngle (some (-(1 / 2 ^ 67))) ∧
    (Rounded.normalizeAngle (Rounded.fin64 (-Rounded.mathPi)) = Rounded.fin64 Rounded.mathPi ∧
      Rounded.normalizeAngle Rounded.TwoPi = some 0 ∧
      Rounded.normalizeAngle (Rounded.fin64 (-(2 * Rounded.mathPi))) = some 0) :=
  ⟨by decide!, by decide!, by decide!, by decide!, by decide!, by decide!, by decide!⟩

end Ephgo
